import Mathlib

/-!
Verification development for mp4snoop.py, a Python 2 ISOBMFF (MP4) box
scanner built around the class ISOBMFF.  The program is shallowly embedded:

* The opened file is a `List Nat` of byte values together with a cursor
  position; `filesize` in the source is recorded at `open` time as the file
  length, so it is modelled as `St.data.length`.
* Python's `file.read(n)` returns the at-most-`n` bytes available (it never
  raises at end of file); `struct.unpack` raises `struct.error` when handed
  a short buffer.  This distinction is modelled faithfully: `fileRead`
  returns what is available and `readExact` (the common body of the
  `scan_uintN` / `scan_intN` / `scan_fourcc` helpers, which all do
  `struct.unpack(fmt, self.file.read(n))`) raises `structError` on a short
  read.  `EOFError` exists in the error type because the scanning loops
  catch it (`except EOFError: break`), exactly as in the source.
* `file.seek(n, SEEK_CUR)` may move past end of file (later reads then
  return nothing); seeking to a negative absolute position raises IOError.
* The module-global indentation counter mutated by `ipush`/`ipop` is a
  field of the state.  `iprint` only formats output and has no effect on
  the scanning state, so calls to it are dropped; every decoded value that
  the source prints is returned in an `Info` structure instead.
* Loops of the form `while self.file.tell() < chunkend` cannot be proved
  terminating for arbitrary (corrupt) input — a box whose net size is zero
  makes the Python program loop forever — so every scanning loop takes a
  fuel parameter and returns the distinguished error `fuelOut` when it is
  exhausted.  Theorems quantify over or instantiate sufficient fuel.
-/

/-- Error conditions of the Python runtime that the program can hit:
`structError` (struct.unpack on a short buffer), `eofError` (caught by the
scan loops but never actually raised by file reads), `ioError` (bad seek),
`indexError` (`''[0]` in `scan_string` at end of file) and `fuelOut`
(artificial: scanning loop fuel exhausted). -/
inductive PyErr where
  | structError
  | eofError
  | ioError
  | indexError
  | fuelOut
deriving DecidableEq, Repr

instance : DecidableEq PUnit := fun a b => .isTrue (by cases a; cases b; rfl)

instance {ε α : Type} [DecidableEq ε] [DecidableEq α] : DecidableEq (Except ε α) :=
  fun a b =>
    match a, b with
    | .error e, .error f =>
      if h : e = f then .isTrue (by rw [h]) else .isFalse (by simp [h])
    | .error _, .ok _ => .isFalse (by simp)
    | .ok _, .error _ => .isFalse (by simp)
    | .ok x, .ok y =>
      if h : x = y then .isTrue (by rw [h]) else .isFalse (by simp [h])

/-- The scanning state: the opened file's bytes, the cursor, and the
module-global indentation counter (an unbounded Python int). -/
structure St where
  data : List Nat
  pos : Nat
  indent : Int
deriving DecidableEq, Repr

/-- A fresh state as produced by `open` followed by the initial seek. -/
def initSt (data : List Nat) : St := { data := data, pos := 0, indent := 0 }

/-- The indented-print helper `ipush`: increments the global counter. -/
def ipush (s : St) : St := { s with indent := s.indent + 1 }

/-- The indented-print helper `ipop`: decrements the global counter, but
only when it is positive (`if indent > 0: indent -= 1`). -/
def ipop (s : St) : St :=
  if 0 < s.indent then { s with indent := s.indent - 1 } else s

/-- Python's `self.file.read(n)`: returns the at-most-`n` bytes available
at the cursor and advances the cursor by the number of bytes returned. -/
def fileRead (n : Nat) (s : St) : List Nat × St :=
  let bytes := (s.data.drop s.pos).take n
  (bytes, { s with pos := s.pos + bytes.length })

/-- `struct.unpack(fmt, self.file.read(n))` for a fixed-width format:
succeeds with exactly `n` bytes, otherwise raises `struct.error`. -/
def readExact (n : Nat) (s : St) : Except PyErr (List Nat × St) :=
  let r := fileRead n s
  if r.1.length = n then .ok (r.1, r.2) else .error .structError

/-- `self.file.seek(n, os.SEEK_CUR)`: relative seek.  May land past the
end of the file; a negative resulting position raises IOError. -/
def seekCur (n : Int) (s : St) : Except PyErr (Unit × St) :=
  if 0 ≤ (s.pos : Int) + n then
    .ok ((), { s with pos := ((s.pos : Int) + n).toNat })
  else .error .ioError

/-- Big-endian value of a byte string (how `struct.unpack('>I')` etc.
interpret their input). -/
def beNat (bs : List Nat) : Nat := bs.foldl (fun a b => a * 256 + b) 0

/-- Two's-complement reinterpretation used for the signed formats:
`toSigned m v` is `v` if `v < m/2` and `v - m` otherwise. -/
def toSigned (m : Nat) (v : Nat) : Int :=
  if v < m / 2 then (v : Int) else (v : Int) - (m : Int)

/-- Sequencing of a read that may raise with its continuation: Python's
straight-line statement sequencing with exception propagation. -/
def bnd {α β : Type} (e : Except PyErr (α × St)) (k : α → St → Except PyErr β) :
    Except PyErr β :=
  match e with
  | .error err => .error err
  | .ok (v, s) => k v s

namespace ISOBMFF

/-- `scan_uint16`: read 2 bytes as big-endian unsigned. -/
def scan_uint16 (s : St) : Except PyErr (Nat × St) :=
  bnd (readExact 2 s) fun b s => .ok (beNat b, s)

/-- `scan_int16`: read 2 bytes as big-endian signed. -/
def scan_int16 (s : St) : Except PyErr (Int × St) :=
  bnd (readExact 2 s) fun b s => .ok (toSigned 65536 (beNat b), s)

/-- `scan_uint16_3`: read 3 big-endian uint16 values. -/
def scan_uint16_3 (s : St) : Except PyErr ((Nat × Nat × Nat) × St) :=
  bnd (readExact 6 s) fun b s =>
    .ok ((beNat (b.take 2), beNat ((b.drop 2).take 2), beNat (b.drop 4)), s)

/-- `scan_uint32`: read 4 bytes as big-endian unsigned. -/
def scan_uint32 (s : St) : Except PyErr (Nat × St) :=
  bnd (readExact 4 s) fun b s => .ok (beNat b, s)

/-- `scan_int32`: read 4 bytes as big-endian signed. -/
def scan_int32 (s : St) : Except PyErr (Int × St) :=
  bnd (readExact 4 s) fun b s => .ok (toSigned 4294967296 (beNat b), s)

/-- `scan_uint64`: read 8 bytes as big-endian unsigned. -/
def scan_uint64 (s : St) : Except PyErr (Nat × St) :=
  bnd (readExact 8 s) fun b s => .ok (beNat b, s)

/-- `scan_int64`: read 8 bytes as big-endian signed. -/
def scan_int64 (s : St) : Except PyErr (Int × St) :=
  bnd (readExact 8 s) fun b s => .ok (toSigned 18446744073709551616 (beNat b), s)

/-- `scan_fourcc`: read 4 raw bytes (`struct.unpack('4s', ...)`, which
also requires exactly 4 bytes). -/
def scan_fourcc (s : St) : Except PyErr (List Nat × St) :=
  readExact 4 s

/-- Split a byte string into consecutive big-endian signed 32-bit values
(the `struct.unpack('>9l', ...)` matrix reads). -/
def int32List : List Nat → List Int
  | a :: b :: c :: d :: rest => toSigned 4294967296 (beNat [a, b, c, d]) :: int32List rest
  | _ => []

/-- The matrix read `struct.unpack('>9l', self.file.read(9*4))` used by
`scan_mvhd` and `scan_tkhd`. -/
def scan_matrix9 (s : St) : Except PyErr (List Int × St) :=
  bnd (readExact 36 s) fun b s => .ok (int32List b, s)

/-- The byte-at-a-time loop of `scan_string`, indexed by fuel so that it
is structurally recursive (the wrapper passes enough fuel for the loop
never to run out). -/
def scan_stringAux : Nat → St → Except PyErr (List Nat × St)
  | 0, _ => .error .fuelOut
  | f + 1, s =>
    if s.pos < s.data.length then
      if s.data.getD s.pos 0 = 0 then .ok ([], { s with pos := s.pos + 1 })
      else
        match scan_stringAux f { s with pos := s.pos + 1 } with
        | .error e => .error e
        | .ok (str, s2) => .ok (s.data.getD s.pos 0 :: str, s2)
    else .error .indexError

/-- `scan_string`: read bytes until a 0x00 byte; `''[0]` at end of file
raises IndexError in Python 2.  At most `filesize - pos` bytes can be
consumed before the end-of-file branch, so the fuel below is always
sufficient and the `fuelOut` branch is unreachable. -/
def scan_string (s : St) : Except PyErr (List Nat × St) :=
  scan_stringAux (s.data.length - s.pos + 1) s

/-- `scan_box`: resolve one box header.  Returns
`(boxsize, boxtype, remaining)` where `boxsize` is the total box size and
`remaining` ("skip") is how many payload bytes follow the header.  The
three size encodings: `size32 == 1` selects a 64-bit extended size,
`size32 == 0` means the box extends to the end of the file, and any other
value is the total size itself. -/
def scan_box (s : St) : Except PyErr ((Int × List Nat × Int) × St) :=
  bnd (scan_uint32 s) fun boxsize0 s =>
  bnd (scan_fourcc s) fun boxtype s =>
  if boxsize0 = 1 then
    bnd (scan_uint64 s) fun bs s =>
      .ok (((bs : Int), boxtype, (bs : Int) - 16), s)
  else if boxsize0 = 0 then
    let boxsize : Int := ((s.data.length : Int) - (s.pos : Int)) + 8
    .ok ((boxsize, boxtype, boxsize - 8), s)
  else
    .ok (((boxsize0 : Int), boxtype, (boxsize0 : Int) - 8), s)

/-- `scan_fullbox`: read the 4-byte version/flags prefix of a FullBox and
return `(version, flags, remaining - 4)`. -/
def scan_fullbox (remaining : Int) (s : St) :
    Except PyErr ((Nat × Nat × Int) × St) :=
  bnd (scan_uint32 s) fun verflags s =>
    .ok ((verflags / 16777216 % 256, verflags % 16777216, remaining - 4), s)

/-- Decoded fields of an `ftyp` box, as printed by `scan_ftyp`; `leftover`
is the final value of the decoder's `remaining` counter. -/
structure FtypInfo where
  majorBrand : List Nat
  minorVersion : Nat
  brands : List (List Nat)
  leftover : Int
deriving DecidableEq, Repr

/-- The compatible-brands loop of `scan_ftyp`, indexed by fuel so that it
is structurally recursive (the wrapper passes enough fuel for the loop
never to run out). -/
def ftypBrandsAux : Nat → Int → St → Except PyErr ((List (List Nat) × Int) × St)
  | 0, _, _ => .error .fuelOut
  | f + 1, remaining, s =>
    if 0 < remaining then
      bnd (scan_fourcc s) fun brand s =>
        match ftypBrandsAux f (remaining - 4) s with
        | .error e => .error e
        | .ok ((brands, rem), s') => .ok ((brand :: brands, rem), s')
    else .ok (([], remaining), s)

/-- The compatible-brands loop of `scan_ftyp`: `while remaining > 0`, read
one 4-byte brand and subtract 4.  The counter shrinks by 4 per iteration,
so the fuel below is always sufficient and the `fuelOut` branch is
unreachable. -/
def ftypBrands (remaining : Int) (s : St) :
    Except PyErr ((List (List Nat) × Int) × St) :=
  ftypBrandsAux (remaining.toNat + 1) remaining s

/-- `scan_ftyp`: major brand, minor version, then compatible brands until
`remaining` is exhausted. -/
def scan_ftyp (remaining : Int) (s : St) : Except PyErr (FtypInfo × St) :=
  bnd (scan_fourcc s) fun majorBrand s =>
  bnd (scan_uint32 s) fun minorVersion s =>
  let remaining := remaining - 8
  let s := ipush s
  bnd (ftypBrands remaining s) fun br s =>
    .ok ({ majorBrand := majorBrand, minorVersion := minorVersion,
           brands := br.1, leftover := br.2 }, ipop s)

/-- Decoded fields of an `mvhd` box. -/
structure MvhdInfo where
  version : Nat
  flags : Nat
  creation : Nat
  modification : Nat
  timescale : Nat
  duration : Nat
  rate : Nat
  volume : Nat
  matrix : List Int
  nextTrackID : Nat
deriving DecidableEq, Repr

/-- The version-dependent time reads of `scan_mvhd` (and, with identical
layout, `scan_mdhd`): version 1 widens creation, modification and duration
to 64 bits; the timescale stays 32-bit in both versions. -/
def mvhdTimes (version : Nat) (s : St) :
    Except PyErr ((Nat × Nat × Nat × Nat) × St) :=
  if version = 1 then
    bnd (scan_uint64 s) fun c s =>
    bnd (scan_uint64 s) fun m s =>
    bnd (scan_uint32 s) fun t s =>
    bnd (scan_uint64 s) fun d s => .ok ((c, m, t, d), s)
  else
    bnd (scan_uint32 s) fun c s =>
    bnd (scan_uint32 s) fun m s =>
    bnd (scan_uint32 s) fun t s =>
    bnd (scan_uint32 s) fun d s => .ok ((c, m, t, d), s)

/-- `scan_mvhd`: MovieHeaderBox.  FullBox prefix, version-dependent times,
rate, volume, a 10-byte reserved gap, the 9-entry matrix, a 24-byte
pre_defined gap, and nextTrackID. -/
def scan_mvhd (remaining : Int) (s : St) : Except PyErr (MvhdInfo × St) :=
  let s := ipush s
  bnd (scan_fullbox remaining s) fun vf s =>
  bnd (mvhdTimes vf.1 s) fun cmtd s =>
  bnd (scan_uint32 s) fun rate s =>
  bnd (scan_uint16 s) fun volume s =>
  bnd (seekCur 10 s) fun _ s =>
  bnd (scan_matrix9 s) fun matrix s =>
  bnd (seekCur 24 s) fun _ s =>
  bnd (scan_uint32 s) fun nextTrackID s =>
    .ok ({ version := vf.1, flags := vf.2.1, creation := cmtd.1,
           modification := cmtd.2.1, timescale := cmtd.2.2.1,
           duration := cmtd.2.2.2, rate := rate, volume := volume,
           matrix := matrix, nextTrackID := nextTrackID }, ipop s)

/-- Decoded fields of a `tkhd` box. -/
structure TkhdInfo where
  version : Nat
  flags : Nat
  creation : Nat
  modification : Nat
  trackID : Nat
  duration : Nat
  layer : Int
  alternateGroup : Nat
  volume : Int
  matrix : List Int
  width : Int
  height : Int
deriving DecidableEq, Repr

/-- The version-dependent reads of `scan_tkhd`: version 1 widens creation,
modification and duration to 64 bits; trackID and the reserved word stay
32-bit. -/
def tkhdTimes (version : Nat) (s : St) :
    Except PyErr ((Nat × Nat × Nat × Nat × Nat) × St) :=
  if version = 1 then
    bnd (scan_uint64 s) fun c s =>
    bnd (scan_uint64 s) fun m s =>
    bnd (scan_uint32 s) fun tid s =>
    bnd (scan_uint32 s) fun res s =>
    bnd (scan_uint64 s) fun d s => .ok ((c, m, tid, res, d), s)
  else
    bnd (scan_uint32 s) fun c s =>
    bnd (scan_uint32 s) fun m s =>
    bnd (scan_uint32 s) fun tid s =>
    bnd (scan_uint32 s) fun res s =>
    bnd (scan_uint32 s) fun d s => .ok ((c, m, tid, res, d), s)

/-- `scan_tkhd`: TrackHeaderBox.  FullBox prefix, version-dependent
times/trackID, an 8-byte reserved gap, layer, alternateGroup, volume, a
reserved int16, the matrix, and fixed-point width/height (reported raw). -/
def scan_tkhd (remaining : Int) (s : St) : Except PyErr (TkhdInfo × St) :=
  let s := ipush s
  bnd (scan_fullbox remaining s) fun vf s =>
  bnd (tkhdTimes vf.1 s) fun f s =>
  bnd (seekCur 8 s) fun _ s =>
  bnd (scan_int16 s) fun layer s =>
  bnd (scan_uint16 s) fun alternateGroup s =>
  bnd (scan_int16 s) fun volume s =>
  bnd (scan_int16 s) fun _reserved s =>
  bnd (scan_matrix9 s) fun matrix s =>
  bnd (scan_int32 s) fun width s =>
  bnd (scan_int32 s) fun height s =>
    .ok ({ version := vf.1, flags := vf.2.1, creation := f.1,
           modification := f.2.1, trackID := f.2.2.1,
           duration := f.2.2.2.2, layer := layer,
           alternateGroup := alternateGroup, volume := volume,
           matrix := matrix, width := width, height := height }, ipop s)

/-- Decoded fields of an `mdhd` box (`language` is the raw packed 16-bit
value whose three 5-bit fields the source formats for display). -/
structure MdhdInfo where
  version : Nat
  flags : Nat
  creation : Nat
  modification : Nat
  timescale : Nat
  duration : Nat
  language : Nat
deriving DecidableEq, Repr

/-- `scan_mdhd`: MediaHeaderBox.  FullBox prefix, the same
version-dependent time layout as `mvhd`, the packed language code and the
pre_defined u16. -/
def scan_mdhd (remaining : Int) (s : St) : Except PyErr (MdhdInfo × St) :=
  let s := ipush s
  bnd (scan_fullbox remaining s) fun vf s =>
  bnd (mvhdTimes vf.1 s) fun cmtd s =>
  bnd (scan_uint16 s) fun language s =>
  bnd (scan_uint16 s) fun _pre s =>
    .ok ({ version := vf.1, flags := vf.2.1, creation := cmtd.1,
           modification := cmtd.2.1, timescale := cmtd.2.2.1,
           duration := cmtd.2.2.2, language := language }, ipop s)

/-- Decoded fields of an `hdlr` box; `name` holds every byte from the
cursor up to the box's declared end. -/
structure HdlrInfo where
  version : Nat
  flags : Nat
  pre_defined : Nat
  handlerType : List Nat
  name : List Nat
deriving DecidableEq, Repr

/-- Python `read(n)` with a possibly negative count: a negative count
reads all remaining bytes of the file. -/
def fileReadInt (n : Int) (s : St) : List Nat × St :=
  if n < 0 then fileRead s.data.length s else fileRead n.toNat s

/-- `scan_hdlr`: HandlerReferenceBox.  Records the box end up front, reads
the FullBox prefix, pre_defined, handler type and a 12-byte reserved gap,
then takes the name as all bytes up to the recorded end (`read(endpos -
curpos)`) — deliberately not null-terminated. -/
def scan_hdlr (remaining : Int) (s : St) : Except PyErr (HdlrInfo × St) :=
  let s := ipush s
  let endpos : Int := (s.pos : Int) + remaining
  bnd (scan_fullbox remaining s) fun vf s =>
  bnd (scan_uint32 s) fun pre s =>
  bnd (scan_fourcc s) fun handlerType s =>
  bnd (seekCur 12 s) fun _ s =>
  (fun r : List Nat × St =>
    .ok ({ version := vf.1, flags := vf.2.1, pre_defined := pre,
           handlerType := handlerType, name := r.1 }, ipop r.2))
  (fileReadInt (endpos - (s.pos : Int)) s)

/-- Decoded fields of a `vmhd` box. -/
structure VmhdInfo where
  version : Nat
  flags : Nat
  graphicsMode : Nat
  opcolor : Nat × Nat × Nat
deriving DecidableEq, Repr

/-- `scan_vmhd`: VideoMediaHeaderBox — graphicsMode and the RGB opcolor. -/
def scan_vmhd (remaining : Int) (s : St) : Except PyErr (VmhdInfo × St) :=
  let s := ipush s
  bnd (scan_fullbox remaining s) fun vf s =>
  bnd (scan_uint16 s) fun graphicsMode s =>
  bnd (scan_uint16_3 s) fun opcolor s =>
    .ok ({ version := vf.1, flags := vf.2.1, graphicsMode := graphicsMode,
           opcolor := opcolor }, ipop s)

/-- Decoded fields of an `smhd` box.  `displayRatio` is the ratio the
source computes for display: `balance/16.0` (the line is commented
`# FP 8.8`, i.e. it is intended as 8.8 fixed point). -/
structure SmhdInfo where
  version : Nat
  flags : Nat
  balance : Int
  displayRatio : Rat
deriving DecidableEq, Repr

/-- `scan_smhd`: SoundMediaHeaderBox — the signed 16-bit balance and the
display ratio `balance/16.0` computed by the print statement. -/
def scan_smhd (remaining : Int) (s : St) : Except PyErr (SmhdInfo × St) :=
  let s := ipush s
  bnd (scan_fullbox remaining s) fun vf s =>
  bnd (scan_int16 s) fun balance s =>
  bnd (scan_uint16 s) fun _reserved s =>
    .ok ({ version := vf.1, flags := vf.2.1, balance := balance,
           displayRatio := mkRat balance 16 }, ipop s)

/-- Decoded fields of an `hmhd` box. -/
structure HmhdInfo where
  version : Nat
  flags : Nat
  maxPDUSize : Nat
  avgPDUSize : Nat
  maxbitrate : Nat
  avgbitrate : Nat
deriving DecidableEq, Repr

/-- `scan_hmhd`: HintMediaHeaderBox. -/
def scan_hmhd (remaining : Int) (s : St) : Except PyErr (HmhdInfo × St) :=
  let s := ipush s
  bnd (scan_fullbox remaining s) fun vf s =>
  bnd (scan_uint16 s) fun maxPDUSize s =>
  bnd (scan_uint16 s) fun avgPDUSize s =>
  bnd (scan_uint32 s) fun maxbitrate s =>
  bnd (scan_uint32 s) fun avgbitrate s =>
  bnd (scan_uint32 s) fun _reserved s =>
    .ok ({ version := vf.1, flags := vf.2.1, maxPDUSize := maxPDUSize,
           avgPDUSize := avgPDUSize, maxbitrate := maxbitrate,
           avgbitrate := avgbitrate }, ipop s)

/-- Decoded fields of an `nmhd` box (no body beyond the prefix). -/
structure NmhdInfo where
  version : Nat
  flags : Nat
deriving DecidableEq, Repr

/-- `scan_nmhd`: NullMediaHeaderBox — only the FullBox prefix. -/
def scan_nmhd (remaining : Int) (s : St) : Except PyErr (NmhdInfo × St) :=
  let s := ipush s
  bnd (scan_fullbox remaining s) fun vf s =>
    .ok ({ version := vf.1, flags := vf.2.1 }, ipop s)

/-- One decoded `elst` entry. -/
structure ElstEntry where
  segmentDuration : Nat
  mediaTime : Int
  mediaRateInt : Int
  mediaRateFraction : Int
deriving DecidableEq, Repr

/-- The entry loop of `scan_elst`: `for i in range(entryCount)`, each
entry bracketed by its own `ipush`/`ipop`, with version-dependent widths
for segmentDuration/mediaTime. -/
def elstEntries : Nat → Nat → St → Except PyErr (List ElstEntry × St)
  | 0, _, s => .ok ([], s)
  | n + 1, version, s =>
    let s := ipush s
    bnd (if version = 1 then
           bnd (scan_uint64 s) fun sd s =>
           bnd (scan_int64 s) fun mt s => .ok ((sd, mt), s)
         else
           bnd (scan_uint32 s) fun sd s =>
           bnd (scan_int32 s) fun mt s => .ok ((sd, mt), s)) fun sdmt s =>
    bnd (scan_int16 s) fun mri s =>
    bnd (scan_int16 s) fun mrf s =>
    match elstEntries n version (ipop s) with
    | .error e => .error e
    | .ok (entries, s') =>
      .ok (({ segmentDuration := sdmt.1, mediaTime := sdmt.2,
              mediaRateInt := mri, mediaRateFraction := mrf } : ElstEntry)
            :: entries, s')

/-- Decoded fields of an `elst` box. -/
structure ElstInfo where
  version : Nat
  flags : Nat
  entryCount : Nat
  entries : List ElstEntry
deriving DecidableEq, Repr

/-- `scan_elst`: EditListBox — entry count then that many entries. -/
def scan_elst (remaining : Int) (s : St) : Except PyErr (ElstInfo × St) :=
  let s := ipush s
  bnd (scan_fullbox remaining s) fun vf s =>
  bnd (scan_uint32 s) fun entryCount s =>
  bnd (elstEntries entryCount vf.1 s) fun entries s =>
    .ok ({ version := vf.1, flags := vf.2.1, entryCount := entryCount,
           entries := entries }, ipop s)

/-- Decoded fields of a `url ` box; `location` is `none` when flag bit 0
says the location string is absent. -/
structure UrlInfo where
  version : Nat
  flags : Nat
  location : Option (List Nat)
deriving DecidableEq, Repr

/-- `scan_url_`: DataEntryURLBox — location string only when flag bit 0 is
clear. -/
def scan_url_ (remaining : Int) (s : St) : Except PyErr (UrlInfo × St) :=
  let s := ipush s
  bnd (scan_fullbox remaining s) fun vf s =>
  if vf.2.1 % 2 = 1 then
    .ok ({ version := vf.1, flags := vf.2.1, location := none }, ipop s)
  else
    bnd (scan_string s) fun location s =>
      .ok ({ version := vf.1, flags := vf.2.1, location := some location }, ipop s)

/-- Decoded fields of a `urn ` box. -/
structure UrnInfo where
  version : Nat
  flags : Nat
  name : List Nat
  location : List Nat
deriving DecidableEq, Repr

/-- `scan_urn_`: DataEntryURNBox — null-terminated name then location. -/
def scan_urn_ (remaining : Int) (s : St) : Except PyErr (UrnInfo × St) :=
  let s := ipush s
  bnd (scan_fullbox remaining s) fun vf s =>
  bnd (scan_string s) fun name s =>
  bnd (scan_string s) fun location s =>
    .ok ({ version := vf.1, flags := vf.2.1, name := name,
           location := location }, ipop s)

/-- Four-character tag `ftyp`. -/
def ftypTag : List Nat := [102, 116, 121, 112]
/-- Four-character tag `moov`. -/
def moovTag : List Nat := [109, 111, 111, 118]
/-- Four-character tag `mvhd`. -/
def mvhdTag : List Nat := [109, 118, 104, 100]
/-- Four-character tag `trak`. -/
def trakTag : List Nat := [116, 114, 97, 107]
/-- Four-character tag `udta`. -/
def udtaTag : List Nat := [117, 100, 116, 97]
/-- Four-character tag `tkhd`. -/
def tkhdTag : List Nat := [116, 107, 104, 100]
/-- Four-character tag `mdia`. -/
def mdiaTag : List Nat := [109, 100, 105, 97]
/-- Four-character tag `edts`. -/
def edtsTag : List Nat := [101, 100, 116, 115]
/-- Four-character tag `mdhd`. -/
def mdhdTag : List Nat := [109, 100, 104, 100]
/-- Four-character tag `hdlr`. -/
def hdlrTag : List Nat := [104, 100, 108, 114]
/-- Four-character tag `minf`. -/
def minfTag : List Nat := [109, 105, 110, 102]
/-- Four-character tag `dinf`. -/
def dinfTag : List Nat := [100, 105, 110, 102]
/-- Four-character tag `stbl`. -/
def stblTag : List Nat := [115, 116, 98, 108]
/-- Four-character tag `vmhd`. -/
def vmhdTag : List Nat := [118, 109, 104, 100]
/-- Four-character tag `smhd`. -/
def smhdTag : List Nat := [115, 109, 104, 100]
/-- Four-character tag `hmhd`. -/
def hmhdTag : List Nat := [104, 109, 104, 100]
/-- Four-character tag `nmhd`. -/
def nmhdTag : List Nat := [110, 109, 104, 100]
/-- Four-character tag `dref`. -/
def drefTag : List Nat := [100, 114, 101, 102]
/-- Four-character tag `url ` (trailing space). -/
def urlTag : List Nat := [117, 114, 108, 32]
/-- Four-character tag `urn ` (trailing space). -/
def urnTag : List Nat := [117, 114, 110, 32]
/-- Four-character tag `elst`. -/
def elstTag : List Nat := [101, 108, 115, 116]

/-- Sequencing for container-walk results that carry no value. -/
def bndU {β : Type} (e : Except PyErr St) (k : St → Except PyErr β) :
    Except PyErr β :=
  match e with
  | .error err => .error err
  | .ok s => k s

/-- The child loop of `scan_udta` (User Data): every child is skipped by
its byte count.  `except EOFError: break` is mirrored by turning an
`eofError` from `scan_box` into normal loop exit. -/
def udtaLoop : Nat → Int → St → Except PyErr St
  | 0, _, _ => .error .fuelOut
  | fuel + 1, chunkend, s =>
    if (s.pos : Int) < chunkend then
      match scan_box s with
      | .error .eofError => .ok s
      | .error e => .error e
      | .ok (r, s1) =>
        bnd (seekCur r.2.2 s1) fun _ s2 => udtaLoop fuel chunkend s2
    else .ok s

/-- `scan_udta`: UserDataBox is walked with every child skipped. -/
def scan_udta (fuel : Nat) (remaining : Int) (s : St) : Except PyErr St :=
  let s := ipush s
  let chunkend : Int := (s.pos : Int) + remaining
  bndU (udtaLoop fuel chunkend s) fun s => .ok (ipop s)

/-- The child loop of `scan_stbl` (Sample Table): children are visited and
logged but not decoded. -/
def stblLoop : Nat → Int → St → Except PyErr St
  | 0, _, _ => .error .fuelOut
  | fuel + 1, chunkend, s =>
    if (s.pos : Int) < chunkend then
      match scan_box s with
      | .error .eofError => .ok s
      | .error e => .error e
      | .ok (r, s1) =>
        bnd (seekCur r.2.2 s1) fun _ s2 => stblLoop fuel chunkend s2
    else .ok s

/-- `scan_stbl`: SampleTableBox — skip every child. -/
def scan_stbl (fuel : Nat) (remaining : Int) (s : St) : Except PyErr St :=
  let s := ipush s
  let chunkend : Int := (s.pos : Int) + remaining
  bndU (stblLoop fuel chunkend s) fun s => .ok (ipop s)

/-- The child loop of `scan_dref`: dispatches `url ` and `urn ` entries,
skips anything else. -/
def drefLoop : Nat → Int → St → Except PyErr St
  | 0, _, _ => .error .fuelOut
  | fuel + 1, chunkend, s =>
    if (s.pos : Int) < chunkend then
      match scan_box s with
      | .error .eofError => .ok s
      | .error e => .error e
      | .ok (r, s1) =>
        if r.2.1 = urlTag then
          bnd (scan_url_ r.2.2 s1) fun _ s2 => drefLoop fuel chunkend s2
        else if r.2.1 = urnTag then
          bnd (scan_urn_ r.2.2 s1) fun _ s2 => drefLoop fuel chunkend s2
        else
          bnd (seekCur r.2.2 s1) fun _ s2 => drefLoop fuel chunkend s2
    else .ok s

/-- `scan_dref`: DataReferenceBox — the chunk end is recorded before the
FullBox prefix, then entryCount is read and the children walked. -/
def scan_dref (fuel : Nat) (remaining : Int) (s : St) : Except PyErr St :=
  let s := ipush s
  let chunkend : Int := (s.pos : Int) + remaining
  bnd (scan_fullbox remaining s) fun _vf s =>
  bnd (scan_uint32 s) fun _entryCount s =>
  bndU (drefLoop fuel chunkend s) fun s => .ok (ipop s)

/-- The child loop of `scan_dinf`: dispatches `dref`, skips the rest. -/
def dinfLoop : Nat → Int → St → Except PyErr St
  | 0, _, _ => .error .fuelOut
  | fuel + 1, chunkend, s =>
    if (s.pos : Int) < chunkend then
      match scan_box s with
      | .error .eofError => .ok s
      | .error e => .error e
      | .ok (r, s1) =>
        if r.2.1 = drefTag then
          bndU (scan_dref fuel r.2.2 s1) fun s2 => dinfLoop fuel chunkend s2
        else
          bnd (seekCur r.2.2 s1) fun _ s2 => dinfLoop fuel chunkend s2
    else .ok s

/-- `scan_dinf`: DataInformationBox container walk. -/
def scan_dinf (fuel : Nat) (remaining : Int) (s : St) : Except PyErr St :=
  let s := ipush s
  let chunkend : Int := (s.pos : Int) + remaining
  bndU (dinfLoop fuel chunkend s) fun s => .ok (ipop s)

/-- The child loop of `scan_edts`: dispatches `elst`, skips the rest. -/
def edtsLoop : Nat → Int → St → Except PyErr St
  | 0, _, _ => .error .fuelOut
  | fuel + 1, chunkend, s =>
    if (s.pos : Int) < chunkend then
      match scan_box s with
      | .error .eofError => .ok s
      | .error e => .error e
      | .ok (r, s1) =>
        if r.2.1 = elstTag then
          bnd (scan_elst r.2.2 s1) fun _ s2 => edtsLoop fuel chunkend s2
        else
          bnd (seekCur r.2.2 s1) fun _ s2 => edtsLoop fuel chunkend s2
    else .ok s

/-- `scan_edts`: EditBox container walk. -/
def scan_edts (fuel : Nat) (remaining : Int) (s : St) : Except PyErr St :=
  let s := ipush s
  let chunkend : Int := (s.pos : Int) + remaining
  bndU (edtsLoop fuel chunkend s) fun s => .ok (ipop s)

/-- The child loop of `scan_minf`: dispatches `dinf`, `stbl`, `vmhd`,
`smhd`, `hmhd` and `nmhd`, skips the rest. -/
def minfLoop : Nat → Int → St → Except PyErr St
  | 0, _, _ => .error .fuelOut
  | fuel + 1, chunkend, s =>
    if (s.pos : Int) < chunkend then
      match scan_box s with
      | .error .eofError => .ok s
      | .error e => .error e
      | .ok (r, s1) =>
        if r.2.1 = dinfTag then
          bndU (scan_dinf fuel r.2.2 s1) fun s2 => minfLoop fuel chunkend s2
        else if r.2.1 = stblTag then
          bndU (scan_stbl fuel r.2.2 s1) fun s2 => minfLoop fuel chunkend s2
        else if r.2.1 = vmhdTag then
          bnd (scan_vmhd r.2.2 s1) fun _ s2 => minfLoop fuel chunkend s2
        else if r.2.1 = smhdTag then
          bnd (scan_smhd r.2.2 s1) fun _ s2 => minfLoop fuel chunkend s2
        else if r.2.1 = hmhdTag then
          bnd (scan_hmhd r.2.2 s1) fun _ s2 => minfLoop fuel chunkend s2
        else if r.2.1 = nmhdTag then
          bnd (scan_nmhd r.2.2 s1) fun _ s2 => minfLoop fuel chunkend s2
        else
          bnd (seekCur r.2.2 s1) fun _ s2 => minfLoop fuel chunkend s2
    else .ok s

/-- `scan_minf`: MediaInformationBox container walk. -/
def scan_minf (fuel : Nat) (remaining : Int) (s : St) : Except PyErr St :=
  let s := ipush s
  let chunkend : Int := (s.pos : Int) + remaining
  bndU (minfLoop fuel chunkend s) fun s => .ok (ipop s)

/-- The child loop of `scan_mdia`: dispatches `mdhd`, `hdlr` and `minf`,
skips the rest. -/
def mdiaLoop : Nat → Int → St → Except PyErr St
  | 0, _, _ => .error .fuelOut
  | fuel + 1, chunkend, s =>
    if (s.pos : Int) < chunkend then
      match scan_box s with
      | .error .eofError => .ok s
      | .error e => .error e
      | .ok (r, s1) =>
        if r.2.1 = mdhdTag then
          bnd (scan_mdhd r.2.2 s1) fun _ s2 => mdiaLoop fuel chunkend s2
        else if r.2.1 = hdlrTag then
          bnd (scan_hdlr r.2.2 s1) fun _ s2 => mdiaLoop fuel chunkend s2
        else if r.2.1 = minfTag then
          bndU (scan_minf fuel r.2.2 s1) fun s2 => mdiaLoop fuel chunkend s2
        else
          bnd (seekCur r.2.2 s1) fun _ s2 => mdiaLoop fuel chunkend s2
    else .ok s

/-- `scan_mdia`: MediaBox container walk. -/
def scan_mdia (fuel : Nat) (remaining : Int) (s : St) : Except PyErr St :=
  let s := ipush s
  let chunkend : Int := (s.pos : Int) + remaining
  bndU (mdiaLoop fuel chunkend s) fun s => .ok (ipop s)

/-- The child loop of `scan_trak`: dispatches `tkhd`, `mdia`, `edts` and
`udta`, skips the rest. -/
def trakLoop : Nat → Int → St → Except PyErr St
  | 0, _, _ => .error .fuelOut
  | fuel + 1, chunkend, s =>
    if (s.pos : Int) < chunkend then
      match scan_box s with
      | .error .eofError => .ok s
      | .error e => .error e
      | .ok (r, s1) =>
        if r.2.1 = tkhdTag then
          bnd (scan_tkhd r.2.2 s1) fun _ s2 => trakLoop fuel chunkend s2
        else if r.2.1 = mdiaTag then
          bndU (scan_mdia fuel r.2.2 s1) fun s2 => trakLoop fuel chunkend s2
        else if r.2.1 = edtsTag then
          bndU (scan_edts fuel r.2.2 s1) fun s2 => trakLoop fuel chunkend s2
        else if r.2.1 = udtaTag then
          bndU (scan_udta fuel r.2.2 s1) fun s2 => trakLoop fuel chunkend s2
        else
          bnd (seekCur r.2.2 s1) fun _ s2 => trakLoop fuel chunkend s2
    else .ok s

/-- `scan_trak`: TrackBox container walk. -/
def scan_trak (fuel : Nat) (remaining : Int) (s : St) : Except PyErr St :=
  let s := ipush s
  let chunkend : Int := (s.pos : Int) + remaining
  bndU (trakLoop fuel chunkend s) fun s => .ok (ipop s)

/-- The child loop of `scan_moov`: dispatches `mvhd`, `trak` and `udta`,
skips the rest. -/
def moovLoop : Nat → Int → St → Except PyErr St
  | 0, _, _ => .error .fuelOut
  | fuel + 1, chunkend, s =>
    if (s.pos : Int) < chunkend then
      match scan_box s with
      | .error .eofError => .ok s
      | .error e => .error e
      | .ok (r, s1) =>
        if r.2.1 = mvhdTag then
          bnd (scan_mvhd r.2.2 s1) fun _ s2 => moovLoop fuel chunkend s2
        else if r.2.1 = trakTag then
          bndU (scan_trak fuel r.2.2 s1) fun s2 => moovLoop fuel chunkend s2
        else if r.2.1 = udtaTag then
          bndU (scan_udta fuel r.2.2 s1) fun s2 => moovLoop fuel chunkend s2
        else
          bnd (seekCur r.2.2 s1) fun _ s2 => moovLoop fuel chunkend s2
    else .ok s

/-- `scan_moov`: MovieBox container walk over
`[tell(), tell() + remaining)`. -/
def scan_moov (fuel : Nat) (remaining : Int) (s : St) : Except PyErr St :=
  let s := ipush s
  let chunkend : Int := (s.pos : Int) + remaining
  bndU (moovLoop fuel chunkend s) fun s => .ok (ipop s)

/-- One trace entry of the top-level walk: the box's reported total size
and type tag, and the cursor position after its dispatch (just before the
walker moves on to the next sibling). -/
abbrev TraceEntry := Int × List Nat × Nat

/-- The top-level loop of `scan`: `while tell() < filesize`, resolve one
header (an `EOFError` breaking the loop), count the box, dispatch `ftyp`
and `moov` to their decoders, and skip every other box.  In addition to
the source's box counter it records, for the walker's trace, each box's
size, tag and the cursor position after its dispatch. -/
def scanLoop : Nat → List TraceEntry → Nat → St →
    Except PyErr ((List TraceEntry × Nat) × St)
  | 0, _, _, _ => .error .fuelOut
  | fuel + 1, acc, numBoxes, s =>
    if s.pos < s.data.length then
      match scan_box s with
      | .error .eofError => .ok ((acc, numBoxes), s)
      | .error e => .error e
      | .ok (r, s1) =>
        if r.2.1 = ftypTag then
          bnd (scan_ftyp r.2.2 s1) fun _ s2 =>
            scanLoop fuel (acc ++ [(r.1, r.2.1, s2.pos)]) (numBoxes + 1) s2
        else if r.2.1 = moovTag then
          bndU (scan_moov fuel r.2.2 s1) fun s2 =>
            scanLoop fuel (acc ++ [(r.1, r.2.1, s2.pos)]) (numBoxes + 1) s2
        else
          bnd (seekCur r.2.2 s1) fun _ s2 =>
            scanLoop fuel (acc ++ [(r.1, r.2.1, s2.pos)]) (numBoxes + 1) s2
    else .ok ((acc, numBoxes), s)

/-- `scan`: seek to the start of the file and walk the top-level boxes,
returning the walker's trace and the count of boxes scanned. -/
def scan (fuel : Nat) (s : St) : Except PyErr ((List TraceEntry × Nat) × St) :=
  scanLoop fuel [] 0 { s with pos := 0 }

end ISOBMFF

instance : DecidableEq ISOBMFF.TraceEntry := inferInstance

instance : DecidableEq (List ISOBMFF.TraceEntry × Nat) := inferInstance

instance : DecidableEq ((List ISOBMFF.TraceEntry × Nat) × St) := inferInstance

/-! Serialization of well-formed boxes, used to express validity of whole
input files, and concrete input files used by the claim theorems. -/

/-- Big-endian 4-byte encoding of a 32-bit value. -/
def encU32 (n : Nat) : List Nat :=
  [n / 16777216 % 256, n / 65536 % 256, n / 256 % 256, n % 256]

/-- A serialized box in the plain 32-bit size form: size field, tag,
payload. -/
def mkBox (tag payload : List Nat) : List Nat :=
  encU32 (payload.length + 8) ++ (tag ++ payload)

/-- All four-character tags that some container of the program
dispatches on.  A generic (undecoded) box in a valid file carries a tag
outside this set, so that it is routed to the skip path in every
context. -/
def recognizedTags : List (List Nat) :=
  [ISOBMFF.ftypTag, ISOBMFF.moovTag, ISOBMFF.mvhdTag, ISOBMFF.trakTag,
   ISOBMFF.udtaTag, ISOBMFF.tkhdTag, ISOBMFF.mdiaTag, ISOBMFF.edtsTag,
   ISOBMFF.mdhdTag, ISOBMFF.hdlrTag, ISOBMFF.minfTag, ISOBMFF.dinfTag,
   ISOBMFF.stblTag, ISOBMFF.vmhdTag, ISOBMFF.smhdTag, ISOBMFF.hmhdTag,
   ISOBMFF.nmhdTag, ISOBMFF.drefTag, ISOBMFF.urlTag, ISOBMFF.urnTag,
   ISOBMFF.elstTag]

/-- A box tree of a valid input file: one constructor per box type the
program decodes (leaf payloads as raw bytes, container payloads as child
trees, `dref` with its 8-byte FullBox-plus-entryCount head before its
children), plus `generic` for boxes of any undispatched type. -/
inductive VBox where
  | generic (tag : List Nat) (payload : List Nat)
  | ftypB (payload : List Nat)
  | mvhdB (payload : List Nat)
  | tkhdB (payload : List Nat)
  | mdhdB (payload : List Nat)
  | hdlrB (payload : List Nat)
  | vmhdB (payload : List Nat)
  | smhdB (payload : List Nat)
  | hmhdB (payload : List Nat)
  | nmhdB (payload : List Nat)
  | elstB (payload : List Nat)
  | urlB (payload : List Nat)
  | urnB (payload : List Nat)
  | moovB (children : List VBox)
  | trakB (children : List VBox)
  | mdiaB (children : List VBox)
  | minfB (children : List VBox)
  | dinfB (children : List VBox)
  | edtsB (children : List VBox)
  | udtaB (children : List VBox)
  | stblB (children : List VBox)
  | drefB (head : List Nat) (children : List VBox)

/-- The four-character tag a box-tree node serializes with. -/
def vtag : VBox → List Nat
  | .generic tag _ => tag
  | .ftypB _ => ISOBMFF.ftypTag
  | .mvhdB _ => ISOBMFF.mvhdTag
  | .tkhdB _ => ISOBMFF.tkhdTag
  | .mdhdB _ => ISOBMFF.mdhdTag
  | .hdlrB _ => ISOBMFF.hdlrTag
  | .vmhdB _ => ISOBMFF.vmhdTag
  | .smhdB _ => ISOBMFF.smhdTag
  | .hmhdB _ => ISOBMFF.hmhdTag
  | .nmhdB _ => ISOBMFF.nmhdTag
  | .elstB _ => ISOBMFF.elstTag
  | .urlB _ => ISOBMFF.urlTag
  | .urnB _ => ISOBMFF.urnTag
  | .moovB _ => ISOBMFF.moovTag
  | .trakB _ => ISOBMFF.trakTag
  | .mdiaB _ => ISOBMFF.mdiaTag
  | .minfB _ => ISOBMFF.minfTag
  | .dinfB _ => ISOBMFF.dinfTag
  | .edtsB _ => ISOBMFF.edtsTag
  | .udtaB _ => ISOBMFF.udtaTag
  | .stblB _ => ISOBMFF.stblTag
  | .drefB _ _ => ISOBMFF.drefTag

mutual

/-- The payload bytes a box-tree node serializes with (children
serialized recursively). -/
def vpayload : VBox → List Nat
  | .generic _ p => p
  | .ftypB p => p
  | .mvhdB p => p
  | .tkhdB p => p
  | .mdhdB p => p
  | .hdlrB p => p
  | .vmhdB p => p
  | .smhdB p => p
  | .hmhdB p => p
  | .nmhdB p => p
  | .elstB p => p
  | .urlB p => p
  | .urnB p => p
  | .moovB cs => vserializeList cs
  | .trakB cs => vserializeList cs
  | .mdiaB cs => vserializeList cs
  | .minfB cs => vserializeList cs
  | .dinfB cs => vserializeList cs
  | .edtsB cs => vserializeList cs
  | .udtaB cs => vserializeList cs
  | .stblB cs => vserializeList cs
  | .drefB head cs => head ++ vserializeList cs

/-- Serialization of a box-tree list: each box in the plain 32-bit size
form, back to back. -/
def vserializeList : List VBox → List Nat
  | [] => []
  | b :: rest => mkBox (vtag b) (vpayload b) ++ vserializeList rest

end

/-- Serialization of one box-tree node. -/
def vserialize (b : VBox) : List Nat := mkBox (vtag b) (vpayload b)

/-- The FullBox version a decoder would read from a payload's first four
bytes. -/
def versionOf (p : List Nat) : Nat := beNat (p.take 4) / 16777216 % 256

/-- The FullBox flags a decoder would read from a payload's first four
bytes. -/
def flagsOf (p : List Nat) : Nat := beNat (p.take 4) % 16777216

/-- The entry count an `elst` decoder would read from bytes 4..8 of its
payload. -/
def elstCount (p : List Nat) : Nat := beNat ((p.drop 4).take 4)

/-- A byte string that `scan_string` consumes exactly: its only 0x00
byte is the final one. -/
def isCStr : List Nat → Bool
  | [] => false
  | [c] => c == 0
  | c :: rest => (c != 0) && isCStr rest

/-- Two back-to-back `isCStr` strings, as consumed by two consecutive
`scan_string` calls. -/
def isTwoCStr : List Nat → Bool
  | [] => false
  | c :: rest => if c == 0 then isCStr rest else isTwoCStr rest

mutual

/-- Well-formedness of a box in a valid file: the declared size is the
plain 32-bit form `8 + payload`, fits in 32 bits, and the payload is
consistent with what the corresponding decoder consumes: `ftyp` brands
fill the payload in 4-byte units, the FullBox headers' version selects
the exact fixed layout widths of `mvhd`/`tkhd`/`mdhd`, `hdlr` holds at
least its 24 fixed bytes before the to-end name, the small headers have
their exact sizes, `elst` holds exactly its declared entries, `url `
holds nothing or one terminated string per its flag, `urn ` two
terminated strings, containers hold well-formed children, and a generic
box carries an undispatched 4-byte tag. -/
def vwf : VBox → Bool
  | .generic tag p =>
    tag.length == 4 && !(recognizedTags.contains tag) &&
      decide (p.length + 8 < 4294967296)
  | .ftypB p =>
    decide (8 ≤ p.length) && decide ((p.length - 8) % 4 = 0) &&
      decide (p.length + 8 < 4294967296)
  | .mvhdB p => p.length == (if versionOf p == 1 then 112 else 100)
  | .tkhdB p => p.length == (if versionOf p == 1 then 96 else 84)
  | .mdhdB p => p.length == (if versionOf p == 1 then 36 else 24)
  | .hdlrB p => decide (24 ≤ p.length) && decide (p.length + 8 < 4294967296)
  | .vmhdB p => p.length == 12
  | .smhdB p => p.length == 8
  | .hmhdB p => p.length == 20
  | .nmhdB p => p.length == 4
  | .elstB p =>
    (p.length == 8 + elstCount p * (if versionOf p == 1 then 20 else 12)) &&
      decide (p.length + 8 < 4294967296)
  | .urlB p =>
    decide (4 ≤ p.length) && decide (p.length + 8 < 4294967296) &&
      (if flagsOf p % 2 == 1 then p.length == 4 else isCStr (p.drop 4))
  | .urnB p =>
    decide (4 ≤ p.length) && decide (p.length + 8 < 4294967296) &&
      isTwoCStr (p.drop 4)
  | .moovB cs =>
    vwfList cs && decide ((vserializeList cs).length + 8 < 4294967296)
  | .trakB cs =>
    vwfList cs && decide ((vserializeList cs).length + 8 < 4294967296)
  | .mdiaB cs =>
    vwfList cs && decide ((vserializeList cs).length + 8 < 4294967296)
  | .minfB cs =>
    vwfList cs && decide ((vserializeList cs).length + 8 < 4294967296)
  | .dinfB cs =>
    vwfList cs && decide ((vserializeList cs).length + 8 < 4294967296)
  | .edtsB cs =>
    vwfList cs && decide ((vserializeList cs).length + 8 < 4294967296)
  | .udtaB cs =>
    vwfList cs && decide ((vserializeList cs).length + 8 < 4294967296)
  | .stblB cs =>
    vwfList cs && decide ((vserializeList cs).length + 8 < 4294967296)
  | .drefB head cs =>
    head.length == 8 && vwfList cs &&
      decide ((head ++ vserializeList cs).length + 8 < 4294967296)

/-- Well-formedness of every box in a list. -/
def vwfList : List VBox → Bool
  | [] => true
  | b :: rest => vwf b && vwfList rest

end

/-- The walker trace expected for a serialized box-tree list starting at
a given position: each box reports its total size and tag, with the
cursor exactly at the box end after dispatch. -/
def vboxTrace : List VBox → Nat → List ISOBMFF.TraceEntry
  | [], _ => []
  | b :: rest, pos =>
    ((((vpayload b).length + 8 : Nat) : Int), vtag b,
      pos + 8 + (vpayload b).length)
      :: vboxTrace rest (pos + (8 + (vpayload b).length))

/-- A 12-byte file holding one box with an unrecognized tag (skip path). -/
def skipFile : List Nat := [0, 0, 0, 12, 97, 98, 99, 100, 0, 0, 0, 0]

/-- The state just after resolving `skipFile`'s box header. -/
def skipMid : St := { data := skipFile, pos := 8, indent := 0 }

/-- The state after skipping `skipFile`'s payload. -/
def skipEnd : St := { data := skipFile, pos := 12, indent := 0 }

/-- A 34-byte file: an `ftyp` box that declares total size 18 (payload
10, so the brand loop over-reads by 2 bytes), followed by a well-formed
`free` box of size 16. -/
def c1file : List Nat :=
  [0, 0, 0, 18, 102, 116, 121, 112, 105, 115, 111, 109, 0, 0, 2, 0, 0, 0] ++
  [0, 0, 0, 16, 102, 114, 101, 101, 0, 0, 0, 0, 0, 0, 0, 0]

/-- A 24-byte file: a `moov` box of total size 24 whose only child
declares total size 100, far past the parent's range end. -/
def c2file : List Nat :=
  [0, 0, 0, 24, 109, 111, 111, 118, 0, 0, 0, 100, 120, 120, 120, 120,
   0, 0, 0, 0, 0, 0, 0, 0]

/-- `c2file` state at the start of the `moov` payload. -/
def c2sIn : St := { data := c2file, pos := 8, indent := 0 }

/-- `c2file` state after `scan_moov` has skipped the overlong child. -/
def c2sOut : St := { data := c2file, pos := 108, indent := 0 }

/-- `c2file` state at the `moov` payload start with indentation 1 (as
inside the moov walk). -/
def c2wIn : St := { data := c2file, pos := 8, indent := 1 }

/-- `c2file` state after resolving the overlong child's header. -/
def c2wMid : St := { data := c2file, pos := 16, indent := 1 }

/-- `c2file` state after the walker skipped the overlong child. -/
def c2wOut : St := { data := c2file, pos := 108, indent := 1 }

/-- A 16-byte box header in the extended-size form: `size32 = 1`, tag
`abcd`, 64-bit size 17. -/
def c3file : List Nat :=
  [0, 0, 0, 1, 97, 98, 99, 100, 0, 0, 0, 0, 0, 0, 0, 17]

/-- The state after resolving `c3file`'s extended header. -/
def c3mid : St := { data := c3file, pos := 16, indent := 0 }

/-- An 8-byte file: a `moov` header declaring total size 16, with the
file ending exactly at the box-header boundary of its first child. -/
def c5file : List Nat := [0, 0, 0, 16, 109, 111, 111, 118]

/-- An `hdlr` payload of 33 bytes: FullBox prefix, pre_defined, handler
type `vide`, 12 reserved bytes, and a 9-byte name that is not
null-terminated (a length byte `0x09` followed by `GoPro AV`). -/
def c6file : List Nat :=
  [0, 0, 0, 0, 0, 0, 0, 0, 118, 105, 100, 101] ++ List.replicate 12 0 ++
  [9, 71, 111, 80, 114, 111, 32, 65, 86]

/-- Expected `scan_hdlr` output on `c6file`. -/
def c6out : ISOBMFF.HdlrInfo × St :=
  ({ version := 0, flags := 0, pre_defined := 0,
     handlerType := [118, 105, 100, 101],
     name := [9, 71, 111, 80, 114, 111, 32, 65, 86] },
   { data := c6file, pos := 33, indent := 0 })

/-- The 20-byte `ftyp` box of the concrete scenario: size 20, tag `ftyp`,
major brand `isom`, minor version 512, one compatible brand `mp41`. -/
def c8file : List Nat :=
  [0, 0, 0, 20, 102, 116, 121, 112, 105, 115, 111, 109, 0, 0, 2, 0,
   109, 112, 52, 49]

/-- An `smhd` payload: FullBox prefix, balance bytes `0x01 0x00`
(i.e. 256, the 8.8 fixed-point encoding of 1.0), reserved. -/
def c9file : List Nat := [0, 0, 0, 0, 1, 0, 0, 0]

/-- A version-0 `mvhd` payload (100 zero bytes). -/
def mvhdV0bytes : List Nat := List.replicate 100 0

/-- A version-1 `mvhd` payload (version byte 1, then 111 zero bytes). -/
def mvhdV1bytes : List Nat := 1 :: List.replicate 111 0

/-- A version-0 `mdhd` payload (24 zero bytes). -/
def mdhdV0bytes : List Nat := List.replicate 24 0

/-- A version-1 `mdhd` payload (version byte 1, then 35 zero bytes). -/
def mdhdV1bytes : List Nat := 1 :: List.replicate 35 0

/-- A version-0 `tkhd` payload (84 zero bytes). -/
def tkhdV0bytes : List Nat := List.replicate 84 0

/-- A version-1 `tkhd` payload (version byte 1, then 95 zero bytes). -/
def tkhdV1bytes : List Nat := 1 :: List.replicate 95 0

/-- Expected `scan_mvhd` output on `mvhdV1bytes`. -/
def mvhdOut1 : ISOBMFF.MvhdInfo × St :=
  ({ version := 1, flags := 0, creation := 0, modification := 0,
     timescale := 0, duration := 0, rate := 0, volume := 0,
     matrix := [0, 0, 0, 0, 0, 0, 0, 0, 0], nextTrackID := 0 },
   { data := mvhdV1bytes, pos := 112, indent := 0 })

/-- Exactness of a container child loop on valid data, as an induction
statement over the serialized length bound `N`: whenever the data from
the cursor onward starts with the serialization of a well-formed box
list, the chunk end is right past it and the fuel exceeds its length,
the loop consumes exactly those bytes and restores the indent. -/
def LoopRun (L : Nat → Int → St → Except PyErr St) (N : Nat) : Prop :=
  ∀ (cs : List VBox) (D rest : List Nat) (q : Nat) (ind : Int)
    (fuel : Nat) (ce : Int),
    (vserializeList cs).length ≤ N →
    vwfList cs = true → 0 ≤ ind →
    (vserializeList cs).length < fuel →
    D.drop q = vserializeList cs ++ rest →
    ce = (q : Int) + ((vserializeList cs).length : Int) →
    L fuel ce ⟨D, q, ind⟩ = .ok ⟨D, q + (vserializeList cs).length, ind⟩

/-- A concrete valid input file for the C7 witness, as a box tree: an
`ftyp`, a fully populated `moov` (movie header, a track with `tkhd`, an
edit list, media with `mdhd`/`hdlr` and a `minf` holding all four media
headers plus `dinf` (with `dref` and its `url `/`urn ` entries) and a
`stbl`, user data), a `free` box and an `mdat` box. -/
def c7vfile : List VBox :=
  [.ftypB [105, 115, 111, 109, 0, 0, 2, 0, 109, 112, 52, 49],
   .moovB
     [.mvhdB (List.replicate 100 0),
      .trakB
        [.tkhdB (1 :: List.replicate 95 0),
         .edtsB [.elstB ([0, 0, 0, 0, 0, 0, 0, 1] ++ List.replicate 12 0)],
         .mdiaB
           [.mdhdB (List.replicate 24 0),
            .hdlrB (List.replicate 24 0 ++ [118, 105, 100, 101, 111, 0]),
            .minfB
              [.vmhdB (List.replicate 12 0),
               .smhdB (List.replicate 8 0),
               .hmhdB (List.replicate 20 0),
               .nmhdB (List.replicate 4 0),
               .dinfB
                 [.drefB [0, 0, 0, 0, 0, 0, 0, 3]
                    [.urlB [0, 0, 0, 1],
                     .urlB [0, 0, 0, 0, 104, 105, 0],
                     .urnB [0, 0, 0, 0, 97, 0, 98, 0]]],
               .stblB [.generic [115, 116, 115, 100] [0, 0, 0, 0]]]]],
      .udtaB [.generic [110, 97, 109, 101] [1, 2, 3]]],
   .generic [102, 114, 101, 101] [],
   .generic [109, 100, 97, 116] [1, 2, 3, 4, 5]]

section Lemmas

open ISOBMFF

/-- Inversion for `bnd`: a successful sequence means the first read
succeeded and the continuation succeeded on its result. -/
theorem bnd_ok {α β : Type} {e : Except PyErr (α × St)}
    {k : α → St → Except PyErr β} {r : β} (h : bnd e k = .ok r) :
    ∃ v s, e = .ok (v, s) ∧ k v s = .ok r := by
  cases e with
  | error err => simp [bnd] at h
  | ok p => exact ⟨p.1, p.2, rfl, by simpa [bnd] using h⟩

/-- Inversion for `bndU`. -/
theorem bndU_ok {β : Type} {e : Except PyErr St}
    {k : St → Except PyErr β} {r : β} (h : bndU e k = .ok r) :
    ∃ s, e = .ok s ∧ k s = .ok r := by
  cases e with
  | error err => simp [bndU] at h
  | ok s => exact ⟨s, rfl, by simpa [bndU] using h⟩

/-- A successful `readExact n` returns precisely the `n` bytes at the
cursor, which all lie inside the file, and advances the cursor by `n`. -/
theorem readExact_ok {n : Nat} {s : St} {b : List Nat} {s' : St}
    (hn : 0 < n) (h : readExact n s = .ok (b, s')) :
    b = (s.data.drop s.pos).take n ∧ s.pos + n ≤ s.data.length ∧
    s' = { s with pos := s.pos + n } := by
  unfold readExact fileRead at h
  simp only at h
  split at h
  · rename_i hl
    injection h with hpair
    injection hpair with hb hs
    have hlen : ((s.data.drop s.pos).take n).length = min n (s.data.length - s.pos) := by
      simp [List.length_take, List.length_drop]
    refine ⟨hb.symm, by omega, ?_⟩
    rw [← hs, hl]
  · exact absurd h (by simp)

/-- A successful fixed-width scan of the common shape
`bnd (readExact n s) fun b s => .ok (f b, s)` yields the decoding of the
`n` bytes at the cursor and advances by `n`. -/
theorem bndRead_ok {α : Type} {n : Nat} {f : List Nat → α} {s : St}
    {v : α} {s' : St} (hn : 0 < n)
    (h : bnd (readExact n s) (fun b s => Except.ok (f b, s)) = .ok (v, s')) :
    v = f ((s.data.drop s.pos).take n) ∧ s.pos + n ≤ s.data.length ∧
    s' = { s with pos := s.pos + n } := by
  obtain ⟨b, s1, he, hk⟩ := bnd_ok h
  obtain ⟨hb, hlen, hs⟩ := readExact_ok hn he
  simp only [Except.ok.injEq, Prod.mk.injEq] at hk
  obtain ⟨hv, hs'⟩ := hk
  exact ⟨by rw [← hv, hb], hlen, by rw [← hs', hs]⟩

/-- Characterization of a successful `scan_uint32`. -/
theorem scan_uint32_ok {s : St} {v : Nat} {s' : St}
    (h : scan_uint32 s = .ok (v, s')) :
    v = beNat ((s.data.drop s.pos).take 4) ∧ s.pos + 4 ≤ s.data.length ∧
    s' = { s with pos := s.pos + 4 } := by
  unfold scan_uint32 at h; exact bndRead_ok (by omega) h

/-- Characterization of a successful `scan_uint16`. -/
theorem scan_uint16_ok {s : St} {v : Nat} {s' : St}
    (h : scan_uint16 s = .ok (v, s')) :
    v = beNat ((s.data.drop s.pos).take 2) ∧ s.pos + 2 ≤ s.data.length ∧
    s' = { s with pos := s.pos + 2 } := by
  unfold scan_uint16 at h; exact bndRead_ok (by omega) h

/-- Characterization of a successful `scan_uint64`. -/
theorem scan_uint64_ok {s : St} {v : Nat} {s' : St}
    (h : scan_uint64 s = .ok (v, s')) :
    v = beNat ((s.data.drop s.pos).take 8) ∧ s.pos + 8 ≤ s.data.length ∧
    s' = { s with pos := s.pos + 8 } := by
  unfold scan_uint64 at h; exact bndRead_ok (by omega) h

/-- Characterization of a successful `scan_int16`. -/
theorem scan_int16_ok {s : St} {v : Int} {s' : St}
    (h : scan_int16 s = .ok (v, s')) :
    s.pos + 2 ≤ s.data.length ∧ s' = { s with pos := s.pos + 2 } := by
  unfold scan_int16 at h
  obtain ⟨_, h2, h3⟩ := bndRead_ok (by omega) h
  exact ⟨h2, h3⟩

/-- Characterization of a successful `scan_int32`. -/
theorem scan_int32_ok {s : St} {v : Int} {s' : St}
    (h : scan_int32 s = .ok (v, s')) :
    s.pos + 4 ≤ s.data.length ∧ s' = { s with pos := s.pos + 4 } := by
  unfold scan_int32 at h
  obtain ⟨_, h2, h3⟩ := bndRead_ok (by omega) h
  exact ⟨h2, h3⟩

/-- Characterization of a successful `scan_int64`. -/
theorem scan_int64_ok {s : St} {v : Int} {s' : St}
    (h : scan_int64 s = .ok (v, s')) :
    s.pos + 8 ≤ s.data.length ∧ s' = { s with pos := s.pos + 8 } := by
  unfold scan_int64 at h
  obtain ⟨_, h2, h3⟩ := bndRead_ok (by omega) h
  exact ⟨h2, h3⟩

/-- Characterization of a successful `scan_uint16_3`. -/
theorem scan_uint16_3_ok {s : St} {v : Nat × Nat × Nat} {s' : St}
    (h : scan_uint16_3 s = .ok (v, s')) :
    s.pos + 6 ≤ s.data.length ∧ s' = { s with pos := s.pos + 6 } := by
  unfold scan_uint16_3 at h
  obtain ⟨_, h2, h3⟩ := bndRead_ok (by omega) h
  exact ⟨h2, h3⟩

/-- Characterization of a successful `scan_fourcc`. -/
theorem scan_fourcc_ok {s : St} {v : List Nat} {s' : St}
    (h : scan_fourcc s = .ok (v, s')) :
    v = (s.data.drop s.pos).take 4 ∧ s.pos + 4 ≤ s.data.length ∧
    s' = { s with pos := s.pos + 4 } := by
  unfold scan_fourcc at h; exact readExact_ok (by omega) h

/-- Characterization of a successful `scan_matrix9`. -/
theorem scan_matrix9_ok {s : St} {v : List Int} {s' : St}
    (h : scan_matrix9 s = .ok (v, s')) :
    s.pos + 36 ≤ s.data.length ∧ s' = { s with pos := s.pos + 36 } := by
  unfold scan_matrix9 at h
  obtain ⟨_, h2, h3⟩ := bndRead_ok (by omega) h
  exact ⟨h2, h3⟩

/-- Characterization of a successful relative seek: the cursor moves by
exactly `n` and nothing else changes. -/
theorem seekCur_ok {n : Int} {s : St} {u : Unit} {s' : St}
    (h : seekCur n s = .ok (u, s')) :
    (s'.pos : Int) = (s.pos : Int) + n ∧ s'.data = s.data ∧
    s'.indent = s.indent := by
  unfold seekCur at h
  split at h
  · rename_i hge
    simp only [Except.ok.injEq, Prod.mk.injEq] at h
    obtain ⟨_, hs⟩ := h
    subst hs
    exact ⟨by simp [Int.toNat_of_nonneg hge], rfl, rfl⟩
  · simp at h

/-- Characterization of a successful `scan_fullbox`: reads 4 bytes and
returns `remaining - 4` as the new remaining count. -/
theorem scan_fullbox_ok {remaining : Int} {s : St} {v : Nat × Nat × Int}
    {s' : St} (h : scan_fullbox remaining s = .ok (v, s')) :
    v.2.2 = remaining - 4 ∧ s.pos + 4 ≤ s.data.length ∧
    s' = { s with pos := s.pos + 4 } := by
  unfold scan_fullbox at h
  obtain ⟨vf, s1, he, hk⟩ := bnd_ok h
  obtain ⟨_, hlen, hs⟩ := scan_uint32_ok he
  simp only [Except.ok.injEq, Prod.mk.injEq] at hk
  obtain ⟨hv, hs'⟩ := hk
  exact ⟨by rw [← hv], hlen, by rw [← hs', hs]⟩

/-- `ipop` after an `ipush` (or any state with positive counter) undoes
exactly one increment. -/
theorem ipop_of_pos {s : St} (h : 0 < s.indent) :
    ipop s = { s with indent := s.indent - 1 } := by
  simp [ipop, h]

/-- Full characterization of a successful `scan_box`, covering the three
size encodings selected by the leading 32-bit size field: the extended
64-bit size (`size32 = 1`), the rest-of-file form (`size32 = 0`, total
size synthesized from `filesize` and the box start), and the plain 32-bit
size.  In every case the payload length `r.2.2` and the post-header cursor
`s1.pos` satisfy `s1.pos + r.2.2 = box_start + total_size`. -/
theorem scan_box_spec {s : St} {r : Int × List Nat × Int} {s1 : St}
    (h : ISOBMFF.scan_box s = .ok (r, s1)) :
    s1.data = s.data ∧ s1.indent = s.indent ∧ s.pos + 8 ≤ s.data.length ∧
    (s1.pos : Int) + r.2.2 = (s.pos : Int) + r.1 ∧
    (beNat ((s.data.drop s.pos).take 4) = 1 →
      r.1 = (beNat ((s.data.drop (s.pos + 8)).take 8) : Int) ∧
      r.2.2 = r.1 - 16 ∧ s1.pos = s.pos + 16) ∧
    (beNat ((s.data.drop s.pos).take 4) = 0 →
      r.1 = (s.data.length : Int) - (s.pos : Int) ∧
      r.2.2 = r.1 - 8 ∧ s1.pos = s.pos + 8) ∧
    (beNat ((s.data.drop s.pos).take 4) ≠ 1 →
     beNat ((s.data.drop s.pos).take 4) ≠ 0 →
      r.1 = (beNat ((s.data.drop s.pos).take 4) : Int) ∧
      r.2.2 = r.1 - 8 ∧ s1.pos = s.pos + 8) := by
  unfold ISOBMFF.scan_box at h
  obtain ⟨sz, sA, h1, h⟩ := bnd_ok h
  obtain ⟨hszv, hbound1, hsA⟩ := scan_uint32_ok h1
  obtain ⟨tag, sB, h2, h⟩ := bnd_ok h
  obtain ⟨htagv, hbound2, hsB⟩ := scan_fourcc_ok h2
  subst hsA
  subst hsB
  simp only at h hbound2
  by_cases hsz1 : sz = 1
  · subst hsz1
    rw [if_pos rfl] at h
    obtain ⟨bs, sC, h3, h⟩ := bnd_ok h
    obtain ⟨hbsv, hbound3, hsC⟩ := scan_uint64_ok h3
    subst hsC
    simp only at h hbsv hbound3
    injection h with hpair
    injection hpair with hval hstate
    subst hval
    subst hstate
    have e48 : s.pos + 4 + 4 = s.pos + 8 := by omega
    rw [e48] at hbsv
    refine ⟨rfl, rfl, by omega, by push_cast; omega, ?_, ?_, ?_⟩
    · intro _
      exact ⟨by simp only; rw [hbsv], by simp, by simp⟩
    · intro hc
      rw [← hszv] at hc
      omega
    · intro hc _
      exact absurd hszv.symm hc
  · by_cases hsz0 : sz = 0
    · subst hsz0
      rw [if_neg (by omega), if_pos rfl] at h
      injection h with hpair
      injection hpair with hval hstate
      subst hval
      subst hstate
      refine ⟨rfl, rfl, by omega, by push_cast; omega, ?_, ?_, ?_⟩
      · intro hc
        rw [← hszv] at hc
        omega
      · intro _
        refine ⟨by simp only; push_cast; omega, rfl, by simp⟩
      · intro _ hc
        exact absurd hszv.symm hc
    · rw [if_neg hsz1, if_neg hsz0] at h
      injection h with hpair
      injection hpair with hval hstate
      subst hval
      subst hstate
      refine ⟨rfl, rfl, by omega, by push_cast; omega, ?_, ?_, ?_⟩
      · intro hc
        rw [← hszv] at hc
        exact absurd hc hsz1
      · intro hc
        rw [← hszv] at hc
        exact absurd hc hsz0
      · intro _ _
        exact ⟨by simp only; rw [hszv], by simp, by simp⟩

/-- `ipop` never changes the cursor. -/
theorem ipop_pos (s : St) : (ipop s).pos = s.pos := by
  unfold ipop; split <;> rfl

/-- `ipop` never changes the file. -/
theorem ipop_data (s : St) : (ipop s).data = s.data := by
  unfold ipop; split <;> rfl

/-- `ipop` on a counter of the form `i + 1` with `0 ≤ i` undoes the
increment. -/
theorem ipop_indent_succ {x : St} {i : Int} (hx : x.indent = i + 1)
    (hi : 0 ≤ i) : (ipop x).indent = i := by
  unfold ipop
  rw [if_pos (by omega)]
  simp [hx]

/-- The version-dependent time block shared by `scan_mvhd` and
`scan_mdhd` consumes 28 bytes for version 1 (three widened 64-bit fields
plus the 32-bit timescale) and 16 bytes otherwise (four 32-bit fields). -/
theorem mvhdTimes_spec {version : Nat} {s : St} {v : Nat × Nat × Nat × Nat}
    {s' : St} (h : ISOBMFF.mvhdTimes version s = .ok (v, s')) :
    s' = { s with pos := s.pos + (if version = 1 then 28 else 16) } := by
  unfold ISOBMFF.mvhdTimes at h
  split at h <;> rename_i hv
  · obtain ⟨c, s1, h1, h⟩ := bnd_ok h
    obtain ⟨_, _, hs1⟩ := scan_uint64_ok h1
    subst hs1
    obtain ⟨m, s2, h2, h⟩ := bnd_ok h
    obtain ⟨_, _, hs2⟩ := scan_uint64_ok h2
    subst hs2
    obtain ⟨t, s3, h3, h⟩ := bnd_ok h
    obtain ⟨_, _, hs3⟩ := scan_uint32_ok h3
    subst hs3
    obtain ⟨d, s4, h4, h⟩ := bnd_ok h
    obtain ⟨_, _, hs4⟩ := scan_uint64_ok h4
    subst hs4
    injection h with hpair
    injection hpair with hval hstate
    rw [← hstate, if_pos hv]
  · obtain ⟨c, s1, h1, h⟩ := bnd_ok h
    obtain ⟨_, _, hs1⟩ := scan_uint32_ok h1
    subst hs1
    obtain ⟨m, s2, h2, h⟩ := bnd_ok h
    obtain ⟨_, _, hs2⟩ := scan_uint32_ok h2
    subst hs2
    obtain ⟨t, s3, h3, h⟩ := bnd_ok h
    obtain ⟨_, _, hs3⟩ := scan_uint32_ok h3
    subst hs3
    obtain ⟨d, s4, h4, h⟩ := bnd_ok h
    obtain ⟨_, _, hs4⟩ := scan_uint32_ok h4
    subst hs4
    injection h with hpair
    injection hpair with hval hstate
    rw [← hstate, if_neg hv]

/-- The version-dependent block of `scan_tkhd` consumes 32 bytes for
version 1 (widened creation/modification/duration plus 32-bit trackID and
reserved) and 20 bytes otherwise. -/
theorem tkhdTimes_spec {version : Nat} {s : St}
    {v : Nat × Nat × Nat × Nat × Nat} {s' : St}
    (h : ISOBMFF.tkhdTimes version s = .ok (v, s')) :
    s' = { s with pos := s.pos + (if version = 1 then 32 else 20) } := by
  unfold ISOBMFF.tkhdTimes at h
  split at h <;> rename_i hv
  · obtain ⟨c, s1, h1, h⟩ := bnd_ok h
    obtain ⟨_, _, hs1⟩ := scan_uint64_ok h1
    subst hs1
    obtain ⟨m, s2, h2, h⟩ := bnd_ok h
    obtain ⟨_, _, hs2⟩ := scan_uint64_ok h2
    subst hs2
    obtain ⟨tid, s3, h3, h⟩ := bnd_ok h
    obtain ⟨_, _, hs3⟩ := scan_uint32_ok h3
    subst hs3
    obtain ⟨res, s4, h4, h⟩ := bnd_ok h
    obtain ⟨_, _, hs4⟩ := scan_uint32_ok h4
    subst hs4
    obtain ⟨d, s5, h5, h⟩ := bnd_ok h
    obtain ⟨_, _, hs5⟩ := scan_uint64_ok h5
    subst hs5
    injection h with hpair
    injection hpair with hval hstate
    rw [← hstate, if_pos hv]
  · obtain ⟨c, s1, h1, h⟩ := bnd_ok h
    obtain ⟨_, _, hs1⟩ := scan_uint32_ok h1
    subst hs1
    obtain ⟨m, s2, h2, h⟩ := bnd_ok h
    obtain ⟨_, _, hs2⟩ := scan_uint32_ok h2
    subst hs2
    obtain ⟨tid, s3, h3, h⟩ := bnd_ok h
    obtain ⟨_, _, hs3⟩ := scan_uint32_ok h3
    subst hs3
    obtain ⟨res, s4, h4, h⟩ := bnd_ok h
    obtain ⟨_, _, hs4⟩ := scan_uint32_ok h4
    subst hs4
    obtain ⟨d, s5, h5, h⟩ := bnd_ok h
    obtain ⟨_, _, hs5⟩ := scan_uint32_ok h5
    subst hs5
    injection h with hpair
    injection hpair with hval hstate
    rw [← hstate, if_neg hv]

/-- A successful `scan_mvhd` consumes exactly 112 bytes when the decoded
version is 1 and exactly 100 bytes otherwise, leaves the file unchanged,
and (from a non-negative counter) restores the indentation level. -/
theorem scan_mvhd_spec {remaining : Int} {s : St} {out : ISOBMFF.MvhdInfo × St}
    (h : ISOBMFF.scan_mvhd remaining s = .ok out) :
    out.2.data = s.data ∧
    out.2.pos = s.pos + (if out.1.version = 1 then 112 else 100) ∧
    (0 ≤ s.indent → out.2.indent = s.indent) := by
  unfold ISOBMFF.scan_mvhd at h
  obtain ⟨vf, s1, h1, h⟩ := bnd_ok h
  obtain ⟨_, _, hs1⟩ := scan_fullbox_ok h1
  subst hs1
  obtain ⟨cmtd, s2, h2, h⟩ := bnd_ok h
  have hs2 := mvhdTimes_spec h2
  subst hs2
  obtain ⟨rate, s3, h3, h⟩ := bnd_ok h
  obtain ⟨_, _, hs3⟩ := scan_uint32_ok h3
  subst hs3
  obtain ⟨vol, s4, h4, h⟩ := bnd_ok h
  obtain ⟨_, _, hs4⟩ := scan_uint16_ok h4
  subst hs4
  obtain ⟨u5, s5, h5, h⟩ := bnd_ok h
  obtain ⟨hp5, hd5, hi5⟩ := seekCur_ok h5
  obtain ⟨mat, s6, h6, h⟩ := bnd_ok h
  obtain ⟨_, hs6⟩ := scan_matrix9_ok h6
  subst hs6
  obtain ⟨u7, s7, h7, h⟩ := bnd_ok h
  obtain ⟨hp7, hd7, hi7⟩ := seekCur_ok h7
  obtain ⟨ntid, s8, h8, h⟩ := bnd_ok h
  obtain ⟨_, _, hs8⟩ := scan_uint32_ok h8
  subst hs8
  injection h with hpair
  subst hpair
  simp only [ipop_data, ipop_pos]
  refine ⟨?_, ?_, ?_⟩
  · exact (show s7.data = s5.data from hd7).trans (show s5.data = s.data from hd5)
  · have hp5x : (s5.pos : Int) =
        ((s.pos + 4 + (if vf.1 = 1 then 28 else 16) + 4 + 2 : Nat) : Int) + 10 := hp5
    have hp7x : (s7.pos : Int) = ((s5.pos + 36 : Nat) : Int) + 24 := hp7
    show s7.pos + 4 = s.pos + (if vf.1 = 1 then 112 else 100)
    by_cases hv : vf.1 = 1
    · rw [if_pos hv] at hp5x
      rw [if_pos hv]
      omega
    · rw [if_neg hv] at hp5x
      rw [if_neg hv]
      omega
  · intro hge
    refine ipop_indent_succ ?_ hge
    exact (show s7.indent = s5.indent from hi7).trans
      (show s5.indent = s.indent + 1 from hi5)

/-- A successful `scan_mdhd` consumes exactly 36 bytes when the decoded
version is 1 and exactly 24 bytes otherwise, leaves the file unchanged,
and (from a non-negative counter) restores the indentation level. -/
theorem scan_mdhd_spec {remaining : Int} {s : St} {out : ISOBMFF.MdhdInfo × St}
    (h : ISOBMFF.scan_mdhd remaining s = .ok out) :
    out.2.data = s.data ∧
    out.2.pos = s.pos + (if out.1.version = 1 then 36 else 24) ∧
    (0 ≤ s.indent → out.2.indent = s.indent) := by
  unfold ISOBMFF.scan_mdhd at h
  obtain ⟨vf, s1, h1, h⟩ := bnd_ok h
  obtain ⟨_, _, hs1⟩ := scan_fullbox_ok h1
  subst hs1
  obtain ⟨cmtd, s2, h2, h⟩ := bnd_ok h
  have hs2 := mvhdTimes_spec h2
  subst hs2
  obtain ⟨lang, s3, h3, h⟩ := bnd_ok h
  obtain ⟨_, _, hs3⟩ := scan_uint16_ok h3
  subst hs3
  obtain ⟨pre, s4, h4, h⟩ := bnd_ok h
  obtain ⟨_, _, hs4⟩ := scan_uint16_ok h4
  subst hs4
  injection h with hpair
  subst hpair
  simp only [ipop_data, ipop_pos]
  refine ⟨rfl, ?_, ?_⟩
  · show s.pos + 4 + (if vf.1 = 1 then 28 else 16) + 2 + 2 =
      s.pos + (if vf.1 = 1 then 36 else 24)
    by_cases hv : vf.1 = 1
    · rw [if_pos hv, if_pos hv]
    · rw [if_neg hv, if_neg hv]
  · intro hge
    exact ipop_indent_succ rfl hge

/-- A successful `scan_tkhd` consumes exactly 96 bytes when the decoded
version is 1 and exactly 84 bytes otherwise, leaves the file unchanged,
and (from a non-negative counter) restores the indentation level. -/
theorem scan_tkhd_spec {remaining : Int} {s : St} {out : ISOBMFF.TkhdInfo × St}
    (h : ISOBMFF.scan_tkhd remaining s = .ok out) :
    out.2.data = s.data ∧
    out.2.pos = s.pos + (if out.1.version = 1 then 96 else 84) ∧
    (0 ≤ s.indent → out.2.indent = s.indent) := by
  unfold ISOBMFF.scan_tkhd at h
  obtain ⟨vf, s1, h1, h⟩ := bnd_ok h
  obtain ⟨_, _, hs1⟩ := scan_fullbox_ok h1
  subst hs1
  obtain ⟨f, s2, h2, h⟩ := bnd_ok h
  have hs2 := tkhdTimes_spec h2
  subst hs2
  obtain ⟨u3, s3, h3, h⟩ := bnd_ok h
  obtain ⟨hp3, hd3, hi3⟩ := seekCur_ok h3
  obtain ⟨layer, s4, h4, h⟩ := bnd_ok h
  obtain ⟨_, hs4⟩ := scan_int16_ok h4
  subst hs4
  obtain ⟨ag, s5, h5, h⟩ := bnd_ok h
  obtain ⟨_, _, hs5⟩ := scan_uint16_ok h5
  subst hs5
  obtain ⟨vol, s6, h6, h⟩ := bnd_ok h
  obtain ⟨_, hs6⟩ := scan_int16_ok h6
  subst hs6
  obtain ⟨res, s7, h7, h⟩ := bnd_ok h
  obtain ⟨_, hs7⟩ := scan_int16_ok h7
  subst hs7
  obtain ⟨mat, s8, h8, h⟩ := bnd_ok h
  obtain ⟨_, hs8⟩ := scan_matrix9_ok h8
  subst hs8
  obtain ⟨w, s9, h9, h⟩ := bnd_ok h
  obtain ⟨_, hs9⟩ := scan_int32_ok h9
  subst hs9
  obtain ⟨hgt, s10, h10, h⟩ := bnd_ok h
  obtain ⟨_, hs10⟩ := scan_int32_ok h10
  subst hs10
  injection h with hpair
  subst hpair
  simp only [ipop_data, ipop_pos]
  refine ⟨?_, ?_, ?_⟩
  · exact show s3.data = s.data from hd3
  · have hp3x : (s3.pos : Int) =
        ((s.pos + 4 + (if vf.1 = 1 then 32 else 20) : Nat) : Int) + 8 := hp3
    show s3.pos + 2 + 2 + 2 + 2 + 36 + 4 + 4 =
      s.pos + (if vf.1 = 1 then 96 else 84)
    by_cases hv : vf.1 = 1
    · rw [if_pos hv] at hp3x
      rw [if_pos hv]
      omega
    · rw [if_neg hv] at hp3x
      rw [if_neg hv]
      omega
  · intro hge
    refine ipop_indent_succ ?_ hge
    exact show s3.indent = s.indent + 1 from hi3

/-- The `scan_string` loop never changes the file or the indentation
counter. -/
theorem scan_stringAux_st : ∀ (f : Nat) {s : St} {out : List Nat × St},
    ISOBMFF.scan_stringAux f s = .ok out →
    out.2.data = s.data ∧ out.2.indent = s.indent := by
  intro f
  induction f with
  | zero =>
    intro s out h
    exact absurd h (by simp [ISOBMFF.scan_stringAux])
  | succ n ih =>
    intro s out h
    unfold ISOBMFF.scan_stringAux at h
    split at h
    · split at h
      · injection h with hpair
        subst hpair
        exact ⟨rfl, rfl⟩
      · split at h
        · exact absurd h (by simp)
        · rename_i str s2 heq
          injection h with hpair
          subst hpair
          simpa using ih heq
    · exact absurd h (by simp)

/-- `scan_string` never changes the file or the indentation counter. -/
theorem scan_string_st {s : St} {out : List Nat × St}
    (h : ISOBMFF.scan_string s = .ok out) :
    out.2.data = s.data ∧ out.2.indent = s.indent := by
  unfold ISOBMFF.scan_string at h
  exact scan_stringAux_st _ h

/-- The compatible-brands loop never changes the file or the indentation
counter. -/
theorem ftypBrandsAux_st : ∀ (f : Nat) {remaining : Int} {s : St}
    {out : (List (List Nat) × Int) × St},
    ISOBMFF.ftypBrandsAux f remaining s = .ok out →
    out.2.data = s.data ∧ out.2.indent = s.indent := by
  intro f
  induction f with
  | zero =>
    intro remaining s out h
    exact absurd h (by simp [ISOBMFF.ftypBrandsAux])
  | succ n ih =>
    intro remaining s out h
    unfold ISOBMFF.ftypBrandsAux at h
    split at h
    · obtain ⟨brand, s1, h1, h⟩ := bnd_ok h
      obtain ⟨_, _, hs1⟩ := scan_fourcc_ok h1
      subst hs1
      split at h
      · exact absurd h (by simp)
      · rename_i brands rem s2 heq
        injection h with hpair
        subst hpair
        simpa using ih heq
    · injection h with hpair
      subst hpair
      exact ⟨rfl, rfl⟩

/-- `ftypBrands` never changes the file or the indentation counter. -/
theorem ftypBrands_st {remaining : Int} {s : St}
    {out : (List (List Nat) × Int) × St}
    (h : ISOBMFF.ftypBrands remaining s = .ok out) :
    out.2.data = s.data ∧ out.2.indent = s.indent := by
  unfold ISOBMFF.ftypBrands at h
  exact ftypBrandsAux_st _ h

/-- `scan_ftyp` never changes the file and, from a non-negative counter,
restores the indentation level. -/
theorem scan_ftyp_st {remaining : Int} {s : St} {out : ISOBMFF.FtypInfo × St}
    (h : ISOBMFF.scan_ftyp remaining s = .ok out) :
    out.2.data = s.data ∧ (0 ≤ s.indent → out.2.indent = s.indent) := by
  unfold ISOBMFF.scan_ftyp at h
  obtain ⟨mb, s1, h1, h⟩ := bnd_ok h
  obtain ⟨_, _, hs1⟩ := scan_fourcc_ok h1
  subst hs1
  obtain ⟨mv, s2, h2, h⟩ := bnd_ok h
  obtain ⟨_, _, hs2⟩ := scan_uint32_ok h2
  subst hs2
  obtain ⟨br, s3, h3, h⟩ := bnd_ok h
  obtain ⟨hd3, hi3⟩ := ftypBrands_st h3
  injection h with hpair
  subst hpair
  constructor
  · rw [ipop_data, hd3]
    rfl
  · intro h0
    refine ipop_indent_succ ?_ h0
    rw [hi3]
    rfl

/-- `fileReadInt` (Python `read` with an arbitrary count) only moves the
cursor. -/
theorem fileReadInt_st (n : Int) (s : St) :
    (fileReadInt n s).2.data = s.data ∧ (fileReadInt n s).2.indent = s.indent := by
  unfold fileReadInt fileRead
  split <;> exact ⟨rfl, rfl⟩

/-- `scan_hdlr` never changes the file and, from a non-negative counter,
restores the indentation level. -/
theorem scan_hdlr_st {remaining : Int} {s : St} {out : ISOBMFF.HdlrInfo × St}
    (h : ISOBMFF.scan_hdlr remaining s = .ok out) :
    out.2.data = s.data ∧ (0 ≤ s.indent → out.2.indent = s.indent) := by
  unfold ISOBMFF.scan_hdlr at h
  obtain ⟨vf, s1, h1, h⟩ := bnd_ok h
  obtain ⟨_, _, hs1⟩ := scan_fullbox_ok h1
  subst hs1
  obtain ⟨pre, s2, h2, h⟩ := bnd_ok h
  obtain ⟨_, _, hs2⟩ := scan_uint32_ok h2
  subst hs2
  obtain ⟨ht, s3, h3, h⟩ := bnd_ok h
  obtain ⟨_, _, hs3⟩ := scan_fourcc_ok h3
  subst hs3
  obtain ⟨u4, s4, h4, h⟩ := bnd_ok h
  obtain ⟨hp4, hd4, hi4⟩ := seekCur_ok h4
  injection h with hpair
  subst hpair
  obtain ⟨hrd, hri⟩ := fileReadInt_st
    (((ipush s).pos : Int) + remaining - (s4.pos : Int)) s4
  constructor
  · rw [ipop_data, hrd, hd4]
    rfl
  · intro h0
    refine ipop_indent_succ ?_ h0
    rw [hri, hi4]
    rfl

/-- `scan_vmhd` never changes the file and, from a non-negative counter,
restores the indentation level. -/
theorem scan_vmhd_st {remaining : Int} {s : St} {out : ISOBMFF.VmhdInfo × St}
    (h : ISOBMFF.scan_vmhd remaining s = .ok out) :
    out.2.data = s.data ∧ (0 ≤ s.indent → out.2.indent = s.indent) := by
  unfold ISOBMFF.scan_vmhd at h
  obtain ⟨vf, s1, h1, h⟩ := bnd_ok h
  obtain ⟨_, _, hs1⟩ := scan_fullbox_ok h1
  subst hs1
  obtain ⟨gm, s2, h2, h⟩ := bnd_ok h
  obtain ⟨_, _, hs2⟩ := scan_uint16_ok h2
  subst hs2
  obtain ⟨oc, s3, h3, h⟩ := bnd_ok h
  obtain ⟨_, hs3⟩ := scan_uint16_3_ok h3
  subst hs3
  injection h with hpair
  subst hpair
  exact ⟨by rw [ipop_data]; rfl, fun h0 => ipop_indent_succ rfl h0⟩

/-- `scan_smhd` never changes the file and, from a non-negative counter,
restores the indentation level. -/
theorem scan_smhd_st {remaining : Int} {s : St} {out : ISOBMFF.SmhdInfo × St}
    (h : ISOBMFF.scan_smhd remaining s = .ok out) :
    out.2.data = s.data ∧ (0 ≤ s.indent → out.2.indent = s.indent) := by
  unfold ISOBMFF.scan_smhd at h
  obtain ⟨vf, s1, h1, h⟩ := bnd_ok h
  obtain ⟨_, _, hs1⟩ := scan_fullbox_ok h1
  subst hs1
  obtain ⟨bal, s2, h2, h⟩ := bnd_ok h
  obtain ⟨_, hs2⟩ := scan_int16_ok h2
  subst hs2
  obtain ⟨res, s3, h3, h⟩ := bnd_ok h
  obtain ⟨_, _, hs3⟩ := scan_uint16_ok h3
  subst hs3
  injection h with hpair
  subst hpair
  exact ⟨by rw [ipop_data]; rfl, fun h0 => ipop_indent_succ rfl h0⟩

/-- `scan_hmhd` never changes the file and, from a non-negative counter,
restores the indentation level. -/
theorem scan_hmhd_st {remaining : Int} {s : St} {out : ISOBMFF.HmhdInfo × St}
    (h : ISOBMFF.scan_hmhd remaining s = .ok out) :
    out.2.data = s.data ∧ (0 ≤ s.indent → out.2.indent = s.indent) := by
  unfold ISOBMFF.scan_hmhd at h
  obtain ⟨vf, s1, h1, h⟩ := bnd_ok h
  obtain ⟨_, _, hs1⟩ := scan_fullbox_ok h1
  subst hs1
  obtain ⟨a, s2, h2, h⟩ := bnd_ok h
  obtain ⟨_, _, hs2⟩ := scan_uint16_ok h2
  subst hs2
  obtain ⟨b, s3, h3, h⟩ := bnd_ok h
  obtain ⟨_, _, hs3⟩ := scan_uint16_ok h3
  subst hs3
  obtain ⟨c, s4, h4, h⟩ := bnd_ok h
  obtain ⟨_, _, hs4⟩ := scan_uint32_ok h4
  subst hs4
  obtain ⟨d, s5, h5, h⟩ := bnd_ok h
  obtain ⟨_, _, hs5⟩ := scan_uint32_ok h5
  subst hs5
  obtain ⟨e, s6, h6, h⟩ := bnd_ok h
  obtain ⟨_, _, hs6⟩ := scan_uint32_ok h6
  subst hs6
  injection h with hpair
  subst hpair
  exact ⟨by rw [ipop_data]; rfl, fun h0 => ipop_indent_succ rfl h0⟩

/-- `scan_nmhd` never changes the file and, from a non-negative counter,
restores the indentation level. -/
theorem scan_nmhd_st {remaining : Int} {s : St} {out : ISOBMFF.NmhdInfo × St}
    (h : ISOBMFF.scan_nmhd remaining s = .ok out) :
    out.2.data = s.data ∧ (0 ≤ s.indent → out.2.indent = s.indent) := by
  unfold ISOBMFF.scan_nmhd at h
  obtain ⟨vf, s1, h1, h⟩ := bnd_ok h
  obtain ⟨_, _, hs1⟩ := scan_fullbox_ok h1
  subst hs1
  injection h with hpair
  subst hpair
  exact ⟨by rw [ipop_data]; rfl, fun h0 => ipop_indent_succ rfl h0⟩

/-- The `elst` entry loop preserves the file and, from a non-negative
counter, the indentation level (each entry is bracketed by its own
push/pop). -/
theorem elstEntries_st : ∀ {n version : Nat} {s : St}
    {out : List ISOBMFF.ElstEntry × St},
    ISOBMFF.elstEntries n version s = .ok out →
    out.2.data = s.data ∧ (0 ≤ s.indent → out.2.indent = s.indent) := by
  intro n
  induction n with
  | zero =>
    intro version s out h
    unfold ISOBMFF.elstEntries at h
    injection h with hpair
    subst hpair
    exact ⟨rfl, fun _ => rfl⟩
  | succ m ih =>
    intro version s out h
    unfold ISOBMFF.elstEntries at h
    obtain ⟨sdmt, s1, h1, h⟩ := bnd_ok h
    obtain ⟨mri, s2, h2, h⟩ := bnd_ok h
    obtain ⟨_, hs2⟩ := scan_int16_ok h2
    subst hs2
    obtain ⟨mrf, s3, h3, h⟩ := bnd_ok h
    obtain ⟨_, hs3⟩ := scan_int16_ok h3
    subst hs3
    have hs1 : s1.data = s.data ∧ s1.indent = s.indent + 1 := by
      split at h1
      · obtain ⟨sd, sa, ha, h1⟩ := bnd_ok h1
        obtain ⟨_, _, hsa⟩ := scan_uint64_ok ha
        subst hsa
        obtain ⟨mt, sb, hb, h1⟩ := bnd_ok h1
        obtain ⟨_, hsb⟩ := scan_int64_ok hb
        subst hsb
        injection h1 with hpair1
        injection hpair1 with hv1 hst1
        subst hst1
        exact ⟨rfl, rfl⟩
      · obtain ⟨sd, sa, ha, h1⟩ := bnd_ok h1
        obtain ⟨_, _, hsa⟩ := scan_uint32_ok ha
        subst hsa
        obtain ⟨mt, sb, hb, h1⟩ := bnd_ok h1
        obtain ⟨_, hsb⟩ := scan_int32_ok hb
        subst hsb
        injection h1 with hpair1
        injection hpair1 with hv1 hst1
        subst hst1
        exact ⟨rfl, rfl⟩
    split at h
    · exact absurd h (by simp)
    · rename_i entries s4 heq
      injection h with hpair
      subst hpair
      have heq2 : ISOBMFF.elstEntries m version
          (ipop { data := s1.data, pos := s1.pos + 2 + 2, indent := s1.indent }) =
          .ok (entries, s4) := heq
      obtain ⟨hd4, hi4⟩ := ih heq2
      constructor
      · show s4.data = s.data
        rw [hd4, ipop_data]
        exact hs1.1
      · intro h0
        have hip :
            (ipop { data := s1.data, pos := s1.pos + 2 + 2, indent := s1.indent } : St).indent
              = s.indent :=
          ipop_indent_succ hs1.2 h0
        show s4.indent = s.indent
        rw [hi4 (by rw [hip]; exact h0), hip]

/-- `scan_elst` never changes the file and, from a non-negative counter,
restores the indentation level. -/
theorem scan_elst_st {remaining : Int} {s : St} {out : ISOBMFF.ElstInfo × St}
    (h : ISOBMFF.scan_elst remaining s = .ok out) :
    out.2.data = s.data ∧ (0 ≤ s.indent → out.2.indent = s.indent) := by
  unfold ISOBMFF.scan_elst at h
  obtain ⟨vf, s1, h1, h⟩ := bnd_ok h
  obtain ⟨_, _, hs1⟩ := scan_fullbox_ok h1
  subst hs1
  obtain ⟨cnt, s2, h2, h⟩ := bnd_ok h
  obtain ⟨_, _, hs2⟩ := scan_uint32_ok h2
  subst hs2
  obtain ⟨entries, s3, h3, h⟩ := bnd_ok h
  obtain ⟨hd3, hi3⟩ := elstEntries_st h3
  injection h with hpair
  subst hpair
  constructor
  · rw [ipop_data, hd3]
    rfl
  · intro h0
    refine ipop_indent_succ ?_ h0
    rw [hi3 (by simp [ipush]; omega)]
    rfl

/-- `scan_url_` never changes the file and, from a non-negative counter,
restores the indentation level. -/
theorem scan_url_st {remaining : Int} {s : St} {out : ISOBMFF.UrlInfo × St}
    (h : ISOBMFF.scan_url_ remaining s = .ok out) :
    out.2.data = s.data ∧ (0 ≤ s.indent → out.2.indent = s.indent) := by
  unfold ISOBMFF.scan_url_ at h
  obtain ⟨vf, s1, h1, h⟩ := bnd_ok h
  obtain ⟨_, _, hs1⟩ := scan_fullbox_ok h1
  subst hs1
  split at h
  · injection h with hpair
    subst hpair
    exact ⟨by rw [ipop_data]; rfl, fun h0 => ipop_indent_succ rfl h0⟩
  · obtain ⟨loc, s2, h2, h⟩ := bnd_ok h
    obtain ⟨hd2, hi2⟩ := scan_string_st h2
    injection h with hpair
    subst hpair
    constructor
    · rw [ipop_data, hd2]
      rfl
    · intro h0
      refine ipop_indent_succ ?_ h0
      rw [hi2]
      rfl

/-- `scan_urn_` never changes the file and, from a non-negative counter,
restores the indentation level. -/
theorem scan_urn_st {remaining : Int} {s : St} {out : ISOBMFF.UrnInfo × St}
    (h : ISOBMFF.scan_urn_ remaining s = .ok out) :
    out.2.data = s.data ∧ (0 ≤ s.indent → out.2.indent = s.indent) := by
  unfold ISOBMFF.scan_urn_ at h
  obtain ⟨vf, s1, h1, h⟩ := bnd_ok h
  obtain ⟨_, _, hs1⟩ := scan_fullbox_ok h1
  subst hs1
  obtain ⟨nm, s2, h2, h⟩ := bnd_ok h
  obtain ⟨hd2, hi2⟩ := scan_string_st h2
  obtain ⟨loc, s3, h3, h⟩ := bnd_ok h
  obtain ⟨hd3, hi3⟩ := scan_string_st h3
  injection h with hpair
  subst hpair
  constructor
  · rw [ipop_data, hd3, hd2]
    rfl
  · intro h0
    refine ipop_indent_succ ?_ h0
    rw [hi3, hi2]
    rfl

/-- The `udta` child loop preserves the file and the indentation
counter. -/
theorem udtaLoop_st : ∀ (fuel : Nat) {chunkend : Int} {s s' : St},
    ISOBMFF.udtaLoop fuel chunkend s = .ok s' →
    s'.data = s.data ∧ s'.indent = s.indent := by
  intro fuel
  induction fuel with
  | zero =>
    intro chunkend s s' h
    exact absurd h (by simp [ISOBMFF.udtaLoop])
  | succ n ih =>
    intro chunkend s s' h
    unfold ISOBMFF.udtaLoop at h
    split at h
    · split at h
      · injection h with hx
        subst hx
        exact ⟨rfl, rfl⟩
      · exact absurd h (by simp)
      · rename_i r s1 heqbox
        obtain ⟨u, s2, hseek, h⟩ := bnd_ok h
        obtain ⟨_, hd2, hi2⟩ := seekCur_ok hseek
        obtain ⟨hd1, hi1, _⟩ := scan_box_spec heqbox
        obtain ⟨hd, hi⟩ := ih h
        exact ⟨by rw [hd, hd2, hd1], by rw [hi, hi2, hi1]⟩
    · injection h with hx
      subst hx
      exact ⟨rfl, rfl⟩

/-- `scan_udta` never changes the file and, from a non-negative counter,
restores the indentation level. -/
theorem scan_udta_st {fuel : Nat} {remaining : Int} {s s' : St}
    (h : ISOBMFF.scan_udta fuel remaining s = .ok s') :
    s'.data = s.data ∧ (0 ≤ s.indent → s'.indent = s.indent) := by
  unfold ISOBMFF.scan_udta at h
  obtain ⟨s1, hloop, h⟩ := bndU_ok h
  injection h with hx
  subst hx
  obtain ⟨hd, hi⟩ := udtaLoop_st _ hloop
  constructor
  · rw [ipop_data, hd]
    rfl
  · intro h0
    refine ipop_indent_succ ?_ h0
    rw [hi]
    rfl

/-- The `stbl` child loop preserves the file and the indentation
counter. -/
theorem stblLoop_st : ∀ (fuel : Nat) {chunkend : Int} {s s' : St},
    ISOBMFF.stblLoop fuel chunkend s = .ok s' →
    s'.data = s.data ∧ s'.indent = s.indent := by
  intro fuel
  induction fuel with
  | zero =>
    intro chunkend s s' h
    exact absurd h (by simp [ISOBMFF.stblLoop])
  | succ n ih =>
    intro chunkend s s' h
    unfold ISOBMFF.stblLoop at h
    split at h
    · split at h
      · injection h with hx
        subst hx
        exact ⟨rfl, rfl⟩
      · exact absurd h (by simp)
      · rename_i r s1 heqbox
        obtain ⟨u, s2, hseek, h⟩ := bnd_ok h
        obtain ⟨_, hd2, hi2⟩ := seekCur_ok hseek
        obtain ⟨hd1, hi1, _⟩ := scan_box_spec heqbox
        obtain ⟨hd, hi⟩ := ih h
        exact ⟨by rw [hd, hd2, hd1], by rw [hi, hi2, hi1]⟩
    · injection h with hx
      subst hx
      exact ⟨rfl, rfl⟩

/-- `scan_stbl` never changes the file and, from a non-negative counter,
restores the indentation level. -/
theorem scan_stbl_st {fuel : Nat} {remaining : Int} {s s' : St}
    (h : ISOBMFF.scan_stbl fuel remaining s = .ok s') :
    s'.data = s.data ∧ (0 ≤ s.indent → s'.indent = s.indent) := by
  unfold ISOBMFF.scan_stbl at h
  obtain ⟨s1, hloop, h⟩ := bndU_ok h
  injection h with hx
  subst hx
  obtain ⟨hd, hi⟩ := stblLoop_st _ hloop
  constructor
  · rw [ipop_data, hd]
    rfl
  · intro h0
    refine ipop_indent_succ ?_ h0
    rw [hi]
    rfl

/-- The `dref` child loop preserves the file and the indentation
counter (from a non-negative counter). -/
theorem drefLoop_st : ∀ (fuel : Nat) {chunkend : Int} {s s' : St},
    ISOBMFF.drefLoop fuel chunkend s = .ok s' → 0 ≤ s.indent →
    s'.data = s.data ∧ s'.indent = s.indent := by
  intro fuel
  induction fuel with
  | zero =>
    intro chunkend s s' h h0
    exact absurd h (by simp [ISOBMFF.drefLoop])
  | succ n ih =>
    intro chunkend s s' h h0
    unfold ISOBMFF.drefLoop at h
    split at h
    · split at h
      · injection h with hx
        subst hx
        exact ⟨rfl, rfl⟩
      · exact absurd h (by simp)
      · rename_i r s1 heqbox
        obtain ⟨hd1, hi1, _⟩ := scan_box_spec heqbox
        have h01 : 0 ≤ s1.indent := by rw [hi1]; exact h0
        split at h
        · obtain ⟨v, s2, hc, h⟩ := bnd_ok h
          have hd2 : s2.data = s1.data := (scan_url_st hc).1
          have hi2 : s2.indent = s1.indent := (scan_url_st hc).2 h01
          obtain ⟨hd, hi⟩ := ih h (by rw [hi2, hi1]; exact h0)
          exact ⟨by rw [hd, hd2, hd1], by rw [hi, hi2, hi1]⟩
        · split at h
          · obtain ⟨v, s2, hc, h⟩ := bnd_ok h
            have hd2 : s2.data = s1.data := (scan_urn_st hc).1
            have hi2 : s2.indent = s1.indent := (scan_urn_st hc).2 h01
            obtain ⟨hd, hi⟩ := ih h (by rw [hi2, hi1]; exact h0)
            exact ⟨by rw [hd, hd2, hd1], by rw [hi, hi2, hi1]⟩
          · obtain ⟨u, s2, hseek, h⟩ := bnd_ok h
            obtain ⟨_, hd2, hi2⟩ := seekCur_ok hseek
            obtain ⟨hd, hi⟩ := ih h (by rw [hi2, hi1]; exact h0)
            exact ⟨by rw [hd, hd2, hd1], by rw [hi, hi2, hi1]⟩
    · injection h with hx
      subst hx
      exact ⟨rfl, rfl⟩

/-- `scan_dref` never changes the file and, from a non-negative counter,
restores the indentation level. -/
theorem scan_dref_st {fuel : Nat} {remaining : Int} {s s' : St}
    (h : ISOBMFF.scan_dref fuel remaining s = .ok s') (h0 : 0 ≤ s.indent) :
    s'.data = s.data ∧ s'.indent = s.indent := by
  unfold ISOBMFF.scan_dref at h
  obtain ⟨vf, s1, h1, h⟩ := bnd_ok h
  obtain ⟨_, _, hs1⟩ := scan_fullbox_ok h1
  subst hs1
  obtain ⟨ec, s2, h2, h⟩ := bnd_ok h
  obtain ⟨_, _, hs2⟩ := scan_uint32_ok h2
  subst hs2
  obtain ⟨s3, hloop, h⟩ := bndU_ok h
  injection h with hx
  subst hx
  obtain ⟨hd, hi⟩ := drefLoop_st _ hloop (show (0 : Int) ≤ s.indent + 1 by omega)
  constructor
  · rw [ipop_data, hd]
    rfl
  · exact ipop_indent_succ (by rw [hi]; rfl) h0

/-- The `dinf` child loop preserves the file and the indentation
counter (from a non-negative counter). -/
theorem dinfLoop_st : ∀ (fuel : Nat) {chunkend : Int} {s s' : St},
    ISOBMFF.dinfLoop fuel chunkend s = .ok s' → 0 ≤ s.indent →
    s'.data = s.data ∧ s'.indent = s.indent := by
  intro fuel
  induction fuel with
  | zero =>
    intro chunkend s s' h h0
    exact absurd h (by simp [ISOBMFF.dinfLoop])
  | succ n ih =>
    intro chunkend s s' h h0
    unfold ISOBMFF.dinfLoop at h
    split at h
    · split at h
      · injection h with hx
        subst hx
        exact ⟨rfl, rfl⟩
      · exact absurd h (by simp)
      · rename_i r s1 heqbox
        obtain ⟨hd1, hi1, _⟩ := scan_box_spec heqbox
        have h01 : 0 ≤ s1.indent := by rw [hi1]; exact h0
        split at h
        · obtain ⟨s2, hc, h⟩ := bndU_ok h
          obtain ⟨hd2, hi2⟩ := scan_dref_st hc h01
          obtain ⟨hd, hi⟩ := ih h (by rw [hi2, hi1]; exact h0)
          exact ⟨by rw [hd, hd2, hd1], by rw [hi, hi2, hi1]⟩
        · obtain ⟨u, s2, hseek, h⟩ := bnd_ok h
          obtain ⟨_, hd2, hi2⟩ := seekCur_ok hseek
          obtain ⟨hd, hi⟩ := ih h (by rw [hi2, hi1]; exact h0)
          exact ⟨by rw [hd, hd2, hd1], by rw [hi, hi2, hi1]⟩
    · injection h with hx
      subst hx
      exact ⟨rfl, rfl⟩

/-- `scan_dinf` never changes the file and, from a non-negative counter,
restores the indentation level. -/
theorem scan_dinf_st {fuel : Nat} {remaining : Int} {s s' : St}
    (h : ISOBMFF.scan_dinf fuel remaining s = .ok s') (h0 : 0 ≤ s.indent) :
    s'.data = s.data ∧ s'.indent = s.indent := by
  unfold ISOBMFF.scan_dinf at h
  obtain ⟨s1, hloop, h⟩ := bndU_ok h
  injection h with hx
  subst hx
  obtain ⟨hd, hi⟩ := dinfLoop_st _ hloop (show (0 : Int) ≤ s.indent + 1 by omega)
  constructor
  · rw [ipop_data, hd]
    rfl
  · exact ipop_indent_succ (by rw [hi]; rfl) h0

/-- The `edts` child loop preserves the file and the indentation
counter (from a non-negative counter). -/
theorem edtsLoop_st : ∀ (fuel : Nat) {chunkend : Int} {s s' : St},
    ISOBMFF.edtsLoop fuel chunkend s = .ok s' → 0 ≤ s.indent →
    s'.data = s.data ∧ s'.indent = s.indent := by
  intro fuel
  induction fuel with
  | zero =>
    intro chunkend s s' h h0
    exact absurd h (by simp [ISOBMFF.edtsLoop])
  | succ n ih =>
    intro chunkend s s' h h0
    unfold ISOBMFF.edtsLoop at h
    split at h
    · split at h
      · injection h with hx
        subst hx
        exact ⟨rfl, rfl⟩
      · exact absurd h (by simp)
      · rename_i r s1 heqbox
        obtain ⟨hd1, hi1, _⟩ := scan_box_spec heqbox
        have h01 : 0 ≤ s1.indent := by rw [hi1]; exact h0
        split at h
        · obtain ⟨v, s2, hc, h⟩ := bnd_ok h
          have hd2 : s2.data = s1.data := (scan_elst_st hc).1
          have hi2 : s2.indent = s1.indent := (scan_elst_st hc).2 h01
          obtain ⟨hd, hi⟩ := ih h (by rw [hi2, hi1]; exact h0)
          exact ⟨by rw [hd, hd2, hd1], by rw [hi, hi2, hi1]⟩
        · obtain ⟨u, s2, hseek, h⟩ := bnd_ok h
          obtain ⟨_, hd2, hi2⟩ := seekCur_ok hseek
          obtain ⟨hd, hi⟩ := ih h (by rw [hi2, hi1]; exact h0)
          exact ⟨by rw [hd, hd2, hd1], by rw [hi, hi2, hi1]⟩
    · injection h with hx
      subst hx
      exact ⟨rfl, rfl⟩

/-- `scan_edts` never changes the file and, from a non-negative counter,
restores the indentation level. -/
theorem scan_edts_st {fuel : Nat} {remaining : Int} {s s' : St}
    (h : ISOBMFF.scan_edts fuel remaining s = .ok s') (h0 : 0 ≤ s.indent) :
    s'.data = s.data ∧ s'.indent = s.indent := by
  unfold ISOBMFF.scan_edts at h
  obtain ⟨s1, hloop, h⟩ := bndU_ok h
  injection h with hx
  subst hx
  obtain ⟨hd, hi⟩ := edtsLoop_st _ hloop (show (0 : Int) ≤ s.indent + 1 by omega)
  constructor
  · rw [ipop_data, hd]
    rfl
  · exact ipop_indent_succ (by rw [hi]; rfl) h0

/-- The `minf` child loop preserves the file and the indentation
counter (from a non-negative counter). -/
theorem minfLoop_st : ∀ (fuel : Nat) {chunkend : Int} {s s' : St},
    ISOBMFF.minfLoop fuel chunkend s = .ok s' → 0 ≤ s.indent →
    s'.data = s.data ∧ s'.indent = s.indent := by
  intro fuel
  induction fuel with
  | zero =>
    intro chunkend s s' h h0
    exact absurd h (by simp [ISOBMFF.minfLoop])
  | succ n ih =>
    intro chunkend s s' h h0
    unfold ISOBMFF.minfLoop at h
    split at h
    · split at h
      · injection h with hx
        subst hx
        exact ⟨rfl, rfl⟩
      · exact absurd h (by simp)
      · rename_i r s1 heqbox
        obtain ⟨hd1, hi1, _⟩ := scan_box_spec heqbox
        have h01 : 0 ≤ s1.indent := by rw [hi1]; exact h0
        split at h
        · obtain ⟨s2, hc, h⟩ := bndU_ok h
          obtain ⟨hd2, hi2⟩ := scan_dinf_st hc h01
          obtain ⟨hd, hi⟩ := ih h (by rw [hi2, hi1]; exact h0)
          exact ⟨by rw [hd, hd2, hd1], by rw [hi, hi2, hi1]⟩
        · split at h
          · obtain ⟨s2, hc, h⟩ := bndU_ok h
            obtain ⟨hd2, hi2⟩ := scan_stbl_st hc
            obtain ⟨hd, hi⟩ := ih h (by rw [hi2 h01, hi1]; exact h0)
            exact ⟨by rw [hd, hd2, hd1], by rw [hi, hi2 h01, hi1]⟩
          · split at h
            · obtain ⟨v, s2, hc, h⟩ := bnd_ok h
              have hd2 : s2.data = s1.data := (scan_vmhd_st hc).1
              have hi2 : s2.indent = s1.indent := (scan_vmhd_st hc).2 h01
              obtain ⟨hd, hi⟩ := ih h (by rw [hi2, hi1]; exact h0)
              exact ⟨by rw [hd, hd2, hd1], by rw [hi, hi2, hi1]⟩
            · split at h
              · obtain ⟨v, s2, hc, h⟩ := bnd_ok h
                have hd2 : s2.data = s1.data := (scan_smhd_st hc).1
                have hi2 : s2.indent = s1.indent := (scan_smhd_st hc).2 h01
                obtain ⟨hd, hi⟩ := ih h (by rw [hi2, hi1]; exact h0)
                exact ⟨by rw [hd, hd2, hd1], by rw [hi, hi2, hi1]⟩
              · split at h
                · obtain ⟨v, s2, hc, h⟩ := bnd_ok h
                  have hd2 : s2.data = s1.data := (scan_hmhd_st hc).1
                  have hi2 : s2.indent = s1.indent := (scan_hmhd_st hc).2 h01
                  obtain ⟨hd, hi⟩ := ih h (by rw [hi2, hi1]; exact h0)
                  exact ⟨by rw [hd, hd2, hd1], by rw [hi, hi2, hi1]⟩
                · split at h
                  · obtain ⟨v, s2, hc, h⟩ := bnd_ok h
                    have hd2 : s2.data = s1.data := (scan_nmhd_st hc).1
                    have hi2 : s2.indent = s1.indent := (scan_nmhd_st hc).2 h01
                    obtain ⟨hd, hi⟩ := ih h (by rw [hi2, hi1]; exact h0)
                    exact ⟨by rw [hd, hd2, hd1], by rw [hi, hi2, hi1]⟩
                  · obtain ⟨u, s2, hseek, h⟩ := bnd_ok h
                    obtain ⟨_, hd2, hi2⟩ := seekCur_ok hseek
                    obtain ⟨hd, hi⟩ := ih h (by rw [hi2, hi1]; exact h0)
                    exact ⟨by rw [hd, hd2, hd1], by rw [hi, hi2, hi1]⟩
    · injection h with hx
      subst hx
      exact ⟨rfl, rfl⟩

/-- `scan_minf` never changes the file and, from a non-negative counter,
restores the indentation level. -/
theorem scan_minf_st {fuel : Nat} {remaining : Int} {s s' : St}
    (h : ISOBMFF.scan_minf fuel remaining s = .ok s') (h0 : 0 ≤ s.indent) :
    s'.data = s.data ∧ s'.indent = s.indent := by
  unfold ISOBMFF.scan_minf at h
  obtain ⟨s1, hloop, h⟩ := bndU_ok h
  injection h with hx
  subst hx
  obtain ⟨hd, hi⟩ := minfLoop_st _ hloop (show (0 : Int) ≤ s.indent + 1 by omega)
  constructor
  · rw [ipop_data, hd]
    rfl
  · exact ipop_indent_succ (by rw [hi]; rfl) h0

/-- The `mdia` child loop preserves the file and the indentation
counter (from a non-negative counter). -/
theorem mdiaLoop_st : ∀ (fuel : Nat) {chunkend : Int} {s s' : St},
    ISOBMFF.mdiaLoop fuel chunkend s = .ok s' → 0 ≤ s.indent →
    s'.data = s.data ∧ s'.indent = s.indent := by
  intro fuel
  induction fuel with
  | zero =>
    intro chunkend s s' h h0
    exact absurd h (by simp [ISOBMFF.mdiaLoop])
  | succ n ih =>
    intro chunkend s s' h h0
    unfold ISOBMFF.mdiaLoop at h
    split at h
    · split at h
      · injection h with hx
        subst hx
        exact ⟨rfl, rfl⟩
      · exact absurd h (by simp)
      · rename_i r s1 heqbox
        obtain ⟨hd1, hi1, _⟩ := scan_box_spec heqbox
        have h01 : 0 ≤ s1.indent := by rw [hi1]; exact h0
        split at h
        · obtain ⟨v, s2, hc, h⟩ := bnd_ok h
          have hd2 : s2.data = s1.data := (scan_mdhd_spec hc).1
          have hi2 : s2.indent = s1.indent := (scan_mdhd_spec hc).2.2 h01
          obtain ⟨hd, hi⟩ := ih h (by rw [hi2, hi1]; exact h0)
          exact ⟨by rw [hd, hd2, hd1], by rw [hi, hi2, hi1]⟩
        · split at h
          · obtain ⟨v, s2, hc, h⟩ := bnd_ok h
            have hd2 : s2.data = s1.data := (scan_hdlr_st hc).1
            have hi2 : s2.indent = s1.indent := (scan_hdlr_st hc).2 h01
            obtain ⟨hd, hi⟩ := ih h (by rw [hi2, hi1]; exact h0)
            exact ⟨by rw [hd, hd2, hd1], by rw [hi, hi2, hi1]⟩
          · split at h
            · obtain ⟨s2, hc, h⟩ := bndU_ok h
              obtain ⟨hd2, hi2⟩ := scan_minf_st hc h01
              obtain ⟨hd, hi⟩ := ih h (by rw [hi2, hi1]; exact h0)
              exact ⟨by rw [hd, hd2, hd1], by rw [hi, hi2, hi1]⟩
            · obtain ⟨u, s2, hseek, h⟩ := bnd_ok h
              obtain ⟨_, hd2, hi2⟩ := seekCur_ok hseek
              obtain ⟨hd, hi⟩ := ih h (by rw [hi2, hi1]; exact h0)
              exact ⟨by rw [hd, hd2, hd1], by rw [hi, hi2, hi1]⟩
    · injection h with hx
      subst hx
      exact ⟨rfl, rfl⟩

/-- `scan_mdia` never changes the file and, from a non-negative counter,
restores the indentation level. -/
theorem scan_mdia_st {fuel : Nat} {remaining : Int} {s s' : St}
    (h : ISOBMFF.scan_mdia fuel remaining s = .ok s') (h0 : 0 ≤ s.indent) :
    s'.data = s.data ∧ s'.indent = s.indent := by
  unfold ISOBMFF.scan_mdia at h
  obtain ⟨s1, hloop, h⟩ := bndU_ok h
  injection h with hx
  subst hx
  obtain ⟨hd, hi⟩ := mdiaLoop_st _ hloop (show (0 : Int) ≤ s.indent + 1 by omega)
  constructor
  · rw [ipop_data, hd]
    rfl
  · exact ipop_indent_succ (by rw [hi]; rfl) h0

/-- The `trak` child loop preserves the file and the indentation
counter (from a non-negative counter). -/
theorem trakLoop_st : ∀ (fuel : Nat) {chunkend : Int} {s s' : St},
    ISOBMFF.trakLoop fuel chunkend s = .ok s' → 0 ≤ s.indent →
    s'.data = s.data ∧ s'.indent = s.indent := by
  intro fuel
  induction fuel with
  | zero =>
    intro chunkend s s' h h0
    exact absurd h (by simp [ISOBMFF.trakLoop])
  | succ n ih =>
    intro chunkend s s' h h0
    unfold ISOBMFF.trakLoop at h
    split at h
    · split at h
      · injection h with hx
        subst hx
        exact ⟨rfl, rfl⟩
      · exact absurd h (by simp)
      · rename_i r s1 heqbox
        obtain ⟨hd1, hi1, _⟩ := scan_box_spec heqbox
        have h01 : 0 ≤ s1.indent := by rw [hi1]; exact h0
        split at h
        · obtain ⟨v, s2, hc, h⟩ := bnd_ok h
          have hd2 : s2.data = s1.data := (scan_tkhd_spec hc).1
          have hi2 : s2.indent = s1.indent := (scan_tkhd_spec hc).2.2 h01
          obtain ⟨hd, hi⟩ := ih h (by rw [hi2, hi1]; exact h0)
          exact ⟨by rw [hd, hd2, hd1], by rw [hi, hi2, hi1]⟩
        · split at h
          · obtain ⟨s2, hc, h⟩ := bndU_ok h
            obtain ⟨hd2, hi2⟩ := scan_mdia_st hc h01
            obtain ⟨hd, hi⟩ := ih h (by rw [hi2, hi1]; exact h0)
            exact ⟨by rw [hd, hd2, hd1], by rw [hi, hi2, hi1]⟩
          · split at h
            · obtain ⟨s2, hc, h⟩ := bndU_ok h
              obtain ⟨hd2, hi2⟩ := scan_edts_st hc h01
              obtain ⟨hd, hi⟩ := ih h (by rw [hi2, hi1]; exact h0)
              exact ⟨by rw [hd, hd2, hd1], by rw [hi, hi2, hi1]⟩
            · split at h
              · obtain ⟨s2, hc, h⟩ := bndU_ok h
                obtain ⟨hd2, hi2⟩ := scan_udta_st hc
                obtain ⟨hd, hi⟩ := ih h (by rw [hi2 h01, hi1]; exact h0)
                exact ⟨by rw [hd, hd2, hd1], by rw [hi, hi2 h01, hi1]⟩
              · obtain ⟨u, s2, hseek, h⟩ := bnd_ok h
                obtain ⟨_, hd2, hi2⟩ := seekCur_ok hseek
                obtain ⟨hd, hi⟩ := ih h (by rw [hi2, hi1]; exact h0)
                exact ⟨by rw [hd, hd2, hd1], by rw [hi, hi2, hi1]⟩
    · injection h with hx
      subst hx
      exact ⟨rfl, rfl⟩

/-- `scan_trak` never changes the file and, from a non-negative counter,
restores the indentation level. -/
theorem scan_trak_st {fuel : Nat} {remaining : Int} {s s' : St}
    (h : ISOBMFF.scan_trak fuel remaining s = .ok s') (h0 : 0 ≤ s.indent) :
    s'.data = s.data ∧ s'.indent = s.indent := by
  unfold ISOBMFF.scan_trak at h
  obtain ⟨s1, hloop, h⟩ := bndU_ok h
  injection h with hx
  subst hx
  obtain ⟨hd, hi⟩ := trakLoop_st _ hloop (show (0 : Int) ≤ s.indent + 1 by omega)
  constructor
  · rw [ipop_data, hd]
    rfl
  · exact ipop_indent_succ (by rw [hi]; rfl) h0

/-- The `moov` child loop preserves the file and the indentation
counter (from a non-negative counter). -/
theorem moovLoop_st : ∀ (fuel : Nat) {chunkend : Int} {s s' : St},
    ISOBMFF.moovLoop fuel chunkend s = .ok s' → 0 ≤ s.indent →
    s'.data = s.data ∧ s'.indent = s.indent := by
  intro fuel
  induction fuel with
  | zero =>
    intro chunkend s s' h h0
    exact absurd h (by simp [ISOBMFF.moovLoop])
  | succ n ih =>
    intro chunkend s s' h h0
    unfold ISOBMFF.moovLoop at h
    split at h
    · split at h
      · injection h with hx
        subst hx
        exact ⟨rfl, rfl⟩
      · exact absurd h (by simp)
      · rename_i r s1 heqbox
        obtain ⟨hd1, hi1, _⟩ := scan_box_spec heqbox
        have h01 : 0 ≤ s1.indent := by rw [hi1]; exact h0
        split at h
        · obtain ⟨v, s2, hc, h⟩ := bnd_ok h
          have hd2 : s2.data = s1.data := (scan_mvhd_spec hc).1
          have hi2 : s2.indent = s1.indent := (scan_mvhd_spec hc).2.2 h01
          obtain ⟨hd, hi⟩ := ih h (by rw [hi2, hi1]; exact h0)
          exact ⟨by rw [hd, hd2, hd1], by rw [hi, hi2, hi1]⟩
        · split at h
          · obtain ⟨s2, hc, h⟩ := bndU_ok h
            obtain ⟨hd2, hi2⟩ := scan_trak_st hc h01
            obtain ⟨hd, hi⟩ := ih h (by rw [hi2, hi1]; exact h0)
            exact ⟨by rw [hd, hd2, hd1], by rw [hi, hi2, hi1]⟩
          · split at h
            · obtain ⟨s2, hc, h⟩ := bndU_ok h
              obtain ⟨hd2, hi2⟩ := scan_udta_st hc
              obtain ⟨hd, hi⟩ := ih h (by rw [hi2 h01, hi1]; exact h0)
              exact ⟨by rw [hd, hd2, hd1], by rw [hi, hi2 h01, hi1]⟩
            · obtain ⟨u, s2, hseek, h⟩ := bnd_ok h
              obtain ⟨_, hd2, hi2⟩ := seekCur_ok hseek
              obtain ⟨hd, hi⟩ := ih h (by rw [hi2, hi1]; exact h0)
              exact ⟨by rw [hd, hd2, hd1], by rw [hi, hi2, hi1]⟩
    · injection h with hx
      subst hx
      exact ⟨rfl, rfl⟩

/-- `scan_moov` never changes the file and, from a non-negative counter,
restores the indentation level. -/
theorem scan_moov_st {fuel : Nat} {remaining : Int} {s s' : St}
    (h : ISOBMFF.scan_moov fuel remaining s = .ok s') (h0 : 0 ≤ s.indent) :
    s'.data = s.data ∧ s'.indent = s.indent := by
  unfold ISOBMFF.scan_moov at h
  obtain ⟨s1, hloop, h⟩ := bndU_ok h
  injection h with hx
  subst hx
  obtain ⟨hd, hi⟩ := moovLoop_st _ hloop (show (0 : Int) ≤ s.indent + 1 by omega)
  constructor
  · rw [ipop_data, hd]
    rfl
  · exact ipop_indent_succ (by rw [hi]; rfl) h0

/-- The top-level loop of `scan` preserves the file and the indentation
counter (from a non-negative counter). -/
theorem scanLoop_st : ∀ (fuel : Nat) {acc : List ISOBMFF.TraceEntry}
    {cnt : Nat} {s : St} {out : (List ISOBMFF.TraceEntry × Nat) × St},
    ISOBMFF.scanLoop fuel acc cnt s = .ok out → 0 ≤ s.indent →
    out.2.data = s.data ∧ out.2.indent = s.indent := by
  intro fuel
  induction fuel with
  | zero =>
    intro acc cnt s out h h0
    exact absurd h (by simp [ISOBMFF.scanLoop])
  | succ n ih =>
    intro acc cnt s out h h0
    unfold ISOBMFF.scanLoop at h
    split at h
    · split at h
      · injection h with hx
        subst hx
        exact ⟨rfl, rfl⟩
      · exact absurd h (by simp)
      · rename_i r s1 heqbox
        obtain ⟨hd1, hi1, _⟩ := scan_box_spec heqbox
        have h01 : 0 ≤ s1.indent := by rw [hi1]; exact h0
        split at h
        · obtain ⟨v, s2, hc, h⟩ := bnd_ok h
          have hd2 : s2.data = s1.data := (scan_ftyp_st hc).1
          have hi2 : s2.indent = s1.indent := (scan_ftyp_st hc).2 h01
          obtain ⟨hd, hi⟩ := ih h (by rw [hi2, hi1]; exact h0)
          exact ⟨by rw [hd, hd2, hd1], by rw [hi, hi2, hi1]⟩
        · split at h
          · obtain ⟨s2, hc, h⟩ := bndU_ok h
            obtain ⟨hd2, hi2⟩ := scan_moov_st hc h01
            obtain ⟨hd, hi⟩ := ih h (by rw [hi2, hi1]; exact h0)
            exact ⟨by rw [hd, hd2, hd1], by rw [hi, hi2, hi1]⟩
          · obtain ⟨u, s2, hseek, h⟩ := bnd_ok h
            obtain ⟨_, hd2, hi2⟩ := seekCur_ok hseek
            obtain ⟨hd, hi⟩ := ih h (by rw [hi2, hi1]; exact h0)
            exact ⟨by rw [hd, hd2, hd1], by rw [hi, hi2, hi1]⟩
    · injection h with hx
      subst hx
      exact ⟨rfl, rfl⟩

/-- `scan` preserves the file and, from a non-negative counter, the
indentation level. -/
theorem scan_st {fuel : Nat} {s : St}
    {out : (List ISOBMFF.TraceEntry × Nat) × St}
    (h : ISOBMFF.scan fuel s = .ok out) (h0 : 0 ≤ s.indent) :
    out.2.data = s.data ∧ out.2.indent = s.indent := by
  unfold ISOBMFF.scan at h
  obtain ⟨hd, hi⟩ :=
    scanLoop_st _ h (show (0 : Int) ≤ ({ s with pos := 0 } : St).indent from h0)
  exact ⟨hd, hi⟩

/-- Big-endian decode of the 4-byte encoding is the identity below
`2^32`. -/
theorem beNat_encU32 {n : Nat} (h : n < 4294967296) :
    beNat (encU32 n) = n := by
  unfold beNat encU32
  simp only [List.foldl]
  omega

/-- `encU32` always yields 4 bytes. -/
theorem encU32_length (n : Nat) : (encU32 n).length = 4 := rfl

/-- The length of a serialized box. -/
theorem mkBox_length {tag payload : List Nat} (h : tag.length = 4) :
    (mkBox tag payload).length = payload.length + 8 := by
  simp [mkBox, encU32, h]
  omega

/-- `readExact` at a position that is the boundary between `pre` and a
block `mid` of exactly the requested width returns `mid`. -/
theorem readExact_at {n : Nat} {pre mid post : List Nat} {pp : Nat}
    {ind : Int} (hm : mid.length = n) (hp : pp = pre.length) :
    readExact n ⟨pre ++ (mid ++ post), pp, ind⟩ =
      .ok (mid, ⟨pre ++ (mid ++ post), pp + n, ind⟩) := by
  subst hp
  unfold readExact fileRead
  have hslice : ((pre ++ (mid ++ post)).drop pre.length).take n = mid := by
    rw [List.drop_left, ← hm, List.take_left]
  simp only [hslice, hm, if_pos]

/-- `scan_box` on a state positioned at a serialized box resolves the
declared size, the tag, and payload-length-many remaining bytes, leaving
the cursor 8 bytes further. -/
theorem scan_box_serial {pre tag payload post : List Nat} {pp : Nat}
    {ind : Int} (ht : tag.length = 4) (hb : payload.length + 8 < 4294967296)
    (hp : pp = pre.length) :
    ISOBMFF.scan_box ⟨pre ++ (mkBox tag payload ++ post), pp, ind⟩ =
      .ok ((((payload.length + 8 : Nat) : Int), tag, ((payload.length : Nat) : Int)),
           ⟨pre ++ (mkBox tag payload ++ post), pp + 8, ind⟩) := by
  subst hp
  have hdata : pre ++ (mkBox tag payload ++ post) =
      pre ++ (encU32 (payload.length + 8) ++ (tag ++ (payload ++ post))) := by
    simp [mkBox, List.append_assoc]
  have hdata2 : pre ++ (mkBox tag payload ++ post) =
      (pre ++ encU32 (payload.length + 8)) ++ (tag ++ (payload ++ post)) := by
    simp [mkBox, List.append_assoc]
  unfold ISOBMFF.scan_box
  have h1 : ISOBMFF.scan_uint32 ⟨pre ++ (mkBox tag payload ++ post), pre.length, ind⟩ =
      .ok (payload.length + 8,
        ⟨pre ++ (mkBox tag payload ++ post), pre.length + 4, ind⟩) := by
    unfold ISOBMFF.scan_uint32
    conv in readExact _ _ => rw [hdata]
    rw [readExact_at (encU32_length _) rfl]
    rw [← hdata]
    simp [bnd, beNat_encU32 hb]
  rw [h1]
  simp only [bnd]
  have h2 : ISOBMFF.scan_fourcc ⟨pre ++ (mkBox tag payload ++ post), pre.length + 4, ind⟩ =
      .ok (tag, ⟨pre ++ (mkBox tag payload ++ post), pre.length + 4 + 4, ind⟩) := by
    unfold ISOBMFF.scan_fourcc
    conv in readExact _ _ => rw [hdata2]
    rw [readExact_at ht (by simp [encU32])]
    rw [← hdata2]
  rw [h2]
  simp only [bnd]
  rw [if_neg (by omega), if_neg (by omega)]
  have e48 : pre.length + 4 + 4 = pre.length + 8 := by omega
  have hskip : ((payload.length + 8 : Nat) : Int) - 8 = ((payload.length : Nat) : Int) := by
    push_cast
    ring
  rw [e48, hskip]

/-- A relative seek by a natural count always succeeds and advances the
cursor by that count. -/
theorem seekCur_cast (m : Nat) (s : St) :
    seekCur ((m : Nat) : Int) s = .ok ((), { s with pos := s.pos + m }) := by
  unfold seekCur
  rw [if_pos (by omega)]
  have he : (((s.pos : Int)) + (m : Int)).toNat = s.pos + m := by omega
  rw [he]

/-- Python `read` with a non-negative count that fits in the file returns
exactly that many bytes from the cursor. -/
theorem fileReadInt_spec {n : Int} {s : St} (hn : 0 ≤ n)
    (hfit : (s.pos : Int) + n ≤ (s.data.length : Int)) :
    fileReadInt n s = ((s.data.drop s.pos).take n.toNat,
      { s with pos := s.pos + n.toNat }) := by
  unfold fileReadInt fileRead
  rw [if_neg (by omega)]
  have hl : ((s.data.drop s.pos).take n.toNat).length = n.toNat := by
    simp [List.length_take, List.length_drop]
    omega
  simp only [hl]

/-- Forward evaluation of a fixed-width read when the data from position
`q` onward starts with a block `p` and the read window lies inside `p`:
the read succeeds with the corresponding slice of `p`. -/
theorem readExact_peek {D p rest : List Nat} {q k n m : Nat} {ind : Int}
    (hq : D.drop q = p ++ rest) (hm : m = q + k) (hn : k + n ≤ p.length) :
    readExact n ⟨D, m, ind⟩ = .ok ((p.drop k).take n, ⟨D, m + n, ind⟩) := by
  have hdk : D.drop m = p.drop k ++ rest := by
    subst hm
    rw [← List.drop_drop, hq, List.drop_append_of_le_length (by omega)]
  simp only [readExact, fileRead]
  rw [hdk, List.take_append_of_le_length (by simp; omega)]
  have hl : ((p.drop k).take n).length = n := by simp; omega
  rw [if_pos hl, hl]

/-- Dropping the 8-byte header of a serialized box leaves its payload. -/
theorem mkBox_drop8 {tag payload : List Nat} (ht : tag.length = 4) :
    (mkBox tag payload).drop 8 = payload := by
  rw [show mkBox tag payload =
      (encU32 (payload.length + 8) ++ tag) ++ payload from by
        simp [mkBox, List.append_assoc],
      List.drop_left' (by simp [encU32_length, ht])]

/-- Forward evaluation of `scan_box` when the data from the cursor
onward starts with a serialized box: the header resolves to the box's
total size and tag, with `remaining` the payload length. -/
theorem scan_box_run {D rest tag payload : List Nat} {q : Nat} {ind : Int}
    (hq : D.drop q = mkBox tag payload ++ rest) (ht : tag.length = 4)
    (hb : payload.length + 8 < 4294967296) :
    ISOBMFF.scan_box ⟨D, q, ind⟩ =
      .ok ((((payload.length + 8 : Nat) : Int), tag,
            ((payload.length : Nat) : Int)), ⟨D, q + 8, ind⟩) := by
  have hqlen : q < D.length := by
    have := congrArg List.length hq
    simp [mkBox_length ht] at this
    omega
  have hD : D.take q ++ (mkBox tag payload ++ rest) = D := by
    rw [← hq]; exact List.take_append_drop q D
  have hp : q = (D.take q).length := by
    rw [List.length_take]; omega
  have := @scan_box_serial (D.take q) tag payload rest q ind ht hb hp
  rw [← hD]
  exact this

/-- The tag of a well-formed box is four bytes long. -/
theorem vtag_length {b : VBox} (hw : vwf b = true) : (vtag b).length = 4 := by
  cases b <;> simp [vtag, ISOBMFF.ftypTag, ISOBMFF.moovTag, ISOBMFF.mvhdTag,
    ISOBMFF.trakTag, ISOBMFF.udtaTag, ISOBMFF.tkhdTag, ISOBMFF.mdiaTag,
    ISOBMFF.edtsTag, ISOBMFF.mdhdTag, ISOBMFF.hdlrTag, ISOBMFF.minfTag,
    ISOBMFF.dinfTag, ISOBMFF.stblTag, ISOBMFF.vmhdTag, ISOBMFF.smhdTag,
    ISOBMFF.hmhdTag, ISOBMFF.nmhdTag, ISOBMFF.drefTag, ISOBMFF.urlTag,
    ISOBMFF.urnTag, ISOBMFF.elstTag]
  simp only [vwf, Bool.and_eq_true, beq_iff_eq] at hw
  exact hw.1.1

/-- The total size of a well-formed box fits in the plain 32-bit form. -/
theorem vwf_size {b : VBox} (hw : vwf b = true) :
    (vpayload b).length + 8 < 4294967296 := by
  cases b <;>
    simp only [vwf, vpayload, Bool.and_eq_true, beq_iff_eq,
      decide_eq_true_eq] at hw ⊢ <;>
    first
      | omega
      | (split at hw <;> omega)

/-- The serialized length of a box list, unfolded at a cons cell whose
head is well-formed. -/
theorem vserializeList_cons_length {b : VBox} {cs : List VBox}
    (hw : vwf b = true) :
    (vserializeList (b :: cs)).length =
      (8 + (vpayload b).length) + (vserializeList cs).length := by
  rw [show vserializeList (b :: cs) =
      mkBox (vtag b) (vpayload b) ++ vserializeList cs from rfl]
  simp [mkBox_length (vtag_length hw)]
  omega

/-- A relative seek by a literal non-negative amount. -/
theorem seekCur_lit {n : Int} (m : Nat) (s : St) (h : n.toNat = m)
    (hn : 0 ≤ n) : seekCur n s = .ok ((), { s with pos := s.pos + m }) := by
  unfold seekCur
  rw [if_pos (by omega)]
  have : ((s.pos : Int) + n).toNat = s.pos + m := by omega
  rw [this]

/-- Forward evaluation of `scan_uint32` inside a known data block. -/
theorem scan_uint32_run {D p rest : List Nat} {q m : Nat} (k : Nat)
    {ind : Int} (hq : D.drop q = p ++ rest) (hm : m = q + k)
    (hn : k + 4 ≤ p.length) :
    ISOBMFF.scan_uint32 ⟨D, m, ind⟩ =
      .ok (beNat ((p.drop k).take 4), ⟨D, m + 4, ind⟩) := by
  simp only [ISOBMFF.scan_uint32]
  rw [readExact_peek hq hm hn]
  rfl

/-- Forward evaluation of `scan_uint16` inside a known data block. -/
theorem scan_uint16_run {D p rest : List Nat} {q m : Nat} (k : Nat)
    {ind : Int} (hq : D.drop q = p ++ rest) (hm : m = q + k)
    (hn : k + 2 ≤ p.length) :
    ISOBMFF.scan_uint16 ⟨D, m, ind⟩ =
      .ok (beNat ((p.drop k).take 2), ⟨D, m + 2, ind⟩) := by
  simp only [ISOBMFF.scan_uint16]
  rw [readExact_peek hq hm hn]
  rfl

/-- Forward evaluation of `scan_uint64` inside a known data block. -/
theorem scan_uint64_run {D p rest : List Nat} {q m : Nat} (k : Nat)
    {ind : Int} (hq : D.drop q = p ++ rest) (hm : m = q + k)
    (hn : k + 8 ≤ p.length) :
    ISOBMFF.scan_uint64 ⟨D, m, ind⟩ =
      .ok (beNat ((p.drop k).take 8), ⟨D, m + 8, ind⟩) := by
  simp only [ISOBMFF.scan_uint64]
  rw [readExact_peek hq hm hn]
  rfl

/-- Forward evaluation of `scan_int16` inside a known data block. -/
theorem scan_int16_run {D p rest : List Nat} {q m : Nat} (k : Nat)
    {ind : Int} (hq : D.drop q = p ++ rest) (hm : m = q + k)
    (hn : k + 2 ≤ p.length) :
    ISOBMFF.scan_int16 ⟨D, m, ind⟩ =
      .ok (toSigned 65536 (beNat ((p.drop k).take 2)), ⟨D, m + 2, ind⟩) := by
  simp only [ISOBMFF.scan_int16]
  rw [readExact_peek hq hm hn]
  rfl

/-- Forward evaluation of `scan_int32` inside a known data block. -/
theorem scan_int32_run {D p rest : List Nat} {q m : Nat} (k : Nat)
    {ind : Int} (hq : D.drop q = p ++ rest) (hm : m = q + k)
    (hn : k + 4 ≤ p.length) :
    ISOBMFF.scan_int32 ⟨D, m, ind⟩ =
      .ok (toSigned 4294967296 (beNat ((p.drop k).take 4)),
           ⟨D, m + 4, ind⟩) := by
  simp only [ISOBMFF.scan_int32]
  rw [readExact_peek hq hm hn]
  rfl

/-- Forward evaluation of `scan_int64` inside a known data block. -/
theorem scan_int64_run {D p rest : List Nat} {q m : Nat} (k : Nat)
    {ind : Int} (hq : D.drop q = p ++ rest) (hm : m = q + k)
    (hn : k + 8 ≤ p.length) :
    ISOBMFF.scan_int64 ⟨D, m, ind⟩ =
      .ok (toSigned 18446744073709551616 (beNat ((p.drop k).take 8)),
           ⟨D, m + 8, ind⟩) := by
  simp only [ISOBMFF.scan_int64]
  rw [readExact_peek hq hm hn]
  rfl

/-- Forward evaluation of `scan_uint16_3` inside a known data block. -/
theorem scan_uint16_3_run {D p rest : List Nat} {q m : Nat} (k : Nat)
    {ind : Int} (hq : D.drop q = p ++ rest) (hm : m = q + k)
    (hn : k + 6 ≤ p.length) :
    ISOBMFF.scan_uint16_3 ⟨D, m, ind⟩ =
      .ok ((beNat (((p.drop k).take 6).take 2),
            beNat ((((p.drop k).take 6).drop 2).take 2),
            beNat (((p.drop k).take 6).drop 4)), ⟨D, m + 6, ind⟩) := by
  simp only [ISOBMFF.scan_uint16_3]
  rw [readExact_peek hq hm hn]
  rfl

/-- Forward evaluation of `scan_fourcc` inside a known data block. -/
theorem scan_fourcc_run {D p rest : List Nat} {q m : Nat} (k : Nat)
    {ind : Int} (hq : D.drop q = p ++ rest) (hm : m = q + k)
    (hn : k + 4 ≤ p.length) :
    ISOBMFF.scan_fourcc ⟨D, m, ind⟩ =
      .ok ((p.drop k).take 4, ⟨D, m + 4, ind⟩) := by
  simp only [ISOBMFF.scan_fourcc]
  exact readExact_peek hq hm hn

/-- Forward evaluation of `scan_matrix9` inside a known data block. -/
theorem scan_matrix9_run {D p rest : List Nat} {q m : Nat} (k : Nat)
    {ind : Int} (hq : D.drop q = p ++ rest) (hm : m = q + k)
    (hn : k + 36 ≤ p.length) :
    ISOBMFF.scan_matrix9 ⟨D, m, ind⟩ =
      .ok (int32List ((p.drop k).take 36), ⟨D, m + 36, ind⟩) := by
  simp only [ISOBMFF.scan_matrix9]
  rw [readExact_peek hq hm hn]
  rfl

/-- Forward evaluation of `scan_fullbox` inside a known data block. -/
theorem scan_fullbox_run {D p rest : List Nat} {q m : Nat} (k : Nat)
    {ind : Int} {rem : Int} (hq : D.drop q = p ++ rest) (hm : m = q + k)
    (hn : k + 4 ≤ p.length) :
    ISOBMFF.scan_fullbox rem ⟨D, m, ind⟩ =
      .ok ((beNat ((p.drop k).take 4) / 16777216 % 256,
            beNat ((p.drop k).take 4) % 16777216, rem - 4),
           ⟨D, m + 4, ind⟩) := by
  simp only [ISOBMFF.scan_fullbox]
  rw [scan_uint32_run k hq hm hn]
  rfl

/-- A read whose state image is known succeeds with some value. -/
theorem map_snd_ok {α : Type} {e : Except PyErr (α × St)} {s : St}
    (h : e.map (fun r => r.2) = .ok s) : ∃ v, e = .ok (v, s) := by
  cases e with
  | error e => simp [Except.map] at h
  | ok r =>
    simp [Except.map] at h
    exact ⟨r.1, by rw [← h]⟩

/-- Forward run of `scan_vmhd` on a well-formed `vmhd` payload laid out
at the cursor: it consumes exactly the payload and restores the indent. -/
theorem scan_vmhd_run {D p rest : List Nat} {q : Nat} {ind : Int}
    (rem : Int) (hq : D.drop q = p ++ rest)
    (hw : vwf (VBox.vmhdB p) = true) (hind : 0 ≤ ind) :
    ∃ out, ISOBMFF.scan_vmhd rem ⟨D, q, ind⟩ =
      .ok (out, ⟨D, q + p.length, ind⟩) := by
  have hp : p.length = 12 := by simpa [vwf] using hw
  apply map_snd_ok
  simp only [ISOBMFF.scan_vmhd, ipush]
  rw [scan_fullbox_run 0 hq (by omega) (by omega)]
  simp only [bnd]
  rw [scan_uint16_run 4 hq (by omega) (by omega)]
  simp only [bnd]
  rw [scan_uint16_3_run 6 hq (by omega) (by omega)]
  simp only [bnd]
  rw [show q + 4 + 2 + 6 = q + p.length from by omega,
      ipop_of_pos (by simp; omega)]
  simp [Except.map]

/-- A relative seek by a literal non-negative amount, on a literal
state. -/
theorem seekCur_run {n : Int} (m : Nat) {D : List Nat} {x : Nat} {i : Int}
    (h : n.toNat = m) (hn : 0 ≤ n) :
    seekCur n ⟨D, x, i⟩ = .ok ((), ⟨D, x + m, i⟩) := by
  unfold seekCur
  rw [if_pos (by simp; omega)]
  simp
  omega

/-- Forward run of `scan_smhd` on a well-formed `smhd` payload laid out
at the cursor. -/
theorem scan_smhd_run {D p rest : List Nat} {q : Nat} {ind : Int}
    (rem : Int) (hq : D.drop q = p ++ rest)
    (hw : vwf (VBox.smhdB p) = true) (hind : 0 ≤ ind) :
    ∃ out, ISOBMFF.scan_smhd rem ⟨D, q, ind⟩ =
      .ok (out, ⟨D, q + p.length, ind⟩) := by
  have hp : p.length = 8 := by simpa [vwf] using hw
  apply map_snd_ok
  simp only [ISOBMFF.scan_smhd, ipush]
  rw [scan_fullbox_run 0 hq (by omega) (by omega)]
  simp only [bnd]
  rw [scan_int16_run 4 hq (by omega) (by omega)]
  simp only [bnd]
  rw [scan_uint16_run 6 hq (by omega) (by omega)]
  simp only [bnd]
  rw [show q + 4 + 2 + 2 = q + p.length from by omega,
      ipop_of_pos (by simp; omega)]
  simp [Except.map]

/-- Forward run of `scan_hmhd` on a well-formed `hmhd` payload laid out
at the cursor. -/
theorem scan_hmhd_run {D p rest : List Nat} {q : Nat} {ind : Int}
    (rem : Int) (hq : D.drop q = p ++ rest)
    (hw : vwf (VBox.hmhdB p) = true) (hind : 0 ≤ ind) :
    ∃ out, ISOBMFF.scan_hmhd rem ⟨D, q, ind⟩ =
      .ok (out, ⟨D, q + p.length, ind⟩) := by
  have hp : p.length = 20 := by simpa [vwf] using hw
  apply map_snd_ok
  simp only [ISOBMFF.scan_hmhd, ipush]
  rw [scan_fullbox_run 0 hq (by omega) (by omega)]
  simp only [bnd]
  rw [scan_uint16_run 4 hq (by omega) (by omega)]
  simp only [bnd]
  rw [scan_uint16_run 6 hq (by omega) (by omega)]
  simp only [bnd]
  rw [scan_uint32_run 8 hq (by omega) (by omega)]
  simp only [bnd]
  rw [scan_uint32_run 12 hq (by omega) (by omega)]
  simp only [bnd]
  rw [scan_uint32_run 16 hq (by omega) (by omega)]
  simp only [bnd]
  rw [show q + 4 + 2 + 2 + 4 + 4 + 4 = q + p.length from by omega,
      ipop_of_pos (by simp; omega)]
  simp [Except.map]

/-- Forward run of `scan_nmhd` on a well-formed `nmhd` payload laid out
at the cursor. -/
theorem scan_nmhd_run {D p rest : List Nat} {q : Nat} {ind : Int}
    (rem : Int) (hq : D.drop q = p ++ rest)
    (hw : vwf (VBox.nmhdB p) = true) (hind : 0 ≤ ind) :
    ∃ out, ISOBMFF.scan_nmhd rem ⟨D, q, ind⟩ =
      .ok (out, ⟨D, q + p.length, ind⟩) := by
  have hp : p.length = 4 := by simpa [vwf] using hw
  apply map_snd_ok
  simp only [ISOBMFF.scan_nmhd, ipush]
  rw [scan_fullbox_run 0 hq (by omega) (by omega)]
  simp only [bnd]
  rw [show q + 4 = q + p.length from by omega,
      ipop_of_pos (by simp; omega)]
  simp [Except.map]

/-- Forward run of the version-1 time reads of `scan_mvhd`/`scan_mdhd`
inside a known data block. -/
theorem mvhdTimes_one_run (k : Nat) {D p rest : List Nat} {q x : Nat}
    {i : Int} (hq : D.drop q = p ++ rest) (hx : x = q + k)
    (hn : k + 28 ≤ p.length) :
    ∃ v, ISOBMFF.mvhdTimes 1 ⟨D, x, i⟩ = .ok (v, ⟨D, x + 28, i⟩) := by
  apply map_snd_ok
  show Except.map (fun r => r.2)
    (bnd (scan_uint64 ⟨D, x, i⟩) fun c s =>
     bnd (scan_uint64 s) fun mo s =>
     bnd (scan_uint32 s) fun t s =>
     bnd (scan_uint64 s) fun d s => .ok ((c, mo, t, d), s)) =
    .ok ⟨D, x + 28, i⟩
  rw [scan_uint64_run k hq hx (by omega)]
  simp only [bnd]
  rw [scan_uint64_run (k + 8) hq (by omega) (by omega)]
  simp only [bnd]
  rw [scan_uint32_run (k + 16) hq (by omega) (by omega)]
  simp only [bnd]
  rw [scan_uint64_run (k + 20) hq (by omega) (by omega)]
  simp only [bnd]
  rw [show x + 8 + 8 + 4 + 8 = x + 28 from by omega]
  simp [Except.map]

/-- Forward run of the 32-bit time reads of `scan_mvhd`/`scan_mdhd` for
any version other than 1, inside a known data block. -/
theorem mvhdTimes_ne_run (k : Nat) {version : Nat} {D p rest : List Nat}
    {q x : Nat} {i : Int} (hv : ¬ version = 1) (hq : D.drop q = p ++ rest)
    (hx : x = q + k) (hn : k + 16 ≤ p.length) :
    ∃ v, ISOBMFF.mvhdTimes version ⟨D, x, i⟩ = .ok (v, ⟨D, x + 16, i⟩) := by
  apply map_snd_ok
  simp only [ISOBMFF.mvhdTimes, if_neg hv]
  rw [scan_uint32_run k hq hx (by omega)]
  simp only [bnd]
  rw [scan_uint32_run (k + 4) hq (by omega) (by omega)]
  simp only [bnd]
  rw [scan_uint32_run (k + 8) hq (by omega) (by omega)]
  simp only [bnd]
  rw [scan_uint32_run (k + 12) hq (by omega) (by omega)]
  simp only [bnd]
  rw [show x + 4 + 4 + 4 + 4 = x + 16 from by omega]
  simp [Except.map]

/-- Forward run of the version-1 reads of `scan_tkhd` inside a known
data block. -/
theorem tkhdTimes_one_run (k : Nat) {D p rest : List Nat} {q x : Nat}
    {i : Int} (hq : D.drop q = p ++ rest) (hx : x = q + k)
    (hn : k + 32 ≤ p.length) :
    ∃ v, ISOBMFF.tkhdTimes 1 ⟨D, x, i⟩ = .ok (v, ⟨D, x + 32, i⟩) := by
  apply map_snd_ok
  show Except.map (fun r => r.2)
    (bnd (scan_uint64 ⟨D, x, i⟩) fun c s =>
     bnd (scan_uint64 s) fun mo s =>
     bnd (scan_uint32 s) fun tid s =>
     bnd (scan_uint32 s) fun res s =>
     bnd (scan_uint64 s) fun d s => .ok ((c, mo, tid, res, d), s)) =
    .ok ⟨D, x + 32, i⟩
  rw [scan_uint64_run k hq hx (by omega)]
  simp only [bnd]
  rw [scan_uint64_run (k + 8) hq (by omega) (by omega)]
  simp only [bnd]
  rw [scan_uint32_run (k + 16) hq (by omega) (by omega)]
  simp only [bnd]
  rw [scan_uint32_run (k + 20) hq (by omega) (by omega)]
  simp only [bnd]
  rw [scan_uint64_run (k + 24) hq (by omega) (by omega)]
  simp only [bnd]
  rw [show x + 8 + 8 + 4 + 4 + 8 = x + 32 from by omega]
  simp [Except.map]

/-- Forward run of the 32-bit reads of `scan_tkhd` for any version other
than 1, inside a known data block. -/
theorem tkhdTimes_ne_run (k : Nat) {version : Nat} {D p rest : List Nat}
    {q x : Nat} {i : Int} (hv : ¬ version = 1) (hq : D.drop q = p ++ rest)
    (hx : x = q + k) (hn : k + 20 ≤ p.length) :
    ∃ v, ISOBMFF.tkhdTimes version ⟨D, x, i⟩ = .ok (v, ⟨D, x + 20, i⟩) := by
  apply map_snd_ok
  simp only [ISOBMFF.tkhdTimes, if_neg hv]
  rw [scan_uint32_run k hq hx (by omega)]
  simp only [bnd]
  rw [scan_uint32_run (k + 4) hq (by omega) (by omega)]
  simp only [bnd]
  rw [scan_uint32_run (k + 8) hq (by omega) (by omega)]
  simp only [bnd]
  rw [scan_uint32_run (k + 12) hq (by omega) (by omega)]
  simp only [bnd]
  rw [scan_uint32_run (k + 16) hq (by omega) (by omega)]
  simp only [bnd]
  rw [show x + 4 + 4 + 4 + 4 + 4 = x + 20 from by omega]
  simp [Except.map]

/-- Forward run of `scan_mvhd` on a well-formed `mvhd` payload laid out
at the cursor: whichever version the payload's first byte selects, the
decoder consumes exactly the payload and restores the indent. -/
theorem scan_mvhd_run {D p rest : List Nat} {q : Nat} {ind : Int}
    (rem : Int) (hq : D.drop q = p ++ rest)
    (hw : vwf (VBox.mvhdB p) = true) (hind : 0 ≤ ind) :
    ∃ out, ISOBMFF.scan_mvhd rem ⟨D, q, ind⟩ =
      .ok (out, ⟨D, q + p.length, ind⟩) := by
  have hlen : p.length = if versionOf p = 1 then 112 else 100 := by
    simpa [vwf] using hw
  have hp4 : 4 ≤ p.length := by rw [hlen]; split <;> omega
  apply map_snd_ok
  simp only [ISOBMFF.scan_mvhd, ipush]
  rw [scan_fullbox_run 0 hq (by omega) (by omega)]
  simp only [bnd, List.drop_zero]
  rw [show beNat (p.take 4) / 16777216 % 256 = versionOf p from rfl]
  by_cases hv : versionOf p = 1
  · have hp : p.length = 112 := by rw [hlen, if_pos hv]
    rw [hv]
    obtain ⟨v, hvt⟩ := mvhdTimes_one_run 4 hq rfl (i := ind + 1)
      (by omega : 4 + 28 ≤ p.length)
    rw [hvt]
    simp only [bnd]
    rw [scan_uint32_run 32 hq (by omega) (by omega)]
    simp only [bnd]
    rw [scan_uint16_run 36 hq (by omega) (by omega)]
    simp only [bnd]
    rw [seekCur_run 10 (by decide) (by decide)]
    simp only [bnd]
    rw [scan_matrix9_run 48 hq (by omega) (by omega)]
    simp only [bnd]
    rw [seekCur_run 24 (by decide) (by decide)]
    simp only [bnd]
    rw [scan_uint32_run 108 hq (by omega) (by omega)]
    simp only [bnd]
    rw [show q + 4 + 28 + 4 + 2 + 10 + 36 + 24 + 4 = q + p.length
          from by omega,
        ipop_of_pos (by simp; omega)]
    simp [Except.map]
  · have hp : p.length = 100 := by rw [hlen, if_neg hv]
    obtain ⟨v, hvt⟩ := mvhdTimes_ne_run 4 hv hq rfl (i := ind + 1)
      (by omega : 4 + 16 ≤ p.length)
    rw [hvt]
    simp only [bnd]
    rw [scan_uint32_run 20 hq (by omega) (by omega)]
    simp only [bnd]
    rw [scan_uint16_run 24 hq (by omega) (by omega)]
    simp only [bnd]
    rw [seekCur_run 10 (by decide) (by decide)]
    simp only [bnd]
    rw [scan_matrix9_run 36 hq (by omega) (by omega)]
    simp only [bnd]
    rw [seekCur_run 24 (by decide) (by decide)]
    simp only [bnd]
    rw [scan_uint32_run 96 hq (by omega) (by omega)]
    simp only [bnd]
    rw [show q + 4 + 16 + 4 + 2 + 10 + 36 + 24 + 4 = q + p.length
          from by omega,
        ipop_of_pos (by simp; omega)]
    simp [Except.map]

/-- Forward run of `scan_mdhd` on a well-formed `mdhd` payload laid out
at the cursor. -/
theorem scan_mdhd_run {D p rest : List Nat} {q : Nat} {ind : Int}
    (rem : Int) (hq : D.drop q = p ++ rest)
    (hw : vwf (VBox.mdhdB p) = true) (hind : 0 ≤ ind) :
    ∃ out, ISOBMFF.scan_mdhd rem ⟨D, q, ind⟩ =
      .ok (out, ⟨D, q + p.length, ind⟩) := by
  have hlen : p.length = if versionOf p = 1 then 36 else 24 := by
    simpa [vwf] using hw
  have hp4 : 4 ≤ p.length := by rw [hlen]; split <;> omega
  apply map_snd_ok
  simp only [ISOBMFF.scan_mdhd, ipush]
  rw [scan_fullbox_run 0 hq (by omega) (by omega)]
  simp only [bnd, List.drop_zero]
  rw [show beNat (p.take 4) / 16777216 % 256 = versionOf p from rfl]
  by_cases hv : versionOf p = 1
  · have hp : p.length = 36 := by rw [hlen, if_pos hv]
    rw [hv]
    obtain ⟨v, hvt⟩ := mvhdTimes_one_run 4 hq rfl (i := ind + 1)
      (by omega : 4 + 28 ≤ p.length)
    rw [hvt]
    simp only [bnd]
    rw [scan_uint16_run 32 hq (by omega) (by omega)]
    simp only [bnd]
    rw [scan_uint16_run 34 hq (by omega) (by omega)]
    simp only [bnd]
    rw [show q + 4 + 28 + 2 + 2 = q + p.length from by omega,
        ipop_of_pos (by simp; omega)]
    simp [Except.map]
  · have hp : p.length = 24 := by rw [hlen, if_neg hv]
    obtain ⟨v, hvt⟩ := mvhdTimes_ne_run 4 hv hq rfl (i := ind + 1)
      (by omega : 4 + 16 ≤ p.length)
    rw [hvt]
    simp only [bnd]
    rw [scan_uint16_run 20 hq (by omega) (by omega)]
    simp only [bnd]
    rw [scan_uint16_run 22 hq (by omega) (by omega)]
    simp only [bnd]
    rw [show q + 4 + 16 + 2 + 2 = q + p.length from by omega,
        ipop_of_pos (by simp; omega)]
    simp [Except.map]

/-- Forward run of `scan_tkhd` on a well-formed `tkhd` payload laid out
at the cursor. -/
theorem scan_tkhd_run {D p rest : List Nat} {q : Nat} {ind : Int}
    (rem : Int) (hq : D.drop q = p ++ rest)
    (hw : vwf (VBox.tkhdB p) = true) (hind : 0 ≤ ind) :
    ∃ out, ISOBMFF.scan_tkhd rem ⟨D, q, ind⟩ =
      .ok (out, ⟨D, q + p.length, ind⟩) := by
  have hlen : p.length = if versionOf p = 1 then 96 else 84 := by
    simpa [vwf] using hw
  have hp4 : 4 ≤ p.length := by rw [hlen]; split <;> omega
  apply map_snd_ok
  simp only [ISOBMFF.scan_tkhd, ipush]
  rw [scan_fullbox_run 0 hq (by omega) (by omega)]
  simp only [bnd, List.drop_zero]
  rw [show beNat (p.take 4) / 16777216 % 256 = versionOf p from rfl]
  by_cases hv : versionOf p = 1
  · have hp : p.length = 96 := by rw [hlen, if_pos hv]
    rw [hv]
    obtain ⟨v, hvt⟩ := tkhdTimes_one_run 4 hq rfl (i := ind + 1)
      (by omega : 4 + 32 ≤ p.length)
    rw [hvt]
    simp only [bnd]
    rw [seekCur_run 8 (by decide) (by decide)]
    simp only [bnd]
    rw [scan_int16_run 44 hq (by omega) (by omega)]
    simp only [bnd]
    rw [scan_uint16_run 46 hq (by omega) (by omega)]
    simp only [bnd]
    rw [scan_int16_run 48 hq (by omega) (by omega)]
    simp only [bnd]
    rw [scan_int16_run 50 hq (by omega) (by omega)]
    simp only [bnd]
    rw [scan_matrix9_run 52 hq (by omega) (by omega)]
    simp only [bnd]
    rw [scan_int32_run 88 hq (by omega) (by omega)]
    simp only [bnd]
    rw [scan_int32_run 92 hq (by omega) (by omega)]
    simp only [bnd]
    rw [show q + 4 + 32 + 8 + 2 + 2 + 2 + 2 + 36 + 4 + 4 = q + p.length
          from by omega,
        ipop_of_pos (by simp; omega)]
    simp [Except.map]
  · have hp : p.length = 84 := by rw [hlen, if_neg hv]
    obtain ⟨v, hvt⟩ := tkhdTimes_ne_run 4 hv hq rfl (i := ind + 1)
      (by omega : 4 + 20 ≤ p.length)
    rw [hvt]
    simp only [bnd]
    rw [seekCur_run 8 (by decide) (by decide)]
    simp only [bnd]
    rw [scan_int16_run 32 hq (by omega) (by omega)]
    simp only [bnd]
    rw [scan_uint16_run 34 hq (by omega) (by omega)]
    simp only [bnd]
    rw [scan_int16_run 36 hq (by omega) (by omega)]
    simp only [bnd]
    rw [scan_int16_run 38 hq (by omega) (by omega)]
    simp only [bnd]
    rw [scan_matrix9_run 40 hq (by omega) (by omega)]
    simp only [bnd]
    rw [scan_int32_run 76 hq (by omega) (by omega)]
    simp only [bnd]
    rw [scan_int32_run 80 hq (by omega) (by omega)]
    simp only [bnd]
    rw [show q + 4 + 20 + 8 + 2 + 2 + 2 + 2 + 36 + 4 + 4 = q + p.length
          from by omega,
        ipop_of_pos (by simp; omega)]
    simp [Except.map]

/-- The byte `read(1)[0]` sees at a cursor whose suffix is known. -/
theorem getD_of_drop {D : List Nat} {q c : Nat} {t : List Nat}
    (h : D.drop q = c :: t) : D.getD q 0 = c := by
  have h1 : D[q]? = some c := by rw [← List.head?_drop, h]; rfl
  rw [List.getD_eq_getElem?_getD, h1]; rfl

/-- Forward run of the `scan_string` byte loop over a terminated string
at the cursor: it consumes the string including its terminator and
returns it without the terminator. -/
theorem scan_stringAux_run : ∀ (l : List Nat) (f : Nat) {D rest : List Nat}
    {q : Nat} {i : Int}, isCStr l = true → D.drop q = l ++ rest →
    l.length ≤ f →
    ISOBMFF.scan_stringAux f ⟨D, q, i⟩ =
      .ok (l.dropLast, ⟨D, q + l.length, i⟩) := by
  intro l
  induction l with
  | nil => intro f D rest q i hc; simp [isCStr] at hc
  | cons c l' IH =>
    intro f D rest q i hc hq hf
    obtain ⟨g, rfl⟩ : ∃ g, f = g + 1 := ⟨f - 1, by simp at hf ⊢; omega⟩
    have hqlt : q < D.length := by
      have := congrArg List.length hq
      simp at this
      omega
    have hgd : D.getD q 0 = c := getD_of_drop (by simpa using hq)
    simp only [ISOBMFF.scan_stringAux]
    rw [if_pos hqlt, hgd]
    cases l' with
    | nil =>
      have hc0 : c = 0 := by simpa [isCStr] using hc
      rw [if_pos hc0]
      simp
    | cons d t =>
      have hcc : c ≠ 0 ∧ isCStr (d :: t) = true := by
        simpa [isCStr] using hc
      rw [if_neg hcc.1]
      have hq' : D.drop (q + 1) = (d :: t) ++ rest := by
        rw [← List.drop_drop, hq]; rfl
      rw [IH g hcc.2 hq' (by simp at hf ⊢; omega)]
      simp [List.dropLast_cons_of_ne_nil]
      omega

/-- Forward run of `scan_string` over a terminated string at the
cursor. -/
theorem scan_string_run {D l rest : List Nat} {q : Nat} {i : Int}
    (hc : isCStr l = true) (hq : D.drop q = l ++ rest) :
    ISOBMFF.scan_string ⟨D, q, i⟩ =
      .ok (l.dropLast, ⟨D, q + l.length, i⟩) := by
  apply scan_stringAux_run l _ hc hq
  show l.length ≤ D.length - q + 1
  have := congrArg List.length hq
  simp at this
  omega

/-- A double terminated string splits into two terminated strings. -/
theorem isTwoCStr_split : ∀ (l : List Nat), isTwoCStr l = true →
    ∃ l1 l2, l = l1 ++ l2 ∧ isCStr l1 = true ∧ isCStr l2 = true := by
  intro l
  induction l with
  | nil => intro h; simp [isTwoCStr] at h
  | cons c t IH =>
    intro h
    by_cases hc : c = 0
    · refine ⟨[c], t, by simp, by simp [isCStr, hc], ?_⟩
      simpa [isTwoCStr, hc] using h
    · have ht : isTwoCStr t = true := by simpa [isTwoCStr, hc] using h
      obtain ⟨l1, l2, hsplit, hc1, hc2⟩ := IH ht
      refine ⟨c :: l1, l2, by simp [hsplit], ?_, hc2⟩
      cases l1 with
      | nil => simp [isCStr] at hc1
      | cons d t' => simpa [isCStr, hc] using hc1

/-- Forward run of `scan_urn_` on a well-formed `urn ` payload laid out
at the cursor. -/
theorem scan_urn_run {D p rest : List Nat} {q : Nat} {ind : Int}
    (rem : Int) (hq : D.drop q = p ++ rest)
    (hw : vwf (VBox.urnB p) = true) (hind : 0 ≤ ind) :
    ∃ out, ISOBMFF.scan_urn_ rem ⟨D, q, ind⟩ =
      .ok (out, ⟨D, q + p.length, ind⟩) := by
  have hw' : (4 ≤ p.length ∧ p.length + 8 < 4294967296) ∧
      isTwoCStr (p.drop 4) = true := by
    simpa [vwf, Bool.and_eq_true, decide_eq_true_eq] using hw
  obtain ⟨l1, l2, hsplit, hc1, hc2⟩ := isTwoCStr_split _ hw'.2
  have hlen : p.length = 4 + l1.length + l2.length := by
    have := congrArg List.length hsplit
    simp at this
    omega
  apply map_snd_ok
  simp only [ISOBMFF.scan_urn_, ipush]
  rw [scan_fullbox_run 0 hq (by omega) (by omega)]
  simp only [bnd]
  have h4 : D.drop (q + 4) = l1 ++ (l2 ++ rest) := by
    rw [← List.drop_drop, hq, List.drop_append_of_le_length (by omega),
        hsplit, List.append_assoc]
  rw [scan_string_run hc1 h4]
  simp only [bnd]
  have h5 : D.drop (q + 4 + l1.length) = l2 ++ rest := by
    rw [← List.drop_drop, h4, List.drop_left]
  rw [scan_string_run hc2 h5]
  simp only [bnd]
  rw [show q + 4 + l1.length + l2.length = q + p.length from by omega,
      ipop_of_pos (by simp; omega)]
  simp [Except.map]

/-- Forward run of `scan_url_` on a well-formed `url ` payload laid out
at the cursor: when flag bit 0 is set nothing follows the prefix,
otherwise one terminated location string fills the payload. -/
theorem scan_url_run {D p rest : List Nat} {q : Nat} {ind : Int}
    (rem : Int) (hq : D.drop q = p ++ rest)
    (hw : vwf (VBox.urlB p) = true) (hind : 0 ≤ ind) :
    ∃ out, ISOBMFF.scan_url_ rem ⟨D, q, ind⟩ =
      .ok (out, ⟨D, q + p.length, ind⟩) := by
  have hp4 : 4 ≤ p.length := by
    simp only [vwf, Bool.and_eq_true, decide_eq_true_eq] at hw
    exact hw.1.1
  apply map_snd_ok
  simp only [ISOBMFF.scan_url_, ipush]
  rw [scan_fullbox_run 0 hq (by omega) (by omega)]
  simp only [bnd, List.drop_zero]
  rw [show beNat (p.take 4) % 16777216 = flagsOf p from rfl]
  by_cases hf : flagsOf p % 2 = 1
  · have hw' : (4 ≤ p.length ∧ p.length + 8 < 4294967296) ∧
        p.length = 4 := by
      simpa [vwf, Bool.and_eq_true, decide_eq_true_eq, hf] using hw
    have hlen : p.length = 4 := hw'.2
    rw [if_pos hf,
        show q + 4 = q + p.length from by omega,
        ipop_of_pos (by simp; omega)]
    simp [Except.map]
  · have hw' : (4 ≤ p.length ∧ p.length + 8 < 4294967296) ∧
        isCStr (p.drop 4) = true := by
      simpa [vwf, Bool.and_eq_true, decide_eq_true_eq, hf] using hw
    have hcs : isCStr (p.drop 4) = true := hw'.2
    rw [if_neg hf]
    have h4 : D.drop (q + 4) = p.drop 4 ++ rest := by
      rw [← List.drop_drop, hq, List.drop_append_of_le_length (by omega)]
    rw [scan_string_run hcs h4]
    simp only [bnd]
    rw [show q + 4 + (p.drop 4).length = q + p.length from by simp; omega,
        ipop_of_pos (by simp; omega)]
    simp [Except.map]

/-- Forward run of `scan_hdlr` on a well-formed `hdlr` payload laid out
at the cursor: the name read takes everything up to the recorded box
end, so the decoder consumes exactly the payload. -/
theorem scan_hdlr_run {D p rest : List Nat} {q : Nat} {ind : Int}
    (hq : D.drop q = p ++ rest) (hw : vwf (VBox.hdlrB p) = true)
    (hind : 0 ≤ ind) :
    ∃ out, ISOBMFF.scan_hdlr ((p.length : Nat) : Int) ⟨D, q, ind⟩ =
      .ok (out, ⟨D, q + p.length, ind⟩) := by
  have hp24 : 24 ≤ p.length := by
    simp only [vwf, Bool.and_eq_true, decide_eq_true_eq] at hw
    exact hw.1
  have hD : q + p.length ≤ D.length := by
    have := congrArg List.length hq
    simp at this
    omega
  apply map_snd_ok
  simp only [ISOBMFF.scan_hdlr, ipush]
  rw [scan_fullbox_run 0 hq (by omega) (by omega)]
  simp only [bnd]
  rw [scan_uint32_run 4 hq (by omega) (by omega)]
  simp only [bnd]
  rw [scan_fourcc_run 8 hq (by omega) (by omega)]
  simp only [bnd]
  rw [seekCur_run 12 (by decide) (by decide)]
  simp only [bnd]
  rw [fileReadInt_spec (by simp; omega) (by simp; push_cast; omega)]
  simp only []
  rw [show ((q : Int) + (p.length : Int) -
        ((q + 4 + 4 + 4 + 12 : Nat) : Int)).toNat = p.length - 24 from by
      push_cast; omega]
  rw [show q + 4 + 4 + 4 + 12 + (p.length - 24) = q + p.length from by omega,
      ipop_of_pos (by simp; omega)]
  simp [Except.map]

/-- Forward run of the `elst` entry loop inside a known data block: `n`
entries of the version-selected width are consumed. -/
theorem elstEntries_run : ∀ (n version k : Nat) {D p rest : List Nat}
    {q x : Nat} {i : Int}, D.drop q = p ++ rest → x = q + k → 0 ≤ i →
    k + n * (if version = 1 then 20 else 12) ≤ p.length →
    ∃ es, ISOBMFF.elstEntries n version ⟨D, x, i⟩ =
      .ok (es, ⟨D, x + n * (if version = 1 then 20 else 12), i⟩) := by
  intro n
  induction n with
  | zero =>
    intro version k D p rest q x i hq hx hi hn
    exact ⟨[], by simp [ISOBMFF.elstEntries]⟩
  | succ n IH =>
    intro version k D p rest q x i hq hx hi hn
    apply map_snd_ok
    simp only [ISOBMFF.elstEntries, ipush]
    by_cases hv : version = 1
    · rw [if_pos hv] at hn ⊢
      rw [if_pos hv]
      rw [scan_uint64_run k hq hx (by omega)]
      simp only [bnd]
      rw [scan_int64_run (k + 8) hq (by omega) (by omega)]
      simp only [bnd]
      rw [scan_int16_run (k + 16) hq (by omega) (by omega)]
      simp only [bnd]
      rw [scan_int16_run (k + 18) hq (by omega) (by omega)]
      simp only [bnd]
      have hip : ipop (⟨D, x + 8 + 8 + 2 + 2, i + 1⟩ : St) =
          ⟨D, x + 8 + 8 + 2 + 2, i⟩ := by
        rw [ipop_of_pos (by simp; omega)]
        simp
      rw [hip]
      obtain ⟨es, hes⟩ := IH version (k + 20) hq
        (show x + 8 + 8 + 2 + 2 = q + (k + 20) from by omega) hi
        (by rw [if_pos hv]; omega)
      rw [hes, if_pos hv,
          show x + 8 + 8 + 2 + 2 + n * 20 = x + (n + 1) * 20 from by omega]
      simp [Except.map]
    · rw [if_neg hv] at hn ⊢
      rw [if_neg hv]
      rw [scan_uint32_run k hq hx (by omega)]
      simp only [bnd]
      rw [scan_int32_run (k + 4) hq (by omega) (by omega)]
      simp only [bnd]
      rw [scan_int16_run (k + 8) hq (by omega) (by omega)]
      simp only [bnd]
      rw [scan_int16_run (k + 10) hq (by omega) (by omega)]
      simp only [bnd]
      have hip : ipop (⟨D, x + 4 + 4 + 2 + 2, i + 1⟩ : St) =
          ⟨D, x + 4 + 4 + 2 + 2, i⟩ := by
        rw [ipop_of_pos (by simp; omega)]
        simp
      rw [hip]
      obtain ⟨es, hes⟩ := IH version (k + 12) hq
        (show x + 4 + 4 + 2 + 2 = q + (k + 12) from by omega) hi
        (by rw [if_neg hv]; omega)
      rw [hes, if_neg hv,
          show x + 4 + 4 + 2 + 2 + n * 12 = x + (n + 1) * 12 from by omega]
      simp [Except.map]

/-- Forward run of `scan_elst` on a well-formed `elst` payload laid out
at the cursor: the declared entry count exactly fills the payload. -/
theorem scan_elst_run {D p rest : List Nat} {q : Nat} {ind : Int}
    (rem : Int) (hq : D.drop q = p ++ rest)
    (hw : vwf (VBox.elstB p) = true) (hind : 0 ≤ ind) :
    ∃ out, ISOBMFF.scan_elst rem ⟨D, q, ind⟩ =
      .ok (out, ⟨D, q + p.length, ind⟩) := by
  have hw' : (p.length =
        8 + if versionOf p = 1 then elstCount p * 20
            else elstCount p * 12) ∧
      p.length + 8 < 4294967296 := by
    simpa [vwf, Bool.and_eq_true, decide_eq_true_eq] using hw
  have hlen : p.length =
      8 + elstCount p * (if versionOf p = 1 then 20 else 12) := by
    rw [hw'.1]
    by_cases hvv : versionOf p = 1 <;> simp [hvv]
  have hp8 : 8 ≤ p.length := by
    rw [hlen]; omega
  apply map_snd_ok
  simp only [ISOBMFF.scan_elst, ipush]
  rw [scan_fullbox_run 0 hq (by omega) (by omega)]
  simp only [bnd, List.drop_zero]
  rw [show beNat (p.take 4) / 16777216 % 256 = versionOf p from rfl]
  rw [scan_uint32_run 4 hq (by omega) (by omega)]
  simp only [bnd]
  rw [show beNat ((p.drop 4).take 4) = elstCount p from rfl]
  obtain ⟨es, hes⟩ := elstEntries_run (elstCount p) (versionOf p) 8 hq
    (show q + 4 + 4 = q + 8 from by omega) (show (0 : Int) ≤ ind + 1 from
      by omega) hlen.symm.le
  rw [hes]
  simp only [bnd]
  rw [show q + 4 + 4 +
        elstCount p * (if versionOf p = 1 then 20 else 12) =
        q + p.length from by omega,
      ipop_of_pos (by simp; omega)]
  simp [Except.map]

/-- Forward run of the compatible-brands loop of `scan_ftyp` inside a
known data block: a 4-byte-aligned byte budget is consumed exactly. -/
theorem ftypBrandsAux_run : ∀ (f c k : Nat) (r : Int)
    {D p rest : List Nat} {q x : Nat} {i : Int},
    D.drop q = p ++ rest → x = q + k → r = (c : Int) → c % 4 = 0 →
    k + c ≤ p.length → c < 4 * f →
    ∃ br, ISOBMFF.ftypBrandsAux f r ⟨D, x, i⟩ =
      .ok ((br, 0), ⟨D, x + c, i⟩) := by
  intro f
  induction f with
  | zero => intro c k r D p rest q x i hq hx hr hc4 hkc hcf; omega
  | succ f IH =>
    intro c k r D p rest q x i hq hx hr hc4 hkc hcf
    by_cases hc : c = 0
    · refine ⟨[], ?_⟩
      simp only [ISOBMFF.ftypBrandsAux]
      rw [if_neg (by omega)]
      have hr0 : r = 0 := by omega
      rw [hr0, hc]
      simp
    · obtain ⟨br, hbr⟩ := IH (c - 4) (k + 4) (r - 4) hq
        (show x + 4 = q + (k + 4) from by omega) (by omega) (by omega)
        (by omega) (by omega)
      refine ⟨(p.drop k).take 4 :: br, ?_⟩
      simp only [ISOBMFF.ftypBrandsAux]
      rw [if_pos (by omega)]
      rw [scan_fourcc_run k hq hx (by omega)]
      simp only [bnd]
      rw [hbr]
      rw [show x + 4 + (c - 4) = x + c from by omega]

/-- Forward run of `scan_ftyp` on a well-formed `ftyp` payload laid out
at the cursor: major brand, minor version and brands fill the payload. -/
theorem scan_ftyp_run {D p rest : List Nat} {q : Nat} {ind : Int}
    (rem : Int) (hq : D.drop q = p ++ rest)
    (hw : vwf (VBox.ftypB p) = true) (hind : 0 ≤ ind)
    (hrem : rem = ((p.length : Nat) : Int)) :
    ∃ out, ISOBMFF.scan_ftyp rem ⟨D, q, ind⟩ =
      .ok (out, ⟨D, q + p.length, ind⟩) := by
  have hw' : (8 ≤ p.length ∧ (p.length - 8) % 4 = 0) ∧
      p.length + 8 < 4294967296 := by
    simpa [vwf, Bool.and_eq_true, decide_eq_true_eq] using hw
  apply map_snd_ok
  simp only [ISOBMFF.scan_ftyp, ipush, ISOBMFF.ftypBrands]
  rw [scan_fourcc_run 0 hq (by omega) (by omega)]
  simp only [bnd]
  rw [scan_uint32_run 4 hq (by omega) (by omega)]
  simp only [bnd]
  obtain ⟨br, hbr⟩ := ftypBrandsAux_run ((rem - 8).toNat + 1)
    (p.length - 8) 8 (rem - 8) hq
    (show q + 4 + 4 = q + 8 from by omega) (by omega) (by omega)
    (by omega) (by omega)
  rw [hbr]
  simp only [bnd]
  rw [show q + 4 + 4 + (p.length - 8) = q + p.length from by omega,
      ipop_of_pos (by simp; omega)]
  simp [Except.map]

/-- Exit of `moovLoop` when the cursor has reached the chunk end. -/
theorem moovLoop_exit {f : Nat} {ce : Int} {s : St}
    (h : ¬ ((s.pos : Int) < ce)) : ISOBMFF.moovLoop (f + 1) ce s = .ok s := by
  simp only [ISOBMFF.moovLoop]
  rw [if_neg h]

/-- One step of `moovLoop` dispatching a `mvhd` child. -/
theorem moovLoop_step_mvhd {f : Nat} {ce : Int} {s s1 : St}
    {R : Int × List Nat × Int} {res : Except PyErr St}
    (hlt : (s.pos : Int) < ce)
    (hbox : ISOBMFF.scan_box s = .ok (R, s1))
    (hR : R.2.1 = ISOBMFF.mvhdTag)
    (hnext : (bnd (ISOBMFF.scan_mvhd R.2.2 s1) fun _ s2 => ISOBMFF.moovLoop f ce s2) = res) :
    ISOBMFF.moovLoop (f + 1) ce s = res := by
  simp only [ISOBMFF.moovLoop]
  rw [if_pos hlt, hbox]
  show (if R.2.1 = ISOBMFF.mvhdTag then
        bnd (ISOBMFF.scan_mvhd R.2.2 s1) fun _ s2 => ISOBMFF.moovLoop f ce s2
      else if R.2.1 = ISOBMFF.trakTag then
        bndU (ISOBMFF.scan_trak f R.2.2 s1) fun s2 => ISOBMFF.moovLoop f ce s2
      else if R.2.1 = ISOBMFF.udtaTag then
        bndU (ISOBMFF.scan_udta f R.2.2 s1) fun s2 => ISOBMFF.moovLoop f ce s2
      else 
        bnd (seekCur R.2.2 s1) fun _ s2 => ISOBMFF.moovLoop f ce s2) = res
  rw [if_pos hR]
  exact hnext

/-- One step of `moovLoop` dispatching a `trak` child. -/
theorem moovLoop_step_trak {f : Nat} {ce : Int} {s s1 : St}
    {R : Int × List Nat × Int} {res : Except PyErr St}
    (hlt : (s.pos : Int) < ce)
    (hbox : ISOBMFF.scan_box s = .ok (R, s1))
    (hR : R.2.1 = ISOBMFF.trakTag)
    (hnext : (bndU (ISOBMFF.scan_trak f R.2.2 s1) fun s2 => ISOBMFF.moovLoop f ce s2) = res) :
    ISOBMFF.moovLoop (f + 1) ce s = res := by
  simp only [ISOBMFF.moovLoop]
  rw [if_pos hlt, hbox]
  show (if R.2.1 = ISOBMFF.mvhdTag then
        bnd (ISOBMFF.scan_mvhd R.2.2 s1) fun _ s2 => ISOBMFF.moovLoop f ce s2
      else if R.2.1 = ISOBMFF.trakTag then
        bndU (ISOBMFF.scan_trak f R.2.2 s1) fun s2 => ISOBMFF.moovLoop f ce s2
      else if R.2.1 = ISOBMFF.udtaTag then
        bndU (ISOBMFF.scan_udta f R.2.2 s1) fun s2 => ISOBMFF.moovLoop f ce s2
      else 
        bnd (seekCur R.2.2 s1) fun _ s2 => ISOBMFF.moovLoop f ce s2) = res
  rw [if_neg (by rw [hR]; decide)]
  rw [if_pos hR]
  exact hnext

/-- One step of `moovLoop` dispatching a `udta` child. -/
theorem moovLoop_step_udta {f : Nat} {ce : Int} {s s1 : St}
    {R : Int × List Nat × Int} {res : Except PyErr St}
    (hlt : (s.pos : Int) < ce)
    (hbox : ISOBMFF.scan_box s = .ok (R, s1))
    (hR : R.2.1 = ISOBMFF.udtaTag)
    (hnext : (bndU (ISOBMFF.scan_udta f R.2.2 s1) fun s2 => ISOBMFF.moovLoop f ce s2) = res) :
    ISOBMFF.moovLoop (f + 1) ce s = res := by
  simp only [ISOBMFF.moovLoop]
  rw [if_pos hlt, hbox]
  show (if R.2.1 = ISOBMFF.mvhdTag then
        bnd (ISOBMFF.scan_mvhd R.2.2 s1) fun _ s2 => ISOBMFF.moovLoop f ce s2
      else if R.2.1 = ISOBMFF.trakTag then
        bndU (ISOBMFF.scan_trak f R.2.2 s1) fun s2 => ISOBMFF.moovLoop f ce s2
      else if R.2.1 = ISOBMFF.udtaTag then
        bndU (ISOBMFF.scan_udta f R.2.2 s1) fun s2 => ISOBMFF.moovLoop f ce s2
      else 
        bnd (seekCur R.2.2 s1) fun _ s2 => ISOBMFF.moovLoop f ce s2) = res
  rw [if_neg (by rw [hR]; decide)]
  rw [if_neg (by rw [hR]; decide)]
  rw [if_pos hR]
  exact hnext

/-- One step of `moovLoop` skipping an undispatched child. -/
theorem moovLoop_step_skip {f : Nat} {ce : Int} {s s1 : St}
    {R : Int × List Nat × Int} {res : Except PyErr St}
    (hlt : (s.pos : Int) < ce)
    (hbox : ISOBMFF.scan_box s = .ok (R, s1))
    (h1 : ¬ R.2.1 = ISOBMFF.mvhdTag)
    (h2 : ¬ R.2.1 = ISOBMFF.trakTag)
    (h3 : ¬ R.2.1 = ISOBMFF.udtaTag)
    (hnext : (bnd (seekCur R.2.2 s1) fun _ s2 => ISOBMFF.moovLoop f ce s2) = res) :
    ISOBMFF.moovLoop (f + 1) ce s = res := by
  simp only [ISOBMFF.moovLoop]
  rw [if_pos hlt, hbox]
  show (if R.2.1 = ISOBMFF.mvhdTag then
        bnd (ISOBMFF.scan_mvhd R.2.2 s1) fun _ s2 => ISOBMFF.moovLoop f ce s2
      else if R.2.1 = ISOBMFF.trakTag then
        bndU (ISOBMFF.scan_trak f R.2.2 s1) fun s2 => ISOBMFF.moovLoop f ce s2
      else if R.2.1 = ISOBMFF.udtaTag then
        bndU (ISOBMFF.scan_udta f R.2.2 s1) fun s2 => ISOBMFF.moovLoop f ce s2
      else 
        bnd (seekCur R.2.2 s1) fun _ s2 => ISOBMFF.moovLoop f ce s2) = res
  rw [if_neg h1]
  rw [if_neg h2]
  rw [if_neg h3]
  exact hnext

/-- Exit of `trakLoop` when the cursor has reached the chunk end. -/
theorem trakLoop_exit {f : Nat} {ce : Int} {s : St}
    (h : ¬ ((s.pos : Int) < ce)) : ISOBMFF.trakLoop (f + 1) ce s = .ok s := by
  simp only [ISOBMFF.trakLoop]
  rw [if_neg h]

/-- One step of `trakLoop` dispatching a `tkhd` child. -/
theorem trakLoop_step_tkhd {f : Nat} {ce : Int} {s s1 : St}
    {R : Int × List Nat × Int} {res : Except PyErr St}
    (hlt : (s.pos : Int) < ce)
    (hbox : ISOBMFF.scan_box s = .ok (R, s1))
    (hR : R.2.1 = ISOBMFF.tkhdTag)
    (hnext : (bnd (ISOBMFF.scan_tkhd R.2.2 s1) fun _ s2 => ISOBMFF.trakLoop f ce s2) = res) :
    ISOBMFF.trakLoop (f + 1) ce s = res := by
  simp only [ISOBMFF.trakLoop]
  rw [if_pos hlt, hbox]
  show (if R.2.1 = ISOBMFF.tkhdTag then
        bnd (ISOBMFF.scan_tkhd R.2.2 s1) fun _ s2 => ISOBMFF.trakLoop f ce s2
      else if R.2.1 = ISOBMFF.mdiaTag then
        bndU (ISOBMFF.scan_mdia f R.2.2 s1) fun s2 => ISOBMFF.trakLoop f ce s2
      else if R.2.1 = ISOBMFF.edtsTag then
        bndU (ISOBMFF.scan_edts f R.2.2 s1) fun s2 => ISOBMFF.trakLoop f ce s2
      else if R.2.1 = ISOBMFF.udtaTag then
        bndU (ISOBMFF.scan_udta f R.2.2 s1) fun s2 => ISOBMFF.trakLoop f ce s2
      else 
        bnd (seekCur R.2.2 s1) fun _ s2 => ISOBMFF.trakLoop f ce s2) = res
  rw [if_pos hR]
  exact hnext

/-- One step of `trakLoop` dispatching a `mdia` child. -/
theorem trakLoop_step_mdia {f : Nat} {ce : Int} {s s1 : St}
    {R : Int × List Nat × Int} {res : Except PyErr St}
    (hlt : (s.pos : Int) < ce)
    (hbox : ISOBMFF.scan_box s = .ok (R, s1))
    (hR : R.2.1 = ISOBMFF.mdiaTag)
    (hnext : (bndU (ISOBMFF.scan_mdia f R.2.2 s1) fun s2 => ISOBMFF.trakLoop f ce s2) = res) :
    ISOBMFF.trakLoop (f + 1) ce s = res := by
  simp only [ISOBMFF.trakLoop]
  rw [if_pos hlt, hbox]
  show (if R.2.1 = ISOBMFF.tkhdTag then
        bnd (ISOBMFF.scan_tkhd R.2.2 s1) fun _ s2 => ISOBMFF.trakLoop f ce s2
      else if R.2.1 = ISOBMFF.mdiaTag then
        bndU (ISOBMFF.scan_mdia f R.2.2 s1) fun s2 => ISOBMFF.trakLoop f ce s2
      else if R.2.1 = ISOBMFF.edtsTag then
        bndU (ISOBMFF.scan_edts f R.2.2 s1) fun s2 => ISOBMFF.trakLoop f ce s2
      else if R.2.1 = ISOBMFF.udtaTag then
        bndU (ISOBMFF.scan_udta f R.2.2 s1) fun s2 => ISOBMFF.trakLoop f ce s2
      else 
        bnd (seekCur R.2.2 s1) fun _ s2 => ISOBMFF.trakLoop f ce s2) = res
  rw [if_neg (by rw [hR]; decide)]
  rw [if_pos hR]
  exact hnext

/-- One step of `trakLoop` dispatching a `edts` child. -/
theorem trakLoop_step_edts {f : Nat} {ce : Int} {s s1 : St}
    {R : Int × List Nat × Int} {res : Except PyErr St}
    (hlt : (s.pos : Int) < ce)
    (hbox : ISOBMFF.scan_box s = .ok (R, s1))
    (hR : R.2.1 = ISOBMFF.edtsTag)
    (hnext : (bndU (ISOBMFF.scan_edts f R.2.2 s1) fun s2 => ISOBMFF.trakLoop f ce s2) = res) :
    ISOBMFF.trakLoop (f + 1) ce s = res := by
  simp only [ISOBMFF.trakLoop]
  rw [if_pos hlt, hbox]
  show (if R.2.1 = ISOBMFF.tkhdTag then
        bnd (ISOBMFF.scan_tkhd R.2.2 s1) fun _ s2 => ISOBMFF.trakLoop f ce s2
      else if R.2.1 = ISOBMFF.mdiaTag then
        bndU (ISOBMFF.scan_mdia f R.2.2 s1) fun s2 => ISOBMFF.trakLoop f ce s2
      else if R.2.1 = ISOBMFF.edtsTag then
        bndU (ISOBMFF.scan_edts f R.2.2 s1) fun s2 => ISOBMFF.trakLoop f ce s2
      else if R.2.1 = ISOBMFF.udtaTag then
        bndU (ISOBMFF.scan_udta f R.2.2 s1) fun s2 => ISOBMFF.trakLoop f ce s2
      else 
        bnd (seekCur R.2.2 s1) fun _ s2 => ISOBMFF.trakLoop f ce s2) = res
  rw [if_neg (by rw [hR]; decide)]
  rw [if_neg (by rw [hR]; decide)]
  rw [if_pos hR]
  exact hnext

/-- One step of `trakLoop` dispatching a `udta` child. -/
theorem trakLoop_step_udta {f : Nat} {ce : Int} {s s1 : St}
    {R : Int × List Nat × Int} {res : Except PyErr St}
    (hlt : (s.pos : Int) < ce)
    (hbox : ISOBMFF.scan_box s = .ok (R, s1))
    (hR : R.2.1 = ISOBMFF.udtaTag)
    (hnext : (bndU (ISOBMFF.scan_udta f R.2.2 s1) fun s2 => ISOBMFF.trakLoop f ce s2) = res) :
    ISOBMFF.trakLoop (f + 1) ce s = res := by
  simp only [ISOBMFF.trakLoop]
  rw [if_pos hlt, hbox]
  show (if R.2.1 = ISOBMFF.tkhdTag then
        bnd (ISOBMFF.scan_tkhd R.2.2 s1) fun _ s2 => ISOBMFF.trakLoop f ce s2
      else if R.2.1 = ISOBMFF.mdiaTag then
        bndU (ISOBMFF.scan_mdia f R.2.2 s1) fun s2 => ISOBMFF.trakLoop f ce s2
      else if R.2.1 = ISOBMFF.edtsTag then
        bndU (ISOBMFF.scan_edts f R.2.2 s1) fun s2 => ISOBMFF.trakLoop f ce s2
      else if R.2.1 = ISOBMFF.udtaTag then
        bndU (ISOBMFF.scan_udta f R.2.2 s1) fun s2 => ISOBMFF.trakLoop f ce s2
      else 
        bnd (seekCur R.2.2 s1) fun _ s2 => ISOBMFF.trakLoop f ce s2) = res
  rw [if_neg (by rw [hR]; decide)]
  rw [if_neg (by rw [hR]; decide)]
  rw [if_neg (by rw [hR]; decide)]
  rw [if_pos hR]
  exact hnext

/-- One step of `trakLoop` skipping an undispatched child. -/
theorem trakLoop_step_skip {f : Nat} {ce : Int} {s s1 : St}
    {R : Int × List Nat × Int} {res : Except PyErr St}
    (hlt : (s.pos : Int) < ce)
    (hbox : ISOBMFF.scan_box s = .ok (R, s1))
    (h1 : ¬ R.2.1 = ISOBMFF.tkhdTag)
    (h2 : ¬ R.2.1 = ISOBMFF.mdiaTag)
    (h3 : ¬ R.2.1 = ISOBMFF.edtsTag)
    (h4 : ¬ R.2.1 = ISOBMFF.udtaTag)
    (hnext : (bnd (seekCur R.2.2 s1) fun _ s2 => ISOBMFF.trakLoop f ce s2) = res) :
    ISOBMFF.trakLoop (f + 1) ce s = res := by
  simp only [ISOBMFF.trakLoop]
  rw [if_pos hlt, hbox]
  show (if R.2.1 = ISOBMFF.tkhdTag then
        bnd (ISOBMFF.scan_tkhd R.2.2 s1) fun _ s2 => ISOBMFF.trakLoop f ce s2
      else if R.2.1 = ISOBMFF.mdiaTag then
        bndU (ISOBMFF.scan_mdia f R.2.2 s1) fun s2 => ISOBMFF.trakLoop f ce s2
      else if R.2.1 = ISOBMFF.edtsTag then
        bndU (ISOBMFF.scan_edts f R.2.2 s1) fun s2 => ISOBMFF.trakLoop f ce s2
      else if R.2.1 = ISOBMFF.udtaTag then
        bndU (ISOBMFF.scan_udta f R.2.2 s1) fun s2 => ISOBMFF.trakLoop f ce s2
      else 
        bnd (seekCur R.2.2 s1) fun _ s2 => ISOBMFF.trakLoop f ce s2) = res
  rw [if_neg h1]
  rw [if_neg h2]
  rw [if_neg h3]
  rw [if_neg h4]
  exact hnext

/-- Exit of `mdiaLoop` when the cursor has reached the chunk end. -/
theorem mdiaLoop_exit {f : Nat} {ce : Int} {s : St}
    (h : ¬ ((s.pos : Int) < ce)) : ISOBMFF.mdiaLoop (f + 1) ce s = .ok s := by
  simp only [ISOBMFF.mdiaLoop]
  rw [if_neg h]

/-- One step of `mdiaLoop` dispatching a `mdhd` child. -/
theorem mdiaLoop_step_mdhd {f : Nat} {ce : Int} {s s1 : St}
    {R : Int × List Nat × Int} {res : Except PyErr St}
    (hlt : (s.pos : Int) < ce)
    (hbox : ISOBMFF.scan_box s = .ok (R, s1))
    (hR : R.2.1 = ISOBMFF.mdhdTag)
    (hnext : (bnd (ISOBMFF.scan_mdhd R.2.2 s1) fun _ s2 => ISOBMFF.mdiaLoop f ce s2) = res) :
    ISOBMFF.mdiaLoop (f + 1) ce s = res := by
  simp only [ISOBMFF.mdiaLoop]
  rw [if_pos hlt, hbox]
  show (if R.2.1 = ISOBMFF.mdhdTag then
        bnd (ISOBMFF.scan_mdhd R.2.2 s1) fun _ s2 => ISOBMFF.mdiaLoop f ce s2
      else if R.2.1 = ISOBMFF.hdlrTag then
        bnd (ISOBMFF.scan_hdlr R.2.2 s1) fun _ s2 => ISOBMFF.mdiaLoop f ce s2
      else if R.2.1 = ISOBMFF.minfTag then
        bndU (ISOBMFF.scan_minf f R.2.2 s1) fun s2 => ISOBMFF.mdiaLoop f ce s2
      else 
        bnd (seekCur R.2.2 s1) fun _ s2 => ISOBMFF.mdiaLoop f ce s2) = res
  rw [if_pos hR]
  exact hnext

/-- One step of `mdiaLoop` dispatching a `hdlr` child. -/
theorem mdiaLoop_step_hdlr {f : Nat} {ce : Int} {s s1 : St}
    {R : Int × List Nat × Int} {res : Except PyErr St}
    (hlt : (s.pos : Int) < ce)
    (hbox : ISOBMFF.scan_box s = .ok (R, s1))
    (hR : R.2.1 = ISOBMFF.hdlrTag)
    (hnext : (bnd (ISOBMFF.scan_hdlr R.2.2 s1) fun _ s2 => ISOBMFF.mdiaLoop f ce s2) = res) :
    ISOBMFF.mdiaLoop (f + 1) ce s = res := by
  simp only [ISOBMFF.mdiaLoop]
  rw [if_pos hlt, hbox]
  show (if R.2.1 = ISOBMFF.mdhdTag then
        bnd (ISOBMFF.scan_mdhd R.2.2 s1) fun _ s2 => ISOBMFF.mdiaLoop f ce s2
      else if R.2.1 = ISOBMFF.hdlrTag then
        bnd (ISOBMFF.scan_hdlr R.2.2 s1) fun _ s2 => ISOBMFF.mdiaLoop f ce s2
      else if R.2.1 = ISOBMFF.minfTag then
        bndU (ISOBMFF.scan_minf f R.2.2 s1) fun s2 => ISOBMFF.mdiaLoop f ce s2
      else 
        bnd (seekCur R.2.2 s1) fun _ s2 => ISOBMFF.mdiaLoop f ce s2) = res
  rw [if_neg (by rw [hR]; decide)]
  rw [if_pos hR]
  exact hnext

/-- One step of `mdiaLoop` dispatching a `minf` child. -/
theorem mdiaLoop_step_minf {f : Nat} {ce : Int} {s s1 : St}
    {R : Int × List Nat × Int} {res : Except PyErr St}
    (hlt : (s.pos : Int) < ce)
    (hbox : ISOBMFF.scan_box s = .ok (R, s1))
    (hR : R.2.1 = ISOBMFF.minfTag)
    (hnext : (bndU (ISOBMFF.scan_minf f R.2.2 s1) fun s2 => ISOBMFF.mdiaLoop f ce s2) = res) :
    ISOBMFF.mdiaLoop (f + 1) ce s = res := by
  simp only [ISOBMFF.mdiaLoop]
  rw [if_pos hlt, hbox]
  show (if R.2.1 = ISOBMFF.mdhdTag then
        bnd (ISOBMFF.scan_mdhd R.2.2 s1) fun _ s2 => ISOBMFF.mdiaLoop f ce s2
      else if R.2.1 = ISOBMFF.hdlrTag then
        bnd (ISOBMFF.scan_hdlr R.2.2 s1) fun _ s2 => ISOBMFF.mdiaLoop f ce s2
      else if R.2.1 = ISOBMFF.minfTag then
        bndU (ISOBMFF.scan_minf f R.2.2 s1) fun s2 => ISOBMFF.mdiaLoop f ce s2
      else 
        bnd (seekCur R.2.2 s1) fun _ s2 => ISOBMFF.mdiaLoop f ce s2) = res
  rw [if_neg (by rw [hR]; decide)]
  rw [if_neg (by rw [hR]; decide)]
  rw [if_pos hR]
  exact hnext

/-- One step of `mdiaLoop` skipping an undispatched child. -/
theorem mdiaLoop_step_skip {f : Nat} {ce : Int} {s s1 : St}
    {R : Int × List Nat × Int} {res : Except PyErr St}
    (hlt : (s.pos : Int) < ce)
    (hbox : ISOBMFF.scan_box s = .ok (R, s1))
    (h1 : ¬ R.2.1 = ISOBMFF.mdhdTag)
    (h2 : ¬ R.2.1 = ISOBMFF.hdlrTag)
    (h3 : ¬ R.2.1 = ISOBMFF.minfTag)
    (hnext : (bnd (seekCur R.2.2 s1) fun _ s2 => ISOBMFF.mdiaLoop f ce s2) = res) :
    ISOBMFF.mdiaLoop (f + 1) ce s = res := by
  simp only [ISOBMFF.mdiaLoop]
  rw [if_pos hlt, hbox]
  show (if R.2.1 = ISOBMFF.mdhdTag then
        bnd (ISOBMFF.scan_mdhd R.2.2 s1) fun _ s2 => ISOBMFF.mdiaLoop f ce s2
      else if R.2.1 = ISOBMFF.hdlrTag then
        bnd (ISOBMFF.scan_hdlr R.2.2 s1) fun _ s2 => ISOBMFF.mdiaLoop f ce s2
      else if R.2.1 = ISOBMFF.minfTag then
        bndU (ISOBMFF.scan_minf f R.2.2 s1) fun s2 => ISOBMFF.mdiaLoop f ce s2
      else 
        bnd (seekCur R.2.2 s1) fun _ s2 => ISOBMFF.mdiaLoop f ce s2) = res
  rw [if_neg h1]
  rw [if_neg h2]
  rw [if_neg h3]
  exact hnext

/-- Exit of `minfLoop` when the cursor has reached the chunk end. -/
theorem minfLoop_exit {f : Nat} {ce : Int} {s : St}
    (h : ¬ ((s.pos : Int) < ce)) : ISOBMFF.minfLoop (f + 1) ce s = .ok s := by
  simp only [ISOBMFF.minfLoop]
  rw [if_neg h]

/-- One step of `minfLoop` dispatching a `dinf` child. -/
theorem minfLoop_step_dinf {f : Nat} {ce : Int} {s s1 : St}
    {R : Int × List Nat × Int} {res : Except PyErr St}
    (hlt : (s.pos : Int) < ce)
    (hbox : ISOBMFF.scan_box s = .ok (R, s1))
    (hR : R.2.1 = ISOBMFF.dinfTag)
    (hnext : (bndU (ISOBMFF.scan_dinf f R.2.2 s1) fun s2 => ISOBMFF.minfLoop f ce s2) = res) :
    ISOBMFF.minfLoop (f + 1) ce s = res := by
  simp only [ISOBMFF.minfLoop]
  rw [if_pos hlt, hbox]
  show (if R.2.1 = ISOBMFF.dinfTag then
        bndU (ISOBMFF.scan_dinf f R.2.2 s1) fun s2 => ISOBMFF.minfLoop f ce s2
      else if R.2.1 = ISOBMFF.stblTag then
        bndU (ISOBMFF.scan_stbl f R.2.2 s1) fun s2 => ISOBMFF.minfLoop f ce s2
      else if R.2.1 = ISOBMFF.vmhdTag then
        bnd (ISOBMFF.scan_vmhd R.2.2 s1) fun _ s2 => ISOBMFF.minfLoop f ce s2
      else if R.2.1 = ISOBMFF.smhdTag then
        bnd (ISOBMFF.scan_smhd R.2.2 s1) fun _ s2 => ISOBMFF.minfLoop f ce s2
      else if R.2.1 = ISOBMFF.hmhdTag then
        bnd (ISOBMFF.scan_hmhd R.2.2 s1) fun _ s2 => ISOBMFF.minfLoop f ce s2
      else if R.2.1 = ISOBMFF.nmhdTag then
        bnd (ISOBMFF.scan_nmhd R.2.2 s1) fun _ s2 => ISOBMFF.minfLoop f ce s2
      else 
        bnd (seekCur R.2.2 s1) fun _ s2 => ISOBMFF.minfLoop f ce s2) = res
  rw [if_pos hR]
  exact hnext

/-- One step of `minfLoop` dispatching a `stbl` child. -/
theorem minfLoop_step_stbl {f : Nat} {ce : Int} {s s1 : St}
    {R : Int × List Nat × Int} {res : Except PyErr St}
    (hlt : (s.pos : Int) < ce)
    (hbox : ISOBMFF.scan_box s = .ok (R, s1))
    (hR : R.2.1 = ISOBMFF.stblTag)
    (hnext : (bndU (ISOBMFF.scan_stbl f R.2.2 s1) fun s2 => ISOBMFF.minfLoop f ce s2) = res) :
    ISOBMFF.minfLoop (f + 1) ce s = res := by
  simp only [ISOBMFF.minfLoop]
  rw [if_pos hlt, hbox]
  show (if R.2.1 = ISOBMFF.dinfTag then
        bndU (ISOBMFF.scan_dinf f R.2.2 s1) fun s2 => ISOBMFF.minfLoop f ce s2
      else if R.2.1 = ISOBMFF.stblTag then
        bndU (ISOBMFF.scan_stbl f R.2.2 s1) fun s2 => ISOBMFF.minfLoop f ce s2
      else if R.2.1 = ISOBMFF.vmhdTag then
        bnd (ISOBMFF.scan_vmhd R.2.2 s1) fun _ s2 => ISOBMFF.minfLoop f ce s2
      else if R.2.1 = ISOBMFF.smhdTag then
        bnd (ISOBMFF.scan_smhd R.2.2 s1) fun _ s2 => ISOBMFF.minfLoop f ce s2
      else if R.2.1 = ISOBMFF.hmhdTag then
        bnd (ISOBMFF.scan_hmhd R.2.2 s1) fun _ s2 => ISOBMFF.minfLoop f ce s2
      else if R.2.1 = ISOBMFF.nmhdTag then
        bnd (ISOBMFF.scan_nmhd R.2.2 s1) fun _ s2 => ISOBMFF.minfLoop f ce s2
      else 
        bnd (seekCur R.2.2 s1) fun _ s2 => ISOBMFF.minfLoop f ce s2) = res
  rw [if_neg (by rw [hR]; decide)]
  rw [if_pos hR]
  exact hnext

/-- One step of `minfLoop` dispatching a `vmhd` child. -/
theorem minfLoop_step_vmhd {f : Nat} {ce : Int} {s s1 : St}
    {R : Int × List Nat × Int} {res : Except PyErr St}
    (hlt : (s.pos : Int) < ce)
    (hbox : ISOBMFF.scan_box s = .ok (R, s1))
    (hR : R.2.1 = ISOBMFF.vmhdTag)
    (hnext : (bnd (ISOBMFF.scan_vmhd R.2.2 s1) fun _ s2 => ISOBMFF.minfLoop f ce s2) = res) :
    ISOBMFF.minfLoop (f + 1) ce s = res := by
  simp only [ISOBMFF.minfLoop]
  rw [if_pos hlt, hbox]
  show (if R.2.1 = ISOBMFF.dinfTag then
        bndU (ISOBMFF.scan_dinf f R.2.2 s1) fun s2 => ISOBMFF.minfLoop f ce s2
      else if R.2.1 = ISOBMFF.stblTag then
        bndU (ISOBMFF.scan_stbl f R.2.2 s1) fun s2 => ISOBMFF.minfLoop f ce s2
      else if R.2.1 = ISOBMFF.vmhdTag then
        bnd (ISOBMFF.scan_vmhd R.2.2 s1) fun _ s2 => ISOBMFF.minfLoop f ce s2
      else if R.2.1 = ISOBMFF.smhdTag then
        bnd (ISOBMFF.scan_smhd R.2.2 s1) fun _ s2 => ISOBMFF.minfLoop f ce s2
      else if R.2.1 = ISOBMFF.hmhdTag then
        bnd (ISOBMFF.scan_hmhd R.2.2 s1) fun _ s2 => ISOBMFF.minfLoop f ce s2
      else if R.2.1 = ISOBMFF.nmhdTag then
        bnd (ISOBMFF.scan_nmhd R.2.2 s1) fun _ s2 => ISOBMFF.minfLoop f ce s2
      else 
        bnd (seekCur R.2.2 s1) fun _ s2 => ISOBMFF.minfLoop f ce s2) = res
  rw [if_neg (by rw [hR]; decide)]
  rw [if_neg (by rw [hR]; decide)]
  rw [if_pos hR]
  exact hnext

/-- One step of `minfLoop` dispatching a `smhd` child. -/
theorem minfLoop_step_smhd {f : Nat} {ce : Int} {s s1 : St}
    {R : Int × List Nat × Int} {res : Except PyErr St}
    (hlt : (s.pos : Int) < ce)
    (hbox : ISOBMFF.scan_box s = .ok (R, s1))
    (hR : R.2.1 = ISOBMFF.smhdTag)
    (hnext : (bnd (ISOBMFF.scan_smhd R.2.2 s1) fun _ s2 => ISOBMFF.minfLoop f ce s2) = res) :
    ISOBMFF.minfLoop (f + 1) ce s = res := by
  simp only [ISOBMFF.minfLoop]
  rw [if_pos hlt, hbox]
  show (if R.2.1 = ISOBMFF.dinfTag then
        bndU (ISOBMFF.scan_dinf f R.2.2 s1) fun s2 => ISOBMFF.minfLoop f ce s2
      else if R.2.1 = ISOBMFF.stblTag then
        bndU (ISOBMFF.scan_stbl f R.2.2 s1) fun s2 => ISOBMFF.minfLoop f ce s2
      else if R.2.1 = ISOBMFF.vmhdTag then
        bnd (ISOBMFF.scan_vmhd R.2.2 s1) fun _ s2 => ISOBMFF.minfLoop f ce s2
      else if R.2.1 = ISOBMFF.smhdTag then
        bnd (ISOBMFF.scan_smhd R.2.2 s1) fun _ s2 => ISOBMFF.minfLoop f ce s2
      else if R.2.1 = ISOBMFF.hmhdTag then
        bnd (ISOBMFF.scan_hmhd R.2.2 s1) fun _ s2 => ISOBMFF.minfLoop f ce s2
      else if R.2.1 = ISOBMFF.nmhdTag then
        bnd (ISOBMFF.scan_nmhd R.2.2 s1) fun _ s2 => ISOBMFF.minfLoop f ce s2
      else 
        bnd (seekCur R.2.2 s1) fun _ s2 => ISOBMFF.minfLoop f ce s2) = res
  rw [if_neg (by rw [hR]; decide)]
  rw [if_neg (by rw [hR]; decide)]
  rw [if_neg (by rw [hR]; decide)]
  rw [if_pos hR]
  exact hnext

/-- One step of `minfLoop` dispatching a `hmhd` child. -/
theorem minfLoop_step_hmhd {f : Nat} {ce : Int} {s s1 : St}
    {R : Int × List Nat × Int} {res : Except PyErr St}
    (hlt : (s.pos : Int) < ce)
    (hbox : ISOBMFF.scan_box s = .ok (R, s1))
    (hR : R.2.1 = ISOBMFF.hmhdTag)
    (hnext : (bnd (ISOBMFF.scan_hmhd R.2.2 s1) fun _ s2 => ISOBMFF.minfLoop f ce s2) = res) :
    ISOBMFF.minfLoop (f + 1) ce s = res := by
  simp only [ISOBMFF.minfLoop]
  rw [if_pos hlt, hbox]
  show (if R.2.1 = ISOBMFF.dinfTag then
        bndU (ISOBMFF.scan_dinf f R.2.2 s1) fun s2 => ISOBMFF.minfLoop f ce s2
      else if R.2.1 = ISOBMFF.stblTag then
        bndU (ISOBMFF.scan_stbl f R.2.2 s1) fun s2 => ISOBMFF.minfLoop f ce s2
      else if R.2.1 = ISOBMFF.vmhdTag then
        bnd (ISOBMFF.scan_vmhd R.2.2 s1) fun _ s2 => ISOBMFF.minfLoop f ce s2
      else if R.2.1 = ISOBMFF.smhdTag then
        bnd (ISOBMFF.scan_smhd R.2.2 s1) fun _ s2 => ISOBMFF.minfLoop f ce s2
      else if R.2.1 = ISOBMFF.hmhdTag then
        bnd (ISOBMFF.scan_hmhd R.2.2 s1) fun _ s2 => ISOBMFF.minfLoop f ce s2
      else if R.2.1 = ISOBMFF.nmhdTag then
        bnd (ISOBMFF.scan_nmhd R.2.2 s1) fun _ s2 => ISOBMFF.minfLoop f ce s2
      else 
        bnd (seekCur R.2.2 s1) fun _ s2 => ISOBMFF.minfLoop f ce s2) = res
  rw [if_neg (by rw [hR]; decide)]
  rw [if_neg (by rw [hR]; decide)]
  rw [if_neg (by rw [hR]; decide)]
  rw [if_neg (by rw [hR]; decide)]
  rw [if_pos hR]
  exact hnext

/-- One step of `minfLoop` dispatching a `nmhd` child. -/
theorem minfLoop_step_nmhd {f : Nat} {ce : Int} {s s1 : St}
    {R : Int × List Nat × Int} {res : Except PyErr St}
    (hlt : (s.pos : Int) < ce)
    (hbox : ISOBMFF.scan_box s = .ok (R, s1))
    (hR : R.2.1 = ISOBMFF.nmhdTag)
    (hnext : (bnd (ISOBMFF.scan_nmhd R.2.2 s1) fun _ s2 => ISOBMFF.minfLoop f ce s2) = res) :
    ISOBMFF.minfLoop (f + 1) ce s = res := by
  simp only [ISOBMFF.minfLoop]
  rw [if_pos hlt, hbox]
  show (if R.2.1 = ISOBMFF.dinfTag then
        bndU (ISOBMFF.scan_dinf f R.2.2 s1) fun s2 => ISOBMFF.minfLoop f ce s2
      else if R.2.1 = ISOBMFF.stblTag then
        bndU (ISOBMFF.scan_stbl f R.2.2 s1) fun s2 => ISOBMFF.minfLoop f ce s2
      else if R.2.1 = ISOBMFF.vmhdTag then
        bnd (ISOBMFF.scan_vmhd R.2.2 s1) fun _ s2 => ISOBMFF.minfLoop f ce s2
      else if R.2.1 = ISOBMFF.smhdTag then
        bnd (ISOBMFF.scan_smhd R.2.2 s1) fun _ s2 => ISOBMFF.minfLoop f ce s2
      else if R.2.1 = ISOBMFF.hmhdTag then
        bnd (ISOBMFF.scan_hmhd R.2.2 s1) fun _ s2 => ISOBMFF.minfLoop f ce s2
      else if R.2.1 = ISOBMFF.nmhdTag then
        bnd (ISOBMFF.scan_nmhd R.2.2 s1) fun _ s2 => ISOBMFF.minfLoop f ce s2
      else 
        bnd (seekCur R.2.2 s1) fun _ s2 => ISOBMFF.minfLoop f ce s2) = res
  rw [if_neg (by rw [hR]; decide)]
  rw [if_neg (by rw [hR]; decide)]
  rw [if_neg (by rw [hR]; decide)]
  rw [if_neg (by rw [hR]; decide)]
  rw [if_neg (by rw [hR]; decide)]
  rw [if_pos hR]
  exact hnext

/-- One step of `minfLoop` skipping an undispatched child. -/
theorem minfLoop_step_skip {f : Nat} {ce : Int} {s s1 : St}
    {R : Int × List Nat × Int} {res : Except PyErr St}
    (hlt : (s.pos : Int) < ce)
    (hbox : ISOBMFF.scan_box s = .ok (R, s1))
    (h1 : ¬ R.2.1 = ISOBMFF.dinfTag)
    (h2 : ¬ R.2.1 = ISOBMFF.stblTag)
    (h3 : ¬ R.2.1 = ISOBMFF.vmhdTag)
    (h4 : ¬ R.2.1 = ISOBMFF.smhdTag)
    (h5 : ¬ R.2.1 = ISOBMFF.hmhdTag)
    (h6 : ¬ R.2.1 = ISOBMFF.nmhdTag)
    (hnext : (bnd (seekCur R.2.2 s1) fun _ s2 => ISOBMFF.minfLoop f ce s2) = res) :
    ISOBMFF.minfLoop (f + 1) ce s = res := by
  simp only [ISOBMFF.minfLoop]
  rw [if_pos hlt, hbox]
  show (if R.2.1 = ISOBMFF.dinfTag then
        bndU (ISOBMFF.scan_dinf f R.2.2 s1) fun s2 => ISOBMFF.minfLoop f ce s2
      else if R.2.1 = ISOBMFF.stblTag then
        bndU (ISOBMFF.scan_stbl f R.2.2 s1) fun s2 => ISOBMFF.minfLoop f ce s2
      else if R.2.1 = ISOBMFF.vmhdTag then
        bnd (ISOBMFF.scan_vmhd R.2.2 s1) fun _ s2 => ISOBMFF.minfLoop f ce s2
      else if R.2.1 = ISOBMFF.smhdTag then
        bnd (ISOBMFF.scan_smhd R.2.2 s1) fun _ s2 => ISOBMFF.minfLoop f ce s2
      else if R.2.1 = ISOBMFF.hmhdTag then
        bnd (ISOBMFF.scan_hmhd R.2.2 s1) fun _ s2 => ISOBMFF.minfLoop f ce s2
      else if R.2.1 = ISOBMFF.nmhdTag then
        bnd (ISOBMFF.scan_nmhd R.2.2 s1) fun _ s2 => ISOBMFF.minfLoop f ce s2
      else 
        bnd (seekCur R.2.2 s1) fun _ s2 => ISOBMFF.minfLoop f ce s2) = res
  rw [if_neg h1]
  rw [if_neg h2]
  rw [if_neg h3]
  rw [if_neg h4]
  rw [if_neg h5]
  rw [if_neg h6]
  exact hnext

/-- Exit of `dinfLoop` when the cursor has reached the chunk end. -/
theorem dinfLoop_exit {f : Nat} {ce : Int} {s : St}
    (h : ¬ ((s.pos : Int) < ce)) : ISOBMFF.dinfLoop (f + 1) ce s = .ok s := by
  simp only [ISOBMFF.dinfLoop]
  rw [if_neg h]

/-- One step of `dinfLoop` dispatching a `dref` child. -/
theorem dinfLoop_step_dref {f : Nat} {ce : Int} {s s1 : St}
    {R : Int × List Nat × Int} {res : Except PyErr St}
    (hlt : (s.pos : Int) < ce)
    (hbox : ISOBMFF.scan_box s = .ok (R, s1))
    (hR : R.2.1 = ISOBMFF.drefTag)
    (hnext : (bndU (ISOBMFF.scan_dref f R.2.2 s1) fun s2 => ISOBMFF.dinfLoop f ce s2) = res) :
    ISOBMFF.dinfLoop (f + 1) ce s = res := by
  simp only [ISOBMFF.dinfLoop]
  rw [if_pos hlt, hbox]
  show (if R.2.1 = ISOBMFF.drefTag then
        bndU (ISOBMFF.scan_dref f R.2.2 s1) fun s2 => ISOBMFF.dinfLoop f ce s2
      else 
        bnd (seekCur R.2.2 s1) fun _ s2 => ISOBMFF.dinfLoop f ce s2) = res
  rw [if_pos hR]
  exact hnext

/-- One step of `dinfLoop` skipping an undispatched child. -/
theorem dinfLoop_step_skip {f : Nat} {ce : Int} {s s1 : St}
    {R : Int × List Nat × Int} {res : Except PyErr St}
    (hlt : (s.pos : Int) < ce)
    (hbox : ISOBMFF.scan_box s = .ok (R, s1))
    (h1 : ¬ R.2.1 = ISOBMFF.drefTag)
    (hnext : (bnd (seekCur R.2.2 s1) fun _ s2 => ISOBMFF.dinfLoop f ce s2) = res) :
    ISOBMFF.dinfLoop (f + 1) ce s = res := by
  simp only [ISOBMFF.dinfLoop]
  rw [if_pos hlt, hbox]
  show (if R.2.1 = ISOBMFF.drefTag then
        bndU (ISOBMFF.scan_dref f R.2.2 s1) fun s2 => ISOBMFF.dinfLoop f ce s2
      else 
        bnd (seekCur R.2.2 s1) fun _ s2 => ISOBMFF.dinfLoop f ce s2) = res
  rw [if_neg h1]
  exact hnext

/-- Exit of `edtsLoop` when the cursor has reached the chunk end. -/
theorem edtsLoop_exit {f : Nat} {ce : Int} {s : St}
    (h : ¬ ((s.pos : Int) < ce)) : ISOBMFF.edtsLoop (f + 1) ce s = .ok s := by
  simp only [ISOBMFF.edtsLoop]
  rw [if_neg h]

/-- One step of `edtsLoop` dispatching a `elst` child. -/
theorem edtsLoop_step_elst {f : Nat} {ce : Int} {s s1 : St}
    {R : Int × List Nat × Int} {res : Except PyErr St}
    (hlt : (s.pos : Int) < ce)
    (hbox : ISOBMFF.scan_box s = .ok (R, s1))
    (hR : R.2.1 = ISOBMFF.elstTag)
    (hnext : (bnd (ISOBMFF.scan_elst R.2.2 s1) fun _ s2 => ISOBMFF.edtsLoop f ce s2) = res) :
    ISOBMFF.edtsLoop (f + 1) ce s = res := by
  simp only [ISOBMFF.edtsLoop]
  rw [if_pos hlt, hbox]
  show (if R.2.1 = ISOBMFF.elstTag then
        bnd (ISOBMFF.scan_elst R.2.2 s1) fun _ s2 => ISOBMFF.edtsLoop f ce s2
      else 
        bnd (seekCur R.2.2 s1) fun _ s2 => ISOBMFF.edtsLoop f ce s2) = res
  rw [if_pos hR]
  exact hnext

/-- One step of `edtsLoop` skipping an undispatched child. -/
theorem edtsLoop_step_skip {f : Nat} {ce : Int} {s s1 : St}
    {R : Int × List Nat × Int} {res : Except PyErr St}
    (hlt : (s.pos : Int) < ce)
    (hbox : ISOBMFF.scan_box s = .ok (R, s1))
    (h1 : ¬ R.2.1 = ISOBMFF.elstTag)
    (hnext : (bnd (seekCur R.2.2 s1) fun _ s2 => ISOBMFF.edtsLoop f ce s2) = res) :
    ISOBMFF.edtsLoop (f + 1) ce s = res := by
  simp only [ISOBMFF.edtsLoop]
  rw [if_pos hlt, hbox]
  show (if R.2.1 = ISOBMFF.elstTag then
        bnd (ISOBMFF.scan_elst R.2.2 s1) fun _ s2 => ISOBMFF.edtsLoop f ce s2
      else 
        bnd (seekCur R.2.2 s1) fun _ s2 => ISOBMFF.edtsLoop f ce s2) = res
  rw [if_neg h1]
  exact hnext

/-- Exit of `udtaLoop` when the cursor has reached the chunk end. -/
theorem udtaLoop_exit {f : Nat} {ce : Int} {s : St}
    (h : ¬ ((s.pos : Int) < ce)) : ISOBMFF.udtaLoop (f + 1) ce s = .ok s := by
  simp only [ISOBMFF.udtaLoop]
  rw [if_neg h]

/-- One step of `udtaLoop` skipping a child (this loop decodes nothing). -/
theorem udtaLoop_step_skip {f : Nat} {ce : Int} {s s1 : St}
    {R : Int × List Nat × Int} {res : Except PyErr St}
    (hlt : (s.pos : Int) < ce)
    (hbox : ISOBMFF.scan_box s = .ok (R, s1))
    (hnext : (bnd (seekCur R.2.2 s1) fun _ s2 => ISOBMFF.udtaLoop f ce s2) = res) :
    ISOBMFF.udtaLoop (f + 1) ce s = res := by
  simp only [ISOBMFF.udtaLoop]
  rw [if_pos hlt, hbox]
  exact hnext

/-- Exit of `stblLoop` when the cursor has reached the chunk end. -/
theorem stblLoop_exit {f : Nat} {ce : Int} {s : St}
    (h : ¬ ((s.pos : Int) < ce)) : ISOBMFF.stblLoop (f + 1) ce s = .ok s := by
  simp only [ISOBMFF.stblLoop]
  rw [if_neg h]

/-- One step of `stblLoop` skipping a child (this loop decodes nothing). -/
theorem stblLoop_step_skip {f : Nat} {ce : Int} {s s1 : St}
    {R : Int × List Nat × Int} {res : Except PyErr St}
    (hlt : (s.pos : Int) < ce)
    (hbox : ISOBMFF.scan_box s = .ok (R, s1))
    (hnext : (bnd (seekCur R.2.2 s1) fun _ s2 => ISOBMFF.stblLoop f ce s2) = res) :
    ISOBMFF.stblLoop (f + 1) ce s = res := by
  simp only [ISOBMFF.stblLoop]
  rw [if_pos hlt, hbox]
  exact hnext

/-- Exit of `drefLoop` when the cursor has reached the chunk end. -/
theorem drefLoop_exit {f : Nat} {ce : Int} {s : St}
    (h : ¬ ((s.pos : Int) < ce)) : ISOBMFF.drefLoop (f + 1) ce s = .ok s := by
  simp only [ISOBMFF.drefLoop]
  rw [if_neg h]

/-- One step of `drefLoop` dispatching a `url` child. -/
theorem drefLoop_step_url {f : Nat} {ce : Int} {s s1 : St}
    {R : Int × List Nat × Int} {res : Except PyErr St}
    (hlt : (s.pos : Int) < ce)
    (hbox : ISOBMFF.scan_box s = .ok (R, s1))
    (hR : R.2.1 = ISOBMFF.urlTag)
    (hnext : (bnd (ISOBMFF.scan_url_ R.2.2 s1) fun _ s2 => ISOBMFF.drefLoop f ce s2) = res) :
    ISOBMFF.drefLoop (f + 1) ce s = res := by
  simp only [ISOBMFF.drefLoop]
  rw [if_pos hlt, hbox]
  show (if R.2.1 = ISOBMFF.urlTag then
        bnd (ISOBMFF.scan_url_ R.2.2 s1) fun _ s2 => ISOBMFF.drefLoop f ce s2
      else if R.2.1 = ISOBMFF.urnTag then
        bnd (ISOBMFF.scan_urn_ R.2.2 s1) fun _ s2 => ISOBMFF.drefLoop f ce s2
      else 
        bnd (seekCur R.2.2 s1) fun _ s2 => ISOBMFF.drefLoop f ce s2) = res
  rw [if_pos hR]
  exact hnext

/-- One step of `drefLoop` dispatching a `urn` child. -/
theorem drefLoop_step_urn {f : Nat} {ce : Int} {s s1 : St}
    {R : Int × List Nat × Int} {res : Except PyErr St}
    (hlt : (s.pos : Int) < ce)
    (hbox : ISOBMFF.scan_box s = .ok (R, s1))
    (hR : R.2.1 = ISOBMFF.urnTag)
    (hnext : (bnd (ISOBMFF.scan_urn_ R.2.2 s1) fun _ s2 => ISOBMFF.drefLoop f ce s2) = res) :
    ISOBMFF.drefLoop (f + 1) ce s = res := by
  simp only [ISOBMFF.drefLoop]
  rw [if_pos hlt, hbox]
  show (if R.2.1 = ISOBMFF.urlTag then
        bnd (ISOBMFF.scan_url_ R.2.2 s1) fun _ s2 => ISOBMFF.drefLoop f ce s2
      else if R.2.1 = ISOBMFF.urnTag then
        bnd (ISOBMFF.scan_urn_ R.2.2 s1) fun _ s2 => ISOBMFF.drefLoop f ce s2
      else 
        bnd (seekCur R.2.2 s1) fun _ s2 => ISOBMFF.drefLoop f ce s2) = res
  rw [if_neg (by rw [hR]; decide)]
  rw [if_pos hR]
  exact hnext

/-- One step of `drefLoop` skipping an undispatched child. -/
theorem drefLoop_step_skip {f : Nat} {ce : Int} {s s1 : St}
    {R : Int × List Nat × Int} {res : Except PyErr St}
    (hlt : (s.pos : Int) < ce)
    (hbox : ISOBMFF.scan_box s = .ok (R, s1))
    (h1 : ¬ R.2.1 = ISOBMFF.urlTag)
    (h2 : ¬ R.2.1 = ISOBMFF.urnTag)
    (hnext : (bnd (seekCur R.2.2 s1) fun _ s2 => ISOBMFF.drefLoop f ce s2) = res) :
    ISOBMFF.drefLoop (f + 1) ce s = res := by
  simp only [ISOBMFF.drefLoop]
  rw [if_pos hlt, hbox]
  show (if R.2.1 = ISOBMFF.urlTag then
        bnd (ISOBMFF.scan_url_ R.2.2 s1) fun _ s2 => ISOBMFF.drefLoop f ce s2
      else if R.2.1 = ISOBMFF.urnTag then
        bnd (ISOBMFF.scan_urn_ R.2.2 s1) fun _ s2 => ISOBMFF.drefLoop f ce s2
      else 
        bnd (seekCur R.2.2 s1) fun _ s2 => ISOBMFF.drefLoop f ce s2) = res
  rw [if_neg h1]
  rw [if_neg h2]
  exact hnext

/-- Exit of the top-level loop at end of file. -/
theorem scanLoop_exit {f : Nat} {acc : List ISOBMFF.TraceEntry} {cnt : Nat}
    {s : St} (h : ¬ (s.pos < s.data.length)) :
    ISOBMFF.scanLoop (f + 1) acc cnt s = .ok ((acc, cnt), s) := by
  simp only [ISOBMFF.scanLoop]
  rw [if_neg h]

/-- One step of the top-level loop dispatching an `ftyp` box. -/
theorem scanLoop_step_ftyp {f : Nat} {acc : List ISOBMFF.TraceEntry}
    {cnt : Nat} {s s1 : St} {R : Int × List Nat × Int}
    {res : Except PyErr ((List ISOBMFF.TraceEntry × Nat) × St)}
    (hlt : s.pos < s.data.length)
    (hbox : ISOBMFF.scan_box s = .ok (R, s1))
    (hR : R.2.1 = ISOBMFF.ftypTag)
    (hnext : (bnd (ISOBMFF.scan_ftyp R.2.2 s1) fun _ s2 =>
        ISOBMFF.scanLoop f (acc ++ [(R.1, R.2.1, s2.pos)]) (cnt + 1) s2)
      = res) :
    ISOBMFF.scanLoop (f + 1) acc cnt s = res := by
  simp only [ISOBMFF.scanLoop]
  rw [if_pos hlt, hbox]
  show (if R.2.1 = ISOBMFF.ftypTag then
        bnd (ISOBMFF.scan_ftyp R.2.2 s1) fun _ s2 =>
          ISOBMFF.scanLoop f (acc ++ [(R.1, R.2.1, s2.pos)]) (cnt + 1) s2
      else if R.2.1 = ISOBMFF.moovTag then
        bndU (ISOBMFF.scan_moov f R.2.2 s1) fun s2 =>
          ISOBMFF.scanLoop f (acc ++ [(R.1, R.2.1, s2.pos)]) (cnt + 1) s2
      else
        bnd (seekCur R.2.2 s1) fun _ s2 =>
          ISOBMFF.scanLoop f (acc ++ [(R.1, R.2.1, s2.pos)]) (cnt + 1) s2) = res
  rw [if_pos hR]
  exact hnext

/-- One step of the top-level loop dispatching a `moov` box. -/
theorem scanLoop_step_moov {f : Nat} {acc : List ISOBMFF.TraceEntry}
    {cnt : Nat} {s s1 : St} {R : Int × List Nat × Int}
    {res : Except PyErr ((List ISOBMFF.TraceEntry × Nat) × St)}
    (hlt : s.pos < s.data.length)
    (hbox : ISOBMFF.scan_box s = .ok (R, s1))
    (hR : R.2.1 = ISOBMFF.moovTag)
    (hnext : (bndU (ISOBMFF.scan_moov f R.2.2 s1) fun s2 =>
        ISOBMFF.scanLoop f (acc ++ [(R.1, R.2.1, s2.pos)]) (cnt + 1) s2)
      = res) :
    ISOBMFF.scanLoop (f + 1) acc cnt s = res := by
  simp only [ISOBMFF.scanLoop]
  rw [if_pos hlt, hbox]
  show (if R.2.1 = ISOBMFF.ftypTag then
        bnd (ISOBMFF.scan_ftyp R.2.2 s1) fun _ s2 =>
          ISOBMFF.scanLoop f (acc ++ [(R.1, R.2.1, s2.pos)]) (cnt + 1) s2
      else if R.2.1 = ISOBMFF.moovTag then
        bndU (ISOBMFF.scan_moov f R.2.2 s1) fun s2 =>
          ISOBMFF.scanLoop f (acc ++ [(R.1, R.2.1, s2.pos)]) (cnt + 1) s2
      else
        bnd (seekCur R.2.2 s1) fun _ s2 =>
          ISOBMFF.scanLoop f (acc ++ [(R.1, R.2.1, s2.pos)]) (cnt + 1) s2) = res
  rw [if_neg (by rw [hR]; decide), if_pos hR]
  exact hnext

/-- One step of the top-level loop skipping an undispatched box. -/
theorem scanLoop_step_skip {f : Nat} {acc : List ISOBMFF.TraceEntry}
    {cnt : Nat} {s s1 : St} {R : Int × List Nat × Int}
    {res : Except PyErr ((List ISOBMFF.TraceEntry × Nat) × St)}
    (hlt : s.pos < s.data.length)
    (hbox : ISOBMFF.scan_box s = .ok (R, s1))
    (h1 : ¬ R.2.1 = ISOBMFF.ftypTag)
    (h2 : ¬ R.2.1 = ISOBMFF.moovTag)
    (hnext : (bnd (seekCur R.2.2 s1) fun _ s2 =>
        ISOBMFF.scanLoop f (acc ++ [(R.1, R.2.1, s2.pos)]) (cnt + 1) s2)
      = res) :
    ISOBMFF.scanLoop (f + 1) acc cnt s = res := by
  simp only [ISOBMFF.scanLoop]
  rw [if_pos hlt, hbox]
  show (if R.2.1 = ISOBMFF.ftypTag then
        bnd (ISOBMFF.scan_ftyp R.2.2 s1) fun _ s2 =>
          ISOBMFF.scanLoop f (acc ++ [(R.1, R.2.1, s2.pos)]) (cnt + 1) s2
      else if R.2.1 = ISOBMFF.moovTag then
        bndU (ISOBMFF.scan_moov f R.2.2 s1) fun s2 =>
          ISOBMFF.scanLoop f (acc ++ [(R.1, R.2.1, s2.pos)]) (cnt + 1) s2
      else
        bnd (seekCur R.2.2 s1) fun _ s2 =>
          ISOBMFF.scanLoop f (acc ++ [(R.1, R.2.1, s2.pos)]) (cnt + 1) s2) = res
  rw [if_neg h1, if_neg h2]
  exact hnext

/-- Unpacking well-formedness of a generic box. -/
theorem vwf_generic {tag p : List Nat}
    (hw : vwf (VBox.generic tag p) = true) :
    tag.length = 4 ∧ recognizedTags.contains tag = false ∧
      p.length + 8 < 4294967296 := by
  simpa [vwf, Bool.and_eq_true, decide_eq_true_eq, Bool.not_eq_true',
    and_assoc] using hw

/-- A tag outside the recognized set differs from every dispatched
tag. -/
theorem generic_tags_ne {tag : List Nat}
    (h : recognizedTags.contains tag = false) :
    ¬ tag = ISOBMFF.ftypTag ∧ ¬ tag = ISOBMFF.moovTag ∧
    ¬ tag = ISOBMFF.mvhdTag ∧ ¬ tag = ISOBMFF.trakTag ∧
    ¬ tag = ISOBMFF.udtaTag ∧ ¬ tag = ISOBMFF.tkhdTag ∧
    ¬ tag = ISOBMFF.mdiaTag ∧ ¬ tag = ISOBMFF.edtsTag ∧
    ¬ tag = ISOBMFF.mdhdTag ∧ ¬ tag = ISOBMFF.hdlrTag ∧
    ¬ tag = ISOBMFF.minfTag ∧ ¬ tag = ISOBMFF.dinfTag ∧
    ¬ tag = ISOBMFF.stblTag ∧ ¬ tag = ISOBMFF.vmhdTag ∧
    ¬ tag = ISOBMFF.smhdTag ∧ ¬ tag = ISOBMFF.hmhdTag ∧
    ¬ tag = ISOBMFF.nmhdTag ∧ ¬ tag = ISOBMFF.drefTag ∧
    ¬ tag = ISOBMFF.urlTag ∧ ¬ tag = ISOBMFF.urnTag ∧
    ¬ tag = ISOBMFF.elstTag := by
  have hm : ¬ tag ∈ recognizedTags := by
    intro hmem
    simp [List.contains_eq_any_beq] at h
    exact h hmem
  simp only [recognizedTags, List.mem_cons, List.not_mem_nil, or_false,
    not_or] at hm
  exact hm

set_option maxHeartbeats 12000000 in
/-- Exactness of all nine container child loops of the program on
serialized well-formed box lists, proved together by strong induction on
the serialized length: every dispatched decoder and every sub-container
walk consumes exactly its payload, so each loop consumes exactly the
serialized bytes of its chunk and stops at the chunk end with the indent
restored. -/
theorem loopsRun : ∀ N : Nat,
    LoopRun ISOBMFF.moovLoop N ∧ LoopRun ISOBMFF.trakLoop N ∧
    LoopRun ISOBMFF.mdiaLoop N ∧ LoopRun ISOBMFF.minfLoop N ∧
    LoopRun ISOBMFF.dinfLoop N ∧ LoopRun ISOBMFF.edtsLoop N ∧
    LoopRun ISOBMFF.udtaLoop N ∧ LoopRun ISOBMFF.stblLoop N ∧
    LoopRun ISOBMFF.drefLoop N := by
  intro N
  induction N using Nat.strong_induction_on with
  | _ N IH =>
  refine ⟨?_, ?_, ?_, ?_, ?_, ?_, ?_, ?_, ?_⟩
  · intro cs D rest q ind fuel ce hN hwf hind hfuel hq hce
    cases cs with
    | nil =>
      obtain ⟨f, rfl⟩ : ∃ f, fuel = f + 1 := ⟨fuel - 1, by omega⟩
      rw [moovLoop_exit (by
        show ¬ ((q : Int) < ce)
        simp only [vserializeList, List.length_nil] at hce
        omega)]
      simp [vserializeList]
    | cons b cs' =>
      have hwb : vwf b = true := by
        have h := hwf
        simp only [vwfList, Bool.and_eq_true] at h
        exact h.1
      have hwcs : vwfList cs' = true := by
        have h := hwf
        simp only [vwfList, Bool.and_eq_true] at h
        exact h.2
      have ht4 : (vtag b).length = 4 := vtag_length hwb
      have hsz : (vpayload b).length + 8 < 4294967296 := vwf_size hwb
      have hlen : (vserializeList (b :: cs')).length =
          (8 + (vpayload b).length) + (vserializeList cs').length :=
        vserializeList_cons_length hwb
      obtain ⟨f, rfl⟩ : ∃ f, fuel = f + 1 := ⟨fuel - 1, by omega⟩
      have hq1 : D.drop q = mkBox (vtag b) (vpayload b) ++
          (vserializeList cs' ++ rest) := by
        rw [hq, show vserializeList (b :: cs') =
            mkBox (vtag b) (vpayload b) ++ vserializeList cs' from rfl,
          List.append_assoc]
      have hq2 : D.drop (q + 8) = vpayload b ++
          (vserializeList cs' ++ rest) := by
        rw [← List.drop_drop, hq1,
          List.drop_append_of_le_length (by rw [mkBox_length ht4]; omega),
          mkBox_drop8 ht4]
      have hbox := @scan_box_run D (vserializeList cs' ++ rest)
        (vtag b) (vpayload b) q ind hq1 ht4 hsz
      have hlt : (((⟨D, q, ind⟩ : St).pos : Nat) : Int) < ce := by
        show (q : Int) < ce
        rw [hce, hlen]
        push_cast
        omega
      cases b with
      | generic tag p =>
        have gtn := generic_tags_ne (vwf_generic hwb).2.1
        refine moovLoop_step_skip hlt hbox gtn.2.2.1 gtn.2.2.2.1 gtn.2.2.2.2.1 ?_
        simp only [vpayload, vtag] at hq2 hlen ⊢
        rw [seekCur_cast]
        simp only [bnd]
        have hq3 : D.drop (q + 8 + p.length) = vserializeList cs' ++ rest := by
          rw [show (q + 8 + p.length) = (q + 8) + p.length from by omega,
            ← List.drop_drop, hq2, List.drop_left]
        have htail := (IH (vserializeList cs').length (by omega)).1
          cs' D rest (q + 8 + p.length) ind f ce (le_refl _) hwcs hind (by omega) hq3
          (by rw [hce, hlen]; push_cast; omega)
        rw [htail, hlen,
          show (q + 8 + p.length) + (vserializeList cs').length =
            q + (8 + p.length + (vserializeList cs').length) from by omega]
      | ftypB p =>
        refine moovLoop_step_skip hlt hbox (by show ¬ ISOBMFF.ftypTag = ISOBMFF.mvhdTag; decide) (by show ¬ ISOBMFF.ftypTag = ISOBMFF.trakTag; decide) (by show ¬ ISOBMFF.ftypTag = ISOBMFF.udtaTag; decide) ?_
        simp only [vpayload, vtag] at hq2 hlen ⊢
        rw [seekCur_cast]
        simp only [bnd]
        have hq3 : D.drop (q + 8 + p.length) = vserializeList cs' ++ rest := by
          rw [show (q + 8 + p.length) = (q + 8) + p.length from by omega,
            ← List.drop_drop, hq2, List.drop_left]
        have htail := (IH (vserializeList cs').length (by omega)).1
          cs' D rest (q + 8 + p.length) ind f ce (le_refl _) hwcs hind (by omega) hq3
          (by rw [hce, hlen]; push_cast; omega)
        rw [htail, hlen,
          show (q + 8 + p.length) + (vserializeList cs').length =
            q + (8 + p.length + (vserializeList cs').length) from by omega]
      | mvhdB p =>
        refine moovLoop_step_mvhd hlt hbox rfl ?_
        simp only [vpayload, vtag] at hq2 hlen ⊢
        obtain ⟨o, ho⟩ := scan_mvhd_run ((p.length : Int)) hq2 hwb hind
        rw [ho]
        simp only [bnd]
        have hq3 : D.drop (q + 8 + p.length) = vserializeList cs' ++ rest := by
          rw [show (q + 8 + p.length) = (q + 8) + p.length from by omega,
            ← List.drop_drop, hq2, List.drop_left]
        have htail := (IH (vserializeList cs').length (by omega)).1
          cs' D rest (q + 8 + p.length) ind f ce (le_refl _) hwcs hind (by omega) hq3
          (by rw [hce, hlen]; push_cast; omega)
        rw [htail, hlen,
          show (q + 8 + p.length) + (vserializeList cs').length =
            q + (8 + p.length + (vserializeList cs').length) from by omega]
      | tkhdB p =>
        refine moovLoop_step_skip hlt hbox (by show ¬ ISOBMFF.tkhdTag = ISOBMFF.mvhdTag; decide) (by show ¬ ISOBMFF.tkhdTag = ISOBMFF.trakTag; decide) (by show ¬ ISOBMFF.tkhdTag = ISOBMFF.udtaTag; decide) ?_
        simp only [vpayload, vtag] at hq2 hlen ⊢
        rw [seekCur_cast]
        simp only [bnd]
        have hq3 : D.drop (q + 8 + p.length) = vserializeList cs' ++ rest := by
          rw [show (q + 8 + p.length) = (q + 8) + p.length from by omega,
            ← List.drop_drop, hq2, List.drop_left]
        have htail := (IH (vserializeList cs').length (by omega)).1
          cs' D rest (q + 8 + p.length) ind f ce (le_refl _) hwcs hind (by omega) hq3
          (by rw [hce, hlen]; push_cast; omega)
        rw [htail, hlen,
          show (q + 8 + p.length) + (vserializeList cs').length =
            q + (8 + p.length + (vserializeList cs').length) from by omega]
      | mdhdB p =>
        refine moovLoop_step_skip hlt hbox (by show ¬ ISOBMFF.mdhdTag = ISOBMFF.mvhdTag; decide) (by show ¬ ISOBMFF.mdhdTag = ISOBMFF.trakTag; decide) (by show ¬ ISOBMFF.mdhdTag = ISOBMFF.udtaTag; decide) ?_
        simp only [vpayload, vtag] at hq2 hlen ⊢
        rw [seekCur_cast]
        simp only [bnd]
        have hq3 : D.drop (q + 8 + p.length) = vserializeList cs' ++ rest := by
          rw [show (q + 8 + p.length) = (q + 8) + p.length from by omega,
            ← List.drop_drop, hq2, List.drop_left]
        have htail := (IH (vserializeList cs').length (by omega)).1
          cs' D rest (q + 8 + p.length) ind f ce (le_refl _) hwcs hind (by omega) hq3
          (by rw [hce, hlen]; push_cast; omega)
        rw [htail, hlen,
          show (q + 8 + p.length) + (vserializeList cs').length =
            q + (8 + p.length + (vserializeList cs').length) from by omega]
      | hdlrB p =>
        refine moovLoop_step_skip hlt hbox (by show ¬ ISOBMFF.hdlrTag = ISOBMFF.mvhdTag; decide) (by show ¬ ISOBMFF.hdlrTag = ISOBMFF.trakTag; decide) (by show ¬ ISOBMFF.hdlrTag = ISOBMFF.udtaTag; decide) ?_
        simp only [vpayload, vtag] at hq2 hlen ⊢
        rw [seekCur_cast]
        simp only [bnd]
        have hq3 : D.drop (q + 8 + p.length) = vserializeList cs' ++ rest := by
          rw [show (q + 8 + p.length) = (q + 8) + p.length from by omega,
            ← List.drop_drop, hq2, List.drop_left]
        have htail := (IH (vserializeList cs').length (by omega)).1
          cs' D rest (q + 8 + p.length) ind f ce (le_refl _) hwcs hind (by omega) hq3
          (by rw [hce, hlen]; push_cast; omega)
        rw [htail, hlen,
          show (q + 8 + p.length) + (vserializeList cs').length =
            q + (8 + p.length + (vserializeList cs').length) from by omega]
      | vmhdB p =>
        refine moovLoop_step_skip hlt hbox (by show ¬ ISOBMFF.vmhdTag = ISOBMFF.mvhdTag; decide) (by show ¬ ISOBMFF.vmhdTag = ISOBMFF.trakTag; decide) (by show ¬ ISOBMFF.vmhdTag = ISOBMFF.udtaTag; decide) ?_
        simp only [vpayload, vtag] at hq2 hlen ⊢
        rw [seekCur_cast]
        simp only [bnd]
        have hq3 : D.drop (q + 8 + p.length) = vserializeList cs' ++ rest := by
          rw [show (q + 8 + p.length) = (q + 8) + p.length from by omega,
            ← List.drop_drop, hq2, List.drop_left]
        have htail := (IH (vserializeList cs').length (by omega)).1
          cs' D rest (q + 8 + p.length) ind f ce (le_refl _) hwcs hind (by omega) hq3
          (by rw [hce, hlen]; push_cast; omega)
        rw [htail, hlen,
          show (q + 8 + p.length) + (vserializeList cs').length =
            q + (8 + p.length + (vserializeList cs').length) from by omega]
      | smhdB p =>
        refine moovLoop_step_skip hlt hbox (by show ¬ ISOBMFF.smhdTag = ISOBMFF.mvhdTag; decide) (by show ¬ ISOBMFF.smhdTag = ISOBMFF.trakTag; decide) (by show ¬ ISOBMFF.smhdTag = ISOBMFF.udtaTag; decide) ?_
        simp only [vpayload, vtag] at hq2 hlen ⊢
        rw [seekCur_cast]
        simp only [bnd]
        have hq3 : D.drop (q + 8 + p.length) = vserializeList cs' ++ rest := by
          rw [show (q + 8 + p.length) = (q + 8) + p.length from by omega,
            ← List.drop_drop, hq2, List.drop_left]
        have htail := (IH (vserializeList cs').length (by omega)).1
          cs' D rest (q + 8 + p.length) ind f ce (le_refl _) hwcs hind (by omega) hq3
          (by rw [hce, hlen]; push_cast; omega)
        rw [htail, hlen,
          show (q + 8 + p.length) + (vserializeList cs').length =
            q + (8 + p.length + (vserializeList cs').length) from by omega]
      | hmhdB p =>
        refine moovLoop_step_skip hlt hbox (by show ¬ ISOBMFF.hmhdTag = ISOBMFF.mvhdTag; decide) (by show ¬ ISOBMFF.hmhdTag = ISOBMFF.trakTag; decide) (by show ¬ ISOBMFF.hmhdTag = ISOBMFF.udtaTag; decide) ?_
        simp only [vpayload, vtag] at hq2 hlen ⊢
        rw [seekCur_cast]
        simp only [bnd]
        have hq3 : D.drop (q + 8 + p.length) = vserializeList cs' ++ rest := by
          rw [show (q + 8 + p.length) = (q + 8) + p.length from by omega,
            ← List.drop_drop, hq2, List.drop_left]
        have htail := (IH (vserializeList cs').length (by omega)).1
          cs' D rest (q + 8 + p.length) ind f ce (le_refl _) hwcs hind (by omega) hq3
          (by rw [hce, hlen]; push_cast; omega)
        rw [htail, hlen,
          show (q + 8 + p.length) + (vserializeList cs').length =
            q + (8 + p.length + (vserializeList cs').length) from by omega]
      | nmhdB p =>
        refine moovLoop_step_skip hlt hbox (by show ¬ ISOBMFF.nmhdTag = ISOBMFF.mvhdTag; decide) (by show ¬ ISOBMFF.nmhdTag = ISOBMFF.trakTag; decide) (by show ¬ ISOBMFF.nmhdTag = ISOBMFF.udtaTag; decide) ?_
        simp only [vpayload, vtag] at hq2 hlen ⊢
        rw [seekCur_cast]
        simp only [bnd]
        have hq3 : D.drop (q + 8 + p.length) = vserializeList cs' ++ rest := by
          rw [show (q + 8 + p.length) = (q + 8) + p.length from by omega,
            ← List.drop_drop, hq2, List.drop_left]
        have htail := (IH (vserializeList cs').length (by omega)).1
          cs' D rest (q + 8 + p.length) ind f ce (le_refl _) hwcs hind (by omega) hq3
          (by rw [hce, hlen]; push_cast; omega)
        rw [htail, hlen,
          show (q + 8 + p.length) + (vserializeList cs').length =
            q + (8 + p.length + (vserializeList cs').length) from by omega]
      | elstB p =>
        refine moovLoop_step_skip hlt hbox (by show ¬ ISOBMFF.elstTag = ISOBMFF.mvhdTag; decide) (by show ¬ ISOBMFF.elstTag = ISOBMFF.trakTag; decide) (by show ¬ ISOBMFF.elstTag = ISOBMFF.udtaTag; decide) ?_
        simp only [vpayload, vtag] at hq2 hlen ⊢
        rw [seekCur_cast]
        simp only [bnd]
        have hq3 : D.drop (q + 8 + p.length) = vserializeList cs' ++ rest := by
          rw [show (q + 8 + p.length) = (q + 8) + p.length from by omega,
            ← List.drop_drop, hq2, List.drop_left]
        have htail := (IH (vserializeList cs').length (by omega)).1
          cs' D rest (q + 8 + p.length) ind f ce (le_refl _) hwcs hind (by omega) hq3
          (by rw [hce, hlen]; push_cast; omega)
        rw [htail, hlen,
          show (q + 8 + p.length) + (vserializeList cs').length =
            q + (8 + p.length + (vserializeList cs').length) from by omega]
      | urlB p =>
        refine moovLoop_step_skip hlt hbox (by show ¬ ISOBMFF.urlTag = ISOBMFF.mvhdTag; decide) (by show ¬ ISOBMFF.urlTag = ISOBMFF.trakTag; decide) (by show ¬ ISOBMFF.urlTag = ISOBMFF.udtaTag; decide) ?_
        simp only [vpayload, vtag] at hq2 hlen ⊢
        rw [seekCur_cast]
        simp only [bnd]
        have hq3 : D.drop (q + 8 + p.length) = vserializeList cs' ++ rest := by
          rw [show (q + 8 + p.length) = (q + 8) + p.length from by omega,
            ← List.drop_drop, hq2, List.drop_left]
        have htail := (IH (vserializeList cs').length (by omega)).1
          cs' D rest (q + 8 + p.length) ind f ce (le_refl _) hwcs hind (by omega) hq3
          (by rw [hce, hlen]; push_cast; omega)
        rw [htail, hlen,
          show (q + 8 + p.length) + (vserializeList cs').length =
            q + (8 + p.length + (vserializeList cs').length) from by omega]
      | urnB p =>
        refine moovLoop_step_skip hlt hbox (by show ¬ ISOBMFF.urnTag = ISOBMFF.mvhdTag; decide) (by show ¬ ISOBMFF.urnTag = ISOBMFF.trakTag; decide) (by show ¬ ISOBMFF.urnTag = ISOBMFF.udtaTag; decide) ?_
        simp only [vpayload, vtag] at hq2 hlen ⊢
        rw [seekCur_cast]
        simp only [bnd]
        have hq3 : D.drop (q + 8 + p.length) = vserializeList cs' ++ rest := by
          rw [show (q + 8 + p.length) = (q + 8) + p.length from by omega,
            ← List.drop_drop, hq2, List.drop_left]
        have htail := (IH (vserializeList cs').length (by omega)).1
          cs' D rest (q + 8 + p.length) ind f ce (le_refl _) hwcs hind (by omega) hq3
          (by rw [hce, hlen]; push_cast; omega)
        rw [htail, hlen,
          show (q + 8 + p.length) + (vserializeList cs').length =
            q + (8 + p.length + (vserializeList cs').length) from by omega]
      | moovB cs2 =>
        refine moovLoop_step_skip hlt hbox (by show ¬ ISOBMFF.moovTag = ISOBMFF.mvhdTag; decide) (by show ¬ ISOBMFF.moovTag = ISOBMFF.trakTag; decide) (by show ¬ ISOBMFF.moovTag = ISOBMFF.udtaTag; decide) ?_
        simp only [vpayload, vtag] at hq2 hlen ⊢
        rw [seekCur_cast]
        simp only [bnd]
        have hq3 : D.drop (q + 8 + (vserializeList cs2).length) = vserializeList cs' ++ rest := by
          rw [show (q + 8 + (vserializeList cs2).length) = (q + 8) + (vserializeList cs2).length from by omega,
            ← List.drop_drop, hq2, List.drop_left]
        have htail := (IH (vserializeList cs').length (by omega)).1
          cs' D rest (q + 8 + (vserializeList cs2).length) ind f ce (le_refl _) hwcs hind (by omega) hq3
          (by rw [hce, hlen]; push_cast; omega)
        rw [htail, hlen,
          show (q + 8 + (vserializeList cs2).length) + (vserializeList cs').length =
            q + (8 + (vserializeList cs2).length + (vserializeList cs').length) from by omega]
      | trakB cs2 =>
        refine moovLoop_step_trak hlt hbox rfl ?_
        simp only [vpayload, vtag] at hq2 hlen ⊢
        have hw2 : vwfList cs2 = true ∧
            (vserializeList cs2).length + 8 < 4294967296 := by
          simpa [vwf, Bool.and_eq_true, decide_eq_true_eq] using hwb
        simp only [ISOBMFF.scan_trak, ipush]
        have hchild := (IH (vserializeList cs2).length (by omega)).2.1
          cs2 D (vserializeList cs' ++ rest) (q + 8) (ind + 1) f
          (((q + 8 : Nat) : Int) + ((vserializeList cs2).length : Int))
          (le_refl _) hw2.1 (by omega) (by omega) hq2 rfl
        rw [hchild]
        simp only [bndU]
        have hip : ipop (⟨D, q + 8 + (vserializeList cs2).length,
            ind + 1⟩ : St) =
            ⟨D, q + 8 + (vserializeList cs2).length, ind⟩ := by
          rw [ipop_of_pos (by simp; omega)]
          simp
        rw [hip]
        have hq3 : D.drop (q + 8 + (vserializeList cs2).length) = vserializeList cs' ++ rest := by
          rw [show (q + 8 + (vserializeList cs2).length) = (q + 8) + (vserializeList cs2).length from by omega,
            ← List.drop_drop, hq2, List.drop_left]
        have htail := (IH (vserializeList cs').length (by omega)).1
          cs' D rest (q + 8 + (vserializeList cs2).length) ind f ce (le_refl _) hwcs hind (by omega) hq3
          (by rw [hce, hlen]; push_cast; omega)
        rw [htail, hlen,
          show (q + 8 + (vserializeList cs2).length) + (vserializeList cs').length =
            q + (8 + (vserializeList cs2).length + (vserializeList cs').length) from by omega]
      | mdiaB cs2 =>
        refine moovLoop_step_skip hlt hbox (by show ¬ ISOBMFF.mdiaTag = ISOBMFF.mvhdTag; decide) (by show ¬ ISOBMFF.mdiaTag = ISOBMFF.trakTag; decide) (by show ¬ ISOBMFF.mdiaTag = ISOBMFF.udtaTag; decide) ?_
        simp only [vpayload, vtag] at hq2 hlen ⊢
        rw [seekCur_cast]
        simp only [bnd]
        have hq3 : D.drop (q + 8 + (vserializeList cs2).length) = vserializeList cs' ++ rest := by
          rw [show (q + 8 + (vserializeList cs2).length) = (q + 8) + (vserializeList cs2).length from by omega,
            ← List.drop_drop, hq2, List.drop_left]
        have htail := (IH (vserializeList cs').length (by omega)).1
          cs' D rest (q + 8 + (vserializeList cs2).length) ind f ce (le_refl _) hwcs hind (by omega) hq3
          (by rw [hce, hlen]; push_cast; omega)
        rw [htail, hlen,
          show (q + 8 + (vserializeList cs2).length) + (vserializeList cs').length =
            q + (8 + (vserializeList cs2).length + (vserializeList cs').length) from by omega]
      | minfB cs2 =>
        refine moovLoop_step_skip hlt hbox (by show ¬ ISOBMFF.minfTag = ISOBMFF.mvhdTag; decide) (by show ¬ ISOBMFF.minfTag = ISOBMFF.trakTag; decide) (by show ¬ ISOBMFF.minfTag = ISOBMFF.udtaTag; decide) ?_
        simp only [vpayload, vtag] at hq2 hlen ⊢
        rw [seekCur_cast]
        simp only [bnd]
        have hq3 : D.drop (q + 8 + (vserializeList cs2).length) = vserializeList cs' ++ rest := by
          rw [show (q + 8 + (vserializeList cs2).length) = (q + 8) + (vserializeList cs2).length from by omega,
            ← List.drop_drop, hq2, List.drop_left]
        have htail := (IH (vserializeList cs').length (by omega)).1
          cs' D rest (q + 8 + (vserializeList cs2).length) ind f ce (le_refl _) hwcs hind (by omega) hq3
          (by rw [hce, hlen]; push_cast; omega)
        rw [htail, hlen,
          show (q + 8 + (vserializeList cs2).length) + (vserializeList cs').length =
            q + (8 + (vserializeList cs2).length + (vserializeList cs').length) from by omega]
      | dinfB cs2 =>
        refine moovLoop_step_skip hlt hbox (by show ¬ ISOBMFF.dinfTag = ISOBMFF.mvhdTag; decide) (by show ¬ ISOBMFF.dinfTag = ISOBMFF.trakTag; decide) (by show ¬ ISOBMFF.dinfTag = ISOBMFF.udtaTag; decide) ?_
        simp only [vpayload, vtag] at hq2 hlen ⊢
        rw [seekCur_cast]
        simp only [bnd]
        have hq3 : D.drop (q + 8 + (vserializeList cs2).length) = vserializeList cs' ++ rest := by
          rw [show (q + 8 + (vserializeList cs2).length) = (q + 8) + (vserializeList cs2).length from by omega,
            ← List.drop_drop, hq2, List.drop_left]
        have htail := (IH (vserializeList cs').length (by omega)).1
          cs' D rest (q + 8 + (vserializeList cs2).length) ind f ce (le_refl _) hwcs hind (by omega) hq3
          (by rw [hce, hlen]; push_cast; omega)
        rw [htail, hlen,
          show (q + 8 + (vserializeList cs2).length) + (vserializeList cs').length =
            q + (8 + (vserializeList cs2).length + (vserializeList cs').length) from by omega]
      | edtsB cs2 =>
        refine moovLoop_step_skip hlt hbox (by show ¬ ISOBMFF.edtsTag = ISOBMFF.mvhdTag; decide) (by show ¬ ISOBMFF.edtsTag = ISOBMFF.trakTag; decide) (by show ¬ ISOBMFF.edtsTag = ISOBMFF.udtaTag; decide) ?_
        simp only [vpayload, vtag] at hq2 hlen ⊢
        rw [seekCur_cast]
        simp only [bnd]
        have hq3 : D.drop (q + 8 + (vserializeList cs2).length) = vserializeList cs' ++ rest := by
          rw [show (q + 8 + (vserializeList cs2).length) = (q + 8) + (vserializeList cs2).length from by omega,
            ← List.drop_drop, hq2, List.drop_left]
        have htail := (IH (vserializeList cs').length (by omega)).1
          cs' D rest (q + 8 + (vserializeList cs2).length) ind f ce (le_refl _) hwcs hind (by omega) hq3
          (by rw [hce, hlen]; push_cast; omega)
        rw [htail, hlen,
          show (q + 8 + (vserializeList cs2).length) + (vserializeList cs').length =
            q + (8 + (vserializeList cs2).length + (vserializeList cs').length) from by omega]
      | udtaB cs2 =>
        refine moovLoop_step_udta hlt hbox rfl ?_
        simp only [vpayload, vtag] at hq2 hlen ⊢
        have hw2 : vwfList cs2 = true ∧
            (vserializeList cs2).length + 8 < 4294967296 := by
          simpa [vwf, Bool.and_eq_true, decide_eq_true_eq] using hwb
        simp only [ISOBMFF.scan_udta, ipush]
        have hchild := (IH (vserializeList cs2).length (by omega)).2.2.2.2.2.2.1
          cs2 D (vserializeList cs' ++ rest) (q + 8) (ind + 1) f
          (((q + 8 : Nat) : Int) + ((vserializeList cs2).length : Int))
          (le_refl _) hw2.1 (by omega) (by omega) hq2 rfl
        rw [hchild]
        simp only [bndU]
        have hip : ipop (⟨D, q + 8 + (vserializeList cs2).length,
            ind + 1⟩ : St) =
            ⟨D, q + 8 + (vserializeList cs2).length, ind⟩ := by
          rw [ipop_of_pos (by simp; omega)]
          simp
        rw [hip]
        have hq3 : D.drop (q + 8 + (vserializeList cs2).length) = vserializeList cs' ++ rest := by
          rw [show (q + 8 + (vserializeList cs2).length) = (q + 8) + (vserializeList cs2).length from by omega,
            ← List.drop_drop, hq2, List.drop_left]
        have htail := (IH (vserializeList cs').length (by omega)).1
          cs' D rest (q + 8 + (vserializeList cs2).length) ind f ce (le_refl _) hwcs hind (by omega) hq3
          (by rw [hce, hlen]; push_cast; omega)
        rw [htail, hlen,
          show (q + 8 + (vserializeList cs2).length) + (vserializeList cs').length =
            q + (8 + (vserializeList cs2).length + (vserializeList cs').length) from by omega]
      | stblB cs2 =>
        refine moovLoop_step_skip hlt hbox (by show ¬ ISOBMFF.stblTag = ISOBMFF.mvhdTag; decide) (by show ¬ ISOBMFF.stblTag = ISOBMFF.trakTag; decide) (by show ¬ ISOBMFF.stblTag = ISOBMFF.udtaTag; decide) ?_
        simp only [vpayload, vtag] at hq2 hlen ⊢
        rw [seekCur_cast]
        simp only [bnd]
        have hq3 : D.drop (q + 8 + (vserializeList cs2).length) = vserializeList cs' ++ rest := by
          rw [show (q + 8 + (vserializeList cs2).length) = (q + 8) + (vserializeList cs2).length from by omega,
            ← List.drop_drop, hq2, List.drop_left]
        have htail := (IH (vserializeList cs').length (by omega)).1
          cs' D rest (q + 8 + (vserializeList cs2).length) ind f ce (le_refl _) hwcs hind (by omega) hq3
          (by rw [hce, hlen]; push_cast; omega)
        rw [htail, hlen,
          show (q + 8 + (vserializeList cs2).length) + (vserializeList cs').length =
            q + (8 + (vserializeList cs2).length + (vserializeList cs').length) from by omega]
      | drefB hd cs2 =>
        refine moovLoop_step_skip hlt hbox (by show ¬ ISOBMFF.drefTag = ISOBMFF.mvhdTag; decide) (by show ¬ ISOBMFF.drefTag = ISOBMFF.trakTag; decide) (by show ¬ ISOBMFF.drefTag = ISOBMFF.udtaTag; decide) ?_
        simp only [vpayload, vtag] at hq2 hlen ⊢
        rw [seekCur_cast]
        simp only [bnd]
        have hq3 : D.drop (q + 8 + (hd ++ vserializeList cs2).length) = vserializeList cs' ++ rest := by
          rw [show (q + 8 + (hd ++ vserializeList cs2).length) = (q + 8) + (hd ++ vserializeList cs2).length from by omega,
            ← List.drop_drop, hq2, List.drop_left]
        have htail := (IH (vserializeList cs').length (by omega)).1
          cs' D rest (q + 8 + (hd ++ vserializeList cs2).length) ind f ce (le_refl _) hwcs hind (by omega) hq3
          (by rw [hce, hlen]; push_cast; omega)
        rw [htail, hlen,
          show (q + 8 + (hd ++ vserializeList cs2).length) + (vserializeList cs').length =
            q + (8 + (hd ++ vserializeList cs2).length + (vserializeList cs').length) from by omega]
  · intro cs D rest q ind fuel ce hN hwf hind hfuel hq hce
    cases cs with
    | nil =>
      obtain ⟨f, rfl⟩ : ∃ f, fuel = f + 1 := ⟨fuel - 1, by omega⟩
      rw [trakLoop_exit (by
        show ¬ ((q : Int) < ce)
        simp only [vserializeList, List.length_nil] at hce
        omega)]
      simp [vserializeList]
    | cons b cs' =>
      have hwb : vwf b = true := by
        have h := hwf
        simp only [vwfList, Bool.and_eq_true] at h
        exact h.1
      have hwcs : vwfList cs' = true := by
        have h := hwf
        simp only [vwfList, Bool.and_eq_true] at h
        exact h.2
      have ht4 : (vtag b).length = 4 := vtag_length hwb
      have hsz : (vpayload b).length + 8 < 4294967296 := vwf_size hwb
      have hlen : (vserializeList (b :: cs')).length =
          (8 + (vpayload b).length) + (vserializeList cs').length :=
        vserializeList_cons_length hwb
      obtain ⟨f, rfl⟩ : ∃ f, fuel = f + 1 := ⟨fuel - 1, by omega⟩
      have hq1 : D.drop q = mkBox (vtag b) (vpayload b) ++
          (vserializeList cs' ++ rest) := by
        rw [hq, show vserializeList (b :: cs') =
            mkBox (vtag b) (vpayload b) ++ vserializeList cs' from rfl,
          List.append_assoc]
      have hq2 : D.drop (q + 8) = vpayload b ++
          (vserializeList cs' ++ rest) := by
        rw [← List.drop_drop, hq1,
          List.drop_append_of_le_length (by rw [mkBox_length ht4]; omega),
          mkBox_drop8 ht4]
      have hbox := @scan_box_run D (vserializeList cs' ++ rest)
        (vtag b) (vpayload b) q ind hq1 ht4 hsz
      have hlt : (((⟨D, q, ind⟩ : St).pos : Nat) : Int) < ce := by
        show (q : Int) < ce
        rw [hce, hlen]
        push_cast
        omega
      cases b with
      | generic tag p =>
        have gtn := generic_tags_ne (vwf_generic hwb).2.1
        refine trakLoop_step_skip hlt hbox gtn.2.2.2.2.2.1 gtn.2.2.2.2.2.2.1 gtn.2.2.2.2.2.2.2.1 gtn.2.2.2.2.1 ?_
        simp only [vpayload, vtag] at hq2 hlen ⊢
        rw [seekCur_cast]
        simp only [bnd]
        have hq3 : D.drop (q + 8 + p.length) = vserializeList cs' ++ rest := by
          rw [show (q + 8 + p.length) = (q + 8) + p.length from by omega,
            ← List.drop_drop, hq2, List.drop_left]
        have htail := (IH (vserializeList cs').length (by omega)).2.1
          cs' D rest (q + 8 + p.length) ind f ce (le_refl _) hwcs hind (by omega) hq3
          (by rw [hce, hlen]; push_cast; omega)
        rw [htail, hlen,
          show (q + 8 + p.length) + (vserializeList cs').length =
            q + (8 + p.length + (vserializeList cs').length) from by omega]
      | ftypB p =>
        refine trakLoop_step_skip hlt hbox (by show ¬ ISOBMFF.ftypTag = ISOBMFF.tkhdTag; decide) (by show ¬ ISOBMFF.ftypTag = ISOBMFF.mdiaTag; decide) (by show ¬ ISOBMFF.ftypTag = ISOBMFF.edtsTag; decide) (by show ¬ ISOBMFF.ftypTag = ISOBMFF.udtaTag; decide) ?_
        simp only [vpayload, vtag] at hq2 hlen ⊢
        rw [seekCur_cast]
        simp only [bnd]
        have hq3 : D.drop (q + 8 + p.length) = vserializeList cs' ++ rest := by
          rw [show (q + 8 + p.length) = (q + 8) + p.length from by omega,
            ← List.drop_drop, hq2, List.drop_left]
        have htail := (IH (vserializeList cs').length (by omega)).2.1
          cs' D rest (q + 8 + p.length) ind f ce (le_refl _) hwcs hind (by omega) hq3
          (by rw [hce, hlen]; push_cast; omega)
        rw [htail, hlen,
          show (q + 8 + p.length) + (vserializeList cs').length =
            q + (8 + p.length + (vserializeList cs').length) from by omega]
      | mvhdB p =>
        refine trakLoop_step_skip hlt hbox (by show ¬ ISOBMFF.mvhdTag = ISOBMFF.tkhdTag; decide) (by show ¬ ISOBMFF.mvhdTag = ISOBMFF.mdiaTag; decide) (by show ¬ ISOBMFF.mvhdTag = ISOBMFF.edtsTag; decide) (by show ¬ ISOBMFF.mvhdTag = ISOBMFF.udtaTag; decide) ?_
        simp only [vpayload, vtag] at hq2 hlen ⊢
        rw [seekCur_cast]
        simp only [bnd]
        have hq3 : D.drop (q + 8 + p.length) = vserializeList cs' ++ rest := by
          rw [show (q + 8 + p.length) = (q + 8) + p.length from by omega,
            ← List.drop_drop, hq2, List.drop_left]
        have htail := (IH (vserializeList cs').length (by omega)).2.1
          cs' D rest (q + 8 + p.length) ind f ce (le_refl _) hwcs hind (by omega) hq3
          (by rw [hce, hlen]; push_cast; omega)
        rw [htail, hlen,
          show (q + 8 + p.length) + (vserializeList cs').length =
            q + (8 + p.length + (vserializeList cs').length) from by omega]
      | tkhdB p =>
        refine trakLoop_step_tkhd hlt hbox rfl ?_
        simp only [vpayload, vtag] at hq2 hlen ⊢
        obtain ⟨o, ho⟩ := scan_tkhd_run ((p.length : Int)) hq2 hwb hind
        rw [ho]
        simp only [bnd]
        have hq3 : D.drop (q + 8 + p.length) = vserializeList cs' ++ rest := by
          rw [show (q + 8 + p.length) = (q + 8) + p.length from by omega,
            ← List.drop_drop, hq2, List.drop_left]
        have htail := (IH (vserializeList cs').length (by omega)).2.1
          cs' D rest (q + 8 + p.length) ind f ce (le_refl _) hwcs hind (by omega) hq3
          (by rw [hce, hlen]; push_cast; omega)
        rw [htail, hlen,
          show (q + 8 + p.length) + (vserializeList cs').length =
            q + (8 + p.length + (vserializeList cs').length) from by omega]
      | mdhdB p =>
        refine trakLoop_step_skip hlt hbox (by show ¬ ISOBMFF.mdhdTag = ISOBMFF.tkhdTag; decide) (by show ¬ ISOBMFF.mdhdTag = ISOBMFF.mdiaTag; decide) (by show ¬ ISOBMFF.mdhdTag = ISOBMFF.edtsTag; decide) (by show ¬ ISOBMFF.mdhdTag = ISOBMFF.udtaTag; decide) ?_
        simp only [vpayload, vtag] at hq2 hlen ⊢
        rw [seekCur_cast]
        simp only [bnd]
        have hq3 : D.drop (q + 8 + p.length) = vserializeList cs' ++ rest := by
          rw [show (q + 8 + p.length) = (q + 8) + p.length from by omega,
            ← List.drop_drop, hq2, List.drop_left]
        have htail := (IH (vserializeList cs').length (by omega)).2.1
          cs' D rest (q + 8 + p.length) ind f ce (le_refl _) hwcs hind (by omega) hq3
          (by rw [hce, hlen]; push_cast; omega)
        rw [htail, hlen,
          show (q + 8 + p.length) + (vserializeList cs').length =
            q + (8 + p.length + (vserializeList cs').length) from by omega]
      | hdlrB p =>
        refine trakLoop_step_skip hlt hbox (by show ¬ ISOBMFF.hdlrTag = ISOBMFF.tkhdTag; decide) (by show ¬ ISOBMFF.hdlrTag = ISOBMFF.mdiaTag; decide) (by show ¬ ISOBMFF.hdlrTag = ISOBMFF.edtsTag; decide) (by show ¬ ISOBMFF.hdlrTag = ISOBMFF.udtaTag; decide) ?_
        simp only [vpayload, vtag] at hq2 hlen ⊢
        rw [seekCur_cast]
        simp only [bnd]
        have hq3 : D.drop (q + 8 + p.length) = vserializeList cs' ++ rest := by
          rw [show (q + 8 + p.length) = (q + 8) + p.length from by omega,
            ← List.drop_drop, hq2, List.drop_left]
        have htail := (IH (vserializeList cs').length (by omega)).2.1
          cs' D rest (q + 8 + p.length) ind f ce (le_refl _) hwcs hind (by omega) hq3
          (by rw [hce, hlen]; push_cast; omega)
        rw [htail, hlen,
          show (q + 8 + p.length) + (vserializeList cs').length =
            q + (8 + p.length + (vserializeList cs').length) from by omega]
      | vmhdB p =>
        refine trakLoop_step_skip hlt hbox (by show ¬ ISOBMFF.vmhdTag = ISOBMFF.tkhdTag; decide) (by show ¬ ISOBMFF.vmhdTag = ISOBMFF.mdiaTag; decide) (by show ¬ ISOBMFF.vmhdTag = ISOBMFF.edtsTag; decide) (by show ¬ ISOBMFF.vmhdTag = ISOBMFF.udtaTag; decide) ?_
        simp only [vpayload, vtag] at hq2 hlen ⊢
        rw [seekCur_cast]
        simp only [bnd]
        have hq3 : D.drop (q + 8 + p.length) = vserializeList cs' ++ rest := by
          rw [show (q + 8 + p.length) = (q + 8) + p.length from by omega,
            ← List.drop_drop, hq2, List.drop_left]
        have htail := (IH (vserializeList cs').length (by omega)).2.1
          cs' D rest (q + 8 + p.length) ind f ce (le_refl _) hwcs hind (by omega) hq3
          (by rw [hce, hlen]; push_cast; omega)
        rw [htail, hlen,
          show (q + 8 + p.length) + (vserializeList cs').length =
            q + (8 + p.length + (vserializeList cs').length) from by omega]
      | smhdB p =>
        refine trakLoop_step_skip hlt hbox (by show ¬ ISOBMFF.smhdTag = ISOBMFF.tkhdTag; decide) (by show ¬ ISOBMFF.smhdTag = ISOBMFF.mdiaTag; decide) (by show ¬ ISOBMFF.smhdTag = ISOBMFF.edtsTag; decide) (by show ¬ ISOBMFF.smhdTag = ISOBMFF.udtaTag; decide) ?_
        simp only [vpayload, vtag] at hq2 hlen ⊢
        rw [seekCur_cast]
        simp only [bnd]
        have hq3 : D.drop (q + 8 + p.length) = vserializeList cs' ++ rest := by
          rw [show (q + 8 + p.length) = (q + 8) + p.length from by omega,
            ← List.drop_drop, hq2, List.drop_left]
        have htail := (IH (vserializeList cs').length (by omega)).2.1
          cs' D rest (q + 8 + p.length) ind f ce (le_refl _) hwcs hind (by omega) hq3
          (by rw [hce, hlen]; push_cast; omega)
        rw [htail, hlen,
          show (q + 8 + p.length) + (vserializeList cs').length =
            q + (8 + p.length + (vserializeList cs').length) from by omega]
      | hmhdB p =>
        refine trakLoop_step_skip hlt hbox (by show ¬ ISOBMFF.hmhdTag = ISOBMFF.tkhdTag; decide) (by show ¬ ISOBMFF.hmhdTag = ISOBMFF.mdiaTag; decide) (by show ¬ ISOBMFF.hmhdTag = ISOBMFF.edtsTag; decide) (by show ¬ ISOBMFF.hmhdTag = ISOBMFF.udtaTag; decide) ?_
        simp only [vpayload, vtag] at hq2 hlen ⊢
        rw [seekCur_cast]
        simp only [bnd]
        have hq3 : D.drop (q + 8 + p.length) = vserializeList cs' ++ rest := by
          rw [show (q + 8 + p.length) = (q + 8) + p.length from by omega,
            ← List.drop_drop, hq2, List.drop_left]
        have htail := (IH (vserializeList cs').length (by omega)).2.1
          cs' D rest (q + 8 + p.length) ind f ce (le_refl _) hwcs hind (by omega) hq3
          (by rw [hce, hlen]; push_cast; omega)
        rw [htail, hlen,
          show (q + 8 + p.length) + (vserializeList cs').length =
            q + (8 + p.length + (vserializeList cs').length) from by omega]
      | nmhdB p =>
        refine trakLoop_step_skip hlt hbox (by show ¬ ISOBMFF.nmhdTag = ISOBMFF.tkhdTag; decide) (by show ¬ ISOBMFF.nmhdTag = ISOBMFF.mdiaTag; decide) (by show ¬ ISOBMFF.nmhdTag = ISOBMFF.edtsTag; decide) (by show ¬ ISOBMFF.nmhdTag = ISOBMFF.udtaTag; decide) ?_
        simp only [vpayload, vtag] at hq2 hlen ⊢
        rw [seekCur_cast]
        simp only [bnd]
        have hq3 : D.drop (q + 8 + p.length) = vserializeList cs' ++ rest := by
          rw [show (q + 8 + p.length) = (q + 8) + p.length from by omega,
            ← List.drop_drop, hq2, List.drop_left]
        have htail := (IH (vserializeList cs').length (by omega)).2.1
          cs' D rest (q + 8 + p.length) ind f ce (le_refl _) hwcs hind (by omega) hq3
          (by rw [hce, hlen]; push_cast; omega)
        rw [htail, hlen,
          show (q + 8 + p.length) + (vserializeList cs').length =
            q + (8 + p.length + (vserializeList cs').length) from by omega]
      | elstB p =>
        refine trakLoop_step_skip hlt hbox (by show ¬ ISOBMFF.elstTag = ISOBMFF.tkhdTag; decide) (by show ¬ ISOBMFF.elstTag = ISOBMFF.mdiaTag; decide) (by show ¬ ISOBMFF.elstTag = ISOBMFF.edtsTag; decide) (by show ¬ ISOBMFF.elstTag = ISOBMFF.udtaTag; decide) ?_
        simp only [vpayload, vtag] at hq2 hlen ⊢
        rw [seekCur_cast]
        simp only [bnd]
        have hq3 : D.drop (q + 8 + p.length) = vserializeList cs' ++ rest := by
          rw [show (q + 8 + p.length) = (q + 8) + p.length from by omega,
            ← List.drop_drop, hq2, List.drop_left]
        have htail := (IH (vserializeList cs').length (by omega)).2.1
          cs' D rest (q + 8 + p.length) ind f ce (le_refl _) hwcs hind (by omega) hq3
          (by rw [hce, hlen]; push_cast; omega)
        rw [htail, hlen,
          show (q + 8 + p.length) + (vserializeList cs').length =
            q + (8 + p.length + (vserializeList cs').length) from by omega]
      | urlB p =>
        refine trakLoop_step_skip hlt hbox (by show ¬ ISOBMFF.urlTag = ISOBMFF.tkhdTag; decide) (by show ¬ ISOBMFF.urlTag = ISOBMFF.mdiaTag; decide) (by show ¬ ISOBMFF.urlTag = ISOBMFF.edtsTag; decide) (by show ¬ ISOBMFF.urlTag = ISOBMFF.udtaTag; decide) ?_
        simp only [vpayload, vtag] at hq2 hlen ⊢
        rw [seekCur_cast]
        simp only [bnd]
        have hq3 : D.drop (q + 8 + p.length) = vserializeList cs' ++ rest := by
          rw [show (q + 8 + p.length) = (q + 8) + p.length from by omega,
            ← List.drop_drop, hq2, List.drop_left]
        have htail := (IH (vserializeList cs').length (by omega)).2.1
          cs' D rest (q + 8 + p.length) ind f ce (le_refl _) hwcs hind (by omega) hq3
          (by rw [hce, hlen]; push_cast; omega)
        rw [htail, hlen,
          show (q + 8 + p.length) + (vserializeList cs').length =
            q + (8 + p.length + (vserializeList cs').length) from by omega]
      | urnB p =>
        refine trakLoop_step_skip hlt hbox (by show ¬ ISOBMFF.urnTag = ISOBMFF.tkhdTag; decide) (by show ¬ ISOBMFF.urnTag = ISOBMFF.mdiaTag; decide) (by show ¬ ISOBMFF.urnTag = ISOBMFF.edtsTag; decide) (by show ¬ ISOBMFF.urnTag = ISOBMFF.udtaTag; decide) ?_
        simp only [vpayload, vtag] at hq2 hlen ⊢
        rw [seekCur_cast]
        simp only [bnd]
        have hq3 : D.drop (q + 8 + p.length) = vserializeList cs' ++ rest := by
          rw [show (q + 8 + p.length) = (q + 8) + p.length from by omega,
            ← List.drop_drop, hq2, List.drop_left]
        have htail := (IH (vserializeList cs').length (by omega)).2.1
          cs' D rest (q + 8 + p.length) ind f ce (le_refl _) hwcs hind (by omega) hq3
          (by rw [hce, hlen]; push_cast; omega)
        rw [htail, hlen,
          show (q + 8 + p.length) + (vserializeList cs').length =
            q + (8 + p.length + (vserializeList cs').length) from by omega]
      | moovB cs2 =>
        refine trakLoop_step_skip hlt hbox (by show ¬ ISOBMFF.moovTag = ISOBMFF.tkhdTag; decide) (by show ¬ ISOBMFF.moovTag = ISOBMFF.mdiaTag; decide) (by show ¬ ISOBMFF.moovTag = ISOBMFF.edtsTag; decide) (by show ¬ ISOBMFF.moovTag = ISOBMFF.udtaTag; decide) ?_
        simp only [vpayload, vtag] at hq2 hlen ⊢
        rw [seekCur_cast]
        simp only [bnd]
        have hq3 : D.drop (q + 8 + (vserializeList cs2).length) = vserializeList cs' ++ rest := by
          rw [show (q + 8 + (vserializeList cs2).length) = (q + 8) + (vserializeList cs2).length from by omega,
            ← List.drop_drop, hq2, List.drop_left]
        have htail := (IH (vserializeList cs').length (by omega)).2.1
          cs' D rest (q + 8 + (vserializeList cs2).length) ind f ce (le_refl _) hwcs hind (by omega) hq3
          (by rw [hce, hlen]; push_cast; omega)
        rw [htail, hlen,
          show (q + 8 + (vserializeList cs2).length) + (vserializeList cs').length =
            q + (8 + (vserializeList cs2).length + (vserializeList cs').length) from by omega]
      | trakB cs2 =>
        refine trakLoop_step_skip hlt hbox (by show ¬ ISOBMFF.trakTag = ISOBMFF.tkhdTag; decide) (by show ¬ ISOBMFF.trakTag = ISOBMFF.mdiaTag; decide) (by show ¬ ISOBMFF.trakTag = ISOBMFF.edtsTag; decide) (by show ¬ ISOBMFF.trakTag = ISOBMFF.udtaTag; decide) ?_
        simp only [vpayload, vtag] at hq2 hlen ⊢
        rw [seekCur_cast]
        simp only [bnd]
        have hq3 : D.drop (q + 8 + (vserializeList cs2).length) = vserializeList cs' ++ rest := by
          rw [show (q + 8 + (vserializeList cs2).length) = (q + 8) + (vserializeList cs2).length from by omega,
            ← List.drop_drop, hq2, List.drop_left]
        have htail := (IH (vserializeList cs').length (by omega)).2.1
          cs' D rest (q + 8 + (vserializeList cs2).length) ind f ce (le_refl _) hwcs hind (by omega) hq3
          (by rw [hce, hlen]; push_cast; omega)
        rw [htail, hlen,
          show (q + 8 + (vserializeList cs2).length) + (vserializeList cs').length =
            q + (8 + (vserializeList cs2).length + (vserializeList cs').length) from by omega]
      | mdiaB cs2 =>
        refine trakLoop_step_mdia hlt hbox rfl ?_
        simp only [vpayload, vtag] at hq2 hlen ⊢
        have hw2 : vwfList cs2 = true ∧
            (vserializeList cs2).length + 8 < 4294967296 := by
          simpa [vwf, Bool.and_eq_true, decide_eq_true_eq] using hwb
        simp only [ISOBMFF.scan_mdia, ipush]
        have hchild := (IH (vserializeList cs2).length (by omega)).2.2.1
          cs2 D (vserializeList cs' ++ rest) (q + 8) (ind + 1) f
          (((q + 8 : Nat) : Int) + ((vserializeList cs2).length : Int))
          (le_refl _) hw2.1 (by omega) (by omega) hq2 rfl
        rw [hchild]
        simp only [bndU]
        have hip : ipop (⟨D, q + 8 + (vserializeList cs2).length,
            ind + 1⟩ : St) =
            ⟨D, q + 8 + (vserializeList cs2).length, ind⟩ := by
          rw [ipop_of_pos (by simp; omega)]
          simp
        rw [hip]
        have hq3 : D.drop (q + 8 + (vserializeList cs2).length) = vserializeList cs' ++ rest := by
          rw [show (q + 8 + (vserializeList cs2).length) = (q + 8) + (vserializeList cs2).length from by omega,
            ← List.drop_drop, hq2, List.drop_left]
        have htail := (IH (vserializeList cs').length (by omega)).2.1
          cs' D rest (q + 8 + (vserializeList cs2).length) ind f ce (le_refl _) hwcs hind (by omega) hq3
          (by rw [hce, hlen]; push_cast; omega)
        rw [htail, hlen,
          show (q + 8 + (vserializeList cs2).length) + (vserializeList cs').length =
            q + (8 + (vserializeList cs2).length + (vserializeList cs').length) from by omega]
      | minfB cs2 =>
        refine trakLoop_step_skip hlt hbox (by show ¬ ISOBMFF.minfTag = ISOBMFF.tkhdTag; decide) (by show ¬ ISOBMFF.minfTag = ISOBMFF.mdiaTag; decide) (by show ¬ ISOBMFF.minfTag = ISOBMFF.edtsTag; decide) (by show ¬ ISOBMFF.minfTag = ISOBMFF.udtaTag; decide) ?_
        simp only [vpayload, vtag] at hq2 hlen ⊢
        rw [seekCur_cast]
        simp only [bnd]
        have hq3 : D.drop (q + 8 + (vserializeList cs2).length) = vserializeList cs' ++ rest := by
          rw [show (q + 8 + (vserializeList cs2).length) = (q + 8) + (vserializeList cs2).length from by omega,
            ← List.drop_drop, hq2, List.drop_left]
        have htail := (IH (vserializeList cs').length (by omega)).2.1
          cs' D rest (q + 8 + (vserializeList cs2).length) ind f ce (le_refl _) hwcs hind (by omega) hq3
          (by rw [hce, hlen]; push_cast; omega)
        rw [htail, hlen,
          show (q + 8 + (vserializeList cs2).length) + (vserializeList cs').length =
            q + (8 + (vserializeList cs2).length + (vserializeList cs').length) from by omega]
      | dinfB cs2 =>
        refine trakLoop_step_skip hlt hbox (by show ¬ ISOBMFF.dinfTag = ISOBMFF.tkhdTag; decide) (by show ¬ ISOBMFF.dinfTag = ISOBMFF.mdiaTag; decide) (by show ¬ ISOBMFF.dinfTag = ISOBMFF.edtsTag; decide) (by show ¬ ISOBMFF.dinfTag = ISOBMFF.udtaTag; decide) ?_
        simp only [vpayload, vtag] at hq2 hlen ⊢
        rw [seekCur_cast]
        simp only [bnd]
        have hq3 : D.drop (q + 8 + (vserializeList cs2).length) = vserializeList cs' ++ rest := by
          rw [show (q + 8 + (vserializeList cs2).length) = (q + 8) + (vserializeList cs2).length from by omega,
            ← List.drop_drop, hq2, List.drop_left]
        have htail := (IH (vserializeList cs').length (by omega)).2.1
          cs' D rest (q + 8 + (vserializeList cs2).length) ind f ce (le_refl _) hwcs hind (by omega) hq3
          (by rw [hce, hlen]; push_cast; omega)
        rw [htail, hlen,
          show (q + 8 + (vserializeList cs2).length) + (vserializeList cs').length =
            q + (8 + (vserializeList cs2).length + (vserializeList cs').length) from by omega]
      | edtsB cs2 =>
        refine trakLoop_step_edts hlt hbox rfl ?_
        simp only [vpayload, vtag] at hq2 hlen ⊢
        have hw2 : vwfList cs2 = true ∧
            (vserializeList cs2).length + 8 < 4294967296 := by
          simpa [vwf, Bool.and_eq_true, decide_eq_true_eq] using hwb
        simp only [ISOBMFF.scan_edts, ipush]
        have hchild := (IH (vserializeList cs2).length (by omega)).2.2.2.2.2.1
          cs2 D (vserializeList cs' ++ rest) (q + 8) (ind + 1) f
          (((q + 8 : Nat) : Int) + ((vserializeList cs2).length : Int))
          (le_refl _) hw2.1 (by omega) (by omega) hq2 rfl
        rw [hchild]
        simp only [bndU]
        have hip : ipop (⟨D, q + 8 + (vserializeList cs2).length,
            ind + 1⟩ : St) =
            ⟨D, q + 8 + (vserializeList cs2).length, ind⟩ := by
          rw [ipop_of_pos (by simp; omega)]
          simp
        rw [hip]
        have hq3 : D.drop (q + 8 + (vserializeList cs2).length) = vserializeList cs' ++ rest := by
          rw [show (q + 8 + (vserializeList cs2).length) = (q + 8) + (vserializeList cs2).length from by omega,
            ← List.drop_drop, hq2, List.drop_left]
        have htail := (IH (vserializeList cs').length (by omega)).2.1
          cs' D rest (q + 8 + (vserializeList cs2).length) ind f ce (le_refl _) hwcs hind (by omega) hq3
          (by rw [hce, hlen]; push_cast; omega)
        rw [htail, hlen,
          show (q + 8 + (vserializeList cs2).length) + (vserializeList cs').length =
            q + (8 + (vserializeList cs2).length + (vserializeList cs').length) from by omega]
      | udtaB cs2 =>
        refine trakLoop_step_udta hlt hbox rfl ?_
        simp only [vpayload, vtag] at hq2 hlen ⊢
        have hw2 : vwfList cs2 = true ∧
            (vserializeList cs2).length + 8 < 4294967296 := by
          simpa [vwf, Bool.and_eq_true, decide_eq_true_eq] using hwb
        simp only [ISOBMFF.scan_udta, ipush]
        have hchild := (IH (vserializeList cs2).length (by omega)).2.2.2.2.2.2.1
          cs2 D (vserializeList cs' ++ rest) (q + 8) (ind + 1) f
          (((q + 8 : Nat) : Int) + ((vserializeList cs2).length : Int))
          (le_refl _) hw2.1 (by omega) (by omega) hq2 rfl
        rw [hchild]
        simp only [bndU]
        have hip : ipop (⟨D, q + 8 + (vserializeList cs2).length,
            ind + 1⟩ : St) =
            ⟨D, q + 8 + (vserializeList cs2).length, ind⟩ := by
          rw [ipop_of_pos (by simp; omega)]
          simp
        rw [hip]
        have hq3 : D.drop (q + 8 + (vserializeList cs2).length) = vserializeList cs' ++ rest := by
          rw [show (q + 8 + (vserializeList cs2).length) = (q + 8) + (vserializeList cs2).length from by omega,
            ← List.drop_drop, hq2, List.drop_left]
        have htail := (IH (vserializeList cs').length (by omega)).2.1
          cs' D rest (q + 8 + (vserializeList cs2).length) ind f ce (le_refl _) hwcs hind (by omega) hq3
          (by rw [hce, hlen]; push_cast; omega)
        rw [htail, hlen,
          show (q + 8 + (vserializeList cs2).length) + (vserializeList cs').length =
            q + (8 + (vserializeList cs2).length + (vserializeList cs').length) from by omega]
      | stblB cs2 =>
        refine trakLoop_step_skip hlt hbox (by show ¬ ISOBMFF.stblTag = ISOBMFF.tkhdTag; decide) (by show ¬ ISOBMFF.stblTag = ISOBMFF.mdiaTag; decide) (by show ¬ ISOBMFF.stblTag = ISOBMFF.edtsTag; decide) (by show ¬ ISOBMFF.stblTag = ISOBMFF.udtaTag; decide) ?_
        simp only [vpayload, vtag] at hq2 hlen ⊢
        rw [seekCur_cast]
        simp only [bnd]
        have hq3 : D.drop (q + 8 + (vserializeList cs2).length) = vserializeList cs' ++ rest := by
          rw [show (q + 8 + (vserializeList cs2).length) = (q + 8) + (vserializeList cs2).length from by omega,
            ← List.drop_drop, hq2, List.drop_left]
        have htail := (IH (vserializeList cs').length (by omega)).2.1
          cs' D rest (q + 8 + (vserializeList cs2).length) ind f ce (le_refl _) hwcs hind (by omega) hq3
          (by rw [hce, hlen]; push_cast; omega)
        rw [htail, hlen,
          show (q + 8 + (vserializeList cs2).length) + (vserializeList cs').length =
            q + (8 + (vserializeList cs2).length + (vserializeList cs').length) from by omega]
      | drefB hd cs2 =>
        refine trakLoop_step_skip hlt hbox (by show ¬ ISOBMFF.drefTag = ISOBMFF.tkhdTag; decide) (by show ¬ ISOBMFF.drefTag = ISOBMFF.mdiaTag; decide) (by show ¬ ISOBMFF.drefTag = ISOBMFF.edtsTag; decide) (by show ¬ ISOBMFF.drefTag = ISOBMFF.udtaTag; decide) ?_
        simp only [vpayload, vtag] at hq2 hlen ⊢
        rw [seekCur_cast]
        simp only [bnd]
        have hq3 : D.drop (q + 8 + (hd ++ vserializeList cs2).length) = vserializeList cs' ++ rest := by
          rw [show (q + 8 + (hd ++ vserializeList cs2).length) = (q + 8) + (hd ++ vserializeList cs2).length from by omega,
            ← List.drop_drop, hq2, List.drop_left]
        have htail := (IH (vserializeList cs').length (by omega)).2.1
          cs' D rest (q + 8 + (hd ++ vserializeList cs2).length) ind f ce (le_refl _) hwcs hind (by omega) hq3
          (by rw [hce, hlen]; push_cast; omega)
        rw [htail, hlen,
          show (q + 8 + (hd ++ vserializeList cs2).length) + (vserializeList cs').length =
            q + (8 + (hd ++ vserializeList cs2).length + (vserializeList cs').length) from by omega]
  · intro cs D rest q ind fuel ce hN hwf hind hfuel hq hce
    cases cs with
    | nil =>
      obtain ⟨f, rfl⟩ : ∃ f, fuel = f + 1 := ⟨fuel - 1, by omega⟩
      rw [mdiaLoop_exit (by
        show ¬ ((q : Int) < ce)
        simp only [vserializeList, List.length_nil] at hce
        omega)]
      simp [vserializeList]
    | cons b cs' =>
      have hwb : vwf b = true := by
        have h := hwf
        simp only [vwfList, Bool.and_eq_true] at h
        exact h.1
      have hwcs : vwfList cs' = true := by
        have h := hwf
        simp only [vwfList, Bool.and_eq_true] at h
        exact h.2
      have ht4 : (vtag b).length = 4 := vtag_length hwb
      have hsz : (vpayload b).length + 8 < 4294967296 := vwf_size hwb
      have hlen : (vserializeList (b :: cs')).length =
          (8 + (vpayload b).length) + (vserializeList cs').length :=
        vserializeList_cons_length hwb
      obtain ⟨f, rfl⟩ : ∃ f, fuel = f + 1 := ⟨fuel - 1, by omega⟩
      have hq1 : D.drop q = mkBox (vtag b) (vpayload b) ++
          (vserializeList cs' ++ rest) := by
        rw [hq, show vserializeList (b :: cs') =
            mkBox (vtag b) (vpayload b) ++ vserializeList cs' from rfl,
          List.append_assoc]
      have hq2 : D.drop (q + 8) = vpayload b ++
          (vserializeList cs' ++ rest) := by
        rw [← List.drop_drop, hq1,
          List.drop_append_of_le_length (by rw [mkBox_length ht4]; omega),
          mkBox_drop8 ht4]
      have hbox := @scan_box_run D (vserializeList cs' ++ rest)
        (vtag b) (vpayload b) q ind hq1 ht4 hsz
      have hlt : (((⟨D, q, ind⟩ : St).pos : Nat) : Int) < ce := by
        show (q : Int) < ce
        rw [hce, hlen]
        push_cast
        omega
      cases b with
      | generic tag p =>
        have gtn := generic_tags_ne (vwf_generic hwb).2.1
        refine mdiaLoop_step_skip hlt hbox gtn.2.2.2.2.2.2.2.2.1 gtn.2.2.2.2.2.2.2.2.2.1 gtn.2.2.2.2.2.2.2.2.2.2.1 ?_
        simp only [vpayload, vtag] at hq2 hlen ⊢
        rw [seekCur_cast]
        simp only [bnd]
        have hq3 : D.drop (q + 8 + p.length) = vserializeList cs' ++ rest := by
          rw [show (q + 8 + p.length) = (q + 8) + p.length from by omega,
            ← List.drop_drop, hq2, List.drop_left]
        have htail := (IH (vserializeList cs').length (by omega)).2.2.1
          cs' D rest (q + 8 + p.length) ind f ce (le_refl _) hwcs hind (by omega) hq3
          (by rw [hce, hlen]; push_cast; omega)
        rw [htail, hlen,
          show (q + 8 + p.length) + (vserializeList cs').length =
            q + (8 + p.length + (vserializeList cs').length) from by omega]
      | ftypB p =>
        refine mdiaLoop_step_skip hlt hbox (by show ¬ ISOBMFF.ftypTag = ISOBMFF.mdhdTag; decide) (by show ¬ ISOBMFF.ftypTag = ISOBMFF.hdlrTag; decide) (by show ¬ ISOBMFF.ftypTag = ISOBMFF.minfTag; decide) ?_
        simp only [vpayload, vtag] at hq2 hlen ⊢
        rw [seekCur_cast]
        simp only [bnd]
        have hq3 : D.drop (q + 8 + p.length) = vserializeList cs' ++ rest := by
          rw [show (q + 8 + p.length) = (q + 8) + p.length from by omega,
            ← List.drop_drop, hq2, List.drop_left]
        have htail := (IH (vserializeList cs').length (by omega)).2.2.1
          cs' D rest (q + 8 + p.length) ind f ce (le_refl _) hwcs hind (by omega) hq3
          (by rw [hce, hlen]; push_cast; omega)
        rw [htail, hlen,
          show (q + 8 + p.length) + (vserializeList cs').length =
            q + (8 + p.length + (vserializeList cs').length) from by omega]
      | mvhdB p =>
        refine mdiaLoop_step_skip hlt hbox (by show ¬ ISOBMFF.mvhdTag = ISOBMFF.mdhdTag; decide) (by show ¬ ISOBMFF.mvhdTag = ISOBMFF.hdlrTag; decide) (by show ¬ ISOBMFF.mvhdTag = ISOBMFF.minfTag; decide) ?_
        simp only [vpayload, vtag] at hq2 hlen ⊢
        rw [seekCur_cast]
        simp only [bnd]
        have hq3 : D.drop (q + 8 + p.length) = vserializeList cs' ++ rest := by
          rw [show (q + 8 + p.length) = (q + 8) + p.length from by omega,
            ← List.drop_drop, hq2, List.drop_left]
        have htail := (IH (vserializeList cs').length (by omega)).2.2.1
          cs' D rest (q + 8 + p.length) ind f ce (le_refl _) hwcs hind (by omega) hq3
          (by rw [hce, hlen]; push_cast; omega)
        rw [htail, hlen,
          show (q + 8 + p.length) + (vserializeList cs').length =
            q + (8 + p.length + (vserializeList cs').length) from by omega]
      | tkhdB p =>
        refine mdiaLoop_step_skip hlt hbox (by show ¬ ISOBMFF.tkhdTag = ISOBMFF.mdhdTag; decide) (by show ¬ ISOBMFF.tkhdTag = ISOBMFF.hdlrTag; decide) (by show ¬ ISOBMFF.tkhdTag = ISOBMFF.minfTag; decide) ?_
        simp only [vpayload, vtag] at hq2 hlen ⊢
        rw [seekCur_cast]
        simp only [bnd]
        have hq3 : D.drop (q + 8 + p.length) = vserializeList cs' ++ rest := by
          rw [show (q + 8 + p.length) = (q + 8) + p.length from by omega,
            ← List.drop_drop, hq2, List.drop_left]
        have htail := (IH (vserializeList cs').length (by omega)).2.2.1
          cs' D rest (q + 8 + p.length) ind f ce (le_refl _) hwcs hind (by omega) hq3
          (by rw [hce, hlen]; push_cast; omega)
        rw [htail, hlen,
          show (q + 8 + p.length) + (vserializeList cs').length =
            q + (8 + p.length + (vserializeList cs').length) from by omega]
      | mdhdB p =>
        refine mdiaLoop_step_mdhd hlt hbox rfl ?_
        simp only [vpayload, vtag] at hq2 hlen ⊢
        obtain ⟨o, ho⟩ := scan_mdhd_run ((p.length : Int)) hq2 hwb hind
        rw [ho]
        simp only [bnd]
        have hq3 : D.drop (q + 8 + p.length) = vserializeList cs' ++ rest := by
          rw [show (q + 8 + p.length) = (q + 8) + p.length from by omega,
            ← List.drop_drop, hq2, List.drop_left]
        have htail := (IH (vserializeList cs').length (by omega)).2.2.1
          cs' D rest (q + 8 + p.length) ind f ce (le_refl _) hwcs hind (by omega) hq3
          (by rw [hce, hlen]; push_cast; omega)
        rw [htail, hlen,
          show (q + 8 + p.length) + (vserializeList cs').length =
            q + (8 + p.length + (vserializeList cs').length) from by omega]
      | hdlrB p =>
        refine mdiaLoop_step_hdlr hlt hbox rfl ?_
        simp only [vpayload, vtag] at hq2 hlen ⊢
        obtain ⟨o, ho⟩ := scan_hdlr_run hq2 hwb hind
        rw [ho]
        simp only [bnd]
        have hq3 : D.drop (q + 8 + p.length) = vserializeList cs' ++ rest := by
          rw [show (q + 8 + p.length) = (q + 8) + p.length from by omega,
            ← List.drop_drop, hq2, List.drop_left]
        have htail := (IH (vserializeList cs').length (by omega)).2.2.1
          cs' D rest (q + 8 + p.length) ind f ce (le_refl _) hwcs hind (by omega) hq3
          (by rw [hce, hlen]; push_cast; omega)
        rw [htail, hlen,
          show (q + 8 + p.length) + (vserializeList cs').length =
            q + (8 + p.length + (vserializeList cs').length) from by omega]
      | vmhdB p =>
        refine mdiaLoop_step_skip hlt hbox (by show ¬ ISOBMFF.vmhdTag = ISOBMFF.mdhdTag; decide) (by show ¬ ISOBMFF.vmhdTag = ISOBMFF.hdlrTag; decide) (by show ¬ ISOBMFF.vmhdTag = ISOBMFF.minfTag; decide) ?_
        simp only [vpayload, vtag] at hq2 hlen ⊢
        rw [seekCur_cast]
        simp only [bnd]
        have hq3 : D.drop (q + 8 + p.length) = vserializeList cs' ++ rest := by
          rw [show (q + 8 + p.length) = (q + 8) + p.length from by omega,
            ← List.drop_drop, hq2, List.drop_left]
        have htail := (IH (vserializeList cs').length (by omega)).2.2.1
          cs' D rest (q + 8 + p.length) ind f ce (le_refl _) hwcs hind (by omega) hq3
          (by rw [hce, hlen]; push_cast; omega)
        rw [htail, hlen,
          show (q + 8 + p.length) + (vserializeList cs').length =
            q + (8 + p.length + (vserializeList cs').length) from by omega]
      | smhdB p =>
        refine mdiaLoop_step_skip hlt hbox (by show ¬ ISOBMFF.smhdTag = ISOBMFF.mdhdTag; decide) (by show ¬ ISOBMFF.smhdTag = ISOBMFF.hdlrTag; decide) (by show ¬ ISOBMFF.smhdTag = ISOBMFF.minfTag; decide) ?_
        simp only [vpayload, vtag] at hq2 hlen ⊢
        rw [seekCur_cast]
        simp only [bnd]
        have hq3 : D.drop (q + 8 + p.length) = vserializeList cs' ++ rest := by
          rw [show (q + 8 + p.length) = (q + 8) + p.length from by omega,
            ← List.drop_drop, hq2, List.drop_left]
        have htail := (IH (vserializeList cs').length (by omega)).2.2.1
          cs' D rest (q + 8 + p.length) ind f ce (le_refl _) hwcs hind (by omega) hq3
          (by rw [hce, hlen]; push_cast; omega)
        rw [htail, hlen,
          show (q + 8 + p.length) + (vserializeList cs').length =
            q + (8 + p.length + (vserializeList cs').length) from by omega]
      | hmhdB p =>
        refine mdiaLoop_step_skip hlt hbox (by show ¬ ISOBMFF.hmhdTag = ISOBMFF.mdhdTag; decide) (by show ¬ ISOBMFF.hmhdTag = ISOBMFF.hdlrTag; decide) (by show ¬ ISOBMFF.hmhdTag = ISOBMFF.minfTag; decide) ?_
        simp only [vpayload, vtag] at hq2 hlen ⊢
        rw [seekCur_cast]
        simp only [bnd]
        have hq3 : D.drop (q + 8 + p.length) = vserializeList cs' ++ rest := by
          rw [show (q + 8 + p.length) = (q + 8) + p.length from by omega,
            ← List.drop_drop, hq2, List.drop_left]
        have htail := (IH (vserializeList cs').length (by omega)).2.2.1
          cs' D rest (q + 8 + p.length) ind f ce (le_refl _) hwcs hind (by omega) hq3
          (by rw [hce, hlen]; push_cast; omega)
        rw [htail, hlen,
          show (q + 8 + p.length) + (vserializeList cs').length =
            q + (8 + p.length + (vserializeList cs').length) from by omega]
      | nmhdB p =>
        refine mdiaLoop_step_skip hlt hbox (by show ¬ ISOBMFF.nmhdTag = ISOBMFF.mdhdTag; decide) (by show ¬ ISOBMFF.nmhdTag = ISOBMFF.hdlrTag; decide) (by show ¬ ISOBMFF.nmhdTag = ISOBMFF.minfTag; decide) ?_
        simp only [vpayload, vtag] at hq2 hlen ⊢
        rw [seekCur_cast]
        simp only [bnd]
        have hq3 : D.drop (q + 8 + p.length) = vserializeList cs' ++ rest := by
          rw [show (q + 8 + p.length) = (q + 8) + p.length from by omega,
            ← List.drop_drop, hq2, List.drop_left]
        have htail := (IH (vserializeList cs').length (by omega)).2.2.1
          cs' D rest (q + 8 + p.length) ind f ce (le_refl _) hwcs hind (by omega) hq3
          (by rw [hce, hlen]; push_cast; omega)
        rw [htail, hlen,
          show (q + 8 + p.length) + (vserializeList cs').length =
            q + (8 + p.length + (vserializeList cs').length) from by omega]
      | elstB p =>
        refine mdiaLoop_step_skip hlt hbox (by show ¬ ISOBMFF.elstTag = ISOBMFF.mdhdTag; decide) (by show ¬ ISOBMFF.elstTag = ISOBMFF.hdlrTag; decide) (by show ¬ ISOBMFF.elstTag = ISOBMFF.minfTag; decide) ?_
        simp only [vpayload, vtag] at hq2 hlen ⊢
        rw [seekCur_cast]
        simp only [bnd]
        have hq3 : D.drop (q + 8 + p.length) = vserializeList cs' ++ rest := by
          rw [show (q + 8 + p.length) = (q + 8) + p.length from by omega,
            ← List.drop_drop, hq2, List.drop_left]
        have htail := (IH (vserializeList cs').length (by omega)).2.2.1
          cs' D rest (q + 8 + p.length) ind f ce (le_refl _) hwcs hind (by omega) hq3
          (by rw [hce, hlen]; push_cast; omega)
        rw [htail, hlen,
          show (q + 8 + p.length) + (vserializeList cs').length =
            q + (8 + p.length + (vserializeList cs').length) from by omega]
      | urlB p =>
        refine mdiaLoop_step_skip hlt hbox (by show ¬ ISOBMFF.urlTag = ISOBMFF.mdhdTag; decide) (by show ¬ ISOBMFF.urlTag = ISOBMFF.hdlrTag; decide) (by show ¬ ISOBMFF.urlTag = ISOBMFF.minfTag; decide) ?_
        simp only [vpayload, vtag] at hq2 hlen ⊢
        rw [seekCur_cast]
        simp only [bnd]
        have hq3 : D.drop (q + 8 + p.length) = vserializeList cs' ++ rest := by
          rw [show (q + 8 + p.length) = (q + 8) + p.length from by omega,
            ← List.drop_drop, hq2, List.drop_left]
        have htail := (IH (vserializeList cs').length (by omega)).2.2.1
          cs' D rest (q + 8 + p.length) ind f ce (le_refl _) hwcs hind (by omega) hq3
          (by rw [hce, hlen]; push_cast; omega)
        rw [htail, hlen,
          show (q + 8 + p.length) + (vserializeList cs').length =
            q + (8 + p.length + (vserializeList cs').length) from by omega]
      | urnB p =>
        refine mdiaLoop_step_skip hlt hbox (by show ¬ ISOBMFF.urnTag = ISOBMFF.mdhdTag; decide) (by show ¬ ISOBMFF.urnTag = ISOBMFF.hdlrTag; decide) (by show ¬ ISOBMFF.urnTag = ISOBMFF.minfTag; decide) ?_
        simp only [vpayload, vtag] at hq2 hlen ⊢
        rw [seekCur_cast]
        simp only [bnd]
        have hq3 : D.drop (q + 8 + p.length) = vserializeList cs' ++ rest := by
          rw [show (q + 8 + p.length) = (q + 8) + p.length from by omega,
            ← List.drop_drop, hq2, List.drop_left]
        have htail := (IH (vserializeList cs').length (by omega)).2.2.1
          cs' D rest (q + 8 + p.length) ind f ce (le_refl _) hwcs hind (by omega) hq3
          (by rw [hce, hlen]; push_cast; omega)
        rw [htail, hlen,
          show (q + 8 + p.length) + (vserializeList cs').length =
            q + (8 + p.length + (vserializeList cs').length) from by omega]
      | moovB cs2 =>
        refine mdiaLoop_step_skip hlt hbox (by show ¬ ISOBMFF.moovTag = ISOBMFF.mdhdTag; decide) (by show ¬ ISOBMFF.moovTag = ISOBMFF.hdlrTag; decide) (by show ¬ ISOBMFF.moovTag = ISOBMFF.minfTag; decide) ?_
        simp only [vpayload, vtag] at hq2 hlen ⊢
        rw [seekCur_cast]
        simp only [bnd]
        have hq3 : D.drop (q + 8 + (vserializeList cs2).length) = vserializeList cs' ++ rest := by
          rw [show (q + 8 + (vserializeList cs2).length) = (q + 8) + (vserializeList cs2).length from by omega,
            ← List.drop_drop, hq2, List.drop_left]
        have htail := (IH (vserializeList cs').length (by omega)).2.2.1
          cs' D rest (q + 8 + (vserializeList cs2).length) ind f ce (le_refl _) hwcs hind (by omega) hq3
          (by rw [hce, hlen]; push_cast; omega)
        rw [htail, hlen,
          show (q + 8 + (vserializeList cs2).length) + (vserializeList cs').length =
            q + (8 + (vserializeList cs2).length + (vserializeList cs').length) from by omega]
      | trakB cs2 =>
        refine mdiaLoop_step_skip hlt hbox (by show ¬ ISOBMFF.trakTag = ISOBMFF.mdhdTag; decide) (by show ¬ ISOBMFF.trakTag = ISOBMFF.hdlrTag; decide) (by show ¬ ISOBMFF.trakTag = ISOBMFF.minfTag; decide) ?_
        simp only [vpayload, vtag] at hq2 hlen ⊢
        rw [seekCur_cast]
        simp only [bnd]
        have hq3 : D.drop (q + 8 + (vserializeList cs2).length) = vserializeList cs' ++ rest := by
          rw [show (q + 8 + (vserializeList cs2).length) = (q + 8) + (vserializeList cs2).length from by omega,
            ← List.drop_drop, hq2, List.drop_left]
        have htail := (IH (vserializeList cs').length (by omega)).2.2.1
          cs' D rest (q + 8 + (vserializeList cs2).length) ind f ce (le_refl _) hwcs hind (by omega) hq3
          (by rw [hce, hlen]; push_cast; omega)
        rw [htail, hlen,
          show (q + 8 + (vserializeList cs2).length) + (vserializeList cs').length =
            q + (8 + (vserializeList cs2).length + (vserializeList cs').length) from by omega]
      | mdiaB cs2 =>
        refine mdiaLoop_step_skip hlt hbox (by show ¬ ISOBMFF.mdiaTag = ISOBMFF.mdhdTag; decide) (by show ¬ ISOBMFF.mdiaTag = ISOBMFF.hdlrTag; decide) (by show ¬ ISOBMFF.mdiaTag = ISOBMFF.minfTag; decide) ?_
        simp only [vpayload, vtag] at hq2 hlen ⊢
        rw [seekCur_cast]
        simp only [bnd]
        have hq3 : D.drop (q + 8 + (vserializeList cs2).length) = vserializeList cs' ++ rest := by
          rw [show (q + 8 + (vserializeList cs2).length) = (q + 8) + (vserializeList cs2).length from by omega,
            ← List.drop_drop, hq2, List.drop_left]
        have htail := (IH (vserializeList cs').length (by omega)).2.2.1
          cs' D rest (q + 8 + (vserializeList cs2).length) ind f ce (le_refl _) hwcs hind (by omega) hq3
          (by rw [hce, hlen]; push_cast; omega)
        rw [htail, hlen,
          show (q + 8 + (vserializeList cs2).length) + (vserializeList cs').length =
            q + (8 + (vserializeList cs2).length + (vserializeList cs').length) from by omega]
      | minfB cs2 =>
        refine mdiaLoop_step_minf hlt hbox rfl ?_
        simp only [vpayload, vtag] at hq2 hlen ⊢
        have hw2 : vwfList cs2 = true ∧
            (vserializeList cs2).length + 8 < 4294967296 := by
          simpa [vwf, Bool.and_eq_true, decide_eq_true_eq] using hwb
        simp only [ISOBMFF.scan_minf, ipush]
        have hchild := (IH (vserializeList cs2).length (by omega)).2.2.2.1
          cs2 D (vserializeList cs' ++ rest) (q + 8) (ind + 1) f
          (((q + 8 : Nat) : Int) + ((vserializeList cs2).length : Int))
          (le_refl _) hw2.1 (by omega) (by omega) hq2 rfl
        rw [hchild]
        simp only [bndU]
        have hip : ipop (⟨D, q + 8 + (vserializeList cs2).length,
            ind + 1⟩ : St) =
            ⟨D, q + 8 + (vserializeList cs2).length, ind⟩ := by
          rw [ipop_of_pos (by simp; omega)]
          simp
        rw [hip]
        have hq3 : D.drop (q + 8 + (vserializeList cs2).length) = vserializeList cs' ++ rest := by
          rw [show (q + 8 + (vserializeList cs2).length) = (q + 8) + (vserializeList cs2).length from by omega,
            ← List.drop_drop, hq2, List.drop_left]
        have htail := (IH (vserializeList cs').length (by omega)).2.2.1
          cs' D rest (q + 8 + (vserializeList cs2).length) ind f ce (le_refl _) hwcs hind (by omega) hq3
          (by rw [hce, hlen]; push_cast; omega)
        rw [htail, hlen,
          show (q + 8 + (vserializeList cs2).length) + (vserializeList cs').length =
            q + (8 + (vserializeList cs2).length + (vserializeList cs').length) from by omega]
      | dinfB cs2 =>
        refine mdiaLoop_step_skip hlt hbox (by show ¬ ISOBMFF.dinfTag = ISOBMFF.mdhdTag; decide) (by show ¬ ISOBMFF.dinfTag = ISOBMFF.hdlrTag; decide) (by show ¬ ISOBMFF.dinfTag = ISOBMFF.minfTag; decide) ?_
        simp only [vpayload, vtag] at hq2 hlen ⊢
        rw [seekCur_cast]
        simp only [bnd]
        have hq3 : D.drop (q + 8 + (vserializeList cs2).length) = vserializeList cs' ++ rest := by
          rw [show (q + 8 + (vserializeList cs2).length) = (q + 8) + (vserializeList cs2).length from by omega,
            ← List.drop_drop, hq2, List.drop_left]
        have htail := (IH (vserializeList cs').length (by omega)).2.2.1
          cs' D rest (q + 8 + (vserializeList cs2).length) ind f ce (le_refl _) hwcs hind (by omega) hq3
          (by rw [hce, hlen]; push_cast; omega)
        rw [htail, hlen,
          show (q + 8 + (vserializeList cs2).length) + (vserializeList cs').length =
            q + (8 + (vserializeList cs2).length + (vserializeList cs').length) from by omega]
      | edtsB cs2 =>
        refine mdiaLoop_step_skip hlt hbox (by show ¬ ISOBMFF.edtsTag = ISOBMFF.mdhdTag; decide) (by show ¬ ISOBMFF.edtsTag = ISOBMFF.hdlrTag; decide) (by show ¬ ISOBMFF.edtsTag = ISOBMFF.minfTag; decide) ?_
        simp only [vpayload, vtag] at hq2 hlen ⊢
        rw [seekCur_cast]
        simp only [bnd]
        have hq3 : D.drop (q + 8 + (vserializeList cs2).length) = vserializeList cs' ++ rest := by
          rw [show (q + 8 + (vserializeList cs2).length) = (q + 8) + (vserializeList cs2).length from by omega,
            ← List.drop_drop, hq2, List.drop_left]
        have htail := (IH (vserializeList cs').length (by omega)).2.2.1
          cs' D rest (q + 8 + (vserializeList cs2).length) ind f ce (le_refl _) hwcs hind (by omega) hq3
          (by rw [hce, hlen]; push_cast; omega)
        rw [htail, hlen,
          show (q + 8 + (vserializeList cs2).length) + (vserializeList cs').length =
            q + (8 + (vserializeList cs2).length + (vserializeList cs').length) from by omega]
      | udtaB cs2 =>
        refine mdiaLoop_step_skip hlt hbox (by show ¬ ISOBMFF.udtaTag = ISOBMFF.mdhdTag; decide) (by show ¬ ISOBMFF.udtaTag = ISOBMFF.hdlrTag; decide) (by show ¬ ISOBMFF.udtaTag = ISOBMFF.minfTag; decide) ?_
        simp only [vpayload, vtag] at hq2 hlen ⊢
        rw [seekCur_cast]
        simp only [bnd]
        have hq3 : D.drop (q + 8 + (vserializeList cs2).length) = vserializeList cs' ++ rest := by
          rw [show (q + 8 + (vserializeList cs2).length) = (q + 8) + (vserializeList cs2).length from by omega,
            ← List.drop_drop, hq2, List.drop_left]
        have htail := (IH (vserializeList cs').length (by omega)).2.2.1
          cs' D rest (q + 8 + (vserializeList cs2).length) ind f ce (le_refl _) hwcs hind (by omega) hq3
          (by rw [hce, hlen]; push_cast; omega)
        rw [htail, hlen,
          show (q + 8 + (vserializeList cs2).length) + (vserializeList cs').length =
            q + (8 + (vserializeList cs2).length + (vserializeList cs').length) from by omega]
      | stblB cs2 =>
        refine mdiaLoop_step_skip hlt hbox (by show ¬ ISOBMFF.stblTag = ISOBMFF.mdhdTag; decide) (by show ¬ ISOBMFF.stblTag = ISOBMFF.hdlrTag; decide) (by show ¬ ISOBMFF.stblTag = ISOBMFF.minfTag; decide) ?_
        simp only [vpayload, vtag] at hq2 hlen ⊢
        rw [seekCur_cast]
        simp only [bnd]
        have hq3 : D.drop (q + 8 + (vserializeList cs2).length) = vserializeList cs' ++ rest := by
          rw [show (q + 8 + (vserializeList cs2).length) = (q + 8) + (vserializeList cs2).length from by omega,
            ← List.drop_drop, hq2, List.drop_left]
        have htail := (IH (vserializeList cs').length (by omega)).2.2.1
          cs' D rest (q + 8 + (vserializeList cs2).length) ind f ce (le_refl _) hwcs hind (by omega) hq3
          (by rw [hce, hlen]; push_cast; omega)
        rw [htail, hlen,
          show (q + 8 + (vserializeList cs2).length) + (vserializeList cs').length =
            q + (8 + (vserializeList cs2).length + (vserializeList cs').length) from by omega]
      | drefB hd cs2 =>
        refine mdiaLoop_step_skip hlt hbox (by show ¬ ISOBMFF.drefTag = ISOBMFF.mdhdTag; decide) (by show ¬ ISOBMFF.drefTag = ISOBMFF.hdlrTag; decide) (by show ¬ ISOBMFF.drefTag = ISOBMFF.minfTag; decide) ?_
        simp only [vpayload, vtag] at hq2 hlen ⊢
        rw [seekCur_cast]
        simp only [bnd]
        have hq3 : D.drop (q + 8 + (hd ++ vserializeList cs2).length) = vserializeList cs' ++ rest := by
          rw [show (q + 8 + (hd ++ vserializeList cs2).length) = (q + 8) + (hd ++ vserializeList cs2).length from by omega,
            ← List.drop_drop, hq2, List.drop_left]
        have htail := (IH (vserializeList cs').length (by omega)).2.2.1
          cs' D rest (q + 8 + (hd ++ vserializeList cs2).length) ind f ce (le_refl _) hwcs hind (by omega) hq3
          (by rw [hce, hlen]; push_cast; omega)
        rw [htail, hlen,
          show (q + 8 + (hd ++ vserializeList cs2).length) + (vserializeList cs').length =
            q + (8 + (hd ++ vserializeList cs2).length + (vserializeList cs').length) from by omega]
  · intro cs D rest q ind fuel ce hN hwf hind hfuel hq hce
    cases cs with
    | nil =>
      obtain ⟨f, rfl⟩ : ∃ f, fuel = f + 1 := ⟨fuel - 1, by omega⟩
      rw [minfLoop_exit (by
        show ¬ ((q : Int) < ce)
        simp only [vserializeList, List.length_nil] at hce
        omega)]
      simp [vserializeList]
    | cons b cs' =>
      have hwb : vwf b = true := by
        have h := hwf
        simp only [vwfList, Bool.and_eq_true] at h
        exact h.1
      have hwcs : vwfList cs' = true := by
        have h := hwf
        simp only [vwfList, Bool.and_eq_true] at h
        exact h.2
      have ht4 : (vtag b).length = 4 := vtag_length hwb
      have hsz : (vpayload b).length + 8 < 4294967296 := vwf_size hwb
      have hlen : (vserializeList (b :: cs')).length =
          (8 + (vpayload b).length) + (vserializeList cs').length :=
        vserializeList_cons_length hwb
      obtain ⟨f, rfl⟩ : ∃ f, fuel = f + 1 := ⟨fuel - 1, by omega⟩
      have hq1 : D.drop q = mkBox (vtag b) (vpayload b) ++
          (vserializeList cs' ++ rest) := by
        rw [hq, show vserializeList (b :: cs') =
            mkBox (vtag b) (vpayload b) ++ vserializeList cs' from rfl,
          List.append_assoc]
      have hq2 : D.drop (q + 8) = vpayload b ++
          (vserializeList cs' ++ rest) := by
        rw [← List.drop_drop, hq1,
          List.drop_append_of_le_length (by rw [mkBox_length ht4]; omega),
          mkBox_drop8 ht4]
      have hbox := @scan_box_run D (vserializeList cs' ++ rest)
        (vtag b) (vpayload b) q ind hq1 ht4 hsz
      have hlt : (((⟨D, q, ind⟩ : St).pos : Nat) : Int) < ce := by
        show (q : Int) < ce
        rw [hce, hlen]
        push_cast
        omega
      cases b with
      | generic tag p =>
        have gtn := generic_tags_ne (vwf_generic hwb).2.1
        refine minfLoop_step_skip hlt hbox gtn.2.2.2.2.2.2.2.2.2.2.2.1 gtn.2.2.2.2.2.2.2.2.2.2.2.2.1 gtn.2.2.2.2.2.2.2.2.2.2.2.2.2.1 gtn.2.2.2.2.2.2.2.2.2.2.2.2.2.2.1 gtn.2.2.2.2.2.2.2.2.2.2.2.2.2.2.2.1 gtn.2.2.2.2.2.2.2.2.2.2.2.2.2.2.2.2.1 ?_
        simp only [vpayload, vtag] at hq2 hlen ⊢
        rw [seekCur_cast]
        simp only [bnd]
        have hq3 : D.drop (q + 8 + p.length) = vserializeList cs' ++ rest := by
          rw [show (q + 8 + p.length) = (q + 8) + p.length from by omega,
            ← List.drop_drop, hq2, List.drop_left]
        have htail := (IH (vserializeList cs').length (by omega)).2.2.2.1
          cs' D rest (q + 8 + p.length) ind f ce (le_refl _) hwcs hind (by omega) hq3
          (by rw [hce, hlen]; push_cast; omega)
        rw [htail, hlen,
          show (q + 8 + p.length) + (vserializeList cs').length =
            q + (8 + p.length + (vserializeList cs').length) from by omega]
      | ftypB p =>
        refine minfLoop_step_skip hlt hbox (by show ¬ ISOBMFF.ftypTag = ISOBMFF.dinfTag; decide) (by show ¬ ISOBMFF.ftypTag = ISOBMFF.stblTag; decide) (by show ¬ ISOBMFF.ftypTag = ISOBMFF.vmhdTag; decide) (by show ¬ ISOBMFF.ftypTag = ISOBMFF.smhdTag; decide) (by show ¬ ISOBMFF.ftypTag = ISOBMFF.hmhdTag; decide) (by show ¬ ISOBMFF.ftypTag = ISOBMFF.nmhdTag; decide) ?_
        simp only [vpayload, vtag] at hq2 hlen ⊢
        rw [seekCur_cast]
        simp only [bnd]
        have hq3 : D.drop (q + 8 + p.length) = vserializeList cs' ++ rest := by
          rw [show (q + 8 + p.length) = (q + 8) + p.length from by omega,
            ← List.drop_drop, hq2, List.drop_left]
        have htail := (IH (vserializeList cs').length (by omega)).2.2.2.1
          cs' D rest (q + 8 + p.length) ind f ce (le_refl _) hwcs hind (by omega) hq3
          (by rw [hce, hlen]; push_cast; omega)
        rw [htail, hlen,
          show (q + 8 + p.length) + (vserializeList cs').length =
            q + (8 + p.length + (vserializeList cs').length) from by omega]
      | mvhdB p =>
        refine minfLoop_step_skip hlt hbox (by show ¬ ISOBMFF.mvhdTag = ISOBMFF.dinfTag; decide) (by show ¬ ISOBMFF.mvhdTag = ISOBMFF.stblTag; decide) (by show ¬ ISOBMFF.mvhdTag = ISOBMFF.vmhdTag; decide) (by show ¬ ISOBMFF.mvhdTag = ISOBMFF.smhdTag; decide) (by show ¬ ISOBMFF.mvhdTag = ISOBMFF.hmhdTag; decide) (by show ¬ ISOBMFF.mvhdTag = ISOBMFF.nmhdTag; decide) ?_
        simp only [vpayload, vtag] at hq2 hlen ⊢
        rw [seekCur_cast]
        simp only [bnd]
        have hq3 : D.drop (q + 8 + p.length) = vserializeList cs' ++ rest := by
          rw [show (q + 8 + p.length) = (q + 8) + p.length from by omega,
            ← List.drop_drop, hq2, List.drop_left]
        have htail := (IH (vserializeList cs').length (by omega)).2.2.2.1
          cs' D rest (q + 8 + p.length) ind f ce (le_refl _) hwcs hind (by omega) hq3
          (by rw [hce, hlen]; push_cast; omega)
        rw [htail, hlen,
          show (q + 8 + p.length) + (vserializeList cs').length =
            q + (8 + p.length + (vserializeList cs').length) from by omega]
      | tkhdB p =>
        refine minfLoop_step_skip hlt hbox (by show ¬ ISOBMFF.tkhdTag = ISOBMFF.dinfTag; decide) (by show ¬ ISOBMFF.tkhdTag = ISOBMFF.stblTag; decide) (by show ¬ ISOBMFF.tkhdTag = ISOBMFF.vmhdTag; decide) (by show ¬ ISOBMFF.tkhdTag = ISOBMFF.smhdTag; decide) (by show ¬ ISOBMFF.tkhdTag = ISOBMFF.hmhdTag; decide) (by show ¬ ISOBMFF.tkhdTag = ISOBMFF.nmhdTag; decide) ?_
        simp only [vpayload, vtag] at hq2 hlen ⊢
        rw [seekCur_cast]
        simp only [bnd]
        have hq3 : D.drop (q + 8 + p.length) = vserializeList cs' ++ rest := by
          rw [show (q + 8 + p.length) = (q + 8) + p.length from by omega,
            ← List.drop_drop, hq2, List.drop_left]
        have htail := (IH (vserializeList cs').length (by omega)).2.2.2.1
          cs' D rest (q + 8 + p.length) ind f ce (le_refl _) hwcs hind (by omega) hq3
          (by rw [hce, hlen]; push_cast; omega)
        rw [htail, hlen,
          show (q + 8 + p.length) + (vserializeList cs').length =
            q + (8 + p.length + (vserializeList cs').length) from by omega]
      | mdhdB p =>
        refine minfLoop_step_skip hlt hbox (by show ¬ ISOBMFF.mdhdTag = ISOBMFF.dinfTag; decide) (by show ¬ ISOBMFF.mdhdTag = ISOBMFF.stblTag; decide) (by show ¬ ISOBMFF.mdhdTag = ISOBMFF.vmhdTag; decide) (by show ¬ ISOBMFF.mdhdTag = ISOBMFF.smhdTag; decide) (by show ¬ ISOBMFF.mdhdTag = ISOBMFF.hmhdTag; decide) (by show ¬ ISOBMFF.mdhdTag = ISOBMFF.nmhdTag; decide) ?_
        simp only [vpayload, vtag] at hq2 hlen ⊢
        rw [seekCur_cast]
        simp only [bnd]
        have hq3 : D.drop (q + 8 + p.length) = vserializeList cs' ++ rest := by
          rw [show (q + 8 + p.length) = (q + 8) + p.length from by omega,
            ← List.drop_drop, hq2, List.drop_left]
        have htail := (IH (vserializeList cs').length (by omega)).2.2.2.1
          cs' D rest (q + 8 + p.length) ind f ce (le_refl _) hwcs hind (by omega) hq3
          (by rw [hce, hlen]; push_cast; omega)
        rw [htail, hlen,
          show (q + 8 + p.length) + (vserializeList cs').length =
            q + (8 + p.length + (vserializeList cs').length) from by omega]
      | hdlrB p =>
        refine minfLoop_step_skip hlt hbox (by show ¬ ISOBMFF.hdlrTag = ISOBMFF.dinfTag; decide) (by show ¬ ISOBMFF.hdlrTag = ISOBMFF.stblTag; decide) (by show ¬ ISOBMFF.hdlrTag = ISOBMFF.vmhdTag; decide) (by show ¬ ISOBMFF.hdlrTag = ISOBMFF.smhdTag; decide) (by show ¬ ISOBMFF.hdlrTag = ISOBMFF.hmhdTag; decide) (by show ¬ ISOBMFF.hdlrTag = ISOBMFF.nmhdTag; decide) ?_
        simp only [vpayload, vtag] at hq2 hlen ⊢
        rw [seekCur_cast]
        simp only [bnd]
        have hq3 : D.drop (q + 8 + p.length) = vserializeList cs' ++ rest := by
          rw [show (q + 8 + p.length) = (q + 8) + p.length from by omega,
            ← List.drop_drop, hq2, List.drop_left]
        have htail := (IH (vserializeList cs').length (by omega)).2.2.2.1
          cs' D rest (q + 8 + p.length) ind f ce (le_refl _) hwcs hind (by omega) hq3
          (by rw [hce, hlen]; push_cast; omega)
        rw [htail, hlen,
          show (q + 8 + p.length) + (vserializeList cs').length =
            q + (8 + p.length + (vserializeList cs').length) from by omega]
      | vmhdB p =>
        refine minfLoop_step_vmhd hlt hbox rfl ?_
        simp only [vpayload, vtag] at hq2 hlen ⊢
        obtain ⟨o, ho⟩ := scan_vmhd_run ((p.length : Int)) hq2 hwb hind
        rw [ho]
        simp only [bnd]
        have hq3 : D.drop (q + 8 + p.length) = vserializeList cs' ++ rest := by
          rw [show (q + 8 + p.length) = (q + 8) + p.length from by omega,
            ← List.drop_drop, hq2, List.drop_left]
        have htail := (IH (vserializeList cs').length (by omega)).2.2.2.1
          cs' D rest (q + 8 + p.length) ind f ce (le_refl _) hwcs hind (by omega) hq3
          (by rw [hce, hlen]; push_cast; omega)
        rw [htail, hlen,
          show (q + 8 + p.length) + (vserializeList cs').length =
            q + (8 + p.length + (vserializeList cs').length) from by omega]
      | smhdB p =>
        refine minfLoop_step_smhd hlt hbox rfl ?_
        simp only [vpayload, vtag] at hq2 hlen ⊢
        obtain ⟨o, ho⟩ := scan_smhd_run ((p.length : Int)) hq2 hwb hind
        rw [ho]
        simp only [bnd]
        have hq3 : D.drop (q + 8 + p.length) = vserializeList cs' ++ rest := by
          rw [show (q + 8 + p.length) = (q + 8) + p.length from by omega,
            ← List.drop_drop, hq2, List.drop_left]
        have htail := (IH (vserializeList cs').length (by omega)).2.2.2.1
          cs' D rest (q + 8 + p.length) ind f ce (le_refl _) hwcs hind (by omega) hq3
          (by rw [hce, hlen]; push_cast; omega)
        rw [htail, hlen,
          show (q + 8 + p.length) + (vserializeList cs').length =
            q + (8 + p.length + (vserializeList cs').length) from by omega]
      | hmhdB p =>
        refine minfLoop_step_hmhd hlt hbox rfl ?_
        simp only [vpayload, vtag] at hq2 hlen ⊢
        obtain ⟨o, ho⟩ := scan_hmhd_run ((p.length : Int)) hq2 hwb hind
        rw [ho]
        simp only [bnd]
        have hq3 : D.drop (q + 8 + p.length) = vserializeList cs' ++ rest := by
          rw [show (q + 8 + p.length) = (q + 8) + p.length from by omega,
            ← List.drop_drop, hq2, List.drop_left]
        have htail := (IH (vserializeList cs').length (by omega)).2.2.2.1
          cs' D rest (q + 8 + p.length) ind f ce (le_refl _) hwcs hind (by omega) hq3
          (by rw [hce, hlen]; push_cast; omega)
        rw [htail, hlen,
          show (q + 8 + p.length) + (vserializeList cs').length =
            q + (8 + p.length + (vserializeList cs').length) from by omega]
      | nmhdB p =>
        refine minfLoop_step_nmhd hlt hbox rfl ?_
        simp only [vpayload, vtag] at hq2 hlen ⊢
        obtain ⟨o, ho⟩ := scan_nmhd_run ((p.length : Int)) hq2 hwb hind
        rw [ho]
        simp only [bnd]
        have hq3 : D.drop (q + 8 + p.length) = vserializeList cs' ++ rest := by
          rw [show (q + 8 + p.length) = (q + 8) + p.length from by omega,
            ← List.drop_drop, hq2, List.drop_left]
        have htail := (IH (vserializeList cs').length (by omega)).2.2.2.1
          cs' D rest (q + 8 + p.length) ind f ce (le_refl _) hwcs hind (by omega) hq3
          (by rw [hce, hlen]; push_cast; omega)
        rw [htail, hlen,
          show (q + 8 + p.length) + (vserializeList cs').length =
            q + (8 + p.length + (vserializeList cs').length) from by omega]
      | elstB p =>
        refine minfLoop_step_skip hlt hbox (by show ¬ ISOBMFF.elstTag = ISOBMFF.dinfTag; decide) (by show ¬ ISOBMFF.elstTag = ISOBMFF.stblTag; decide) (by show ¬ ISOBMFF.elstTag = ISOBMFF.vmhdTag; decide) (by show ¬ ISOBMFF.elstTag = ISOBMFF.smhdTag; decide) (by show ¬ ISOBMFF.elstTag = ISOBMFF.hmhdTag; decide) (by show ¬ ISOBMFF.elstTag = ISOBMFF.nmhdTag; decide) ?_
        simp only [vpayload, vtag] at hq2 hlen ⊢
        rw [seekCur_cast]
        simp only [bnd]
        have hq3 : D.drop (q + 8 + p.length) = vserializeList cs' ++ rest := by
          rw [show (q + 8 + p.length) = (q + 8) + p.length from by omega,
            ← List.drop_drop, hq2, List.drop_left]
        have htail := (IH (vserializeList cs').length (by omega)).2.2.2.1
          cs' D rest (q + 8 + p.length) ind f ce (le_refl _) hwcs hind (by omega) hq3
          (by rw [hce, hlen]; push_cast; omega)
        rw [htail, hlen,
          show (q + 8 + p.length) + (vserializeList cs').length =
            q + (8 + p.length + (vserializeList cs').length) from by omega]
      | urlB p =>
        refine minfLoop_step_skip hlt hbox (by show ¬ ISOBMFF.urlTag = ISOBMFF.dinfTag; decide) (by show ¬ ISOBMFF.urlTag = ISOBMFF.stblTag; decide) (by show ¬ ISOBMFF.urlTag = ISOBMFF.vmhdTag; decide) (by show ¬ ISOBMFF.urlTag = ISOBMFF.smhdTag; decide) (by show ¬ ISOBMFF.urlTag = ISOBMFF.hmhdTag; decide) (by show ¬ ISOBMFF.urlTag = ISOBMFF.nmhdTag; decide) ?_
        simp only [vpayload, vtag] at hq2 hlen ⊢
        rw [seekCur_cast]
        simp only [bnd]
        have hq3 : D.drop (q + 8 + p.length) = vserializeList cs' ++ rest := by
          rw [show (q + 8 + p.length) = (q + 8) + p.length from by omega,
            ← List.drop_drop, hq2, List.drop_left]
        have htail := (IH (vserializeList cs').length (by omega)).2.2.2.1
          cs' D rest (q + 8 + p.length) ind f ce (le_refl _) hwcs hind (by omega) hq3
          (by rw [hce, hlen]; push_cast; omega)
        rw [htail, hlen,
          show (q + 8 + p.length) + (vserializeList cs').length =
            q + (8 + p.length + (vserializeList cs').length) from by omega]
      | urnB p =>
        refine minfLoop_step_skip hlt hbox (by show ¬ ISOBMFF.urnTag = ISOBMFF.dinfTag; decide) (by show ¬ ISOBMFF.urnTag = ISOBMFF.stblTag; decide) (by show ¬ ISOBMFF.urnTag = ISOBMFF.vmhdTag; decide) (by show ¬ ISOBMFF.urnTag = ISOBMFF.smhdTag; decide) (by show ¬ ISOBMFF.urnTag = ISOBMFF.hmhdTag; decide) (by show ¬ ISOBMFF.urnTag = ISOBMFF.nmhdTag; decide) ?_
        simp only [vpayload, vtag] at hq2 hlen ⊢
        rw [seekCur_cast]
        simp only [bnd]
        have hq3 : D.drop (q + 8 + p.length) = vserializeList cs' ++ rest := by
          rw [show (q + 8 + p.length) = (q + 8) + p.length from by omega,
            ← List.drop_drop, hq2, List.drop_left]
        have htail := (IH (vserializeList cs').length (by omega)).2.2.2.1
          cs' D rest (q + 8 + p.length) ind f ce (le_refl _) hwcs hind (by omega) hq3
          (by rw [hce, hlen]; push_cast; omega)
        rw [htail, hlen,
          show (q + 8 + p.length) + (vserializeList cs').length =
            q + (8 + p.length + (vserializeList cs').length) from by omega]
      | moovB cs2 =>
        refine minfLoop_step_skip hlt hbox (by show ¬ ISOBMFF.moovTag = ISOBMFF.dinfTag; decide) (by show ¬ ISOBMFF.moovTag = ISOBMFF.stblTag; decide) (by show ¬ ISOBMFF.moovTag = ISOBMFF.vmhdTag; decide) (by show ¬ ISOBMFF.moovTag = ISOBMFF.smhdTag; decide) (by show ¬ ISOBMFF.moovTag = ISOBMFF.hmhdTag; decide) (by show ¬ ISOBMFF.moovTag = ISOBMFF.nmhdTag; decide) ?_
        simp only [vpayload, vtag] at hq2 hlen ⊢
        rw [seekCur_cast]
        simp only [bnd]
        have hq3 : D.drop (q + 8 + (vserializeList cs2).length) = vserializeList cs' ++ rest := by
          rw [show (q + 8 + (vserializeList cs2).length) = (q + 8) + (vserializeList cs2).length from by omega,
            ← List.drop_drop, hq2, List.drop_left]
        have htail := (IH (vserializeList cs').length (by omega)).2.2.2.1
          cs' D rest (q + 8 + (vserializeList cs2).length) ind f ce (le_refl _) hwcs hind (by omega) hq3
          (by rw [hce, hlen]; push_cast; omega)
        rw [htail, hlen,
          show (q + 8 + (vserializeList cs2).length) + (vserializeList cs').length =
            q + (8 + (vserializeList cs2).length + (vserializeList cs').length) from by omega]
      | trakB cs2 =>
        refine minfLoop_step_skip hlt hbox (by show ¬ ISOBMFF.trakTag = ISOBMFF.dinfTag; decide) (by show ¬ ISOBMFF.trakTag = ISOBMFF.stblTag; decide) (by show ¬ ISOBMFF.trakTag = ISOBMFF.vmhdTag; decide) (by show ¬ ISOBMFF.trakTag = ISOBMFF.smhdTag; decide) (by show ¬ ISOBMFF.trakTag = ISOBMFF.hmhdTag; decide) (by show ¬ ISOBMFF.trakTag = ISOBMFF.nmhdTag; decide) ?_
        simp only [vpayload, vtag] at hq2 hlen ⊢
        rw [seekCur_cast]
        simp only [bnd]
        have hq3 : D.drop (q + 8 + (vserializeList cs2).length) = vserializeList cs' ++ rest := by
          rw [show (q + 8 + (vserializeList cs2).length) = (q + 8) + (vserializeList cs2).length from by omega,
            ← List.drop_drop, hq2, List.drop_left]
        have htail := (IH (vserializeList cs').length (by omega)).2.2.2.1
          cs' D rest (q + 8 + (vserializeList cs2).length) ind f ce (le_refl _) hwcs hind (by omega) hq3
          (by rw [hce, hlen]; push_cast; omega)
        rw [htail, hlen,
          show (q + 8 + (vserializeList cs2).length) + (vserializeList cs').length =
            q + (8 + (vserializeList cs2).length + (vserializeList cs').length) from by omega]
      | mdiaB cs2 =>
        refine minfLoop_step_skip hlt hbox (by show ¬ ISOBMFF.mdiaTag = ISOBMFF.dinfTag; decide) (by show ¬ ISOBMFF.mdiaTag = ISOBMFF.stblTag; decide) (by show ¬ ISOBMFF.mdiaTag = ISOBMFF.vmhdTag; decide) (by show ¬ ISOBMFF.mdiaTag = ISOBMFF.smhdTag; decide) (by show ¬ ISOBMFF.mdiaTag = ISOBMFF.hmhdTag; decide) (by show ¬ ISOBMFF.mdiaTag = ISOBMFF.nmhdTag; decide) ?_
        simp only [vpayload, vtag] at hq2 hlen ⊢
        rw [seekCur_cast]
        simp only [bnd]
        have hq3 : D.drop (q + 8 + (vserializeList cs2).length) = vserializeList cs' ++ rest := by
          rw [show (q + 8 + (vserializeList cs2).length) = (q + 8) + (vserializeList cs2).length from by omega,
            ← List.drop_drop, hq2, List.drop_left]
        have htail := (IH (vserializeList cs').length (by omega)).2.2.2.1
          cs' D rest (q + 8 + (vserializeList cs2).length) ind f ce (le_refl _) hwcs hind (by omega) hq3
          (by rw [hce, hlen]; push_cast; omega)
        rw [htail, hlen,
          show (q + 8 + (vserializeList cs2).length) + (vserializeList cs').length =
            q + (8 + (vserializeList cs2).length + (vserializeList cs').length) from by omega]
      | minfB cs2 =>
        refine minfLoop_step_skip hlt hbox (by show ¬ ISOBMFF.minfTag = ISOBMFF.dinfTag; decide) (by show ¬ ISOBMFF.minfTag = ISOBMFF.stblTag; decide) (by show ¬ ISOBMFF.minfTag = ISOBMFF.vmhdTag; decide) (by show ¬ ISOBMFF.minfTag = ISOBMFF.smhdTag; decide) (by show ¬ ISOBMFF.minfTag = ISOBMFF.hmhdTag; decide) (by show ¬ ISOBMFF.minfTag = ISOBMFF.nmhdTag; decide) ?_
        simp only [vpayload, vtag] at hq2 hlen ⊢
        rw [seekCur_cast]
        simp only [bnd]
        have hq3 : D.drop (q + 8 + (vserializeList cs2).length) = vserializeList cs' ++ rest := by
          rw [show (q + 8 + (vserializeList cs2).length) = (q + 8) + (vserializeList cs2).length from by omega,
            ← List.drop_drop, hq2, List.drop_left]
        have htail := (IH (vserializeList cs').length (by omega)).2.2.2.1
          cs' D rest (q + 8 + (vserializeList cs2).length) ind f ce (le_refl _) hwcs hind (by omega) hq3
          (by rw [hce, hlen]; push_cast; omega)
        rw [htail, hlen,
          show (q + 8 + (vserializeList cs2).length) + (vserializeList cs').length =
            q + (8 + (vserializeList cs2).length + (vserializeList cs').length) from by omega]
      | dinfB cs2 =>
        refine minfLoop_step_dinf hlt hbox rfl ?_
        simp only [vpayload, vtag] at hq2 hlen ⊢
        have hw2 : vwfList cs2 = true ∧
            (vserializeList cs2).length + 8 < 4294967296 := by
          simpa [vwf, Bool.and_eq_true, decide_eq_true_eq] using hwb
        simp only [ISOBMFF.scan_dinf, ipush]
        have hchild := (IH (vserializeList cs2).length (by omega)).2.2.2.2.1
          cs2 D (vserializeList cs' ++ rest) (q + 8) (ind + 1) f
          (((q + 8 : Nat) : Int) + ((vserializeList cs2).length : Int))
          (le_refl _) hw2.1 (by omega) (by omega) hq2 rfl
        rw [hchild]
        simp only [bndU]
        have hip : ipop (⟨D, q + 8 + (vserializeList cs2).length,
            ind + 1⟩ : St) =
            ⟨D, q + 8 + (vserializeList cs2).length, ind⟩ := by
          rw [ipop_of_pos (by simp; omega)]
          simp
        rw [hip]
        have hq3 : D.drop (q + 8 + (vserializeList cs2).length) = vserializeList cs' ++ rest := by
          rw [show (q + 8 + (vserializeList cs2).length) = (q + 8) + (vserializeList cs2).length from by omega,
            ← List.drop_drop, hq2, List.drop_left]
        have htail := (IH (vserializeList cs').length (by omega)).2.2.2.1
          cs' D rest (q + 8 + (vserializeList cs2).length) ind f ce (le_refl _) hwcs hind (by omega) hq3
          (by rw [hce, hlen]; push_cast; omega)
        rw [htail, hlen,
          show (q + 8 + (vserializeList cs2).length) + (vserializeList cs').length =
            q + (8 + (vserializeList cs2).length + (vserializeList cs').length) from by omega]
      | edtsB cs2 =>
        refine minfLoop_step_skip hlt hbox (by show ¬ ISOBMFF.edtsTag = ISOBMFF.dinfTag; decide) (by show ¬ ISOBMFF.edtsTag = ISOBMFF.stblTag; decide) (by show ¬ ISOBMFF.edtsTag = ISOBMFF.vmhdTag; decide) (by show ¬ ISOBMFF.edtsTag = ISOBMFF.smhdTag; decide) (by show ¬ ISOBMFF.edtsTag = ISOBMFF.hmhdTag; decide) (by show ¬ ISOBMFF.edtsTag = ISOBMFF.nmhdTag; decide) ?_
        simp only [vpayload, vtag] at hq2 hlen ⊢
        rw [seekCur_cast]
        simp only [bnd]
        have hq3 : D.drop (q + 8 + (vserializeList cs2).length) = vserializeList cs' ++ rest := by
          rw [show (q + 8 + (vserializeList cs2).length) = (q + 8) + (vserializeList cs2).length from by omega,
            ← List.drop_drop, hq2, List.drop_left]
        have htail := (IH (vserializeList cs').length (by omega)).2.2.2.1
          cs' D rest (q + 8 + (vserializeList cs2).length) ind f ce (le_refl _) hwcs hind (by omega) hq3
          (by rw [hce, hlen]; push_cast; omega)
        rw [htail, hlen,
          show (q + 8 + (vserializeList cs2).length) + (vserializeList cs').length =
            q + (8 + (vserializeList cs2).length + (vserializeList cs').length) from by omega]
      | udtaB cs2 =>
        refine minfLoop_step_skip hlt hbox (by show ¬ ISOBMFF.udtaTag = ISOBMFF.dinfTag; decide) (by show ¬ ISOBMFF.udtaTag = ISOBMFF.stblTag; decide) (by show ¬ ISOBMFF.udtaTag = ISOBMFF.vmhdTag; decide) (by show ¬ ISOBMFF.udtaTag = ISOBMFF.smhdTag; decide) (by show ¬ ISOBMFF.udtaTag = ISOBMFF.hmhdTag; decide) (by show ¬ ISOBMFF.udtaTag = ISOBMFF.nmhdTag; decide) ?_
        simp only [vpayload, vtag] at hq2 hlen ⊢
        rw [seekCur_cast]
        simp only [bnd]
        have hq3 : D.drop (q + 8 + (vserializeList cs2).length) = vserializeList cs' ++ rest := by
          rw [show (q + 8 + (vserializeList cs2).length) = (q + 8) + (vserializeList cs2).length from by omega,
            ← List.drop_drop, hq2, List.drop_left]
        have htail := (IH (vserializeList cs').length (by omega)).2.2.2.1
          cs' D rest (q + 8 + (vserializeList cs2).length) ind f ce (le_refl _) hwcs hind (by omega) hq3
          (by rw [hce, hlen]; push_cast; omega)
        rw [htail, hlen,
          show (q + 8 + (vserializeList cs2).length) + (vserializeList cs').length =
            q + (8 + (vserializeList cs2).length + (vserializeList cs').length) from by omega]
      | stblB cs2 =>
        refine minfLoop_step_stbl hlt hbox rfl ?_
        simp only [vpayload, vtag] at hq2 hlen ⊢
        have hw2 : vwfList cs2 = true ∧
            (vserializeList cs2).length + 8 < 4294967296 := by
          simpa [vwf, Bool.and_eq_true, decide_eq_true_eq] using hwb
        simp only [ISOBMFF.scan_stbl, ipush]
        have hchild := (IH (vserializeList cs2).length (by omega)).2.2.2.2.2.2.2.1
          cs2 D (vserializeList cs' ++ rest) (q + 8) (ind + 1) f
          (((q + 8 : Nat) : Int) + ((vserializeList cs2).length : Int))
          (le_refl _) hw2.1 (by omega) (by omega) hq2 rfl
        rw [hchild]
        simp only [bndU]
        have hip : ipop (⟨D, q + 8 + (vserializeList cs2).length,
            ind + 1⟩ : St) =
            ⟨D, q + 8 + (vserializeList cs2).length, ind⟩ := by
          rw [ipop_of_pos (by simp; omega)]
          simp
        rw [hip]
        have hq3 : D.drop (q + 8 + (vserializeList cs2).length) = vserializeList cs' ++ rest := by
          rw [show (q + 8 + (vserializeList cs2).length) = (q + 8) + (vserializeList cs2).length from by omega,
            ← List.drop_drop, hq2, List.drop_left]
        have htail := (IH (vserializeList cs').length (by omega)).2.2.2.1
          cs' D rest (q + 8 + (vserializeList cs2).length) ind f ce (le_refl _) hwcs hind (by omega) hq3
          (by rw [hce, hlen]; push_cast; omega)
        rw [htail, hlen,
          show (q + 8 + (vserializeList cs2).length) + (vserializeList cs').length =
            q + (8 + (vserializeList cs2).length + (vserializeList cs').length) from by omega]
      | drefB hd cs2 =>
        refine minfLoop_step_skip hlt hbox (by show ¬ ISOBMFF.drefTag = ISOBMFF.dinfTag; decide) (by show ¬ ISOBMFF.drefTag = ISOBMFF.stblTag; decide) (by show ¬ ISOBMFF.drefTag = ISOBMFF.vmhdTag; decide) (by show ¬ ISOBMFF.drefTag = ISOBMFF.smhdTag; decide) (by show ¬ ISOBMFF.drefTag = ISOBMFF.hmhdTag; decide) (by show ¬ ISOBMFF.drefTag = ISOBMFF.nmhdTag; decide) ?_
        simp only [vpayload, vtag] at hq2 hlen ⊢
        rw [seekCur_cast]
        simp only [bnd]
        have hq3 : D.drop (q + 8 + (hd ++ vserializeList cs2).length) = vserializeList cs' ++ rest := by
          rw [show (q + 8 + (hd ++ vserializeList cs2).length) = (q + 8) + (hd ++ vserializeList cs2).length from by omega,
            ← List.drop_drop, hq2, List.drop_left]
        have htail := (IH (vserializeList cs').length (by omega)).2.2.2.1
          cs' D rest (q + 8 + (hd ++ vserializeList cs2).length) ind f ce (le_refl _) hwcs hind (by omega) hq3
          (by rw [hce, hlen]; push_cast; omega)
        rw [htail, hlen,
          show (q + 8 + (hd ++ vserializeList cs2).length) + (vserializeList cs').length =
            q + (8 + (hd ++ vserializeList cs2).length + (vserializeList cs').length) from by omega]
  · intro cs D rest q ind fuel ce hN hwf hind hfuel hq hce
    cases cs with
    | nil =>
      obtain ⟨f, rfl⟩ : ∃ f, fuel = f + 1 := ⟨fuel - 1, by omega⟩
      rw [dinfLoop_exit (by
        show ¬ ((q : Int) < ce)
        simp only [vserializeList, List.length_nil] at hce
        omega)]
      simp [vserializeList]
    | cons b cs' =>
      have hwb : vwf b = true := by
        have h := hwf
        simp only [vwfList, Bool.and_eq_true] at h
        exact h.1
      have hwcs : vwfList cs' = true := by
        have h := hwf
        simp only [vwfList, Bool.and_eq_true] at h
        exact h.2
      have ht4 : (vtag b).length = 4 := vtag_length hwb
      have hsz : (vpayload b).length + 8 < 4294967296 := vwf_size hwb
      have hlen : (vserializeList (b :: cs')).length =
          (8 + (vpayload b).length) + (vserializeList cs').length :=
        vserializeList_cons_length hwb
      obtain ⟨f, rfl⟩ : ∃ f, fuel = f + 1 := ⟨fuel - 1, by omega⟩
      have hq1 : D.drop q = mkBox (vtag b) (vpayload b) ++
          (vserializeList cs' ++ rest) := by
        rw [hq, show vserializeList (b :: cs') =
            mkBox (vtag b) (vpayload b) ++ vserializeList cs' from rfl,
          List.append_assoc]
      have hq2 : D.drop (q + 8) = vpayload b ++
          (vserializeList cs' ++ rest) := by
        rw [← List.drop_drop, hq1,
          List.drop_append_of_le_length (by rw [mkBox_length ht4]; omega),
          mkBox_drop8 ht4]
      have hbox := @scan_box_run D (vserializeList cs' ++ rest)
        (vtag b) (vpayload b) q ind hq1 ht4 hsz
      have hlt : (((⟨D, q, ind⟩ : St).pos : Nat) : Int) < ce := by
        show (q : Int) < ce
        rw [hce, hlen]
        push_cast
        omega
      cases b with
      | generic tag p =>
        have gtn := generic_tags_ne (vwf_generic hwb).2.1
        refine dinfLoop_step_skip hlt hbox gtn.2.2.2.2.2.2.2.2.2.2.2.2.2.2.2.2.2.1 ?_
        simp only [vpayload, vtag] at hq2 hlen ⊢
        rw [seekCur_cast]
        simp only [bnd]
        have hq3 : D.drop (q + 8 + p.length) = vserializeList cs' ++ rest := by
          rw [show (q + 8 + p.length) = (q + 8) + p.length from by omega,
            ← List.drop_drop, hq2, List.drop_left]
        have htail := (IH (vserializeList cs').length (by omega)).2.2.2.2.1
          cs' D rest (q + 8 + p.length) ind f ce (le_refl _) hwcs hind (by omega) hq3
          (by rw [hce, hlen]; push_cast; omega)
        rw [htail, hlen,
          show (q + 8 + p.length) + (vserializeList cs').length =
            q + (8 + p.length + (vserializeList cs').length) from by omega]
      | ftypB p =>
        refine dinfLoop_step_skip hlt hbox (by show ¬ ISOBMFF.ftypTag = ISOBMFF.drefTag; decide) ?_
        simp only [vpayload, vtag] at hq2 hlen ⊢
        rw [seekCur_cast]
        simp only [bnd]
        have hq3 : D.drop (q + 8 + p.length) = vserializeList cs' ++ rest := by
          rw [show (q + 8 + p.length) = (q + 8) + p.length from by omega,
            ← List.drop_drop, hq2, List.drop_left]
        have htail := (IH (vserializeList cs').length (by omega)).2.2.2.2.1
          cs' D rest (q + 8 + p.length) ind f ce (le_refl _) hwcs hind (by omega) hq3
          (by rw [hce, hlen]; push_cast; omega)
        rw [htail, hlen,
          show (q + 8 + p.length) + (vserializeList cs').length =
            q + (8 + p.length + (vserializeList cs').length) from by omega]
      | mvhdB p =>
        refine dinfLoop_step_skip hlt hbox (by show ¬ ISOBMFF.mvhdTag = ISOBMFF.drefTag; decide) ?_
        simp only [vpayload, vtag] at hq2 hlen ⊢
        rw [seekCur_cast]
        simp only [bnd]
        have hq3 : D.drop (q + 8 + p.length) = vserializeList cs' ++ rest := by
          rw [show (q + 8 + p.length) = (q + 8) + p.length from by omega,
            ← List.drop_drop, hq2, List.drop_left]
        have htail := (IH (vserializeList cs').length (by omega)).2.2.2.2.1
          cs' D rest (q + 8 + p.length) ind f ce (le_refl _) hwcs hind (by omega) hq3
          (by rw [hce, hlen]; push_cast; omega)
        rw [htail, hlen,
          show (q + 8 + p.length) + (vserializeList cs').length =
            q + (8 + p.length + (vserializeList cs').length) from by omega]
      | tkhdB p =>
        refine dinfLoop_step_skip hlt hbox (by show ¬ ISOBMFF.tkhdTag = ISOBMFF.drefTag; decide) ?_
        simp only [vpayload, vtag] at hq2 hlen ⊢
        rw [seekCur_cast]
        simp only [bnd]
        have hq3 : D.drop (q + 8 + p.length) = vserializeList cs' ++ rest := by
          rw [show (q + 8 + p.length) = (q + 8) + p.length from by omega,
            ← List.drop_drop, hq2, List.drop_left]
        have htail := (IH (vserializeList cs').length (by omega)).2.2.2.2.1
          cs' D rest (q + 8 + p.length) ind f ce (le_refl _) hwcs hind (by omega) hq3
          (by rw [hce, hlen]; push_cast; omega)
        rw [htail, hlen,
          show (q + 8 + p.length) + (vserializeList cs').length =
            q + (8 + p.length + (vserializeList cs').length) from by omega]
      | mdhdB p =>
        refine dinfLoop_step_skip hlt hbox (by show ¬ ISOBMFF.mdhdTag = ISOBMFF.drefTag; decide) ?_
        simp only [vpayload, vtag] at hq2 hlen ⊢
        rw [seekCur_cast]
        simp only [bnd]
        have hq3 : D.drop (q + 8 + p.length) = vserializeList cs' ++ rest := by
          rw [show (q + 8 + p.length) = (q + 8) + p.length from by omega,
            ← List.drop_drop, hq2, List.drop_left]
        have htail := (IH (vserializeList cs').length (by omega)).2.2.2.2.1
          cs' D rest (q + 8 + p.length) ind f ce (le_refl _) hwcs hind (by omega) hq3
          (by rw [hce, hlen]; push_cast; omega)
        rw [htail, hlen,
          show (q + 8 + p.length) + (vserializeList cs').length =
            q + (8 + p.length + (vserializeList cs').length) from by omega]
      | hdlrB p =>
        refine dinfLoop_step_skip hlt hbox (by show ¬ ISOBMFF.hdlrTag = ISOBMFF.drefTag; decide) ?_
        simp only [vpayload, vtag] at hq2 hlen ⊢
        rw [seekCur_cast]
        simp only [bnd]
        have hq3 : D.drop (q + 8 + p.length) = vserializeList cs' ++ rest := by
          rw [show (q + 8 + p.length) = (q + 8) + p.length from by omega,
            ← List.drop_drop, hq2, List.drop_left]
        have htail := (IH (vserializeList cs').length (by omega)).2.2.2.2.1
          cs' D rest (q + 8 + p.length) ind f ce (le_refl _) hwcs hind (by omega) hq3
          (by rw [hce, hlen]; push_cast; omega)
        rw [htail, hlen,
          show (q + 8 + p.length) + (vserializeList cs').length =
            q + (8 + p.length + (vserializeList cs').length) from by omega]
      | vmhdB p =>
        refine dinfLoop_step_skip hlt hbox (by show ¬ ISOBMFF.vmhdTag = ISOBMFF.drefTag; decide) ?_
        simp only [vpayload, vtag] at hq2 hlen ⊢
        rw [seekCur_cast]
        simp only [bnd]
        have hq3 : D.drop (q + 8 + p.length) = vserializeList cs' ++ rest := by
          rw [show (q + 8 + p.length) = (q + 8) + p.length from by omega,
            ← List.drop_drop, hq2, List.drop_left]
        have htail := (IH (vserializeList cs').length (by omega)).2.2.2.2.1
          cs' D rest (q + 8 + p.length) ind f ce (le_refl _) hwcs hind (by omega) hq3
          (by rw [hce, hlen]; push_cast; omega)
        rw [htail, hlen,
          show (q + 8 + p.length) + (vserializeList cs').length =
            q + (8 + p.length + (vserializeList cs').length) from by omega]
      | smhdB p =>
        refine dinfLoop_step_skip hlt hbox (by show ¬ ISOBMFF.smhdTag = ISOBMFF.drefTag; decide) ?_
        simp only [vpayload, vtag] at hq2 hlen ⊢
        rw [seekCur_cast]
        simp only [bnd]
        have hq3 : D.drop (q + 8 + p.length) = vserializeList cs' ++ rest := by
          rw [show (q + 8 + p.length) = (q + 8) + p.length from by omega,
            ← List.drop_drop, hq2, List.drop_left]
        have htail := (IH (vserializeList cs').length (by omega)).2.2.2.2.1
          cs' D rest (q + 8 + p.length) ind f ce (le_refl _) hwcs hind (by omega) hq3
          (by rw [hce, hlen]; push_cast; omega)
        rw [htail, hlen,
          show (q + 8 + p.length) + (vserializeList cs').length =
            q + (8 + p.length + (vserializeList cs').length) from by omega]
      | hmhdB p =>
        refine dinfLoop_step_skip hlt hbox (by show ¬ ISOBMFF.hmhdTag = ISOBMFF.drefTag; decide) ?_
        simp only [vpayload, vtag] at hq2 hlen ⊢
        rw [seekCur_cast]
        simp only [bnd]
        have hq3 : D.drop (q + 8 + p.length) = vserializeList cs' ++ rest := by
          rw [show (q + 8 + p.length) = (q + 8) + p.length from by omega,
            ← List.drop_drop, hq2, List.drop_left]
        have htail := (IH (vserializeList cs').length (by omega)).2.2.2.2.1
          cs' D rest (q + 8 + p.length) ind f ce (le_refl _) hwcs hind (by omega) hq3
          (by rw [hce, hlen]; push_cast; omega)
        rw [htail, hlen,
          show (q + 8 + p.length) + (vserializeList cs').length =
            q + (8 + p.length + (vserializeList cs').length) from by omega]
      | nmhdB p =>
        refine dinfLoop_step_skip hlt hbox (by show ¬ ISOBMFF.nmhdTag = ISOBMFF.drefTag; decide) ?_
        simp only [vpayload, vtag] at hq2 hlen ⊢
        rw [seekCur_cast]
        simp only [bnd]
        have hq3 : D.drop (q + 8 + p.length) = vserializeList cs' ++ rest := by
          rw [show (q + 8 + p.length) = (q + 8) + p.length from by omega,
            ← List.drop_drop, hq2, List.drop_left]
        have htail := (IH (vserializeList cs').length (by omega)).2.2.2.2.1
          cs' D rest (q + 8 + p.length) ind f ce (le_refl _) hwcs hind (by omega) hq3
          (by rw [hce, hlen]; push_cast; omega)
        rw [htail, hlen,
          show (q + 8 + p.length) + (vserializeList cs').length =
            q + (8 + p.length + (vserializeList cs').length) from by omega]
      | elstB p =>
        refine dinfLoop_step_skip hlt hbox (by show ¬ ISOBMFF.elstTag = ISOBMFF.drefTag; decide) ?_
        simp only [vpayload, vtag] at hq2 hlen ⊢
        rw [seekCur_cast]
        simp only [bnd]
        have hq3 : D.drop (q + 8 + p.length) = vserializeList cs' ++ rest := by
          rw [show (q + 8 + p.length) = (q + 8) + p.length from by omega,
            ← List.drop_drop, hq2, List.drop_left]
        have htail := (IH (vserializeList cs').length (by omega)).2.2.2.2.1
          cs' D rest (q + 8 + p.length) ind f ce (le_refl _) hwcs hind (by omega) hq3
          (by rw [hce, hlen]; push_cast; omega)
        rw [htail, hlen,
          show (q + 8 + p.length) + (vserializeList cs').length =
            q + (8 + p.length + (vserializeList cs').length) from by omega]
      | urlB p =>
        refine dinfLoop_step_skip hlt hbox (by show ¬ ISOBMFF.urlTag = ISOBMFF.drefTag; decide) ?_
        simp only [vpayload, vtag] at hq2 hlen ⊢
        rw [seekCur_cast]
        simp only [bnd]
        have hq3 : D.drop (q + 8 + p.length) = vserializeList cs' ++ rest := by
          rw [show (q + 8 + p.length) = (q + 8) + p.length from by omega,
            ← List.drop_drop, hq2, List.drop_left]
        have htail := (IH (vserializeList cs').length (by omega)).2.2.2.2.1
          cs' D rest (q + 8 + p.length) ind f ce (le_refl _) hwcs hind (by omega) hq3
          (by rw [hce, hlen]; push_cast; omega)
        rw [htail, hlen,
          show (q + 8 + p.length) + (vserializeList cs').length =
            q + (8 + p.length + (vserializeList cs').length) from by omega]
      | urnB p =>
        refine dinfLoop_step_skip hlt hbox (by show ¬ ISOBMFF.urnTag = ISOBMFF.drefTag; decide) ?_
        simp only [vpayload, vtag] at hq2 hlen ⊢
        rw [seekCur_cast]
        simp only [bnd]
        have hq3 : D.drop (q + 8 + p.length) = vserializeList cs' ++ rest := by
          rw [show (q + 8 + p.length) = (q + 8) + p.length from by omega,
            ← List.drop_drop, hq2, List.drop_left]
        have htail := (IH (vserializeList cs').length (by omega)).2.2.2.2.1
          cs' D rest (q + 8 + p.length) ind f ce (le_refl _) hwcs hind (by omega) hq3
          (by rw [hce, hlen]; push_cast; omega)
        rw [htail, hlen,
          show (q + 8 + p.length) + (vserializeList cs').length =
            q + (8 + p.length + (vserializeList cs').length) from by omega]
      | moovB cs2 =>
        refine dinfLoop_step_skip hlt hbox (by show ¬ ISOBMFF.moovTag = ISOBMFF.drefTag; decide) ?_
        simp only [vpayload, vtag] at hq2 hlen ⊢
        rw [seekCur_cast]
        simp only [bnd]
        have hq3 : D.drop (q + 8 + (vserializeList cs2).length) = vserializeList cs' ++ rest := by
          rw [show (q + 8 + (vserializeList cs2).length) = (q + 8) + (vserializeList cs2).length from by omega,
            ← List.drop_drop, hq2, List.drop_left]
        have htail := (IH (vserializeList cs').length (by omega)).2.2.2.2.1
          cs' D rest (q + 8 + (vserializeList cs2).length) ind f ce (le_refl _) hwcs hind (by omega) hq3
          (by rw [hce, hlen]; push_cast; omega)
        rw [htail, hlen,
          show (q + 8 + (vserializeList cs2).length) + (vserializeList cs').length =
            q + (8 + (vserializeList cs2).length + (vserializeList cs').length) from by omega]
      | trakB cs2 =>
        refine dinfLoop_step_skip hlt hbox (by show ¬ ISOBMFF.trakTag = ISOBMFF.drefTag; decide) ?_
        simp only [vpayload, vtag] at hq2 hlen ⊢
        rw [seekCur_cast]
        simp only [bnd]
        have hq3 : D.drop (q + 8 + (vserializeList cs2).length) = vserializeList cs' ++ rest := by
          rw [show (q + 8 + (vserializeList cs2).length) = (q + 8) + (vserializeList cs2).length from by omega,
            ← List.drop_drop, hq2, List.drop_left]
        have htail := (IH (vserializeList cs').length (by omega)).2.2.2.2.1
          cs' D rest (q + 8 + (vserializeList cs2).length) ind f ce (le_refl _) hwcs hind (by omega) hq3
          (by rw [hce, hlen]; push_cast; omega)
        rw [htail, hlen,
          show (q + 8 + (vserializeList cs2).length) + (vserializeList cs').length =
            q + (8 + (vserializeList cs2).length + (vserializeList cs').length) from by omega]
      | mdiaB cs2 =>
        refine dinfLoop_step_skip hlt hbox (by show ¬ ISOBMFF.mdiaTag = ISOBMFF.drefTag; decide) ?_
        simp only [vpayload, vtag] at hq2 hlen ⊢
        rw [seekCur_cast]
        simp only [bnd]
        have hq3 : D.drop (q + 8 + (vserializeList cs2).length) = vserializeList cs' ++ rest := by
          rw [show (q + 8 + (vserializeList cs2).length) = (q + 8) + (vserializeList cs2).length from by omega,
            ← List.drop_drop, hq2, List.drop_left]
        have htail := (IH (vserializeList cs').length (by omega)).2.2.2.2.1
          cs' D rest (q + 8 + (vserializeList cs2).length) ind f ce (le_refl _) hwcs hind (by omega) hq3
          (by rw [hce, hlen]; push_cast; omega)
        rw [htail, hlen,
          show (q + 8 + (vserializeList cs2).length) + (vserializeList cs').length =
            q + (8 + (vserializeList cs2).length + (vserializeList cs').length) from by omega]
      | minfB cs2 =>
        refine dinfLoop_step_skip hlt hbox (by show ¬ ISOBMFF.minfTag = ISOBMFF.drefTag; decide) ?_
        simp only [vpayload, vtag] at hq2 hlen ⊢
        rw [seekCur_cast]
        simp only [bnd]
        have hq3 : D.drop (q + 8 + (vserializeList cs2).length) = vserializeList cs' ++ rest := by
          rw [show (q + 8 + (vserializeList cs2).length) = (q + 8) + (vserializeList cs2).length from by omega,
            ← List.drop_drop, hq2, List.drop_left]
        have htail := (IH (vserializeList cs').length (by omega)).2.2.2.2.1
          cs' D rest (q + 8 + (vserializeList cs2).length) ind f ce (le_refl _) hwcs hind (by omega) hq3
          (by rw [hce, hlen]; push_cast; omega)
        rw [htail, hlen,
          show (q + 8 + (vserializeList cs2).length) + (vserializeList cs').length =
            q + (8 + (vserializeList cs2).length + (vserializeList cs').length) from by omega]
      | dinfB cs2 =>
        refine dinfLoop_step_skip hlt hbox (by show ¬ ISOBMFF.dinfTag = ISOBMFF.drefTag; decide) ?_
        simp only [vpayload, vtag] at hq2 hlen ⊢
        rw [seekCur_cast]
        simp only [bnd]
        have hq3 : D.drop (q + 8 + (vserializeList cs2).length) = vserializeList cs' ++ rest := by
          rw [show (q + 8 + (vserializeList cs2).length) = (q + 8) + (vserializeList cs2).length from by omega,
            ← List.drop_drop, hq2, List.drop_left]
        have htail := (IH (vserializeList cs').length (by omega)).2.2.2.2.1
          cs' D rest (q + 8 + (vserializeList cs2).length) ind f ce (le_refl _) hwcs hind (by omega) hq3
          (by rw [hce, hlen]; push_cast; omega)
        rw [htail, hlen,
          show (q + 8 + (vserializeList cs2).length) + (vserializeList cs').length =
            q + (8 + (vserializeList cs2).length + (vserializeList cs').length) from by omega]
      | edtsB cs2 =>
        refine dinfLoop_step_skip hlt hbox (by show ¬ ISOBMFF.edtsTag = ISOBMFF.drefTag; decide) ?_
        simp only [vpayload, vtag] at hq2 hlen ⊢
        rw [seekCur_cast]
        simp only [bnd]
        have hq3 : D.drop (q + 8 + (vserializeList cs2).length) = vserializeList cs' ++ rest := by
          rw [show (q + 8 + (vserializeList cs2).length) = (q + 8) + (vserializeList cs2).length from by omega,
            ← List.drop_drop, hq2, List.drop_left]
        have htail := (IH (vserializeList cs').length (by omega)).2.2.2.2.1
          cs' D rest (q + 8 + (vserializeList cs2).length) ind f ce (le_refl _) hwcs hind (by omega) hq3
          (by rw [hce, hlen]; push_cast; omega)
        rw [htail, hlen,
          show (q + 8 + (vserializeList cs2).length) + (vserializeList cs').length =
            q + (8 + (vserializeList cs2).length + (vserializeList cs').length) from by omega]
      | udtaB cs2 =>
        refine dinfLoop_step_skip hlt hbox (by show ¬ ISOBMFF.udtaTag = ISOBMFF.drefTag; decide) ?_
        simp only [vpayload, vtag] at hq2 hlen ⊢
        rw [seekCur_cast]
        simp only [bnd]
        have hq3 : D.drop (q + 8 + (vserializeList cs2).length) = vserializeList cs' ++ rest := by
          rw [show (q + 8 + (vserializeList cs2).length) = (q + 8) + (vserializeList cs2).length from by omega,
            ← List.drop_drop, hq2, List.drop_left]
        have htail := (IH (vserializeList cs').length (by omega)).2.2.2.2.1
          cs' D rest (q + 8 + (vserializeList cs2).length) ind f ce (le_refl _) hwcs hind (by omega) hq3
          (by rw [hce, hlen]; push_cast; omega)
        rw [htail, hlen,
          show (q + 8 + (vserializeList cs2).length) + (vserializeList cs').length =
            q + (8 + (vserializeList cs2).length + (vserializeList cs').length) from by omega]
      | stblB cs2 =>
        refine dinfLoop_step_skip hlt hbox (by show ¬ ISOBMFF.stblTag = ISOBMFF.drefTag; decide) ?_
        simp only [vpayload, vtag] at hq2 hlen ⊢
        rw [seekCur_cast]
        simp only [bnd]
        have hq3 : D.drop (q + 8 + (vserializeList cs2).length) = vserializeList cs' ++ rest := by
          rw [show (q + 8 + (vserializeList cs2).length) = (q + 8) + (vserializeList cs2).length from by omega,
            ← List.drop_drop, hq2, List.drop_left]
        have htail := (IH (vserializeList cs').length (by omega)).2.2.2.2.1
          cs' D rest (q + 8 + (vserializeList cs2).length) ind f ce (le_refl _) hwcs hind (by omega) hq3
          (by rw [hce, hlen]; push_cast; omega)
        rw [htail, hlen,
          show (q + 8 + (vserializeList cs2).length) + (vserializeList cs').length =
            q + (8 + (vserializeList cs2).length + (vserializeList cs').length) from by omega]
      | drefB hd cs2 =>
        refine dinfLoop_step_dref hlt hbox rfl ?_
        simp only [vpayload, vtag] at hq2 hlen ⊢
        have hw2 : (hd.length = 8 ∧ vwfList cs2 = true) ∧
            hd.length + (vserializeList cs2).length + 8 < 4294967296 := by
          simpa [vwf, Bool.and_eq_true, decide_eq_true_eq] using hwb
        have hpl : (hd ++ vserializeList cs2).length =
            8 + (vserializeList cs2).length := by
          simp [hw2.1.1]
        simp only [ISOBMFF.scan_dref, ipush]
        rw [scan_fullbox_run 0 hq2 (by omega) (by rw [hpl]; omega)]
        simp only [bnd]
        rw [scan_uint32_run 4 hq2 (by omega) (by rw [hpl]; omega)]
        simp only [bnd]
        have hq2b : D.drop (q + 8) = hd ++ (vserializeList cs2 ++
            (vserializeList cs' ++ rest)) := by
          rw [hq2, List.append_assoc]
        have hq3 : D.drop (q + 8 + 4 + 4) = vserializeList cs2 ++
            (vserializeList cs' ++ rest) := by
          rw [show q + 8 + 4 + 4 = (q + 8) + 8 from by omega,
            ← List.drop_drop, hq2b, List.drop_left' hw2.1.1]
        have hchild := (IH (vserializeList cs2).length (by omega)).2.2.2.2.2.2.2.2
          cs2 D (vserializeList cs' ++ rest) (q + 8 + 4 + 4) (ind + 1) f
          (((q + 8 : Nat) : Int) + ((hd ++ vserializeList cs2).length : Int))
          (le_refl _) hw2.1.2 (by omega) (by omega) hq3
          (by rw [hpl]; push_cast; omega)
        rw [hchild]
        simp only [bndU]
        have hip : ipop (⟨D, q + 8 + 4 + 4 + (vserializeList cs2).length,
            ind + 1⟩ : St) =
            ⟨D, q + 8 + 4 + 4 + (vserializeList cs2).length, ind⟩ := by
          rw [ipop_of_pos (by simp; omega)]
          simp
        rw [hip]
        have hq4 : D.drop (q + 8 + 4 + 4 + (vserializeList cs2).length) = vserializeList cs' ++ rest := by
          rw [show (q + 8 + 4 + 4 + (vserializeList cs2).length) =
              (q + 8) + (hd ++ vserializeList cs2).length from by omega,
            ← List.drop_drop, hq2, List.drop_left]
        have htail := (IH (vserializeList cs').length (by omega)).2.2.2.2.1
          cs' D rest (q + 8 + 4 + 4 + (vserializeList cs2).length) ind f ce (le_refl _) hwcs hind (by omega) hq4
          (by rw [hce, hlen]; push_cast; omega)
        rw [htail, hlen,
          show (q + 8 + 4 + 4 + (vserializeList cs2).length) + (vserializeList cs').length =
            q + (8 + (hd ++ vserializeList cs2).length +
              (vserializeList cs').length) from by omega]
  · intro cs D rest q ind fuel ce hN hwf hind hfuel hq hce
    cases cs with
    | nil =>
      obtain ⟨f, rfl⟩ : ∃ f, fuel = f + 1 := ⟨fuel - 1, by omega⟩
      rw [edtsLoop_exit (by
        show ¬ ((q : Int) < ce)
        simp only [vserializeList, List.length_nil] at hce
        omega)]
      simp [vserializeList]
    | cons b cs' =>
      have hwb : vwf b = true := by
        have h := hwf
        simp only [vwfList, Bool.and_eq_true] at h
        exact h.1
      have hwcs : vwfList cs' = true := by
        have h := hwf
        simp only [vwfList, Bool.and_eq_true] at h
        exact h.2
      have ht4 : (vtag b).length = 4 := vtag_length hwb
      have hsz : (vpayload b).length + 8 < 4294967296 := vwf_size hwb
      have hlen : (vserializeList (b :: cs')).length =
          (8 + (vpayload b).length) + (vserializeList cs').length :=
        vserializeList_cons_length hwb
      obtain ⟨f, rfl⟩ : ∃ f, fuel = f + 1 := ⟨fuel - 1, by omega⟩
      have hq1 : D.drop q = mkBox (vtag b) (vpayload b) ++
          (vserializeList cs' ++ rest) := by
        rw [hq, show vserializeList (b :: cs') =
            mkBox (vtag b) (vpayload b) ++ vserializeList cs' from rfl,
          List.append_assoc]
      have hq2 : D.drop (q + 8) = vpayload b ++
          (vserializeList cs' ++ rest) := by
        rw [← List.drop_drop, hq1,
          List.drop_append_of_le_length (by rw [mkBox_length ht4]; omega),
          mkBox_drop8 ht4]
      have hbox := @scan_box_run D (vserializeList cs' ++ rest)
        (vtag b) (vpayload b) q ind hq1 ht4 hsz
      have hlt : (((⟨D, q, ind⟩ : St).pos : Nat) : Int) < ce := by
        show (q : Int) < ce
        rw [hce, hlen]
        push_cast
        omega
      cases b with
      | generic tag p =>
        have gtn := generic_tags_ne (vwf_generic hwb).2.1
        refine edtsLoop_step_skip hlt hbox gtn.2.2.2.2.2.2.2.2.2.2.2.2.2.2.2.2.2.2.2.2 ?_
        simp only [vpayload, vtag] at hq2 hlen ⊢
        rw [seekCur_cast]
        simp only [bnd]
        have hq3 : D.drop (q + 8 + p.length) = vserializeList cs' ++ rest := by
          rw [show (q + 8 + p.length) = (q + 8) + p.length from by omega,
            ← List.drop_drop, hq2, List.drop_left]
        have htail := (IH (vserializeList cs').length (by omega)).2.2.2.2.2.1
          cs' D rest (q + 8 + p.length) ind f ce (le_refl _) hwcs hind (by omega) hq3
          (by rw [hce, hlen]; push_cast; omega)
        rw [htail, hlen,
          show (q + 8 + p.length) + (vserializeList cs').length =
            q + (8 + p.length + (vserializeList cs').length) from by omega]
      | ftypB p =>
        refine edtsLoop_step_skip hlt hbox (by show ¬ ISOBMFF.ftypTag = ISOBMFF.elstTag; decide) ?_
        simp only [vpayload, vtag] at hq2 hlen ⊢
        rw [seekCur_cast]
        simp only [bnd]
        have hq3 : D.drop (q + 8 + p.length) = vserializeList cs' ++ rest := by
          rw [show (q + 8 + p.length) = (q + 8) + p.length from by omega,
            ← List.drop_drop, hq2, List.drop_left]
        have htail := (IH (vserializeList cs').length (by omega)).2.2.2.2.2.1
          cs' D rest (q + 8 + p.length) ind f ce (le_refl _) hwcs hind (by omega) hq3
          (by rw [hce, hlen]; push_cast; omega)
        rw [htail, hlen,
          show (q + 8 + p.length) + (vserializeList cs').length =
            q + (8 + p.length + (vserializeList cs').length) from by omega]
      | mvhdB p =>
        refine edtsLoop_step_skip hlt hbox (by show ¬ ISOBMFF.mvhdTag = ISOBMFF.elstTag; decide) ?_
        simp only [vpayload, vtag] at hq2 hlen ⊢
        rw [seekCur_cast]
        simp only [bnd]
        have hq3 : D.drop (q + 8 + p.length) = vserializeList cs' ++ rest := by
          rw [show (q + 8 + p.length) = (q + 8) + p.length from by omega,
            ← List.drop_drop, hq2, List.drop_left]
        have htail := (IH (vserializeList cs').length (by omega)).2.2.2.2.2.1
          cs' D rest (q + 8 + p.length) ind f ce (le_refl _) hwcs hind (by omega) hq3
          (by rw [hce, hlen]; push_cast; omega)
        rw [htail, hlen,
          show (q + 8 + p.length) + (vserializeList cs').length =
            q + (8 + p.length + (vserializeList cs').length) from by omega]
      | tkhdB p =>
        refine edtsLoop_step_skip hlt hbox (by show ¬ ISOBMFF.tkhdTag = ISOBMFF.elstTag; decide) ?_
        simp only [vpayload, vtag] at hq2 hlen ⊢
        rw [seekCur_cast]
        simp only [bnd]
        have hq3 : D.drop (q + 8 + p.length) = vserializeList cs' ++ rest := by
          rw [show (q + 8 + p.length) = (q + 8) + p.length from by omega,
            ← List.drop_drop, hq2, List.drop_left]
        have htail := (IH (vserializeList cs').length (by omega)).2.2.2.2.2.1
          cs' D rest (q + 8 + p.length) ind f ce (le_refl _) hwcs hind (by omega) hq3
          (by rw [hce, hlen]; push_cast; omega)
        rw [htail, hlen,
          show (q + 8 + p.length) + (vserializeList cs').length =
            q + (8 + p.length + (vserializeList cs').length) from by omega]
      | mdhdB p =>
        refine edtsLoop_step_skip hlt hbox (by show ¬ ISOBMFF.mdhdTag = ISOBMFF.elstTag; decide) ?_
        simp only [vpayload, vtag] at hq2 hlen ⊢
        rw [seekCur_cast]
        simp only [bnd]
        have hq3 : D.drop (q + 8 + p.length) = vserializeList cs' ++ rest := by
          rw [show (q + 8 + p.length) = (q + 8) + p.length from by omega,
            ← List.drop_drop, hq2, List.drop_left]
        have htail := (IH (vserializeList cs').length (by omega)).2.2.2.2.2.1
          cs' D rest (q + 8 + p.length) ind f ce (le_refl _) hwcs hind (by omega) hq3
          (by rw [hce, hlen]; push_cast; omega)
        rw [htail, hlen,
          show (q + 8 + p.length) + (vserializeList cs').length =
            q + (8 + p.length + (vserializeList cs').length) from by omega]
      | hdlrB p =>
        refine edtsLoop_step_skip hlt hbox (by show ¬ ISOBMFF.hdlrTag = ISOBMFF.elstTag; decide) ?_
        simp only [vpayload, vtag] at hq2 hlen ⊢
        rw [seekCur_cast]
        simp only [bnd]
        have hq3 : D.drop (q + 8 + p.length) = vserializeList cs' ++ rest := by
          rw [show (q + 8 + p.length) = (q + 8) + p.length from by omega,
            ← List.drop_drop, hq2, List.drop_left]
        have htail := (IH (vserializeList cs').length (by omega)).2.2.2.2.2.1
          cs' D rest (q + 8 + p.length) ind f ce (le_refl _) hwcs hind (by omega) hq3
          (by rw [hce, hlen]; push_cast; omega)
        rw [htail, hlen,
          show (q + 8 + p.length) + (vserializeList cs').length =
            q + (8 + p.length + (vserializeList cs').length) from by omega]
      | vmhdB p =>
        refine edtsLoop_step_skip hlt hbox (by show ¬ ISOBMFF.vmhdTag = ISOBMFF.elstTag; decide) ?_
        simp only [vpayload, vtag] at hq2 hlen ⊢
        rw [seekCur_cast]
        simp only [bnd]
        have hq3 : D.drop (q + 8 + p.length) = vserializeList cs' ++ rest := by
          rw [show (q + 8 + p.length) = (q + 8) + p.length from by omega,
            ← List.drop_drop, hq2, List.drop_left]
        have htail := (IH (vserializeList cs').length (by omega)).2.2.2.2.2.1
          cs' D rest (q + 8 + p.length) ind f ce (le_refl _) hwcs hind (by omega) hq3
          (by rw [hce, hlen]; push_cast; omega)
        rw [htail, hlen,
          show (q + 8 + p.length) + (vserializeList cs').length =
            q + (8 + p.length + (vserializeList cs').length) from by omega]
      | smhdB p =>
        refine edtsLoop_step_skip hlt hbox (by show ¬ ISOBMFF.smhdTag = ISOBMFF.elstTag; decide) ?_
        simp only [vpayload, vtag] at hq2 hlen ⊢
        rw [seekCur_cast]
        simp only [bnd]
        have hq3 : D.drop (q + 8 + p.length) = vserializeList cs' ++ rest := by
          rw [show (q + 8 + p.length) = (q + 8) + p.length from by omega,
            ← List.drop_drop, hq2, List.drop_left]
        have htail := (IH (vserializeList cs').length (by omega)).2.2.2.2.2.1
          cs' D rest (q + 8 + p.length) ind f ce (le_refl _) hwcs hind (by omega) hq3
          (by rw [hce, hlen]; push_cast; omega)
        rw [htail, hlen,
          show (q + 8 + p.length) + (vserializeList cs').length =
            q + (8 + p.length + (vserializeList cs').length) from by omega]
      | hmhdB p =>
        refine edtsLoop_step_skip hlt hbox (by show ¬ ISOBMFF.hmhdTag = ISOBMFF.elstTag; decide) ?_
        simp only [vpayload, vtag] at hq2 hlen ⊢
        rw [seekCur_cast]
        simp only [bnd]
        have hq3 : D.drop (q + 8 + p.length) = vserializeList cs' ++ rest := by
          rw [show (q + 8 + p.length) = (q + 8) + p.length from by omega,
            ← List.drop_drop, hq2, List.drop_left]
        have htail := (IH (vserializeList cs').length (by omega)).2.2.2.2.2.1
          cs' D rest (q + 8 + p.length) ind f ce (le_refl _) hwcs hind (by omega) hq3
          (by rw [hce, hlen]; push_cast; omega)
        rw [htail, hlen,
          show (q + 8 + p.length) + (vserializeList cs').length =
            q + (8 + p.length + (vserializeList cs').length) from by omega]
      | nmhdB p =>
        refine edtsLoop_step_skip hlt hbox (by show ¬ ISOBMFF.nmhdTag = ISOBMFF.elstTag; decide) ?_
        simp only [vpayload, vtag] at hq2 hlen ⊢
        rw [seekCur_cast]
        simp only [bnd]
        have hq3 : D.drop (q + 8 + p.length) = vserializeList cs' ++ rest := by
          rw [show (q + 8 + p.length) = (q + 8) + p.length from by omega,
            ← List.drop_drop, hq2, List.drop_left]
        have htail := (IH (vserializeList cs').length (by omega)).2.2.2.2.2.1
          cs' D rest (q + 8 + p.length) ind f ce (le_refl _) hwcs hind (by omega) hq3
          (by rw [hce, hlen]; push_cast; omega)
        rw [htail, hlen,
          show (q + 8 + p.length) + (vserializeList cs').length =
            q + (8 + p.length + (vserializeList cs').length) from by omega]
      | elstB p =>
        refine edtsLoop_step_elst hlt hbox rfl ?_
        simp only [vpayload, vtag] at hq2 hlen ⊢
        obtain ⟨o, ho⟩ := scan_elst_run ((p.length : Int)) hq2 hwb hind
        rw [ho]
        simp only [bnd]
        have hq3 : D.drop (q + 8 + p.length) = vserializeList cs' ++ rest := by
          rw [show (q + 8 + p.length) = (q + 8) + p.length from by omega,
            ← List.drop_drop, hq2, List.drop_left]
        have htail := (IH (vserializeList cs').length (by omega)).2.2.2.2.2.1
          cs' D rest (q + 8 + p.length) ind f ce (le_refl _) hwcs hind (by omega) hq3
          (by rw [hce, hlen]; push_cast; omega)
        rw [htail, hlen,
          show (q + 8 + p.length) + (vserializeList cs').length =
            q + (8 + p.length + (vserializeList cs').length) from by omega]
      | urlB p =>
        refine edtsLoop_step_skip hlt hbox (by show ¬ ISOBMFF.urlTag = ISOBMFF.elstTag; decide) ?_
        simp only [vpayload, vtag] at hq2 hlen ⊢
        rw [seekCur_cast]
        simp only [bnd]
        have hq3 : D.drop (q + 8 + p.length) = vserializeList cs' ++ rest := by
          rw [show (q + 8 + p.length) = (q + 8) + p.length from by omega,
            ← List.drop_drop, hq2, List.drop_left]
        have htail := (IH (vserializeList cs').length (by omega)).2.2.2.2.2.1
          cs' D rest (q + 8 + p.length) ind f ce (le_refl _) hwcs hind (by omega) hq3
          (by rw [hce, hlen]; push_cast; omega)
        rw [htail, hlen,
          show (q + 8 + p.length) + (vserializeList cs').length =
            q + (8 + p.length + (vserializeList cs').length) from by omega]
      | urnB p =>
        refine edtsLoop_step_skip hlt hbox (by show ¬ ISOBMFF.urnTag = ISOBMFF.elstTag; decide) ?_
        simp only [vpayload, vtag] at hq2 hlen ⊢
        rw [seekCur_cast]
        simp only [bnd]
        have hq3 : D.drop (q + 8 + p.length) = vserializeList cs' ++ rest := by
          rw [show (q + 8 + p.length) = (q + 8) + p.length from by omega,
            ← List.drop_drop, hq2, List.drop_left]
        have htail := (IH (vserializeList cs').length (by omega)).2.2.2.2.2.1
          cs' D rest (q + 8 + p.length) ind f ce (le_refl _) hwcs hind (by omega) hq3
          (by rw [hce, hlen]; push_cast; omega)
        rw [htail, hlen,
          show (q + 8 + p.length) + (vserializeList cs').length =
            q + (8 + p.length + (vserializeList cs').length) from by omega]
      | moovB cs2 =>
        refine edtsLoop_step_skip hlt hbox (by show ¬ ISOBMFF.moovTag = ISOBMFF.elstTag; decide) ?_
        simp only [vpayload, vtag] at hq2 hlen ⊢
        rw [seekCur_cast]
        simp only [bnd]
        have hq3 : D.drop (q + 8 + (vserializeList cs2).length) = vserializeList cs' ++ rest := by
          rw [show (q + 8 + (vserializeList cs2).length) = (q + 8) + (vserializeList cs2).length from by omega,
            ← List.drop_drop, hq2, List.drop_left]
        have htail := (IH (vserializeList cs').length (by omega)).2.2.2.2.2.1
          cs' D rest (q + 8 + (vserializeList cs2).length) ind f ce (le_refl _) hwcs hind (by omega) hq3
          (by rw [hce, hlen]; push_cast; omega)
        rw [htail, hlen,
          show (q + 8 + (vserializeList cs2).length) + (vserializeList cs').length =
            q + (8 + (vserializeList cs2).length + (vserializeList cs').length) from by omega]
      | trakB cs2 =>
        refine edtsLoop_step_skip hlt hbox (by show ¬ ISOBMFF.trakTag = ISOBMFF.elstTag; decide) ?_
        simp only [vpayload, vtag] at hq2 hlen ⊢
        rw [seekCur_cast]
        simp only [bnd]
        have hq3 : D.drop (q + 8 + (vserializeList cs2).length) = vserializeList cs' ++ rest := by
          rw [show (q + 8 + (vserializeList cs2).length) = (q + 8) + (vserializeList cs2).length from by omega,
            ← List.drop_drop, hq2, List.drop_left]
        have htail := (IH (vserializeList cs').length (by omega)).2.2.2.2.2.1
          cs' D rest (q + 8 + (vserializeList cs2).length) ind f ce (le_refl _) hwcs hind (by omega) hq3
          (by rw [hce, hlen]; push_cast; omega)
        rw [htail, hlen,
          show (q + 8 + (vserializeList cs2).length) + (vserializeList cs').length =
            q + (8 + (vserializeList cs2).length + (vserializeList cs').length) from by omega]
      | mdiaB cs2 =>
        refine edtsLoop_step_skip hlt hbox (by show ¬ ISOBMFF.mdiaTag = ISOBMFF.elstTag; decide) ?_
        simp only [vpayload, vtag] at hq2 hlen ⊢
        rw [seekCur_cast]
        simp only [bnd]
        have hq3 : D.drop (q + 8 + (vserializeList cs2).length) = vserializeList cs' ++ rest := by
          rw [show (q + 8 + (vserializeList cs2).length) = (q + 8) + (vserializeList cs2).length from by omega,
            ← List.drop_drop, hq2, List.drop_left]
        have htail := (IH (vserializeList cs').length (by omega)).2.2.2.2.2.1
          cs' D rest (q + 8 + (vserializeList cs2).length) ind f ce (le_refl _) hwcs hind (by omega) hq3
          (by rw [hce, hlen]; push_cast; omega)
        rw [htail, hlen,
          show (q + 8 + (vserializeList cs2).length) + (vserializeList cs').length =
            q + (8 + (vserializeList cs2).length + (vserializeList cs').length) from by omega]
      | minfB cs2 =>
        refine edtsLoop_step_skip hlt hbox (by show ¬ ISOBMFF.minfTag = ISOBMFF.elstTag; decide) ?_
        simp only [vpayload, vtag] at hq2 hlen ⊢
        rw [seekCur_cast]
        simp only [bnd]
        have hq3 : D.drop (q + 8 + (vserializeList cs2).length) = vserializeList cs' ++ rest := by
          rw [show (q + 8 + (vserializeList cs2).length) = (q + 8) + (vserializeList cs2).length from by omega,
            ← List.drop_drop, hq2, List.drop_left]
        have htail := (IH (vserializeList cs').length (by omega)).2.2.2.2.2.1
          cs' D rest (q + 8 + (vserializeList cs2).length) ind f ce (le_refl _) hwcs hind (by omega) hq3
          (by rw [hce, hlen]; push_cast; omega)
        rw [htail, hlen,
          show (q + 8 + (vserializeList cs2).length) + (vserializeList cs').length =
            q + (8 + (vserializeList cs2).length + (vserializeList cs').length) from by omega]
      | dinfB cs2 =>
        refine edtsLoop_step_skip hlt hbox (by show ¬ ISOBMFF.dinfTag = ISOBMFF.elstTag; decide) ?_
        simp only [vpayload, vtag] at hq2 hlen ⊢
        rw [seekCur_cast]
        simp only [bnd]
        have hq3 : D.drop (q + 8 + (vserializeList cs2).length) = vserializeList cs' ++ rest := by
          rw [show (q + 8 + (vserializeList cs2).length) = (q + 8) + (vserializeList cs2).length from by omega,
            ← List.drop_drop, hq2, List.drop_left]
        have htail := (IH (vserializeList cs').length (by omega)).2.2.2.2.2.1
          cs' D rest (q + 8 + (vserializeList cs2).length) ind f ce (le_refl _) hwcs hind (by omega) hq3
          (by rw [hce, hlen]; push_cast; omega)
        rw [htail, hlen,
          show (q + 8 + (vserializeList cs2).length) + (vserializeList cs').length =
            q + (8 + (vserializeList cs2).length + (vserializeList cs').length) from by omega]
      | edtsB cs2 =>
        refine edtsLoop_step_skip hlt hbox (by show ¬ ISOBMFF.edtsTag = ISOBMFF.elstTag; decide) ?_
        simp only [vpayload, vtag] at hq2 hlen ⊢
        rw [seekCur_cast]
        simp only [bnd]
        have hq3 : D.drop (q + 8 + (vserializeList cs2).length) = vserializeList cs' ++ rest := by
          rw [show (q + 8 + (vserializeList cs2).length) = (q + 8) + (vserializeList cs2).length from by omega,
            ← List.drop_drop, hq2, List.drop_left]
        have htail := (IH (vserializeList cs').length (by omega)).2.2.2.2.2.1
          cs' D rest (q + 8 + (vserializeList cs2).length) ind f ce (le_refl _) hwcs hind (by omega) hq3
          (by rw [hce, hlen]; push_cast; omega)
        rw [htail, hlen,
          show (q + 8 + (vserializeList cs2).length) + (vserializeList cs').length =
            q + (8 + (vserializeList cs2).length + (vserializeList cs').length) from by omega]
      | udtaB cs2 =>
        refine edtsLoop_step_skip hlt hbox (by show ¬ ISOBMFF.udtaTag = ISOBMFF.elstTag; decide) ?_
        simp only [vpayload, vtag] at hq2 hlen ⊢
        rw [seekCur_cast]
        simp only [bnd]
        have hq3 : D.drop (q + 8 + (vserializeList cs2).length) = vserializeList cs' ++ rest := by
          rw [show (q + 8 + (vserializeList cs2).length) = (q + 8) + (vserializeList cs2).length from by omega,
            ← List.drop_drop, hq2, List.drop_left]
        have htail := (IH (vserializeList cs').length (by omega)).2.2.2.2.2.1
          cs' D rest (q + 8 + (vserializeList cs2).length) ind f ce (le_refl _) hwcs hind (by omega) hq3
          (by rw [hce, hlen]; push_cast; omega)
        rw [htail, hlen,
          show (q + 8 + (vserializeList cs2).length) + (vserializeList cs').length =
            q + (8 + (vserializeList cs2).length + (vserializeList cs').length) from by omega]
      | stblB cs2 =>
        refine edtsLoop_step_skip hlt hbox (by show ¬ ISOBMFF.stblTag = ISOBMFF.elstTag; decide) ?_
        simp only [vpayload, vtag] at hq2 hlen ⊢
        rw [seekCur_cast]
        simp only [bnd]
        have hq3 : D.drop (q + 8 + (vserializeList cs2).length) = vserializeList cs' ++ rest := by
          rw [show (q + 8 + (vserializeList cs2).length) = (q + 8) + (vserializeList cs2).length from by omega,
            ← List.drop_drop, hq2, List.drop_left]
        have htail := (IH (vserializeList cs').length (by omega)).2.2.2.2.2.1
          cs' D rest (q + 8 + (vserializeList cs2).length) ind f ce (le_refl _) hwcs hind (by omega) hq3
          (by rw [hce, hlen]; push_cast; omega)
        rw [htail, hlen,
          show (q + 8 + (vserializeList cs2).length) + (vserializeList cs').length =
            q + (8 + (vserializeList cs2).length + (vserializeList cs').length) from by omega]
      | drefB hd cs2 =>
        refine edtsLoop_step_skip hlt hbox (by show ¬ ISOBMFF.drefTag = ISOBMFF.elstTag; decide) ?_
        simp only [vpayload, vtag] at hq2 hlen ⊢
        rw [seekCur_cast]
        simp only [bnd]
        have hq3 : D.drop (q + 8 + (hd ++ vserializeList cs2).length) = vserializeList cs' ++ rest := by
          rw [show (q + 8 + (hd ++ vserializeList cs2).length) = (q + 8) + (hd ++ vserializeList cs2).length from by omega,
            ← List.drop_drop, hq2, List.drop_left]
        have htail := (IH (vserializeList cs').length (by omega)).2.2.2.2.2.1
          cs' D rest (q + 8 + (hd ++ vserializeList cs2).length) ind f ce (le_refl _) hwcs hind (by omega) hq3
          (by rw [hce, hlen]; push_cast; omega)
        rw [htail, hlen,
          show (q + 8 + (hd ++ vserializeList cs2).length) + (vserializeList cs').length =
            q + (8 + (hd ++ vserializeList cs2).length + (vserializeList cs').length) from by omega]
  · intro cs D rest q ind fuel ce hN hwf hind hfuel hq hce
    cases cs with
    | nil =>
      obtain ⟨f, rfl⟩ : ∃ f, fuel = f + 1 := ⟨fuel - 1, by omega⟩
      rw [udtaLoop_exit (by
        show ¬ ((q : Int) < ce)
        simp only [vserializeList, List.length_nil] at hce
        omega)]
      simp [vserializeList]
    | cons b cs' =>
      have hwb : vwf b = true := by
        have h := hwf
        simp only [vwfList, Bool.and_eq_true] at h
        exact h.1
      have hwcs : vwfList cs' = true := by
        have h := hwf
        simp only [vwfList, Bool.and_eq_true] at h
        exact h.2
      have ht4 : (vtag b).length = 4 := vtag_length hwb
      have hsz : (vpayload b).length + 8 < 4294967296 := vwf_size hwb
      have hlen : (vserializeList (b :: cs')).length =
          (8 + (vpayload b).length) + (vserializeList cs').length :=
        vserializeList_cons_length hwb
      obtain ⟨f, rfl⟩ : ∃ f, fuel = f + 1 := ⟨fuel - 1, by omega⟩
      have hq1 : D.drop q = mkBox (vtag b) (vpayload b) ++
          (vserializeList cs' ++ rest) := by
        rw [hq, show vserializeList (b :: cs') =
            mkBox (vtag b) (vpayload b) ++ vserializeList cs' from rfl,
          List.append_assoc]
      have hq2 : D.drop (q + 8) = vpayload b ++
          (vserializeList cs' ++ rest) := by
        rw [← List.drop_drop, hq1,
          List.drop_append_of_le_length (by rw [mkBox_length ht4]; omega),
          mkBox_drop8 ht4]
      have hbox := @scan_box_run D (vserializeList cs' ++ rest)
        (vtag b) (vpayload b) q ind hq1 ht4 hsz
      have hlt : (((⟨D, q, ind⟩ : St).pos : Nat) : Int) < ce := by
        show (q : Int) < ce
        rw [hce, hlen]
        push_cast
        omega
      cases b with
      | generic tag p =>
        have gtn := generic_tags_ne (vwf_generic hwb).2.1
        refine udtaLoop_step_skip hlt hbox ?_
        simp only [vpayload, vtag] at hq2 hlen ⊢
        rw [seekCur_cast]
        simp only [bnd]
        have hq3 : D.drop (q + 8 + p.length) = vserializeList cs' ++ rest := by
          rw [show (q + 8 + p.length) = (q + 8) + p.length from by omega,
            ← List.drop_drop, hq2, List.drop_left]
        have htail := (IH (vserializeList cs').length (by omega)).2.2.2.2.2.2.1
          cs' D rest (q + 8 + p.length) ind f ce (le_refl _) hwcs hind (by omega) hq3
          (by rw [hce, hlen]; push_cast; omega)
        rw [htail, hlen,
          show (q + 8 + p.length) + (vserializeList cs').length =
            q + (8 + p.length + (vserializeList cs').length) from by omega]
      | ftypB p =>
        refine udtaLoop_step_skip hlt hbox ?_
        simp only [vpayload, vtag] at hq2 hlen ⊢
        rw [seekCur_cast]
        simp only [bnd]
        have hq3 : D.drop (q + 8 + p.length) = vserializeList cs' ++ rest := by
          rw [show (q + 8 + p.length) = (q + 8) + p.length from by omega,
            ← List.drop_drop, hq2, List.drop_left]
        have htail := (IH (vserializeList cs').length (by omega)).2.2.2.2.2.2.1
          cs' D rest (q + 8 + p.length) ind f ce (le_refl _) hwcs hind (by omega) hq3
          (by rw [hce, hlen]; push_cast; omega)
        rw [htail, hlen,
          show (q + 8 + p.length) + (vserializeList cs').length =
            q + (8 + p.length + (vserializeList cs').length) from by omega]
      | mvhdB p =>
        refine udtaLoop_step_skip hlt hbox ?_
        simp only [vpayload, vtag] at hq2 hlen ⊢
        rw [seekCur_cast]
        simp only [bnd]
        have hq3 : D.drop (q + 8 + p.length) = vserializeList cs' ++ rest := by
          rw [show (q + 8 + p.length) = (q + 8) + p.length from by omega,
            ← List.drop_drop, hq2, List.drop_left]
        have htail := (IH (vserializeList cs').length (by omega)).2.2.2.2.2.2.1
          cs' D rest (q + 8 + p.length) ind f ce (le_refl _) hwcs hind (by omega) hq3
          (by rw [hce, hlen]; push_cast; omega)
        rw [htail, hlen,
          show (q + 8 + p.length) + (vserializeList cs').length =
            q + (8 + p.length + (vserializeList cs').length) from by omega]
      | tkhdB p =>
        refine udtaLoop_step_skip hlt hbox ?_
        simp only [vpayload, vtag] at hq2 hlen ⊢
        rw [seekCur_cast]
        simp only [bnd]
        have hq3 : D.drop (q + 8 + p.length) = vserializeList cs' ++ rest := by
          rw [show (q + 8 + p.length) = (q + 8) + p.length from by omega,
            ← List.drop_drop, hq2, List.drop_left]
        have htail := (IH (vserializeList cs').length (by omega)).2.2.2.2.2.2.1
          cs' D rest (q + 8 + p.length) ind f ce (le_refl _) hwcs hind (by omega) hq3
          (by rw [hce, hlen]; push_cast; omega)
        rw [htail, hlen,
          show (q + 8 + p.length) + (vserializeList cs').length =
            q + (8 + p.length + (vserializeList cs').length) from by omega]
      | mdhdB p =>
        refine udtaLoop_step_skip hlt hbox ?_
        simp only [vpayload, vtag] at hq2 hlen ⊢
        rw [seekCur_cast]
        simp only [bnd]
        have hq3 : D.drop (q + 8 + p.length) = vserializeList cs' ++ rest := by
          rw [show (q + 8 + p.length) = (q + 8) + p.length from by omega,
            ← List.drop_drop, hq2, List.drop_left]
        have htail := (IH (vserializeList cs').length (by omega)).2.2.2.2.2.2.1
          cs' D rest (q + 8 + p.length) ind f ce (le_refl _) hwcs hind (by omega) hq3
          (by rw [hce, hlen]; push_cast; omega)
        rw [htail, hlen,
          show (q + 8 + p.length) + (vserializeList cs').length =
            q + (8 + p.length + (vserializeList cs').length) from by omega]
      | hdlrB p =>
        refine udtaLoop_step_skip hlt hbox ?_
        simp only [vpayload, vtag] at hq2 hlen ⊢
        rw [seekCur_cast]
        simp only [bnd]
        have hq3 : D.drop (q + 8 + p.length) = vserializeList cs' ++ rest := by
          rw [show (q + 8 + p.length) = (q + 8) + p.length from by omega,
            ← List.drop_drop, hq2, List.drop_left]
        have htail := (IH (vserializeList cs').length (by omega)).2.2.2.2.2.2.1
          cs' D rest (q + 8 + p.length) ind f ce (le_refl _) hwcs hind (by omega) hq3
          (by rw [hce, hlen]; push_cast; omega)
        rw [htail, hlen,
          show (q + 8 + p.length) + (vserializeList cs').length =
            q + (8 + p.length + (vserializeList cs').length) from by omega]
      | vmhdB p =>
        refine udtaLoop_step_skip hlt hbox ?_
        simp only [vpayload, vtag] at hq2 hlen ⊢
        rw [seekCur_cast]
        simp only [bnd]
        have hq3 : D.drop (q + 8 + p.length) = vserializeList cs' ++ rest := by
          rw [show (q + 8 + p.length) = (q + 8) + p.length from by omega,
            ← List.drop_drop, hq2, List.drop_left]
        have htail := (IH (vserializeList cs').length (by omega)).2.2.2.2.2.2.1
          cs' D rest (q + 8 + p.length) ind f ce (le_refl _) hwcs hind (by omega) hq3
          (by rw [hce, hlen]; push_cast; omega)
        rw [htail, hlen,
          show (q + 8 + p.length) + (vserializeList cs').length =
            q + (8 + p.length + (vserializeList cs').length) from by omega]
      | smhdB p =>
        refine udtaLoop_step_skip hlt hbox ?_
        simp only [vpayload, vtag] at hq2 hlen ⊢
        rw [seekCur_cast]
        simp only [bnd]
        have hq3 : D.drop (q + 8 + p.length) = vserializeList cs' ++ rest := by
          rw [show (q + 8 + p.length) = (q + 8) + p.length from by omega,
            ← List.drop_drop, hq2, List.drop_left]
        have htail := (IH (vserializeList cs').length (by omega)).2.2.2.2.2.2.1
          cs' D rest (q + 8 + p.length) ind f ce (le_refl _) hwcs hind (by omega) hq3
          (by rw [hce, hlen]; push_cast; omega)
        rw [htail, hlen,
          show (q + 8 + p.length) + (vserializeList cs').length =
            q + (8 + p.length + (vserializeList cs').length) from by omega]
      | hmhdB p =>
        refine udtaLoop_step_skip hlt hbox ?_
        simp only [vpayload, vtag] at hq2 hlen ⊢
        rw [seekCur_cast]
        simp only [bnd]
        have hq3 : D.drop (q + 8 + p.length) = vserializeList cs' ++ rest := by
          rw [show (q + 8 + p.length) = (q + 8) + p.length from by omega,
            ← List.drop_drop, hq2, List.drop_left]
        have htail := (IH (vserializeList cs').length (by omega)).2.2.2.2.2.2.1
          cs' D rest (q + 8 + p.length) ind f ce (le_refl _) hwcs hind (by omega) hq3
          (by rw [hce, hlen]; push_cast; omega)
        rw [htail, hlen,
          show (q + 8 + p.length) + (vserializeList cs').length =
            q + (8 + p.length + (vserializeList cs').length) from by omega]
      | nmhdB p =>
        refine udtaLoop_step_skip hlt hbox ?_
        simp only [vpayload, vtag] at hq2 hlen ⊢
        rw [seekCur_cast]
        simp only [bnd]
        have hq3 : D.drop (q + 8 + p.length) = vserializeList cs' ++ rest := by
          rw [show (q + 8 + p.length) = (q + 8) + p.length from by omega,
            ← List.drop_drop, hq2, List.drop_left]
        have htail := (IH (vserializeList cs').length (by omega)).2.2.2.2.2.2.1
          cs' D rest (q + 8 + p.length) ind f ce (le_refl _) hwcs hind (by omega) hq3
          (by rw [hce, hlen]; push_cast; omega)
        rw [htail, hlen,
          show (q + 8 + p.length) + (vserializeList cs').length =
            q + (8 + p.length + (vserializeList cs').length) from by omega]
      | elstB p =>
        refine udtaLoop_step_skip hlt hbox ?_
        simp only [vpayload, vtag] at hq2 hlen ⊢
        rw [seekCur_cast]
        simp only [bnd]
        have hq3 : D.drop (q + 8 + p.length) = vserializeList cs' ++ rest := by
          rw [show (q + 8 + p.length) = (q + 8) + p.length from by omega,
            ← List.drop_drop, hq2, List.drop_left]
        have htail := (IH (vserializeList cs').length (by omega)).2.2.2.2.2.2.1
          cs' D rest (q + 8 + p.length) ind f ce (le_refl _) hwcs hind (by omega) hq3
          (by rw [hce, hlen]; push_cast; omega)
        rw [htail, hlen,
          show (q + 8 + p.length) + (vserializeList cs').length =
            q + (8 + p.length + (vserializeList cs').length) from by omega]
      | urlB p =>
        refine udtaLoop_step_skip hlt hbox ?_
        simp only [vpayload, vtag] at hq2 hlen ⊢
        rw [seekCur_cast]
        simp only [bnd]
        have hq3 : D.drop (q + 8 + p.length) = vserializeList cs' ++ rest := by
          rw [show (q + 8 + p.length) = (q + 8) + p.length from by omega,
            ← List.drop_drop, hq2, List.drop_left]
        have htail := (IH (vserializeList cs').length (by omega)).2.2.2.2.2.2.1
          cs' D rest (q + 8 + p.length) ind f ce (le_refl _) hwcs hind (by omega) hq3
          (by rw [hce, hlen]; push_cast; omega)
        rw [htail, hlen,
          show (q + 8 + p.length) + (vserializeList cs').length =
            q + (8 + p.length + (vserializeList cs').length) from by omega]
      | urnB p =>
        refine udtaLoop_step_skip hlt hbox ?_
        simp only [vpayload, vtag] at hq2 hlen ⊢
        rw [seekCur_cast]
        simp only [bnd]
        have hq3 : D.drop (q + 8 + p.length) = vserializeList cs' ++ rest := by
          rw [show (q + 8 + p.length) = (q + 8) + p.length from by omega,
            ← List.drop_drop, hq2, List.drop_left]
        have htail := (IH (vserializeList cs').length (by omega)).2.2.2.2.2.2.1
          cs' D rest (q + 8 + p.length) ind f ce (le_refl _) hwcs hind (by omega) hq3
          (by rw [hce, hlen]; push_cast; omega)
        rw [htail, hlen,
          show (q + 8 + p.length) + (vserializeList cs').length =
            q + (8 + p.length + (vserializeList cs').length) from by omega]
      | moovB cs2 =>
        refine udtaLoop_step_skip hlt hbox ?_
        simp only [vpayload, vtag] at hq2 hlen ⊢
        rw [seekCur_cast]
        simp only [bnd]
        have hq3 : D.drop (q + 8 + (vserializeList cs2).length) = vserializeList cs' ++ rest := by
          rw [show (q + 8 + (vserializeList cs2).length) = (q + 8) + (vserializeList cs2).length from by omega,
            ← List.drop_drop, hq2, List.drop_left]
        have htail := (IH (vserializeList cs').length (by omega)).2.2.2.2.2.2.1
          cs' D rest (q + 8 + (vserializeList cs2).length) ind f ce (le_refl _) hwcs hind (by omega) hq3
          (by rw [hce, hlen]; push_cast; omega)
        rw [htail, hlen,
          show (q + 8 + (vserializeList cs2).length) + (vserializeList cs').length =
            q + (8 + (vserializeList cs2).length + (vserializeList cs').length) from by omega]
      | trakB cs2 =>
        refine udtaLoop_step_skip hlt hbox ?_
        simp only [vpayload, vtag] at hq2 hlen ⊢
        rw [seekCur_cast]
        simp only [bnd]
        have hq3 : D.drop (q + 8 + (vserializeList cs2).length) = vserializeList cs' ++ rest := by
          rw [show (q + 8 + (vserializeList cs2).length) = (q + 8) + (vserializeList cs2).length from by omega,
            ← List.drop_drop, hq2, List.drop_left]
        have htail := (IH (vserializeList cs').length (by omega)).2.2.2.2.2.2.1
          cs' D rest (q + 8 + (vserializeList cs2).length) ind f ce (le_refl _) hwcs hind (by omega) hq3
          (by rw [hce, hlen]; push_cast; omega)
        rw [htail, hlen,
          show (q + 8 + (vserializeList cs2).length) + (vserializeList cs').length =
            q + (8 + (vserializeList cs2).length + (vserializeList cs').length) from by omega]
      | mdiaB cs2 =>
        refine udtaLoop_step_skip hlt hbox ?_
        simp only [vpayload, vtag] at hq2 hlen ⊢
        rw [seekCur_cast]
        simp only [bnd]
        have hq3 : D.drop (q + 8 + (vserializeList cs2).length) = vserializeList cs' ++ rest := by
          rw [show (q + 8 + (vserializeList cs2).length) = (q + 8) + (vserializeList cs2).length from by omega,
            ← List.drop_drop, hq2, List.drop_left]
        have htail := (IH (vserializeList cs').length (by omega)).2.2.2.2.2.2.1
          cs' D rest (q + 8 + (vserializeList cs2).length) ind f ce (le_refl _) hwcs hind (by omega) hq3
          (by rw [hce, hlen]; push_cast; omega)
        rw [htail, hlen,
          show (q + 8 + (vserializeList cs2).length) + (vserializeList cs').length =
            q + (8 + (vserializeList cs2).length + (vserializeList cs').length) from by omega]
      | minfB cs2 =>
        refine udtaLoop_step_skip hlt hbox ?_
        simp only [vpayload, vtag] at hq2 hlen ⊢
        rw [seekCur_cast]
        simp only [bnd]
        have hq3 : D.drop (q + 8 + (vserializeList cs2).length) = vserializeList cs' ++ rest := by
          rw [show (q + 8 + (vserializeList cs2).length) = (q + 8) + (vserializeList cs2).length from by omega,
            ← List.drop_drop, hq2, List.drop_left]
        have htail := (IH (vserializeList cs').length (by omega)).2.2.2.2.2.2.1
          cs' D rest (q + 8 + (vserializeList cs2).length) ind f ce (le_refl _) hwcs hind (by omega) hq3
          (by rw [hce, hlen]; push_cast; omega)
        rw [htail, hlen,
          show (q + 8 + (vserializeList cs2).length) + (vserializeList cs').length =
            q + (8 + (vserializeList cs2).length + (vserializeList cs').length) from by omega]
      | dinfB cs2 =>
        refine udtaLoop_step_skip hlt hbox ?_
        simp only [vpayload, vtag] at hq2 hlen ⊢
        rw [seekCur_cast]
        simp only [bnd]
        have hq3 : D.drop (q + 8 + (vserializeList cs2).length) = vserializeList cs' ++ rest := by
          rw [show (q + 8 + (vserializeList cs2).length) = (q + 8) + (vserializeList cs2).length from by omega,
            ← List.drop_drop, hq2, List.drop_left]
        have htail := (IH (vserializeList cs').length (by omega)).2.2.2.2.2.2.1
          cs' D rest (q + 8 + (vserializeList cs2).length) ind f ce (le_refl _) hwcs hind (by omega) hq3
          (by rw [hce, hlen]; push_cast; omega)
        rw [htail, hlen,
          show (q + 8 + (vserializeList cs2).length) + (vserializeList cs').length =
            q + (8 + (vserializeList cs2).length + (vserializeList cs').length) from by omega]
      | edtsB cs2 =>
        refine udtaLoop_step_skip hlt hbox ?_
        simp only [vpayload, vtag] at hq2 hlen ⊢
        rw [seekCur_cast]
        simp only [bnd]
        have hq3 : D.drop (q + 8 + (vserializeList cs2).length) = vserializeList cs' ++ rest := by
          rw [show (q + 8 + (vserializeList cs2).length) = (q + 8) + (vserializeList cs2).length from by omega,
            ← List.drop_drop, hq2, List.drop_left]
        have htail := (IH (vserializeList cs').length (by omega)).2.2.2.2.2.2.1
          cs' D rest (q + 8 + (vserializeList cs2).length) ind f ce (le_refl _) hwcs hind (by omega) hq3
          (by rw [hce, hlen]; push_cast; omega)
        rw [htail, hlen,
          show (q + 8 + (vserializeList cs2).length) + (vserializeList cs').length =
            q + (8 + (vserializeList cs2).length + (vserializeList cs').length) from by omega]
      | udtaB cs2 =>
        refine udtaLoop_step_skip hlt hbox ?_
        simp only [vpayload, vtag] at hq2 hlen ⊢
        rw [seekCur_cast]
        simp only [bnd]
        have hq3 : D.drop (q + 8 + (vserializeList cs2).length) = vserializeList cs' ++ rest := by
          rw [show (q + 8 + (vserializeList cs2).length) = (q + 8) + (vserializeList cs2).length from by omega,
            ← List.drop_drop, hq2, List.drop_left]
        have htail := (IH (vserializeList cs').length (by omega)).2.2.2.2.2.2.1
          cs' D rest (q + 8 + (vserializeList cs2).length) ind f ce (le_refl _) hwcs hind (by omega) hq3
          (by rw [hce, hlen]; push_cast; omega)
        rw [htail, hlen,
          show (q + 8 + (vserializeList cs2).length) + (vserializeList cs').length =
            q + (8 + (vserializeList cs2).length + (vserializeList cs').length) from by omega]
      | stblB cs2 =>
        refine udtaLoop_step_skip hlt hbox ?_
        simp only [vpayload, vtag] at hq2 hlen ⊢
        rw [seekCur_cast]
        simp only [bnd]
        have hq3 : D.drop (q + 8 + (vserializeList cs2).length) = vserializeList cs' ++ rest := by
          rw [show (q + 8 + (vserializeList cs2).length) = (q + 8) + (vserializeList cs2).length from by omega,
            ← List.drop_drop, hq2, List.drop_left]
        have htail := (IH (vserializeList cs').length (by omega)).2.2.2.2.2.2.1
          cs' D rest (q + 8 + (vserializeList cs2).length) ind f ce (le_refl _) hwcs hind (by omega) hq3
          (by rw [hce, hlen]; push_cast; omega)
        rw [htail, hlen,
          show (q + 8 + (vserializeList cs2).length) + (vserializeList cs').length =
            q + (8 + (vserializeList cs2).length + (vserializeList cs').length) from by omega]
      | drefB hd cs2 =>
        refine udtaLoop_step_skip hlt hbox ?_
        simp only [vpayload, vtag] at hq2 hlen ⊢
        rw [seekCur_cast]
        simp only [bnd]
        have hq3 : D.drop (q + 8 + (hd ++ vserializeList cs2).length) = vserializeList cs' ++ rest := by
          rw [show (q + 8 + (hd ++ vserializeList cs2).length) = (q + 8) + (hd ++ vserializeList cs2).length from by omega,
            ← List.drop_drop, hq2, List.drop_left]
        have htail := (IH (vserializeList cs').length (by omega)).2.2.2.2.2.2.1
          cs' D rest (q + 8 + (hd ++ vserializeList cs2).length) ind f ce (le_refl _) hwcs hind (by omega) hq3
          (by rw [hce, hlen]; push_cast; omega)
        rw [htail, hlen,
          show (q + 8 + (hd ++ vserializeList cs2).length) + (vserializeList cs').length =
            q + (8 + (hd ++ vserializeList cs2).length + (vserializeList cs').length) from by omega]
  · intro cs D rest q ind fuel ce hN hwf hind hfuel hq hce
    cases cs with
    | nil =>
      obtain ⟨f, rfl⟩ : ∃ f, fuel = f + 1 := ⟨fuel - 1, by omega⟩
      rw [stblLoop_exit (by
        show ¬ ((q : Int) < ce)
        simp only [vserializeList, List.length_nil] at hce
        omega)]
      simp [vserializeList]
    | cons b cs' =>
      have hwb : vwf b = true := by
        have h := hwf
        simp only [vwfList, Bool.and_eq_true] at h
        exact h.1
      have hwcs : vwfList cs' = true := by
        have h := hwf
        simp only [vwfList, Bool.and_eq_true] at h
        exact h.2
      have ht4 : (vtag b).length = 4 := vtag_length hwb
      have hsz : (vpayload b).length + 8 < 4294967296 := vwf_size hwb
      have hlen : (vserializeList (b :: cs')).length =
          (8 + (vpayload b).length) + (vserializeList cs').length :=
        vserializeList_cons_length hwb
      obtain ⟨f, rfl⟩ : ∃ f, fuel = f + 1 := ⟨fuel - 1, by omega⟩
      have hq1 : D.drop q = mkBox (vtag b) (vpayload b) ++
          (vserializeList cs' ++ rest) := by
        rw [hq, show vserializeList (b :: cs') =
            mkBox (vtag b) (vpayload b) ++ vserializeList cs' from rfl,
          List.append_assoc]
      have hq2 : D.drop (q + 8) = vpayload b ++
          (vserializeList cs' ++ rest) := by
        rw [← List.drop_drop, hq1,
          List.drop_append_of_le_length (by rw [mkBox_length ht4]; omega),
          mkBox_drop8 ht4]
      have hbox := @scan_box_run D (vserializeList cs' ++ rest)
        (vtag b) (vpayload b) q ind hq1 ht4 hsz
      have hlt : (((⟨D, q, ind⟩ : St).pos : Nat) : Int) < ce := by
        show (q : Int) < ce
        rw [hce, hlen]
        push_cast
        omega
      cases b with
      | generic tag p =>
        have gtn := generic_tags_ne (vwf_generic hwb).2.1
        refine stblLoop_step_skip hlt hbox ?_
        simp only [vpayload, vtag] at hq2 hlen ⊢
        rw [seekCur_cast]
        simp only [bnd]
        have hq3 : D.drop (q + 8 + p.length) = vserializeList cs' ++ rest := by
          rw [show (q + 8 + p.length) = (q + 8) + p.length from by omega,
            ← List.drop_drop, hq2, List.drop_left]
        have htail := (IH (vserializeList cs').length (by omega)).2.2.2.2.2.2.2.1
          cs' D rest (q + 8 + p.length) ind f ce (le_refl _) hwcs hind (by omega) hq3
          (by rw [hce, hlen]; push_cast; omega)
        rw [htail, hlen,
          show (q + 8 + p.length) + (vserializeList cs').length =
            q + (8 + p.length + (vserializeList cs').length) from by omega]
      | ftypB p =>
        refine stblLoop_step_skip hlt hbox ?_
        simp only [vpayload, vtag] at hq2 hlen ⊢
        rw [seekCur_cast]
        simp only [bnd]
        have hq3 : D.drop (q + 8 + p.length) = vserializeList cs' ++ rest := by
          rw [show (q + 8 + p.length) = (q + 8) + p.length from by omega,
            ← List.drop_drop, hq2, List.drop_left]
        have htail := (IH (vserializeList cs').length (by omega)).2.2.2.2.2.2.2.1
          cs' D rest (q + 8 + p.length) ind f ce (le_refl _) hwcs hind (by omega) hq3
          (by rw [hce, hlen]; push_cast; omega)
        rw [htail, hlen,
          show (q + 8 + p.length) + (vserializeList cs').length =
            q + (8 + p.length + (vserializeList cs').length) from by omega]
      | mvhdB p =>
        refine stblLoop_step_skip hlt hbox ?_
        simp only [vpayload, vtag] at hq2 hlen ⊢
        rw [seekCur_cast]
        simp only [bnd]
        have hq3 : D.drop (q + 8 + p.length) = vserializeList cs' ++ rest := by
          rw [show (q + 8 + p.length) = (q + 8) + p.length from by omega,
            ← List.drop_drop, hq2, List.drop_left]
        have htail := (IH (vserializeList cs').length (by omega)).2.2.2.2.2.2.2.1
          cs' D rest (q + 8 + p.length) ind f ce (le_refl _) hwcs hind (by omega) hq3
          (by rw [hce, hlen]; push_cast; omega)
        rw [htail, hlen,
          show (q + 8 + p.length) + (vserializeList cs').length =
            q + (8 + p.length + (vserializeList cs').length) from by omega]
      | tkhdB p =>
        refine stblLoop_step_skip hlt hbox ?_
        simp only [vpayload, vtag] at hq2 hlen ⊢
        rw [seekCur_cast]
        simp only [bnd]
        have hq3 : D.drop (q + 8 + p.length) = vserializeList cs' ++ rest := by
          rw [show (q + 8 + p.length) = (q + 8) + p.length from by omega,
            ← List.drop_drop, hq2, List.drop_left]
        have htail := (IH (vserializeList cs').length (by omega)).2.2.2.2.2.2.2.1
          cs' D rest (q + 8 + p.length) ind f ce (le_refl _) hwcs hind (by omega) hq3
          (by rw [hce, hlen]; push_cast; omega)
        rw [htail, hlen,
          show (q + 8 + p.length) + (vserializeList cs').length =
            q + (8 + p.length + (vserializeList cs').length) from by omega]
      | mdhdB p =>
        refine stblLoop_step_skip hlt hbox ?_
        simp only [vpayload, vtag] at hq2 hlen ⊢
        rw [seekCur_cast]
        simp only [bnd]
        have hq3 : D.drop (q + 8 + p.length) = vserializeList cs' ++ rest := by
          rw [show (q + 8 + p.length) = (q + 8) + p.length from by omega,
            ← List.drop_drop, hq2, List.drop_left]
        have htail := (IH (vserializeList cs').length (by omega)).2.2.2.2.2.2.2.1
          cs' D rest (q + 8 + p.length) ind f ce (le_refl _) hwcs hind (by omega) hq3
          (by rw [hce, hlen]; push_cast; omega)
        rw [htail, hlen,
          show (q + 8 + p.length) + (vserializeList cs').length =
            q + (8 + p.length + (vserializeList cs').length) from by omega]
      | hdlrB p =>
        refine stblLoop_step_skip hlt hbox ?_
        simp only [vpayload, vtag] at hq2 hlen ⊢
        rw [seekCur_cast]
        simp only [bnd]
        have hq3 : D.drop (q + 8 + p.length) = vserializeList cs' ++ rest := by
          rw [show (q + 8 + p.length) = (q + 8) + p.length from by omega,
            ← List.drop_drop, hq2, List.drop_left]
        have htail := (IH (vserializeList cs').length (by omega)).2.2.2.2.2.2.2.1
          cs' D rest (q + 8 + p.length) ind f ce (le_refl _) hwcs hind (by omega) hq3
          (by rw [hce, hlen]; push_cast; omega)
        rw [htail, hlen,
          show (q + 8 + p.length) + (vserializeList cs').length =
            q + (8 + p.length + (vserializeList cs').length) from by omega]
      | vmhdB p =>
        refine stblLoop_step_skip hlt hbox ?_
        simp only [vpayload, vtag] at hq2 hlen ⊢
        rw [seekCur_cast]
        simp only [bnd]
        have hq3 : D.drop (q + 8 + p.length) = vserializeList cs' ++ rest := by
          rw [show (q + 8 + p.length) = (q + 8) + p.length from by omega,
            ← List.drop_drop, hq2, List.drop_left]
        have htail := (IH (vserializeList cs').length (by omega)).2.2.2.2.2.2.2.1
          cs' D rest (q + 8 + p.length) ind f ce (le_refl _) hwcs hind (by omega) hq3
          (by rw [hce, hlen]; push_cast; omega)
        rw [htail, hlen,
          show (q + 8 + p.length) + (vserializeList cs').length =
            q + (8 + p.length + (vserializeList cs').length) from by omega]
      | smhdB p =>
        refine stblLoop_step_skip hlt hbox ?_
        simp only [vpayload, vtag] at hq2 hlen ⊢
        rw [seekCur_cast]
        simp only [bnd]
        have hq3 : D.drop (q + 8 + p.length) = vserializeList cs' ++ rest := by
          rw [show (q + 8 + p.length) = (q + 8) + p.length from by omega,
            ← List.drop_drop, hq2, List.drop_left]
        have htail := (IH (vserializeList cs').length (by omega)).2.2.2.2.2.2.2.1
          cs' D rest (q + 8 + p.length) ind f ce (le_refl _) hwcs hind (by omega) hq3
          (by rw [hce, hlen]; push_cast; omega)
        rw [htail, hlen,
          show (q + 8 + p.length) + (vserializeList cs').length =
            q + (8 + p.length + (vserializeList cs').length) from by omega]
      | hmhdB p =>
        refine stblLoop_step_skip hlt hbox ?_
        simp only [vpayload, vtag] at hq2 hlen ⊢
        rw [seekCur_cast]
        simp only [bnd]
        have hq3 : D.drop (q + 8 + p.length) = vserializeList cs' ++ rest := by
          rw [show (q + 8 + p.length) = (q + 8) + p.length from by omega,
            ← List.drop_drop, hq2, List.drop_left]
        have htail := (IH (vserializeList cs').length (by omega)).2.2.2.2.2.2.2.1
          cs' D rest (q + 8 + p.length) ind f ce (le_refl _) hwcs hind (by omega) hq3
          (by rw [hce, hlen]; push_cast; omega)
        rw [htail, hlen,
          show (q + 8 + p.length) + (vserializeList cs').length =
            q + (8 + p.length + (vserializeList cs').length) from by omega]
      | nmhdB p =>
        refine stblLoop_step_skip hlt hbox ?_
        simp only [vpayload, vtag] at hq2 hlen ⊢
        rw [seekCur_cast]
        simp only [bnd]
        have hq3 : D.drop (q + 8 + p.length) = vserializeList cs' ++ rest := by
          rw [show (q + 8 + p.length) = (q + 8) + p.length from by omega,
            ← List.drop_drop, hq2, List.drop_left]
        have htail := (IH (vserializeList cs').length (by omega)).2.2.2.2.2.2.2.1
          cs' D rest (q + 8 + p.length) ind f ce (le_refl _) hwcs hind (by omega) hq3
          (by rw [hce, hlen]; push_cast; omega)
        rw [htail, hlen,
          show (q + 8 + p.length) + (vserializeList cs').length =
            q + (8 + p.length + (vserializeList cs').length) from by omega]
      | elstB p =>
        refine stblLoop_step_skip hlt hbox ?_
        simp only [vpayload, vtag] at hq2 hlen ⊢
        rw [seekCur_cast]
        simp only [bnd]
        have hq3 : D.drop (q + 8 + p.length) = vserializeList cs' ++ rest := by
          rw [show (q + 8 + p.length) = (q + 8) + p.length from by omega,
            ← List.drop_drop, hq2, List.drop_left]
        have htail := (IH (vserializeList cs').length (by omega)).2.2.2.2.2.2.2.1
          cs' D rest (q + 8 + p.length) ind f ce (le_refl _) hwcs hind (by omega) hq3
          (by rw [hce, hlen]; push_cast; omega)
        rw [htail, hlen,
          show (q + 8 + p.length) + (vserializeList cs').length =
            q + (8 + p.length + (vserializeList cs').length) from by omega]
      | urlB p =>
        refine stblLoop_step_skip hlt hbox ?_
        simp only [vpayload, vtag] at hq2 hlen ⊢
        rw [seekCur_cast]
        simp only [bnd]
        have hq3 : D.drop (q + 8 + p.length) = vserializeList cs' ++ rest := by
          rw [show (q + 8 + p.length) = (q + 8) + p.length from by omega,
            ← List.drop_drop, hq2, List.drop_left]
        have htail := (IH (vserializeList cs').length (by omega)).2.2.2.2.2.2.2.1
          cs' D rest (q + 8 + p.length) ind f ce (le_refl _) hwcs hind (by omega) hq3
          (by rw [hce, hlen]; push_cast; omega)
        rw [htail, hlen,
          show (q + 8 + p.length) + (vserializeList cs').length =
            q + (8 + p.length + (vserializeList cs').length) from by omega]
      | urnB p =>
        refine stblLoop_step_skip hlt hbox ?_
        simp only [vpayload, vtag] at hq2 hlen ⊢
        rw [seekCur_cast]
        simp only [bnd]
        have hq3 : D.drop (q + 8 + p.length) = vserializeList cs' ++ rest := by
          rw [show (q + 8 + p.length) = (q + 8) + p.length from by omega,
            ← List.drop_drop, hq2, List.drop_left]
        have htail := (IH (vserializeList cs').length (by omega)).2.2.2.2.2.2.2.1
          cs' D rest (q + 8 + p.length) ind f ce (le_refl _) hwcs hind (by omega) hq3
          (by rw [hce, hlen]; push_cast; omega)
        rw [htail, hlen,
          show (q + 8 + p.length) + (vserializeList cs').length =
            q + (8 + p.length + (vserializeList cs').length) from by omega]
      | moovB cs2 =>
        refine stblLoop_step_skip hlt hbox ?_
        simp only [vpayload, vtag] at hq2 hlen ⊢
        rw [seekCur_cast]
        simp only [bnd]
        have hq3 : D.drop (q + 8 + (vserializeList cs2).length) = vserializeList cs' ++ rest := by
          rw [show (q + 8 + (vserializeList cs2).length) = (q + 8) + (vserializeList cs2).length from by omega,
            ← List.drop_drop, hq2, List.drop_left]
        have htail := (IH (vserializeList cs').length (by omega)).2.2.2.2.2.2.2.1
          cs' D rest (q + 8 + (vserializeList cs2).length) ind f ce (le_refl _) hwcs hind (by omega) hq3
          (by rw [hce, hlen]; push_cast; omega)
        rw [htail, hlen,
          show (q + 8 + (vserializeList cs2).length) + (vserializeList cs').length =
            q + (8 + (vserializeList cs2).length + (vserializeList cs').length) from by omega]
      | trakB cs2 =>
        refine stblLoop_step_skip hlt hbox ?_
        simp only [vpayload, vtag] at hq2 hlen ⊢
        rw [seekCur_cast]
        simp only [bnd]
        have hq3 : D.drop (q + 8 + (vserializeList cs2).length) = vserializeList cs' ++ rest := by
          rw [show (q + 8 + (vserializeList cs2).length) = (q + 8) + (vserializeList cs2).length from by omega,
            ← List.drop_drop, hq2, List.drop_left]
        have htail := (IH (vserializeList cs').length (by omega)).2.2.2.2.2.2.2.1
          cs' D rest (q + 8 + (vserializeList cs2).length) ind f ce (le_refl _) hwcs hind (by omega) hq3
          (by rw [hce, hlen]; push_cast; omega)
        rw [htail, hlen,
          show (q + 8 + (vserializeList cs2).length) + (vserializeList cs').length =
            q + (8 + (vserializeList cs2).length + (vserializeList cs').length) from by omega]
      | mdiaB cs2 =>
        refine stblLoop_step_skip hlt hbox ?_
        simp only [vpayload, vtag] at hq2 hlen ⊢
        rw [seekCur_cast]
        simp only [bnd]
        have hq3 : D.drop (q + 8 + (vserializeList cs2).length) = vserializeList cs' ++ rest := by
          rw [show (q + 8 + (vserializeList cs2).length) = (q + 8) + (vserializeList cs2).length from by omega,
            ← List.drop_drop, hq2, List.drop_left]
        have htail := (IH (vserializeList cs').length (by omega)).2.2.2.2.2.2.2.1
          cs' D rest (q + 8 + (vserializeList cs2).length) ind f ce (le_refl _) hwcs hind (by omega) hq3
          (by rw [hce, hlen]; push_cast; omega)
        rw [htail, hlen,
          show (q + 8 + (vserializeList cs2).length) + (vserializeList cs').length =
            q + (8 + (vserializeList cs2).length + (vserializeList cs').length) from by omega]
      | minfB cs2 =>
        refine stblLoop_step_skip hlt hbox ?_
        simp only [vpayload, vtag] at hq2 hlen ⊢
        rw [seekCur_cast]
        simp only [bnd]
        have hq3 : D.drop (q + 8 + (vserializeList cs2).length) = vserializeList cs' ++ rest := by
          rw [show (q + 8 + (vserializeList cs2).length) = (q + 8) + (vserializeList cs2).length from by omega,
            ← List.drop_drop, hq2, List.drop_left]
        have htail := (IH (vserializeList cs').length (by omega)).2.2.2.2.2.2.2.1
          cs' D rest (q + 8 + (vserializeList cs2).length) ind f ce (le_refl _) hwcs hind (by omega) hq3
          (by rw [hce, hlen]; push_cast; omega)
        rw [htail, hlen,
          show (q + 8 + (vserializeList cs2).length) + (vserializeList cs').length =
            q + (8 + (vserializeList cs2).length + (vserializeList cs').length) from by omega]
      | dinfB cs2 =>
        refine stblLoop_step_skip hlt hbox ?_
        simp only [vpayload, vtag] at hq2 hlen ⊢
        rw [seekCur_cast]
        simp only [bnd]
        have hq3 : D.drop (q + 8 + (vserializeList cs2).length) = vserializeList cs' ++ rest := by
          rw [show (q + 8 + (vserializeList cs2).length) = (q + 8) + (vserializeList cs2).length from by omega,
            ← List.drop_drop, hq2, List.drop_left]
        have htail := (IH (vserializeList cs').length (by omega)).2.2.2.2.2.2.2.1
          cs' D rest (q + 8 + (vserializeList cs2).length) ind f ce (le_refl _) hwcs hind (by omega) hq3
          (by rw [hce, hlen]; push_cast; omega)
        rw [htail, hlen,
          show (q + 8 + (vserializeList cs2).length) + (vserializeList cs').length =
            q + (8 + (vserializeList cs2).length + (vserializeList cs').length) from by omega]
      | edtsB cs2 =>
        refine stblLoop_step_skip hlt hbox ?_
        simp only [vpayload, vtag] at hq2 hlen ⊢
        rw [seekCur_cast]
        simp only [bnd]
        have hq3 : D.drop (q + 8 + (vserializeList cs2).length) = vserializeList cs' ++ rest := by
          rw [show (q + 8 + (vserializeList cs2).length) = (q + 8) + (vserializeList cs2).length from by omega,
            ← List.drop_drop, hq2, List.drop_left]
        have htail := (IH (vserializeList cs').length (by omega)).2.2.2.2.2.2.2.1
          cs' D rest (q + 8 + (vserializeList cs2).length) ind f ce (le_refl _) hwcs hind (by omega) hq3
          (by rw [hce, hlen]; push_cast; omega)
        rw [htail, hlen,
          show (q + 8 + (vserializeList cs2).length) + (vserializeList cs').length =
            q + (8 + (vserializeList cs2).length + (vserializeList cs').length) from by omega]
      | udtaB cs2 =>
        refine stblLoop_step_skip hlt hbox ?_
        simp only [vpayload, vtag] at hq2 hlen ⊢
        rw [seekCur_cast]
        simp only [bnd]
        have hq3 : D.drop (q + 8 + (vserializeList cs2).length) = vserializeList cs' ++ rest := by
          rw [show (q + 8 + (vserializeList cs2).length) = (q + 8) + (vserializeList cs2).length from by omega,
            ← List.drop_drop, hq2, List.drop_left]
        have htail := (IH (vserializeList cs').length (by omega)).2.2.2.2.2.2.2.1
          cs' D rest (q + 8 + (vserializeList cs2).length) ind f ce (le_refl _) hwcs hind (by omega) hq3
          (by rw [hce, hlen]; push_cast; omega)
        rw [htail, hlen,
          show (q + 8 + (vserializeList cs2).length) + (vserializeList cs').length =
            q + (8 + (vserializeList cs2).length + (vserializeList cs').length) from by omega]
      | stblB cs2 =>
        refine stblLoop_step_skip hlt hbox ?_
        simp only [vpayload, vtag] at hq2 hlen ⊢
        rw [seekCur_cast]
        simp only [bnd]
        have hq3 : D.drop (q + 8 + (vserializeList cs2).length) = vserializeList cs' ++ rest := by
          rw [show (q + 8 + (vserializeList cs2).length) = (q + 8) + (vserializeList cs2).length from by omega,
            ← List.drop_drop, hq2, List.drop_left]
        have htail := (IH (vserializeList cs').length (by omega)).2.2.2.2.2.2.2.1
          cs' D rest (q + 8 + (vserializeList cs2).length) ind f ce (le_refl _) hwcs hind (by omega) hq3
          (by rw [hce, hlen]; push_cast; omega)
        rw [htail, hlen,
          show (q + 8 + (vserializeList cs2).length) + (vserializeList cs').length =
            q + (8 + (vserializeList cs2).length + (vserializeList cs').length) from by omega]
      | drefB hd cs2 =>
        refine stblLoop_step_skip hlt hbox ?_
        simp only [vpayload, vtag] at hq2 hlen ⊢
        rw [seekCur_cast]
        simp only [bnd]
        have hq3 : D.drop (q + 8 + (hd ++ vserializeList cs2).length) = vserializeList cs' ++ rest := by
          rw [show (q + 8 + (hd ++ vserializeList cs2).length) = (q + 8) + (hd ++ vserializeList cs2).length from by omega,
            ← List.drop_drop, hq2, List.drop_left]
        have htail := (IH (vserializeList cs').length (by omega)).2.2.2.2.2.2.2.1
          cs' D rest (q + 8 + (hd ++ vserializeList cs2).length) ind f ce (le_refl _) hwcs hind (by omega) hq3
          (by rw [hce, hlen]; push_cast; omega)
        rw [htail, hlen,
          show (q + 8 + (hd ++ vserializeList cs2).length) + (vserializeList cs').length =
            q + (8 + (hd ++ vserializeList cs2).length + (vserializeList cs').length) from by omega]
  · intro cs D rest q ind fuel ce hN hwf hind hfuel hq hce
    cases cs with
    | nil =>
      obtain ⟨f, rfl⟩ : ∃ f, fuel = f + 1 := ⟨fuel - 1, by omega⟩
      rw [drefLoop_exit (by
        show ¬ ((q : Int) < ce)
        simp only [vserializeList, List.length_nil] at hce
        omega)]
      simp [vserializeList]
    | cons b cs' =>
      have hwb : vwf b = true := by
        have h := hwf
        simp only [vwfList, Bool.and_eq_true] at h
        exact h.1
      have hwcs : vwfList cs' = true := by
        have h := hwf
        simp only [vwfList, Bool.and_eq_true] at h
        exact h.2
      have ht4 : (vtag b).length = 4 := vtag_length hwb
      have hsz : (vpayload b).length + 8 < 4294967296 := vwf_size hwb
      have hlen : (vserializeList (b :: cs')).length =
          (8 + (vpayload b).length) + (vserializeList cs').length :=
        vserializeList_cons_length hwb
      obtain ⟨f, rfl⟩ : ∃ f, fuel = f + 1 := ⟨fuel - 1, by omega⟩
      have hq1 : D.drop q = mkBox (vtag b) (vpayload b) ++
          (vserializeList cs' ++ rest) := by
        rw [hq, show vserializeList (b :: cs') =
            mkBox (vtag b) (vpayload b) ++ vserializeList cs' from rfl,
          List.append_assoc]
      have hq2 : D.drop (q + 8) = vpayload b ++
          (vserializeList cs' ++ rest) := by
        rw [← List.drop_drop, hq1,
          List.drop_append_of_le_length (by rw [mkBox_length ht4]; omega),
          mkBox_drop8 ht4]
      have hbox := @scan_box_run D (vserializeList cs' ++ rest)
        (vtag b) (vpayload b) q ind hq1 ht4 hsz
      have hlt : (((⟨D, q, ind⟩ : St).pos : Nat) : Int) < ce := by
        show (q : Int) < ce
        rw [hce, hlen]
        push_cast
        omega
      cases b with
      | generic tag p =>
        have gtn := generic_tags_ne (vwf_generic hwb).2.1
        refine drefLoop_step_skip hlt hbox gtn.2.2.2.2.2.2.2.2.2.2.2.2.2.2.2.2.2.2.1 gtn.2.2.2.2.2.2.2.2.2.2.2.2.2.2.2.2.2.2.2.1 ?_
        simp only [vpayload, vtag] at hq2 hlen ⊢
        rw [seekCur_cast]
        simp only [bnd]
        have hq3 : D.drop (q + 8 + p.length) = vserializeList cs' ++ rest := by
          rw [show (q + 8 + p.length) = (q + 8) + p.length from by omega,
            ← List.drop_drop, hq2, List.drop_left]
        have htail := (IH (vserializeList cs').length (by omega)).2.2.2.2.2.2.2.2
          cs' D rest (q + 8 + p.length) ind f ce (le_refl _) hwcs hind (by omega) hq3
          (by rw [hce, hlen]; push_cast; omega)
        rw [htail, hlen,
          show (q + 8 + p.length) + (vserializeList cs').length =
            q + (8 + p.length + (vserializeList cs').length) from by omega]
      | ftypB p =>
        refine drefLoop_step_skip hlt hbox (by show ¬ ISOBMFF.ftypTag = ISOBMFF.urlTag; decide) (by show ¬ ISOBMFF.ftypTag = ISOBMFF.urnTag; decide) ?_
        simp only [vpayload, vtag] at hq2 hlen ⊢
        rw [seekCur_cast]
        simp only [bnd]
        have hq3 : D.drop (q + 8 + p.length) = vserializeList cs' ++ rest := by
          rw [show (q + 8 + p.length) = (q + 8) + p.length from by omega,
            ← List.drop_drop, hq2, List.drop_left]
        have htail := (IH (vserializeList cs').length (by omega)).2.2.2.2.2.2.2.2
          cs' D rest (q + 8 + p.length) ind f ce (le_refl _) hwcs hind (by omega) hq3
          (by rw [hce, hlen]; push_cast; omega)
        rw [htail, hlen,
          show (q + 8 + p.length) + (vserializeList cs').length =
            q + (8 + p.length + (vserializeList cs').length) from by omega]
      | mvhdB p =>
        refine drefLoop_step_skip hlt hbox (by show ¬ ISOBMFF.mvhdTag = ISOBMFF.urlTag; decide) (by show ¬ ISOBMFF.mvhdTag = ISOBMFF.urnTag; decide) ?_
        simp only [vpayload, vtag] at hq2 hlen ⊢
        rw [seekCur_cast]
        simp only [bnd]
        have hq3 : D.drop (q + 8 + p.length) = vserializeList cs' ++ rest := by
          rw [show (q + 8 + p.length) = (q + 8) + p.length from by omega,
            ← List.drop_drop, hq2, List.drop_left]
        have htail := (IH (vserializeList cs').length (by omega)).2.2.2.2.2.2.2.2
          cs' D rest (q + 8 + p.length) ind f ce (le_refl _) hwcs hind (by omega) hq3
          (by rw [hce, hlen]; push_cast; omega)
        rw [htail, hlen,
          show (q + 8 + p.length) + (vserializeList cs').length =
            q + (8 + p.length + (vserializeList cs').length) from by omega]
      | tkhdB p =>
        refine drefLoop_step_skip hlt hbox (by show ¬ ISOBMFF.tkhdTag = ISOBMFF.urlTag; decide) (by show ¬ ISOBMFF.tkhdTag = ISOBMFF.urnTag; decide) ?_
        simp only [vpayload, vtag] at hq2 hlen ⊢
        rw [seekCur_cast]
        simp only [bnd]
        have hq3 : D.drop (q + 8 + p.length) = vserializeList cs' ++ rest := by
          rw [show (q + 8 + p.length) = (q + 8) + p.length from by omega,
            ← List.drop_drop, hq2, List.drop_left]
        have htail := (IH (vserializeList cs').length (by omega)).2.2.2.2.2.2.2.2
          cs' D rest (q + 8 + p.length) ind f ce (le_refl _) hwcs hind (by omega) hq3
          (by rw [hce, hlen]; push_cast; omega)
        rw [htail, hlen,
          show (q + 8 + p.length) + (vserializeList cs').length =
            q + (8 + p.length + (vserializeList cs').length) from by omega]
      | mdhdB p =>
        refine drefLoop_step_skip hlt hbox (by show ¬ ISOBMFF.mdhdTag = ISOBMFF.urlTag; decide) (by show ¬ ISOBMFF.mdhdTag = ISOBMFF.urnTag; decide) ?_
        simp only [vpayload, vtag] at hq2 hlen ⊢
        rw [seekCur_cast]
        simp only [bnd]
        have hq3 : D.drop (q + 8 + p.length) = vserializeList cs' ++ rest := by
          rw [show (q + 8 + p.length) = (q + 8) + p.length from by omega,
            ← List.drop_drop, hq2, List.drop_left]
        have htail := (IH (vserializeList cs').length (by omega)).2.2.2.2.2.2.2.2
          cs' D rest (q + 8 + p.length) ind f ce (le_refl _) hwcs hind (by omega) hq3
          (by rw [hce, hlen]; push_cast; omega)
        rw [htail, hlen,
          show (q + 8 + p.length) + (vserializeList cs').length =
            q + (8 + p.length + (vserializeList cs').length) from by omega]
      | hdlrB p =>
        refine drefLoop_step_skip hlt hbox (by show ¬ ISOBMFF.hdlrTag = ISOBMFF.urlTag; decide) (by show ¬ ISOBMFF.hdlrTag = ISOBMFF.urnTag; decide) ?_
        simp only [vpayload, vtag] at hq2 hlen ⊢
        rw [seekCur_cast]
        simp only [bnd]
        have hq3 : D.drop (q + 8 + p.length) = vserializeList cs' ++ rest := by
          rw [show (q + 8 + p.length) = (q + 8) + p.length from by omega,
            ← List.drop_drop, hq2, List.drop_left]
        have htail := (IH (vserializeList cs').length (by omega)).2.2.2.2.2.2.2.2
          cs' D rest (q + 8 + p.length) ind f ce (le_refl _) hwcs hind (by omega) hq3
          (by rw [hce, hlen]; push_cast; omega)
        rw [htail, hlen,
          show (q + 8 + p.length) + (vserializeList cs').length =
            q + (8 + p.length + (vserializeList cs').length) from by omega]
      | vmhdB p =>
        refine drefLoop_step_skip hlt hbox (by show ¬ ISOBMFF.vmhdTag = ISOBMFF.urlTag; decide) (by show ¬ ISOBMFF.vmhdTag = ISOBMFF.urnTag; decide) ?_
        simp only [vpayload, vtag] at hq2 hlen ⊢
        rw [seekCur_cast]
        simp only [bnd]
        have hq3 : D.drop (q + 8 + p.length) = vserializeList cs' ++ rest := by
          rw [show (q + 8 + p.length) = (q + 8) + p.length from by omega,
            ← List.drop_drop, hq2, List.drop_left]
        have htail := (IH (vserializeList cs').length (by omega)).2.2.2.2.2.2.2.2
          cs' D rest (q + 8 + p.length) ind f ce (le_refl _) hwcs hind (by omega) hq3
          (by rw [hce, hlen]; push_cast; omega)
        rw [htail, hlen,
          show (q + 8 + p.length) + (vserializeList cs').length =
            q + (8 + p.length + (vserializeList cs').length) from by omega]
      | smhdB p =>
        refine drefLoop_step_skip hlt hbox (by show ¬ ISOBMFF.smhdTag = ISOBMFF.urlTag; decide) (by show ¬ ISOBMFF.smhdTag = ISOBMFF.urnTag; decide) ?_
        simp only [vpayload, vtag] at hq2 hlen ⊢
        rw [seekCur_cast]
        simp only [bnd]
        have hq3 : D.drop (q + 8 + p.length) = vserializeList cs' ++ rest := by
          rw [show (q + 8 + p.length) = (q + 8) + p.length from by omega,
            ← List.drop_drop, hq2, List.drop_left]
        have htail := (IH (vserializeList cs').length (by omega)).2.2.2.2.2.2.2.2
          cs' D rest (q + 8 + p.length) ind f ce (le_refl _) hwcs hind (by omega) hq3
          (by rw [hce, hlen]; push_cast; omega)
        rw [htail, hlen,
          show (q + 8 + p.length) + (vserializeList cs').length =
            q + (8 + p.length + (vserializeList cs').length) from by omega]
      | hmhdB p =>
        refine drefLoop_step_skip hlt hbox (by show ¬ ISOBMFF.hmhdTag = ISOBMFF.urlTag; decide) (by show ¬ ISOBMFF.hmhdTag = ISOBMFF.urnTag; decide) ?_
        simp only [vpayload, vtag] at hq2 hlen ⊢
        rw [seekCur_cast]
        simp only [bnd]
        have hq3 : D.drop (q + 8 + p.length) = vserializeList cs' ++ rest := by
          rw [show (q + 8 + p.length) = (q + 8) + p.length from by omega,
            ← List.drop_drop, hq2, List.drop_left]
        have htail := (IH (vserializeList cs').length (by omega)).2.2.2.2.2.2.2.2
          cs' D rest (q + 8 + p.length) ind f ce (le_refl _) hwcs hind (by omega) hq3
          (by rw [hce, hlen]; push_cast; omega)
        rw [htail, hlen,
          show (q + 8 + p.length) + (vserializeList cs').length =
            q + (8 + p.length + (vserializeList cs').length) from by omega]
      | nmhdB p =>
        refine drefLoop_step_skip hlt hbox (by show ¬ ISOBMFF.nmhdTag = ISOBMFF.urlTag; decide) (by show ¬ ISOBMFF.nmhdTag = ISOBMFF.urnTag; decide) ?_
        simp only [vpayload, vtag] at hq2 hlen ⊢
        rw [seekCur_cast]
        simp only [bnd]
        have hq3 : D.drop (q + 8 + p.length) = vserializeList cs' ++ rest := by
          rw [show (q + 8 + p.length) = (q + 8) + p.length from by omega,
            ← List.drop_drop, hq2, List.drop_left]
        have htail := (IH (vserializeList cs').length (by omega)).2.2.2.2.2.2.2.2
          cs' D rest (q + 8 + p.length) ind f ce (le_refl _) hwcs hind (by omega) hq3
          (by rw [hce, hlen]; push_cast; omega)
        rw [htail, hlen,
          show (q + 8 + p.length) + (vserializeList cs').length =
            q + (8 + p.length + (vserializeList cs').length) from by omega]
      | elstB p =>
        refine drefLoop_step_skip hlt hbox (by show ¬ ISOBMFF.elstTag = ISOBMFF.urlTag; decide) (by show ¬ ISOBMFF.elstTag = ISOBMFF.urnTag; decide) ?_
        simp only [vpayload, vtag] at hq2 hlen ⊢
        rw [seekCur_cast]
        simp only [bnd]
        have hq3 : D.drop (q + 8 + p.length) = vserializeList cs' ++ rest := by
          rw [show (q + 8 + p.length) = (q + 8) + p.length from by omega,
            ← List.drop_drop, hq2, List.drop_left]
        have htail := (IH (vserializeList cs').length (by omega)).2.2.2.2.2.2.2.2
          cs' D rest (q + 8 + p.length) ind f ce (le_refl _) hwcs hind (by omega) hq3
          (by rw [hce, hlen]; push_cast; omega)
        rw [htail, hlen,
          show (q + 8 + p.length) + (vserializeList cs').length =
            q + (8 + p.length + (vserializeList cs').length) from by omega]
      | urlB p =>
        refine drefLoop_step_url hlt hbox rfl ?_
        simp only [vpayload, vtag] at hq2 hlen ⊢
        obtain ⟨o, ho⟩ := scan_url_run ((p.length : Int)) hq2 hwb hind
        rw [ho]
        simp only [bnd]
        have hq3 : D.drop (q + 8 + p.length) = vserializeList cs' ++ rest := by
          rw [show (q + 8 + p.length) = (q + 8) + p.length from by omega,
            ← List.drop_drop, hq2, List.drop_left]
        have htail := (IH (vserializeList cs').length (by omega)).2.2.2.2.2.2.2.2
          cs' D rest (q + 8 + p.length) ind f ce (le_refl _) hwcs hind (by omega) hq3
          (by rw [hce, hlen]; push_cast; omega)
        rw [htail, hlen,
          show (q + 8 + p.length) + (vserializeList cs').length =
            q + (8 + p.length + (vserializeList cs').length) from by omega]
      | urnB p =>
        refine drefLoop_step_urn hlt hbox rfl ?_
        simp only [vpayload, vtag] at hq2 hlen ⊢
        obtain ⟨o, ho⟩ := scan_urn_run ((p.length : Int)) hq2 hwb hind
        rw [ho]
        simp only [bnd]
        have hq3 : D.drop (q + 8 + p.length) = vserializeList cs' ++ rest := by
          rw [show (q + 8 + p.length) = (q + 8) + p.length from by omega,
            ← List.drop_drop, hq2, List.drop_left]
        have htail := (IH (vserializeList cs').length (by omega)).2.2.2.2.2.2.2.2
          cs' D rest (q + 8 + p.length) ind f ce (le_refl _) hwcs hind (by omega) hq3
          (by rw [hce, hlen]; push_cast; omega)
        rw [htail, hlen,
          show (q + 8 + p.length) + (vserializeList cs').length =
            q + (8 + p.length + (vserializeList cs').length) from by omega]
      | moovB cs2 =>
        refine drefLoop_step_skip hlt hbox (by show ¬ ISOBMFF.moovTag = ISOBMFF.urlTag; decide) (by show ¬ ISOBMFF.moovTag = ISOBMFF.urnTag; decide) ?_
        simp only [vpayload, vtag] at hq2 hlen ⊢
        rw [seekCur_cast]
        simp only [bnd]
        have hq3 : D.drop (q + 8 + (vserializeList cs2).length) = vserializeList cs' ++ rest := by
          rw [show (q + 8 + (vserializeList cs2).length) = (q + 8) + (vserializeList cs2).length from by omega,
            ← List.drop_drop, hq2, List.drop_left]
        have htail := (IH (vserializeList cs').length (by omega)).2.2.2.2.2.2.2.2
          cs' D rest (q + 8 + (vserializeList cs2).length) ind f ce (le_refl _) hwcs hind (by omega) hq3
          (by rw [hce, hlen]; push_cast; omega)
        rw [htail, hlen,
          show (q + 8 + (vserializeList cs2).length) + (vserializeList cs').length =
            q + (8 + (vserializeList cs2).length + (vserializeList cs').length) from by omega]
      | trakB cs2 =>
        refine drefLoop_step_skip hlt hbox (by show ¬ ISOBMFF.trakTag = ISOBMFF.urlTag; decide) (by show ¬ ISOBMFF.trakTag = ISOBMFF.urnTag; decide) ?_
        simp only [vpayload, vtag] at hq2 hlen ⊢
        rw [seekCur_cast]
        simp only [bnd]
        have hq3 : D.drop (q + 8 + (vserializeList cs2).length) = vserializeList cs' ++ rest := by
          rw [show (q + 8 + (vserializeList cs2).length) = (q + 8) + (vserializeList cs2).length from by omega,
            ← List.drop_drop, hq2, List.drop_left]
        have htail := (IH (vserializeList cs').length (by omega)).2.2.2.2.2.2.2.2
          cs' D rest (q + 8 + (vserializeList cs2).length) ind f ce (le_refl _) hwcs hind (by omega) hq3
          (by rw [hce, hlen]; push_cast; omega)
        rw [htail, hlen,
          show (q + 8 + (vserializeList cs2).length) + (vserializeList cs').length =
            q + (8 + (vserializeList cs2).length + (vserializeList cs').length) from by omega]
      | mdiaB cs2 =>
        refine drefLoop_step_skip hlt hbox (by show ¬ ISOBMFF.mdiaTag = ISOBMFF.urlTag; decide) (by show ¬ ISOBMFF.mdiaTag = ISOBMFF.urnTag; decide) ?_
        simp only [vpayload, vtag] at hq2 hlen ⊢
        rw [seekCur_cast]
        simp only [bnd]
        have hq3 : D.drop (q + 8 + (vserializeList cs2).length) = vserializeList cs' ++ rest := by
          rw [show (q + 8 + (vserializeList cs2).length) = (q + 8) + (vserializeList cs2).length from by omega,
            ← List.drop_drop, hq2, List.drop_left]
        have htail := (IH (vserializeList cs').length (by omega)).2.2.2.2.2.2.2.2
          cs' D rest (q + 8 + (vserializeList cs2).length) ind f ce (le_refl _) hwcs hind (by omega) hq3
          (by rw [hce, hlen]; push_cast; omega)
        rw [htail, hlen,
          show (q + 8 + (vserializeList cs2).length) + (vserializeList cs').length =
            q + (8 + (vserializeList cs2).length + (vserializeList cs').length) from by omega]
      | minfB cs2 =>
        refine drefLoop_step_skip hlt hbox (by show ¬ ISOBMFF.minfTag = ISOBMFF.urlTag; decide) (by show ¬ ISOBMFF.minfTag = ISOBMFF.urnTag; decide) ?_
        simp only [vpayload, vtag] at hq2 hlen ⊢
        rw [seekCur_cast]
        simp only [bnd]
        have hq3 : D.drop (q + 8 + (vserializeList cs2).length) = vserializeList cs' ++ rest := by
          rw [show (q + 8 + (vserializeList cs2).length) = (q + 8) + (vserializeList cs2).length from by omega,
            ← List.drop_drop, hq2, List.drop_left]
        have htail := (IH (vserializeList cs').length (by omega)).2.2.2.2.2.2.2.2
          cs' D rest (q + 8 + (vserializeList cs2).length) ind f ce (le_refl _) hwcs hind (by omega) hq3
          (by rw [hce, hlen]; push_cast; omega)
        rw [htail, hlen,
          show (q + 8 + (vserializeList cs2).length) + (vserializeList cs').length =
            q + (8 + (vserializeList cs2).length + (vserializeList cs').length) from by omega]
      | dinfB cs2 =>
        refine drefLoop_step_skip hlt hbox (by show ¬ ISOBMFF.dinfTag = ISOBMFF.urlTag; decide) (by show ¬ ISOBMFF.dinfTag = ISOBMFF.urnTag; decide) ?_
        simp only [vpayload, vtag] at hq2 hlen ⊢
        rw [seekCur_cast]
        simp only [bnd]
        have hq3 : D.drop (q + 8 + (vserializeList cs2).length) = vserializeList cs' ++ rest := by
          rw [show (q + 8 + (vserializeList cs2).length) = (q + 8) + (vserializeList cs2).length from by omega,
            ← List.drop_drop, hq2, List.drop_left]
        have htail := (IH (vserializeList cs').length (by omega)).2.2.2.2.2.2.2.2
          cs' D rest (q + 8 + (vserializeList cs2).length) ind f ce (le_refl _) hwcs hind (by omega) hq3
          (by rw [hce, hlen]; push_cast; omega)
        rw [htail, hlen,
          show (q + 8 + (vserializeList cs2).length) + (vserializeList cs').length =
            q + (8 + (vserializeList cs2).length + (vserializeList cs').length) from by omega]
      | edtsB cs2 =>
        refine drefLoop_step_skip hlt hbox (by show ¬ ISOBMFF.edtsTag = ISOBMFF.urlTag; decide) (by show ¬ ISOBMFF.edtsTag = ISOBMFF.urnTag; decide) ?_
        simp only [vpayload, vtag] at hq2 hlen ⊢
        rw [seekCur_cast]
        simp only [bnd]
        have hq3 : D.drop (q + 8 + (vserializeList cs2).length) = vserializeList cs' ++ rest := by
          rw [show (q + 8 + (vserializeList cs2).length) = (q + 8) + (vserializeList cs2).length from by omega,
            ← List.drop_drop, hq2, List.drop_left]
        have htail := (IH (vserializeList cs').length (by omega)).2.2.2.2.2.2.2.2
          cs' D rest (q + 8 + (vserializeList cs2).length) ind f ce (le_refl _) hwcs hind (by omega) hq3
          (by rw [hce, hlen]; push_cast; omega)
        rw [htail, hlen,
          show (q + 8 + (vserializeList cs2).length) + (vserializeList cs').length =
            q + (8 + (vserializeList cs2).length + (vserializeList cs').length) from by omega]
      | udtaB cs2 =>
        refine drefLoop_step_skip hlt hbox (by show ¬ ISOBMFF.udtaTag = ISOBMFF.urlTag; decide) (by show ¬ ISOBMFF.udtaTag = ISOBMFF.urnTag; decide) ?_
        simp only [vpayload, vtag] at hq2 hlen ⊢
        rw [seekCur_cast]
        simp only [bnd]
        have hq3 : D.drop (q + 8 + (vserializeList cs2).length) = vserializeList cs' ++ rest := by
          rw [show (q + 8 + (vserializeList cs2).length) = (q + 8) + (vserializeList cs2).length from by omega,
            ← List.drop_drop, hq2, List.drop_left]
        have htail := (IH (vserializeList cs').length (by omega)).2.2.2.2.2.2.2.2
          cs' D rest (q + 8 + (vserializeList cs2).length) ind f ce (le_refl _) hwcs hind (by omega) hq3
          (by rw [hce, hlen]; push_cast; omega)
        rw [htail, hlen,
          show (q + 8 + (vserializeList cs2).length) + (vserializeList cs').length =
            q + (8 + (vserializeList cs2).length + (vserializeList cs').length) from by omega]
      | stblB cs2 =>
        refine drefLoop_step_skip hlt hbox (by show ¬ ISOBMFF.stblTag = ISOBMFF.urlTag; decide) (by show ¬ ISOBMFF.stblTag = ISOBMFF.urnTag; decide) ?_
        simp only [vpayload, vtag] at hq2 hlen ⊢
        rw [seekCur_cast]
        simp only [bnd]
        have hq3 : D.drop (q + 8 + (vserializeList cs2).length) = vserializeList cs' ++ rest := by
          rw [show (q + 8 + (vserializeList cs2).length) = (q + 8) + (vserializeList cs2).length from by omega,
            ← List.drop_drop, hq2, List.drop_left]
        have htail := (IH (vserializeList cs').length (by omega)).2.2.2.2.2.2.2.2
          cs' D rest (q + 8 + (vserializeList cs2).length) ind f ce (le_refl _) hwcs hind (by omega) hq3
          (by rw [hce, hlen]; push_cast; omega)
        rw [htail, hlen,
          show (q + 8 + (vserializeList cs2).length) + (vserializeList cs').length =
            q + (8 + (vserializeList cs2).length + (vserializeList cs').length) from by omega]
      | drefB hd cs2 =>
        refine drefLoop_step_skip hlt hbox (by show ¬ ISOBMFF.drefTag = ISOBMFF.urlTag; decide) (by show ¬ ISOBMFF.drefTag = ISOBMFF.urnTag; decide) ?_
        simp only [vpayload, vtag] at hq2 hlen ⊢
        rw [seekCur_cast]
        simp only [bnd]
        have hq3 : D.drop (q + 8 + (hd ++ vserializeList cs2).length) = vserializeList cs' ++ rest := by
          rw [show (q + 8 + (hd ++ vserializeList cs2).length) = (q + 8) + (hd ++ vserializeList cs2).length from by omega,
            ← List.drop_drop, hq2, List.drop_left]
        have htail := (IH (vserializeList cs').length (by omega)).2.2.2.2.2.2.2.2
          cs' D rest (q + 8 + (hd ++ vserializeList cs2).length) ind f ce (le_refl _) hwcs hind (by omega) hq3
          (by rw [hce, hlen]; push_cast; omega)
        rw [htail, hlen,
          show (q + 8 + (hd ++ vserializeList cs2).length) + (vserializeList cs').length =
            q + (8 + (hd ++ vserializeList cs2).length + (vserializeList cs').length) from by omega]
set_option maxHeartbeats 4000000 in
/-- The top-level walk over a file that is exactly the serialization of a
well-formed box list: every box is visited and dispatched, producing the
expected trace and count, with the cursor at the end of the file and the
indent restored. -/
theorem scanLoopV : ∀ (cs : List VBox) (fuel : Nat)
    (acc : List ISOBMFF.TraceEntry) (cnt : Nat) (D : List Nat) (q : Nat)
    (ind : Int), vwfList cs = true → 0 ≤ ind →
    (vserializeList cs).length < fuel → D.drop q = vserializeList cs →
    ISOBMFF.scanLoop fuel acc cnt ⟨D, q, ind⟩ =
      .ok ((acc ++ vboxTrace cs q, cnt + cs.length),
           ⟨D, q + (vserializeList cs).length, ind⟩) := by
  intro cs
  induction cs with
  | nil =>
    intro fuel acc cnt D q ind hwf hind hfuel hq
    obtain ⟨f, rfl⟩ : ∃ f, fuel = f + 1 := ⟨fuel - 1, by omega⟩
    rw [scanLoop_exit (by
      show ¬ (q < D.length)
      have := congrArg List.length hq
      simp [vserializeList] at this
      omega)]
    simp [vboxTrace, vserializeList]
  | cons b cs' IH =>
    intro fuel acc cnt D q ind hwf hind hfuel hq
    have hwb : vwf b = true := by
      have h := hwf
      simp only [vwfList, Bool.and_eq_true] at h
      exact h.1
    have hwcs : vwfList cs' = true := by
      have h := hwf
      simp only [vwfList, Bool.and_eq_true] at h
      exact h.2
    have ht4 : (vtag b).length = 4 := vtag_length hwb
    have hsz : (vpayload b).length + 8 < 4294967296 := vwf_size hwb
    have hlen : (vserializeList (b :: cs')).length =
        (8 + (vpayload b).length) + (vserializeList cs').length :=
      vserializeList_cons_length hwb
    obtain ⟨f, rfl⟩ : ∃ f, fuel = f + 1 := ⟨fuel - 1, by omega⟩
    have hq1 : D.drop q = mkBox (vtag b) (vpayload b) ++
        vserializeList cs' := by
      rw [hq]
      rfl
    have hq2 : D.drop (q + 8) = vpayload b ++ vserializeList cs' := by
      rw [← List.drop_drop, hq1,
        List.drop_append_of_le_length (by rw [mkBox_length ht4]; omega),
        mkBox_drop8 ht4]
    have hbox := @scan_box_run D (vserializeList cs')
      (vtag b) (vpayload b) q ind hq1 ht4 hsz
    have hlt : (⟨D, q, ind⟩ : St).pos < (⟨D, q, ind⟩ : St).data.length := by
      show q < D.length
      have := congrArg List.length hq
      simp at this
      omega
    cases b with
    | generic tag p =>
      have gtn := generic_tags_ne (vwf_generic hwb).2.1
      refine scanLoop_step_skip hlt hbox gtn.1 gtn.2.1 ?_
      simp only [vpayload, vtag] at hq2 hlen ⊢
      rw [seekCur_cast]
      simp only [bnd]
      have hq3 : D.drop (q + 8 + p.length) = vserializeList cs' := by
        rw [show (q + 8 + p.length) = (q + 8) + p.length from by omega,
          ← List.drop_drop, hq2, List.drop_left]
      rw [IH f _ (cnt + 1) D (q + 8 + p.length) ind hwcs hind (by omega) hq3]
      simp only [vboxTrace, vtag, vpayload, List.length_cons,
        List.append_assoc, List.singleton_append]
      rw [show q + (8 + p.length) = q + 8 + p.length from by omega, hlen,
        show q + 8 + p.length + (vserializeList cs').length =
          q + (8 + p.length + (vserializeList cs').length) from by omega,
        show cnt + 1 + cs'.length = cnt + (cs'.length + 1) from by omega]
    | ftypB p =>
      refine scanLoop_step_ftyp hlt hbox rfl ?_
      simp only [vpayload, vtag] at hq2 hlen ⊢
      obtain ⟨o, ho⟩ := scan_ftyp_run ((p.length : Int)) hq2 hwb hind rfl
      rw [ho]
      simp only [bnd]
      have hq3 : D.drop (q + 8 + p.length) = vserializeList cs' := by
        rw [show (q + 8 + p.length) = (q + 8) + p.length from by omega,
          ← List.drop_drop, hq2, List.drop_left]
      rw [IH f _ (cnt + 1) D (q + 8 + p.length) ind hwcs hind (by omega) hq3]
      simp only [vboxTrace, vtag, vpayload, List.length_cons,
        List.append_assoc, List.singleton_append]
      rw [show q + (8 + p.length) = q + 8 + p.length from by omega, hlen,
        show q + 8 + p.length + (vserializeList cs').length =
          q + (8 + p.length + (vserializeList cs').length) from by omega,
        show cnt + 1 + cs'.length = cnt + (cs'.length + 1) from by omega]
    | mvhdB p =>
      refine scanLoop_step_skip hlt hbox (by show ¬ ISOBMFF.mvhdTag = ISOBMFF.ftypTag; decide) (by show ¬ ISOBMFF.mvhdTag = ISOBMFF.moovTag; decide) ?_
      simp only [vpayload, vtag] at hq2 hlen ⊢
      rw [seekCur_cast]
      simp only [bnd]
      have hq3 : D.drop (q + 8 + p.length) = vserializeList cs' := by
        rw [show (q + 8 + p.length) = (q + 8) + p.length from by omega,
          ← List.drop_drop, hq2, List.drop_left]
      rw [IH f _ (cnt + 1) D (q + 8 + p.length) ind hwcs hind (by omega) hq3]
      simp only [vboxTrace, vtag, vpayload, List.length_cons,
        List.append_assoc, List.singleton_append]
      rw [show q + (8 + p.length) = q + 8 + p.length from by omega, hlen,
        show q + 8 + p.length + (vserializeList cs').length =
          q + (8 + p.length + (vserializeList cs').length) from by omega,
        show cnt + 1 + cs'.length = cnt + (cs'.length + 1) from by omega]
    | tkhdB p =>
      refine scanLoop_step_skip hlt hbox (by show ¬ ISOBMFF.tkhdTag = ISOBMFF.ftypTag; decide) (by show ¬ ISOBMFF.tkhdTag = ISOBMFF.moovTag; decide) ?_
      simp only [vpayload, vtag] at hq2 hlen ⊢
      rw [seekCur_cast]
      simp only [bnd]
      have hq3 : D.drop (q + 8 + p.length) = vserializeList cs' := by
        rw [show (q + 8 + p.length) = (q + 8) + p.length from by omega,
          ← List.drop_drop, hq2, List.drop_left]
      rw [IH f _ (cnt + 1) D (q + 8 + p.length) ind hwcs hind (by omega) hq3]
      simp only [vboxTrace, vtag, vpayload, List.length_cons,
        List.append_assoc, List.singleton_append]
      rw [show q + (8 + p.length) = q + 8 + p.length from by omega, hlen,
        show q + 8 + p.length + (vserializeList cs').length =
          q + (8 + p.length + (vserializeList cs').length) from by omega,
        show cnt + 1 + cs'.length = cnt + (cs'.length + 1) from by omega]
    | mdhdB p =>
      refine scanLoop_step_skip hlt hbox (by show ¬ ISOBMFF.mdhdTag = ISOBMFF.ftypTag; decide) (by show ¬ ISOBMFF.mdhdTag = ISOBMFF.moovTag; decide) ?_
      simp only [vpayload, vtag] at hq2 hlen ⊢
      rw [seekCur_cast]
      simp only [bnd]
      have hq3 : D.drop (q + 8 + p.length) = vserializeList cs' := by
        rw [show (q + 8 + p.length) = (q + 8) + p.length from by omega,
          ← List.drop_drop, hq2, List.drop_left]
      rw [IH f _ (cnt + 1) D (q + 8 + p.length) ind hwcs hind (by omega) hq3]
      simp only [vboxTrace, vtag, vpayload, List.length_cons,
        List.append_assoc, List.singleton_append]
      rw [show q + (8 + p.length) = q + 8 + p.length from by omega, hlen,
        show q + 8 + p.length + (vserializeList cs').length =
          q + (8 + p.length + (vserializeList cs').length) from by omega,
        show cnt + 1 + cs'.length = cnt + (cs'.length + 1) from by omega]
    | hdlrB p =>
      refine scanLoop_step_skip hlt hbox (by show ¬ ISOBMFF.hdlrTag = ISOBMFF.ftypTag; decide) (by show ¬ ISOBMFF.hdlrTag = ISOBMFF.moovTag; decide) ?_
      simp only [vpayload, vtag] at hq2 hlen ⊢
      rw [seekCur_cast]
      simp only [bnd]
      have hq3 : D.drop (q + 8 + p.length) = vserializeList cs' := by
        rw [show (q + 8 + p.length) = (q + 8) + p.length from by omega,
          ← List.drop_drop, hq2, List.drop_left]
      rw [IH f _ (cnt + 1) D (q + 8 + p.length) ind hwcs hind (by omega) hq3]
      simp only [vboxTrace, vtag, vpayload, List.length_cons,
        List.append_assoc, List.singleton_append]
      rw [show q + (8 + p.length) = q + 8 + p.length from by omega, hlen,
        show q + 8 + p.length + (vserializeList cs').length =
          q + (8 + p.length + (vserializeList cs').length) from by omega,
        show cnt + 1 + cs'.length = cnt + (cs'.length + 1) from by omega]
    | vmhdB p =>
      refine scanLoop_step_skip hlt hbox (by show ¬ ISOBMFF.vmhdTag = ISOBMFF.ftypTag; decide) (by show ¬ ISOBMFF.vmhdTag = ISOBMFF.moovTag; decide) ?_
      simp only [vpayload, vtag] at hq2 hlen ⊢
      rw [seekCur_cast]
      simp only [bnd]
      have hq3 : D.drop (q + 8 + p.length) = vserializeList cs' := by
        rw [show (q + 8 + p.length) = (q + 8) + p.length from by omega,
          ← List.drop_drop, hq2, List.drop_left]
      rw [IH f _ (cnt + 1) D (q + 8 + p.length) ind hwcs hind (by omega) hq3]
      simp only [vboxTrace, vtag, vpayload, List.length_cons,
        List.append_assoc, List.singleton_append]
      rw [show q + (8 + p.length) = q + 8 + p.length from by omega, hlen,
        show q + 8 + p.length + (vserializeList cs').length =
          q + (8 + p.length + (vserializeList cs').length) from by omega,
        show cnt + 1 + cs'.length = cnt + (cs'.length + 1) from by omega]
    | smhdB p =>
      refine scanLoop_step_skip hlt hbox (by show ¬ ISOBMFF.smhdTag = ISOBMFF.ftypTag; decide) (by show ¬ ISOBMFF.smhdTag = ISOBMFF.moovTag; decide) ?_
      simp only [vpayload, vtag] at hq2 hlen ⊢
      rw [seekCur_cast]
      simp only [bnd]
      have hq3 : D.drop (q + 8 + p.length) = vserializeList cs' := by
        rw [show (q + 8 + p.length) = (q + 8) + p.length from by omega,
          ← List.drop_drop, hq2, List.drop_left]
      rw [IH f _ (cnt + 1) D (q + 8 + p.length) ind hwcs hind (by omega) hq3]
      simp only [vboxTrace, vtag, vpayload, List.length_cons,
        List.append_assoc, List.singleton_append]
      rw [show q + (8 + p.length) = q + 8 + p.length from by omega, hlen,
        show q + 8 + p.length + (vserializeList cs').length =
          q + (8 + p.length + (vserializeList cs').length) from by omega,
        show cnt + 1 + cs'.length = cnt + (cs'.length + 1) from by omega]
    | hmhdB p =>
      refine scanLoop_step_skip hlt hbox (by show ¬ ISOBMFF.hmhdTag = ISOBMFF.ftypTag; decide) (by show ¬ ISOBMFF.hmhdTag = ISOBMFF.moovTag; decide) ?_
      simp only [vpayload, vtag] at hq2 hlen ⊢
      rw [seekCur_cast]
      simp only [bnd]
      have hq3 : D.drop (q + 8 + p.length) = vserializeList cs' := by
        rw [show (q + 8 + p.length) = (q + 8) + p.length from by omega,
          ← List.drop_drop, hq2, List.drop_left]
      rw [IH f _ (cnt + 1) D (q + 8 + p.length) ind hwcs hind (by omega) hq3]
      simp only [vboxTrace, vtag, vpayload, List.length_cons,
        List.append_assoc, List.singleton_append]
      rw [show q + (8 + p.length) = q + 8 + p.length from by omega, hlen,
        show q + 8 + p.length + (vserializeList cs').length =
          q + (8 + p.length + (vserializeList cs').length) from by omega,
        show cnt + 1 + cs'.length = cnt + (cs'.length + 1) from by omega]
    | nmhdB p =>
      refine scanLoop_step_skip hlt hbox (by show ¬ ISOBMFF.nmhdTag = ISOBMFF.ftypTag; decide) (by show ¬ ISOBMFF.nmhdTag = ISOBMFF.moovTag; decide) ?_
      simp only [vpayload, vtag] at hq2 hlen ⊢
      rw [seekCur_cast]
      simp only [bnd]
      have hq3 : D.drop (q + 8 + p.length) = vserializeList cs' := by
        rw [show (q + 8 + p.length) = (q + 8) + p.length from by omega,
          ← List.drop_drop, hq2, List.drop_left]
      rw [IH f _ (cnt + 1) D (q + 8 + p.length) ind hwcs hind (by omega) hq3]
      simp only [vboxTrace, vtag, vpayload, List.length_cons,
        List.append_assoc, List.singleton_append]
      rw [show q + (8 + p.length) = q + 8 + p.length from by omega, hlen,
        show q + 8 + p.length + (vserializeList cs').length =
          q + (8 + p.length + (vserializeList cs').length) from by omega,
        show cnt + 1 + cs'.length = cnt + (cs'.length + 1) from by omega]
    | elstB p =>
      refine scanLoop_step_skip hlt hbox (by show ¬ ISOBMFF.elstTag = ISOBMFF.ftypTag; decide) (by show ¬ ISOBMFF.elstTag = ISOBMFF.moovTag; decide) ?_
      simp only [vpayload, vtag] at hq2 hlen ⊢
      rw [seekCur_cast]
      simp only [bnd]
      have hq3 : D.drop (q + 8 + p.length) = vserializeList cs' := by
        rw [show (q + 8 + p.length) = (q + 8) + p.length from by omega,
          ← List.drop_drop, hq2, List.drop_left]
      rw [IH f _ (cnt + 1) D (q + 8 + p.length) ind hwcs hind (by omega) hq3]
      simp only [vboxTrace, vtag, vpayload, List.length_cons,
        List.append_assoc, List.singleton_append]
      rw [show q + (8 + p.length) = q + 8 + p.length from by omega, hlen,
        show q + 8 + p.length + (vserializeList cs').length =
          q + (8 + p.length + (vserializeList cs').length) from by omega,
        show cnt + 1 + cs'.length = cnt + (cs'.length + 1) from by omega]
    | urlB p =>
      refine scanLoop_step_skip hlt hbox (by show ¬ ISOBMFF.urlTag = ISOBMFF.ftypTag; decide) (by show ¬ ISOBMFF.urlTag = ISOBMFF.moovTag; decide) ?_
      simp only [vpayload, vtag] at hq2 hlen ⊢
      rw [seekCur_cast]
      simp only [bnd]
      have hq3 : D.drop (q + 8 + p.length) = vserializeList cs' := by
        rw [show (q + 8 + p.length) = (q + 8) + p.length from by omega,
          ← List.drop_drop, hq2, List.drop_left]
      rw [IH f _ (cnt + 1) D (q + 8 + p.length) ind hwcs hind (by omega) hq3]
      simp only [vboxTrace, vtag, vpayload, List.length_cons,
        List.append_assoc, List.singleton_append]
      rw [show q + (8 + p.length) = q + 8 + p.length from by omega, hlen,
        show q + 8 + p.length + (vserializeList cs').length =
          q + (8 + p.length + (vserializeList cs').length) from by omega,
        show cnt + 1 + cs'.length = cnt + (cs'.length + 1) from by omega]
    | urnB p =>
      refine scanLoop_step_skip hlt hbox (by show ¬ ISOBMFF.urnTag = ISOBMFF.ftypTag; decide) (by show ¬ ISOBMFF.urnTag = ISOBMFF.moovTag; decide) ?_
      simp only [vpayload, vtag] at hq2 hlen ⊢
      rw [seekCur_cast]
      simp only [bnd]
      have hq3 : D.drop (q + 8 + p.length) = vserializeList cs' := by
        rw [show (q + 8 + p.length) = (q + 8) + p.length from by omega,
          ← List.drop_drop, hq2, List.drop_left]
      rw [IH f _ (cnt + 1) D (q + 8 + p.length) ind hwcs hind (by omega) hq3]
      simp only [vboxTrace, vtag, vpayload, List.length_cons,
        List.append_assoc, List.singleton_append]
      rw [show q + (8 + p.length) = q + 8 + p.length from by omega, hlen,
        show q + 8 + p.length + (vserializeList cs').length =
          q + (8 + p.length + (vserializeList cs').length) from by omega,
        show cnt + 1 + cs'.length = cnt + (cs'.length + 1) from by omega]
    | moovB cs2 =>
      refine scanLoop_step_moov hlt hbox rfl ?_
      simp only [vpayload, vtag] at hq2 hlen ⊢
      have hw2 : vwfList cs2 = true ∧
          (vserializeList cs2).length + 8 < 4294967296 := by
        simpa [vwf, Bool.and_eq_true, decide_eq_true_eq] using hwb
      simp only [ISOBMFF.scan_moov, ipush]
      have hchild := (loopsRun (vserializeList cs2).length).1
        cs2 D (vserializeList cs') (q + 8) (ind + 1) f
        (((q + 8 : Nat) : Int) + ((vserializeList cs2).length : Int))
        (le_refl _) hw2.1 (by omega) (by omega) hq2 rfl
      rw [hchild]
      simp only [bndU]
      have hip : ipop (⟨D, q + 8 + (vserializeList cs2).length,
          ind + 1⟩ : St) =
          ⟨D, q + 8 + (vserializeList cs2).length, ind⟩ := by
        rw [ipop_of_pos (by simp; omega)]
        simp
      rw [hip]
      have hq3 : D.drop (q + 8 + (vserializeList cs2).length) = vserializeList cs' := by
        rw [show (q + 8 + (vserializeList cs2).length) = (q + 8) + (vserializeList cs2).length from by omega,
          ← List.drop_drop, hq2, List.drop_left]
      rw [IH f _ (cnt + 1) D (q + 8 + (vserializeList cs2).length) ind hwcs hind (by omega) hq3]
      simp only [vboxTrace, vtag, vpayload, List.length_cons,
        List.append_assoc, List.singleton_append]
      rw [show q + (8 + (vserializeList cs2).length) = q + 8 + (vserializeList cs2).length from by omega, hlen,
        show q + 8 + (vserializeList cs2).length + (vserializeList cs').length =
          q + (8 + (vserializeList cs2).length + (vserializeList cs').length) from by omega,
        show cnt + 1 + cs'.length = cnt + (cs'.length + 1) from by omega]
    | trakB cs2 =>
      refine scanLoop_step_skip hlt hbox (by show ¬ ISOBMFF.trakTag = ISOBMFF.ftypTag; decide) (by show ¬ ISOBMFF.trakTag = ISOBMFF.moovTag; decide) ?_
      simp only [vpayload, vtag] at hq2 hlen ⊢
      rw [seekCur_cast]
      simp only [bnd]
      have hq3 : D.drop (q + 8 + (vserializeList cs2).length) = vserializeList cs' := by
        rw [show (q + 8 + (vserializeList cs2).length) = (q + 8) + (vserializeList cs2).length from by omega,
          ← List.drop_drop, hq2, List.drop_left]
      rw [IH f _ (cnt + 1) D (q + 8 + (vserializeList cs2).length) ind hwcs hind (by omega) hq3]
      simp only [vboxTrace, vtag, vpayload, List.length_cons,
        List.append_assoc, List.singleton_append]
      rw [show q + (8 + (vserializeList cs2).length) = q + 8 + (vserializeList cs2).length from by omega, hlen,
        show q + 8 + (vserializeList cs2).length + (vserializeList cs').length =
          q + (8 + (vserializeList cs2).length + (vserializeList cs').length) from by omega,
        show cnt + 1 + cs'.length = cnt + (cs'.length + 1) from by omega]
    | mdiaB cs2 =>
      refine scanLoop_step_skip hlt hbox (by show ¬ ISOBMFF.mdiaTag = ISOBMFF.ftypTag; decide) (by show ¬ ISOBMFF.mdiaTag = ISOBMFF.moovTag; decide) ?_
      simp only [vpayload, vtag] at hq2 hlen ⊢
      rw [seekCur_cast]
      simp only [bnd]
      have hq3 : D.drop (q + 8 + (vserializeList cs2).length) = vserializeList cs' := by
        rw [show (q + 8 + (vserializeList cs2).length) = (q + 8) + (vserializeList cs2).length from by omega,
          ← List.drop_drop, hq2, List.drop_left]
      rw [IH f _ (cnt + 1) D (q + 8 + (vserializeList cs2).length) ind hwcs hind (by omega) hq3]
      simp only [vboxTrace, vtag, vpayload, List.length_cons,
        List.append_assoc, List.singleton_append]
      rw [show q + (8 + (vserializeList cs2).length) = q + 8 + (vserializeList cs2).length from by omega, hlen,
        show q + 8 + (vserializeList cs2).length + (vserializeList cs').length =
          q + (8 + (vserializeList cs2).length + (vserializeList cs').length) from by omega,
        show cnt + 1 + cs'.length = cnt + (cs'.length + 1) from by omega]
    | minfB cs2 =>
      refine scanLoop_step_skip hlt hbox (by show ¬ ISOBMFF.minfTag = ISOBMFF.ftypTag; decide) (by show ¬ ISOBMFF.minfTag = ISOBMFF.moovTag; decide) ?_
      simp only [vpayload, vtag] at hq2 hlen ⊢
      rw [seekCur_cast]
      simp only [bnd]
      have hq3 : D.drop (q + 8 + (vserializeList cs2).length) = vserializeList cs' := by
        rw [show (q + 8 + (vserializeList cs2).length) = (q + 8) + (vserializeList cs2).length from by omega,
          ← List.drop_drop, hq2, List.drop_left]
      rw [IH f _ (cnt + 1) D (q + 8 + (vserializeList cs2).length) ind hwcs hind (by omega) hq3]
      simp only [vboxTrace, vtag, vpayload, List.length_cons,
        List.append_assoc, List.singleton_append]
      rw [show q + (8 + (vserializeList cs2).length) = q + 8 + (vserializeList cs2).length from by omega, hlen,
        show q + 8 + (vserializeList cs2).length + (vserializeList cs').length =
          q + (8 + (vserializeList cs2).length + (vserializeList cs').length) from by omega,
        show cnt + 1 + cs'.length = cnt + (cs'.length + 1) from by omega]
    | dinfB cs2 =>
      refine scanLoop_step_skip hlt hbox (by show ¬ ISOBMFF.dinfTag = ISOBMFF.ftypTag; decide) (by show ¬ ISOBMFF.dinfTag = ISOBMFF.moovTag; decide) ?_
      simp only [vpayload, vtag] at hq2 hlen ⊢
      rw [seekCur_cast]
      simp only [bnd]
      have hq3 : D.drop (q + 8 + (vserializeList cs2).length) = vserializeList cs' := by
        rw [show (q + 8 + (vserializeList cs2).length) = (q + 8) + (vserializeList cs2).length from by omega,
          ← List.drop_drop, hq2, List.drop_left]
      rw [IH f _ (cnt + 1) D (q + 8 + (vserializeList cs2).length) ind hwcs hind (by omega) hq3]
      simp only [vboxTrace, vtag, vpayload, List.length_cons,
        List.append_assoc, List.singleton_append]
      rw [show q + (8 + (vserializeList cs2).length) = q + 8 + (vserializeList cs2).length from by omega, hlen,
        show q + 8 + (vserializeList cs2).length + (vserializeList cs').length =
          q + (8 + (vserializeList cs2).length + (vserializeList cs').length) from by omega,
        show cnt + 1 + cs'.length = cnt + (cs'.length + 1) from by omega]
    | edtsB cs2 =>
      refine scanLoop_step_skip hlt hbox (by show ¬ ISOBMFF.edtsTag = ISOBMFF.ftypTag; decide) (by show ¬ ISOBMFF.edtsTag = ISOBMFF.moovTag; decide) ?_
      simp only [vpayload, vtag] at hq2 hlen ⊢
      rw [seekCur_cast]
      simp only [bnd]
      have hq3 : D.drop (q + 8 + (vserializeList cs2).length) = vserializeList cs' := by
        rw [show (q + 8 + (vserializeList cs2).length) = (q + 8) + (vserializeList cs2).length from by omega,
          ← List.drop_drop, hq2, List.drop_left]
      rw [IH f _ (cnt + 1) D (q + 8 + (vserializeList cs2).length) ind hwcs hind (by omega) hq3]
      simp only [vboxTrace, vtag, vpayload, List.length_cons,
        List.append_assoc, List.singleton_append]
      rw [show q + (8 + (vserializeList cs2).length) = q + 8 + (vserializeList cs2).length from by omega, hlen,
        show q + 8 + (vserializeList cs2).length + (vserializeList cs').length =
          q + (8 + (vserializeList cs2).length + (vserializeList cs').length) from by omega,
        show cnt + 1 + cs'.length = cnt + (cs'.length + 1) from by omega]
    | udtaB cs2 =>
      refine scanLoop_step_skip hlt hbox (by show ¬ ISOBMFF.udtaTag = ISOBMFF.ftypTag; decide) (by show ¬ ISOBMFF.udtaTag = ISOBMFF.moovTag; decide) ?_
      simp only [vpayload, vtag] at hq2 hlen ⊢
      rw [seekCur_cast]
      simp only [bnd]
      have hq3 : D.drop (q + 8 + (vserializeList cs2).length) = vserializeList cs' := by
        rw [show (q + 8 + (vserializeList cs2).length) = (q + 8) + (vserializeList cs2).length from by omega,
          ← List.drop_drop, hq2, List.drop_left]
      rw [IH f _ (cnt + 1) D (q + 8 + (vserializeList cs2).length) ind hwcs hind (by omega) hq3]
      simp only [vboxTrace, vtag, vpayload, List.length_cons,
        List.append_assoc, List.singleton_append]
      rw [show q + (8 + (vserializeList cs2).length) = q + 8 + (vserializeList cs2).length from by omega, hlen,
        show q + 8 + (vserializeList cs2).length + (vserializeList cs').length =
          q + (8 + (vserializeList cs2).length + (vserializeList cs').length) from by omega,
        show cnt + 1 + cs'.length = cnt + (cs'.length + 1) from by omega]
    | stblB cs2 =>
      refine scanLoop_step_skip hlt hbox (by show ¬ ISOBMFF.stblTag = ISOBMFF.ftypTag; decide) (by show ¬ ISOBMFF.stblTag = ISOBMFF.moovTag; decide) ?_
      simp only [vpayload, vtag] at hq2 hlen ⊢
      rw [seekCur_cast]
      simp only [bnd]
      have hq3 : D.drop (q + 8 + (vserializeList cs2).length) = vserializeList cs' := by
        rw [show (q + 8 + (vserializeList cs2).length) = (q + 8) + (vserializeList cs2).length from by omega,
          ← List.drop_drop, hq2, List.drop_left]
      rw [IH f _ (cnt + 1) D (q + 8 + (vserializeList cs2).length) ind hwcs hind (by omega) hq3]
      simp only [vboxTrace, vtag, vpayload, List.length_cons,
        List.append_assoc, List.singleton_append]
      rw [show q + (8 + (vserializeList cs2).length) = q + 8 + (vserializeList cs2).length from by omega, hlen,
        show q + 8 + (vserializeList cs2).length + (vserializeList cs').length =
          q + (8 + (vserializeList cs2).length + (vserializeList cs').length) from by omega,
        show cnt + 1 + cs'.length = cnt + (cs'.length + 1) from by omega]
    | drefB hd cs2 =>
      refine scanLoop_step_skip hlt hbox (by show ¬ ISOBMFF.drefTag = ISOBMFF.ftypTag; decide) (by show ¬ ISOBMFF.drefTag = ISOBMFF.moovTag; decide) ?_
      simp only [vpayload, vtag] at hq2 hlen ⊢
      rw [seekCur_cast]
      simp only [bnd]
      have hq3 : D.drop (q + 8 + (hd ++ vserializeList cs2).length) = vserializeList cs' := by
        rw [show (q + 8 + (hd ++ vserializeList cs2).length) = (q + 8) + (hd ++ vserializeList cs2).length from by omega,
          ← List.drop_drop, hq2, List.drop_left]
      rw [IH f _ (cnt + 1) D (q + 8 + (hd ++ vserializeList cs2).length) ind hwcs hind (by omega) hq3]
      simp only [vboxTrace, vtag, vpayload, List.length_cons,
        List.append_assoc, List.singleton_append]
      rw [show q + (8 + (hd ++ vserializeList cs2).length) = q + 8 + (hd ++ vserializeList cs2).length from by omega, hlen,
        show q + 8 + (hd ++ vserializeList cs2).length + (vserializeList cs').length =
          q + (8 + (hd ++ vserializeList cs2).length + (vserializeList cs').length) from by omega,
        show cnt + 1 + cs'.length = cnt + (cs'.length + 1) from by omega]

/-- The walker trace of a serialized well-formed box list accounts for
every byte: the reported total sizes sum to the serialized length. -/
theorem vboxTrace_sum : ∀ (cs : List VBox) (pos : Nat),
    vwfList cs = true →
    ((vboxTrace cs pos).map (fun e => e.1)).sum =
      ((vserializeList cs).length : Int) := by
  intro cs
  induction cs with
  | nil => intro pos h; simp [vboxTrace, vserializeList]
  | cons b cs' IH =>
    intro pos h
    have hwb : vwf b = true := by
      have h2 := h
      simp only [vwfList, Bool.and_eq_true] at h2
      exact h2.1
    have hwcs : vwfList cs' = true := by
      have h2 := h
      simp only [vwfList, Bool.and_eq_true] at h2
      exact h2.2
    have hml : (mkBox (vtag b) (vpayload b)).length =
        (vpayload b).length + 8 := mkBox_length (vtag_length hwb)
    simp only [vboxTrace, List.map_cons, List.sum_cons,
      show vserializeList (b :: cs') =
        mkBox (vtag b) (vpayload b) ++ vserializeList cs' from rfl,
      List.length_append, hml]
    rw [IH _ hwcs]
    push_cast
    omega


end Lemmas

/-! The claim theorems. -/

/-- C1 (counterexample): the walker does not resynchronize the cursor
after a decoder returns.  On `c1file` the first box (`ftyp`, box start 0,
header size 8, declared payload length 10) leaves the cursor at 20, not
at `0 + 8 + 10 = 18`: the brand loop over-reads by 2 bytes and the
following sibling (a well-formed `free` box at offset 18) is consequently
misparsed as a garbage box of size 1074802 — the scan of siblings is
desynchronized. -/
theorem C1_cex :
    ISOBMFF.scan 5 (initSt c1file) =
      .ok (([(18, ISOBMFF.ftypTag, 20),
             (1074802, [101, 101, 0, 0], 1074822)], 2),
           { data := c1file, pos := 1074822, indent := 0 }) ∧
    (20 : Nat) ≠ 0 + 8 + 10 := by
  constructor
  · decide
  · decide

/-- C1 (amended): the resynchronization equation holds only on the
walker's skip path.  When a resolved box is routed to the skip branch
(the walker then executes exactly `seekCur skip`), the cursor afterwards
equals `box_start + total_size` (equivalently
`box_start + header_size + payload_length`) in all three size
encodings. -/
theorem C1_amended {s s1 s2 : St} {r : Int × List Nat × Int} {u : Unit}
    (hbox : ISOBMFF.scan_box s = .ok (r, s1))
    (hseek : seekCur r.2.2 s1 = .ok (u, s2)) :
    (s2.pos : Int) = (s.pos : Int) + r.1 := by
  obtain ⟨_, _, _, hsum, _⟩ := scan_box_spec hbox
  obtain ⟨hp, _, _⟩ := seekCur_ok hseek
  omega

/-- C1 (witness): the amended theorem applied to a concrete skipped box
of total size 12. -/
theorem C1_witness :
    ISOBMFF.scan_box (initSt skipFile) =
      .ok ((12, [97, 98, 99, 100], 4), skipMid) ∧
    seekCur 4 skipMid = .ok ((), skipEnd) ∧
    (skipEnd.pos : Int) = ((initSt skipFile).pos : Int) + 12 :=
  ⟨by decide, by decide,
   @C1_amended (initSt skipFile) skipMid skipEnd (12, [97, 98, 99, 100], 4) ()
     (by decide) (by decide)⟩

/-- C2 (counterexample): no overflow check exists.  Inside the `moov` box
of `c2file` (payload range ending at 24) the single child declares
payload length 92 reaching far past the range end; the claim demands a
`BoxOverflow` abort, but `scan_moov` completes without any error, leaving
the cursor at 108 > 24. -/
theorem C2_cex :
    ISOBMFF.scan_moov 4 16 c2sIn = .ok c2sOut ∧
    (24 : Int) < (c2sOut.pos : Int) := by
  constructor
  · decide
  · decide

/-- C2 (amended): the walker never verifies
`position + payload_length ≤ range_end`.  A resolved child on the skip
path whose payload extends to or past the enclosing range's end is
skipped without any error and the loop then terminates normally with the
cursor past `range_end`. -/
theorem C2_amended {fuel : Nat} {chunkend : Int} {s s1 s2 : St}
    {boxsize skip : Int} {boxtype : List Nat} {u : Unit}
    (hlt : (s.pos : Int) < chunkend)
    (hbox : ISOBMFF.scan_box s = .ok ((boxsize, boxtype, skip), s1))
    (hmv : boxtype ≠ ISOBMFF.mvhdTag) (htr : boxtype ≠ ISOBMFF.trakTag)
    (hud : boxtype ≠ ISOBMFF.udtaTag)
    (hseek : seekCur skip s1 = .ok (u, s2))
    (hover : chunkend ≤ (s2.pos : Int)) :
    ISOBMFF.moovLoop (fuel + 2) chunkend s = .ok s2 := by
  have hloop2 : ISOBMFF.moovLoop (fuel + 1) chunkend s2 = .ok s2 := by
    unfold ISOBMFF.moovLoop
    rw [if_neg (by omega)]
  unfold ISOBMFF.moovLoop
  rw [if_pos hlt, hbox]
  simp only
  rw [if_neg hmv, if_neg htr, if_neg hud]
  cases u
  show bnd (seekCur skip s1)
    (fun _ t => ISOBMFF.moovLoop (fuel + 1) chunkend t) = .ok s2
  simp only [hseek, bnd]
  exact hloop2

/-- C2 (witness): the amended theorem applied to the overlong child of
`c2file`. -/
theorem C2_witness :
    ((c2wIn.pos : Int) < 24) ∧
    ISOBMFF.scan_box c2wIn = .ok ((100, [120, 120, 120, 120], 92), c2wMid) ∧
    seekCur 92 c2wMid = .ok ((), c2wOut) ∧
    ((24 : Int) ≤ (c2wOut.pos : Int)) ∧
    ISOBMFF.moovLoop 2 24 c2wIn = .ok c2wOut :=
  ⟨by decide, by decide, by decide, by decide,
   @C2_amended 0 24 c2wIn c2wMid c2wOut 100 92 [120, 120, 120, 120] ()
     (by decide) (by decide) (by decide) (by decide) (by decide)
     (by decide) (by decide)⟩

/-- C3: `scan_box`'s three size encodings.  When the leading 32-bit size
field is 1 the total size is the following 64-bit extended size `S` and
the payload length is `S - 16`; when it is 0 the total size is
`filesize - box_start` and the payload length is that minus 8; otherwise
the total size is the 32-bit value itself and the payload length is it
minus 8. -/
theorem C3_thm {s : St} {r : Int × List Nat × Int} {s1 : St}
    (h : ISOBMFF.scan_box s = .ok (r, s1)) :
    (beNat ((s.data.drop s.pos).take 4) = 1 →
      r.1 = (beNat ((s.data.drop (s.pos + 8)).take 8) : Int) ∧
      r.2.2 = r.1 - 16) ∧
    (beNat ((s.data.drop s.pos).take 4) = 0 →
      r.1 = (s.data.length : Int) - (s.pos : Int) ∧ r.2.2 = r.1 - 8) ∧
    (beNat ((s.data.drop s.pos).take 4) ≠ 1 →
     beNat ((s.data.drop s.pos).take 4) ≠ 0 →
      r.1 = (beNat ((s.data.drop s.pos).take 4) : Int) ∧
      r.2.2 = r.1 - 8) := by
  obtain ⟨_, _, _, _, h1, h0, he⟩ := scan_box_spec h
  exact ⟨fun hc => ⟨(h1 hc).1, (h1 hc).2.1⟩,
         fun hc => ⟨(h0 hc).1, (h0 hc).2.1⟩,
         fun hc1 hc0 => ⟨(he hc1 hc0).1, (he hc1 hc0).2.1⟩⟩

/-- C3 (witness): the extended-size case on a concrete header with
`size32 = 1` and 64-bit size 17. -/
theorem C3_witness :
    ISOBMFF.scan_box (initSt c3file) =
      .ok ((17, [97, 98, 99, 100], 1), c3mid) ∧
    ((17 : Int) = (beNat ((c3file.drop (0 + 8)).take 8) : Int) ∧
      (1 : Int) = (17 : Int) - 16) :=
  ⟨by decide,
   (@C3_thm (initSt c3file) (17, [97, 98, 99, 100], 1) c3mid
     (by decide)).1 (by decide)⟩

/-- C4 (counterexample): on concrete all-zero payloads, version-1
decoding consumes 112/36/96 bytes for mvhd/mdhd/tkhd against 100/24/84
for version 0 — a difference of 12 bytes (4 per widened field), not 8
per widened field (24 in total) as claimed, and not 8 in total either. -/
theorem C4_cex :
    (ISOBMFF.scan_mvhd 200 (initSt mvhdV1bytes)).toOption.map
      (fun o => o.2.pos) = some 112 ∧
    (ISOBMFF.scan_mvhd 200 (initSt mvhdV0bytes)).toOption.map
      (fun o => o.2.pos) = some 100 ∧
    (ISOBMFF.scan_mdhd 200 (initSt mdhdV1bytes)).toOption.map
      (fun o => o.2.pos) = some 36 ∧
    (ISOBMFF.scan_mdhd 200 (initSt mdhdV0bytes)).toOption.map
      (fun o => o.2.pos) = some 24 ∧
    (ISOBMFF.scan_tkhd 200 (initSt tkhdV1bytes)).toOption.map
      (fun o => o.2.pos) = some 96 ∧
    (ISOBMFF.scan_tkhd 200 (initSt tkhdV0bytes)).toOption.map
      (fun o => o.2.pos) = some 84 ∧
    (112 - 100 ≠ 3 * 8 ∧ 36 - 24 ≠ 3 * 8 ∧ 96 - 84 ≠ 3 * 8) ∧
    (112 - 100 ≠ 8 ∧ 36 - 24 ≠ 8 ∧ 96 - 84 ≠ 8) := by
  refine ⟨by decide, by decide, by decide, by decide, by decide, by decide,
    by decide, by decide⟩

/-- C4 (amended): version-1 decoding consumes exactly 4 extra bytes per
widened field (8 bytes instead of 4 for each of creation, modification
and duration), i.e. 12 extra bytes in total: every successful `scan_mvhd`
advances the cursor by exactly 112 bytes when the decoded version is 1
and 100 otherwise; `scan_mdhd` by 36 versus 24; `scan_tkhd` by 96 versus
84. -/
theorem C4_amended :
    (∀ (remaining : Int) (s : St) (out : ISOBMFF.MvhdInfo × St),
      ISOBMFF.scan_mvhd remaining s = .ok out →
      out.2.pos = s.pos + (if out.1.version = 1 then 112 else 100)) ∧
    (∀ (remaining : Int) (s : St) (out : ISOBMFF.MdhdInfo × St),
      ISOBMFF.scan_mdhd remaining s = .ok out →
      out.2.pos = s.pos + (if out.1.version = 1 then 36 else 24)) ∧
    (∀ (remaining : Int) (s : St) (out : ISOBMFF.TkhdInfo × St),
      ISOBMFF.scan_tkhd remaining s = .ok out →
      out.2.pos = s.pos + (if out.1.version = 1 then 96 else 84)) :=
  ⟨fun _ _ _ h => (scan_mvhd_spec h).2.1,
   fun _ _ _ h => (scan_mdhd_spec h).2.1,
   fun _ _ _ h => (scan_tkhd_spec h).2.1⟩

/-- C4 (witness): the amended mvhd consumption applied to a concrete
version-1 box. -/
theorem C4_witness :
    ISOBMFF.scan_mvhd 200 (initSt mvhdV1bytes) = .ok mvhdOut1 ∧
    mvhdOut1.2.pos = (initSt mvhdV1bytes).pos +
      (if mvhdOut1.1.version = 1 then 112 else 100) :=
  ⟨by decide, C4_amended.1 200 (initSt mvhdV1bytes) mvhdOut1 (by decide)⟩

/-- C5: on `c5file` — a `moov` header declaring size 16 in a file of
exactly 8 bytes, so the stream is exhausted exactly at the box-header
boundary of the container's first child — the claim requires the
condition to be treated as the normal end-of-scan signal, and the
source's `except EOFError: break` handlers show the same intent.  But
Python's `file.read` never raises `EOFError`: the short read surfaces as
`struct.error` from `struct.unpack`, which no handler catches, so the
entire scan aborts with that error instead of completing normally. -/
theorem C5_thm :
    ISOBMFF.scan 3 (initSt c5file) = .error .structError ∧
    c5file.length = 8 := by
  constructor
  · decide
  · decide

/-- C6: the `hdlr` decoder takes the trailing name as every byte from the
cursor up to the box's declared end `box_start + remaining` (no 0x00
terminator needed), and finishes with the cursor exactly at the box end.
Hypotheses: the fixed fields fit (`24 ≤ remaining`) and the declared box
end lies within the file. -/
theorem C6_thm {r : Int} {s : St} {out : ISOBMFF.HdlrInfo × St}
    (h : ISOBMFF.scan_hdlr r s = .ok out) (h24 : 24 ≤ r)
    (hfit : (s.pos : Int) + r ≤ (s.data.length : Int)) :
    (out.2.pos : Int) = (s.pos : Int) + r ∧
    out.1.name = (s.data.drop (s.pos + 24)).take (r - 24).toNat := by
  unfold ISOBMFF.scan_hdlr at h
  obtain ⟨vf, s1, h1, h⟩ := bnd_ok h
  obtain ⟨_, _, hs1⟩ := scan_fullbox_ok h1
  subst hs1
  obtain ⟨pre, s2, h2, h⟩ := bnd_ok h
  obtain ⟨_, _, hs2⟩ := scan_uint32_ok h2
  subst hs2
  obtain ⟨htype, s3, h3, h⟩ := bnd_ok h
  obtain ⟨_, _, hs3⟩ := scan_fourcc_ok h3
  subst hs3
  obtain ⟨u4, s4, h4, h⟩ := bnd_ok h
  obtain ⟨hp4, hd4, hi4⟩ := seekCur_ok h4
  have hip : (ipush s).pos = s.pos := rfl
  have hd4x : s4.data = s.data := hd4
  have hp4x : (s4.pos : Int) = ((s.pos + 4 + 4 + 4 : Nat) : Int) + 12 := hp4
  rw [fileReadInt_spec (by push_cast at hp4x ⊢; omega)
    (by rw [hd4x]; push_cast at hp4x ⊢; omega)] at h
  injection h with hpair
  subst hpair
  constructor
  · rw [ipop_pos]
    have hfin : ({ s4 with pos := s4.pos +
        (((ipush s).pos : Int) + r - (s4.pos : Int)).toNat } : St).pos =
        s4.pos + (((ipush s).pos : Int) + r - (s4.pos : Int)).toNat := rfl
    rw [hfin]
    push_cast at hp4x ⊢
    omega
  · show (s4.data.drop s4.pos).take
        ((((ipush s).pos : Int) + r - (s4.pos : Int)).toNat) =
      (s.data.drop (s.pos + 24)).take (r - 24).toNat
    have hNe : ((ipush s).pos : Int) + r - (s4.pos : Int) = r - 24 := by
      push_cast at hp4x ⊢
      omega
    have hpos4 : s4.pos = s.pos + 24 := by
      push_cast at hp4x
      omega
    rw [hNe, hd4x, hpos4]

/-- C6 (witness): the theorem applied to the concrete non-terminated
`hdlr` payload `c6file`. -/
theorem C6_witness :
    ISOBMFF.scan_hdlr 33 (initSt c6file) = .ok c6out ∧
    ((c6out.2.pos : Int) = ((initSt c6file).pos : Int) + 33 ∧
     c6out.1.name = (c6file.drop (0 + 24)).take ((33 : Int) - 24).toNat) :=
  ⟨by decide, @C6_thm 33 (initSt c6file) c6out (by decide) (by decide) (by decide)⟩

/-- C7: for a valid input — a file that is exactly the serialization of
a tree of well-formed boxes, covering every box type the program decodes
(`ftyp` and `moov` with its whole dispatched subtree: `mvhd`, `trak`,
`tkhd`, `edts`/`elst`, `mdia`, `mdhd`, `hdlr`, `minf`, the four media
headers, `dinf`/`dref` with `url `/`urn ` entries, `stbl`, `udta`) as
well as undispatched generic boxes — the top-level scan visits every
top-level box and the sum of the reported `total_size` values equals the
file size exactly: the boxes partition the file. -/
theorem C7_thm (cs : List VBox) (hwf : vwfList cs = true) :
    ∃ (trace : List ISOBMFF.TraceEntry) (s' : St),
      ISOBMFF.scan ((vserializeList cs).length + 1)
          (initSt (vserializeList cs)) =
        .ok ((trace, cs.length), s') ∧
      (trace.map (fun e => e.1)).sum = ((vserializeList cs).length : Int) := by
  refine ⟨vboxTrace cs 0,
    ⟨vserializeList cs, (vserializeList cs).length, 0⟩, ?_,
    vboxTrace_sum cs 0 hwf⟩
  unfold ISOBMFF.scan
  have h := scanLoopV cs ((vserializeList cs).length + 1) [] 0
    (vserializeList cs) 0 0 hwf (le_refl 0) (by omega) (by simp)
  simpa using h

set_option maxRecDepth 100000 in
/-- C7 (witness): the theorem applied to a concrete valid file holding
an `ftyp`, a fully populated `moov` tree exercising every dispatched
decoder, and two generic boxes. -/
theorem C7_witness :
    vwfList c7vfile = true ∧
    ∃ (trace : List ISOBMFF.TraceEntry) (s' : St),
      ISOBMFF.scan ((vserializeList c7vfile).length + 1)
          (initSt (vserializeList c7vfile)) =
        .ok ((trace, c7vfile.length), s') ∧
      (trace.map (fun e => e.1)).sum =
        ((vserializeList c7vfile).length : Int) :=
  ⟨by decide, C7_thm c7vfile (by decide)⟩

/-- C8: the concrete 20-byte `ftyp` box is reported with major brand
`isom`, minor version 512 and exactly one compatible brand `mp41`, the
decoder's remaining counter ends at 0, and the whole top-level scan
confirms the walker's cursor at the box end (20) having counted one
box. -/
theorem C8_thm :
    ISOBMFF.scan_ftyp 12 { data := c8file, pos := 8, indent := 0 } =
      .ok ({ majorBrand := [105, 115, 111, 109], minorVersion := 512,
             brands := [[109, 112, 52, 49]], leftover := 0 },
           { data := c8file, pos := 20, indent := 0 }) ∧
    ISOBMFF.scan 3 (initSt c8file) =
      .ok (([(20, ISOBMFF.ftypTag, 20)], 1),
           { data := c8file, pos := 20, indent := 0 }) := by
  constructor
  · decide
  · decide

/-- C9: fixed-point fields are reported raw (the decoders return the raw
integers), but the display ratio that `scan_smhd` computes for the
balance is `balance/16.0`, not `balance ÷ 256`: on the 8.8 fixed-point
encoding of 1.0 (balance bytes `0x01 0x00`, raw 256, annotated `# FP
8.8` in the source) it reports 16, where dividing by 256 would give 1.
The code contradicts its own fixed-point comment. -/
theorem C9_thm :
    ISOBMFF.scan_smhd 8 (initSt c9file) =
      .ok ({ version := 0, flags := 0, balance := 256, displayRatio := 16 },
           { data := c9file, pos := 8, indent := 0 }) ∧
    mkRat 256 256 = 1 ∧ (16 : Rat) ≠ 1 := by
  refine ⟨by decide, by decide, by decide⟩

/-- C10: the indentation counter discipline.  The top-level scan and
every box decoder (each `scan_*` method) leaves the counter on a
successful return equal to its value at entry, provided it starts
non-negative, and `ipush`/`ipop` preserve non-negativity, so the counter
is never negative. -/
theorem C10_thm :
    (∀ (fuel : Nat) (s : St) (out : (List ISOBMFF.TraceEntry × Nat) × St),
      0 ≤ s.indent → ISOBMFF.scan fuel s = .ok out →
      out.2.indent = s.indent) ∧
    (∀ s : St, 0 ≤ s.indent → 0 ≤ (ipush s).indent) ∧
    (∀ s : St, 0 ≤ s.indent → 0 ≤ (ipop s).indent) ∧
    (∀ (r : Int) (s : St) (out : ISOBMFF.FtypInfo × St), 0 ≤ s.indent →
      ISOBMFF.scan_ftyp r s = .ok out → out.2.indent = s.indent) ∧
    (∀ (r : Int) (s : St) (out : ISOBMFF.MvhdInfo × St), 0 ≤ s.indent →
      ISOBMFF.scan_mvhd r s = .ok out → out.2.indent = s.indent) ∧
    (∀ (r : Int) (s : St) (out : ISOBMFF.TkhdInfo × St), 0 ≤ s.indent →
      ISOBMFF.scan_tkhd r s = .ok out → out.2.indent = s.indent) ∧
    (∀ (r : Int) (s : St) (out : ISOBMFF.MdhdInfo × St), 0 ≤ s.indent →
      ISOBMFF.scan_mdhd r s = .ok out → out.2.indent = s.indent) ∧
    (∀ (r : Int) (s : St) (out : ISOBMFF.HdlrInfo × St), 0 ≤ s.indent →
      ISOBMFF.scan_hdlr r s = .ok out → out.2.indent = s.indent) ∧
    (∀ (r : Int) (s : St) (out : ISOBMFF.VmhdInfo × St), 0 ≤ s.indent →
      ISOBMFF.scan_vmhd r s = .ok out → out.2.indent = s.indent) ∧
    (∀ (r : Int) (s : St) (out : ISOBMFF.SmhdInfo × St), 0 ≤ s.indent →
      ISOBMFF.scan_smhd r s = .ok out → out.2.indent = s.indent) ∧
    (∀ (r : Int) (s : St) (out : ISOBMFF.HmhdInfo × St), 0 ≤ s.indent →
      ISOBMFF.scan_hmhd r s = .ok out → out.2.indent = s.indent) ∧
    (∀ (r : Int) (s : St) (out : ISOBMFF.NmhdInfo × St), 0 ≤ s.indent →
      ISOBMFF.scan_nmhd r s = .ok out → out.2.indent = s.indent) ∧
    (∀ (r : Int) (s : St) (out : ISOBMFF.ElstInfo × St), 0 ≤ s.indent →
      ISOBMFF.scan_elst r s = .ok out → out.2.indent = s.indent) ∧
    (∀ (r : Int) (s : St) (out : ISOBMFF.UrlInfo × St), 0 ≤ s.indent →
      ISOBMFF.scan_url_ r s = .ok out → out.2.indent = s.indent) ∧
    (∀ (r : Int) (s : St) (out : ISOBMFF.UrnInfo × St), 0 ≤ s.indent →
      ISOBMFF.scan_urn_ r s = .ok out → out.2.indent = s.indent) ∧
    (∀ (fuel : Nat) (r : Int) (s s' : St), 0 ≤ s.indent →
      ISOBMFF.scan_moov fuel r s = .ok s' → s'.indent = s.indent) ∧
    (∀ (fuel : Nat) (r : Int) (s s' : St), 0 ≤ s.indent →
      ISOBMFF.scan_trak fuel r s = .ok s' → s'.indent = s.indent) ∧
    (∀ (fuel : Nat) (r : Int) (s s' : St), 0 ≤ s.indent →
      ISOBMFF.scan_mdia fuel r s = .ok s' → s'.indent = s.indent) ∧
    (∀ (fuel : Nat) (r : Int) (s s' : St), 0 ≤ s.indent →
      ISOBMFF.scan_minf fuel r s = .ok s' → s'.indent = s.indent) ∧
    (∀ (fuel : Nat) (r : Int) (s s' : St), 0 ≤ s.indent →
      ISOBMFF.scan_dinf fuel r s = .ok s' → s'.indent = s.indent) ∧
    (∀ (fuel : Nat) (r : Int) (s s' : St), 0 ≤ s.indent →
      ISOBMFF.scan_dref fuel r s = .ok s' → s'.indent = s.indent) ∧
    (∀ (fuel : Nat) (r : Int) (s s' : St), 0 ≤ s.indent →
      ISOBMFF.scan_edts fuel r s = .ok s' → s'.indent = s.indent) ∧
    (∀ (fuel : Nat) (r : Int) (s s' : St), 0 ≤ s.indent →
      ISOBMFF.scan_udta fuel r s = .ok s' → s'.indent = s.indent) ∧
    (∀ (fuel : Nat) (r : Int) (s s' : St), 0 ≤ s.indent →
      ISOBMFF.scan_stbl fuel r s = .ok s' → s'.indent = s.indent) := by
  refine ⟨fun fuel s out h0 h => (scan_st h h0).2,
    fun s h0 => by simp [ipush]; omega,
    fun s h0 => ?_,
    fun r s out h0 h => (scan_ftyp_st h).2 h0,
    fun r s out h0 h => (scan_mvhd_spec h).2.2 h0,
    fun r s out h0 h => (scan_tkhd_spec h).2.2 h0,
    fun r s out h0 h => (scan_mdhd_spec h).2.2 h0,
    fun r s out h0 h => (scan_hdlr_st h).2 h0,
    fun r s out h0 h => (scan_vmhd_st h).2 h0,
    fun r s out h0 h => (scan_smhd_st h).2 h0,
    fun r s out h0 h => (scan_hmhd_st h).2 h0,
    fun r s out h0 h => (scan_nmhd_st h).2 h0,
    fun r s out h0 h => (scan_elst_st h).2 h0,
    fun r s out h0 h => (scan_url_st h).2 h0,
    fun r s out h0 h => (scan_urn_st h).2 h0,
    fun fuel r s s' h0 h => (scan_moov_st h h0).2,
    fun fuel r s s' h0 h => (scan_trak_st h h0).2,
    fun fuel r s s' h0 h => (scan_mdia_st h h0).2,
    fun fuel r s s' h0 h => (scan_minf_st h h0).2,
    fun fuel r s s' h0 h => (scan_dinf_st h h0).2,
    fun fuel r s s' h0 h => (scan_dref_st h h0).2,
    fun fuel r s s' h0 h => (scan_edts_st h h0).2,
    fun fuel r s s' h0 h => (scan_udta_st h).2 h0,
    fun fuel r s s' h0 h => (scan_stbl_st h).2 h0⟩
  unfold ipop
  split
  · simp
    omega
  · exact h0

/-- C10 (witness): the top-level conjunct applied to the concrete `ftyp`
file, whose scan returns with the indentation counter back at 0. -/
theorem C10_witness :
    ISOBMFF.scan 3 (initSt c8file) =
      .ok (([(20, ISOBMFF.ftypTag, 20)], 1),
           { data := c8file, pos := 20, indent := 0 }) ∧
    ({ data := c8file, pos := 20, indent := 0 } : St).indent =
      (initSt c8file).indent :=
  ⟨by decide,
   C10_thm.1 3 (initSt c8file)
     (([(20, ISOBMFF.ftypTag, 20)], 1),
      { data := c8file, pos := 20, indent := 0 }) (by decide) (by decide)⟩
